import Mathlib

/-!
Sandstorm HTTP bridge: status table, response parser, response reading, streaming request,
request builder, session-context map, WebSocket pump and mail identifier.

A shallow embedding of `sandstorm-http-bridge.c++`.  Byte strings (`kj::String`,
`kj::ArrayPtr<const char>`, `kj::Vector<char>`) are lists of characters; code that can
throw (`KJ_ASSERT`, `KJ_REQUIRE`, `KJ_FAIL_REQUIRE`) returns `Except Failure`.

The helpers of `util.h` (`trim`, `split`, `splitFirst`, `toLower`) and the schema
`web-session.capnp` are not part of the source file; the helpers are modelled, the schema
enumerants are parameters.  The C library functions the code calls (`isspace`, `strtoull`,
`strptime`, `timegm`) follow ISO C and POSIX as glibc implements them in the "C" locale.

The HTTP parser library (`http_parser_execute`) is not modelled: a read from the app comes
with the field writes and callbacks the library makes on it and with the value it returns,
and the statements hold for all of them.  The stringifiers `kj::hex` and `kj::str` of the KJ
library are the digit loops of that library.  Promises are run in the order in which the
code chains them: the calls on the response sink and the writes on the connection to the app
are lists, oldest first.

The request builder is followed up to the vector `lines` that `makeHeaders` joins with
CR LF.  The helpers `extractHostFromUrl` and `extractProtocolFromUrl` of `util.h` and the
pronoun names of the schema are parameters; the type `char` is the signed one of Linux on
x86-64; a quality value is carried as its text and as the outcome of its comparison with
1.0.  The session-context map is a function from identifiers to contexts, and the host is a
sequence of requests for sessions and drops of sessions.

The WebSocket pump runs on the event loop of KJ, which has one thread.  Its state is the list
of the promises that `sendBytes` has made, and an event of the loop is one step on that
state: a continuation attached with `then` runs once, after the promise it is attached to
is fulfilled; a rejected promise rejects the promises chained on it.  The order in which
Cap'n Proto delivers the requests made on the client stream is the order in which they are
made.  The mail identifier `genRandomString` is a function of the 16 bytes it reads from
`/dev/urandom`; its 32-bit buffer is a natural number below `2 ^ 32`.
-/

set_option autoImplicit false

namespace Sandstorm

/-- Byte strings of the bridge (`kj::String`, `kj::ArrayPtr<const char>`). -/
abbrev Str := List Char

/-- The assertion that failed, one constructor per `KJ_ASSERT` / `KJ_REQUIRE` message. -/
inductive Failure where
  /-- Message "Sandboxed app attempted to upgrade protocol when client did not request
  this." -/
  | upgradeNotRequested
  /-- Message "Application used unsupported HTTP status code.  Status codes must be
  whitelisted because some have sandbox-breaking effects." -/
  | unsupportedStatus
  /-- Message "Application returned redirect response missing Location header." -/
  | missingLocation
  /-- Message "Invalid cookie header from app." -/
  | invalidCookieHeader
  /-- Message "Invalid HTTP date from app." -/
  | invalidHttpDate
  /-- Message "Invalid cookie max-age app." -/
  | invalidMaxAge
  /-- Message "app returned invalid ETag header". -/
  | invalidETag
  /-- The check `KJ_ASSERT(status_code >= 100)` of `onHeadersComplete`. -/
  | statusBelow100
  /-- The check `KJ_ASSERT(body.size() == 0)` of the streaming branch of `build`. -/
  | streamingBodyNotEmpty
  /-- Message "Failed to parse HTTP response from sandboxed app." -/
  | parseFailed
  /-- The check `KJ_ASSERT(nread <= actual && nread >= 0)` of `readResponse`. -/
  | nreadOutOfRange
  /-- Message "HTTP response from sandboxed app had incomplete headers." -/
  | incompleteHeaders
  /-- The check `KJ_ASSERT(remainder.size() == 0)` made on the result of `readResponse`. -/
  | remainderNotEmpty
  /-- Message "getResponse() called more than once". -/
  | getResponseCalledTwice
  /-- Message "write() called after done()". -/
  | writeAfterDone
  /-- Message "received more bytes than expected". -/
  | receivedMoreThanExpected
  /-- Message "done() called before all bytes expected via expectedSize() were written". -/
  | doneBeforeExpectedSize
  /-- Message "done() called twice". -/
  | doneCalledTwice
  /-- The check `KJ_ASSERT(reqString.endsWith("\r\n\r\n"))` of `writeHeadersOnce`. -/
  | requestNotTerminated
  /-- Message "Identity ID not a SHA-256?" -/
  | identityIdSize
  /-- Message "invalid destination". -/
  | invalidDestination
  /-- Message "Unsupported session type." -/
  | unsupportedSessionType
  /-- Message "Session ID not found". -/
  | sessionIdNotFound
  /-- Message "Sandboxed app does not support WebSocket." -/
  | webSocketNotSupported
  /-- An exception thrown by a helper of `util.h` that is not in the source tree. -/
  | helperFailed
  deriving DecidableEq, Repr

deriving instance DecidableEq for Except

/-! ## Helpers of `util.h` and of the C library -/

/-- C library `isspace` in the "C" locale: space, `\t`, `\n`, `\v`, `\f`, `\r`. -/
def isspace (c : Char) : Bool :=
  c.toNat == 32 || (9 ≤ c.toNat && c.toNat ≤ 13)

/-- Drops trailing white space: the second loop of `trimArray`. -/
def dropTrailingSpace : Str → Str
  | [] => []
  | c :: cs =>
    match dropTrailingSpace cs with
    | [] => if isspace c then [] else [c]
    | r => c :: r

/-- Modelled from the spec: the helper `trimArray` of `util.h`, which is not in the source
tree ("trimmed"): it removes the white space at both ends of a byte range. -/
def trimArray (slice : Str) : Str :=
  dropTrailingSpace (slice.dropWhile isspace)

/-- Modelled from the spec: the helper `trim` of `util.h`, which is not in the source tree:
`trimArray` copied into a fresh string. -/
def trim (slice : Str) : Str := trimArray slice

/-- Lower-cases one byte the way `toLower` does: only `A`..`Z` change. -/
def toLowerChar (c : Char) : Char :=
  if 65 ≤ c.toNat ∧ c.toNat ≤ 90 then Char.ofNat (c.toNat + 32) else c

/-- Modelled from the spec: the helper `toLower` of `util.h`, which is not in the source tree
("Names are case-folded"): ASCII upper-case letters become lower-case, in place. -/
def toLower (text : Str) : Str := text.map toLowerChar

/-- The pieces of `input` between occurrences of `delim`; `cur` is the piece being read,
reversed. -/
def splitAux (delim : Char) : Str → Str → List Str
  | [], cur => [cur.reverse]
  | c :: cs, cur =>
    if c = delim then cur.reverse :: splitAux delim cs [] else splitAux delim cs (c :: cur)

/-- Modelled from the spec: the helper `split` of `util.h`, which is not in the source tree
("split on `;`", "comma-split"): the pieces of `input` between the occurrences of `delim`,
always at least one piece. -/
def split (input : Str) (delim : Char) : List Str := splitAux delim input []

/-- The search loop of `splitFirst`; `pre` is the text passed so far, reversed. -/
def splitFirstAux (delim : Char) : Str → Str → Option (Str × Str)
  | [], _ => none
  | c :: cs, pre =>
    if c = delim then some (pre.reverse, cs) else splitFirstAux delim cs (c :: pre)

/-- Modelled from the spec: the helper `splitFirst` of `util.h`, which is not in the source
tree ("the `=` is the first `=` only"): when `delim` occurs in `input`, the text before its
first occurrence, and `input` becomes the text after it; otherwise nothing and `input` is
left alone.  The pair is (returned piece, new `input`). -/
def splitFirst (input : Str) (delim : Char) : Option (Str × Str) :=
  splitFirstAux delim input []

/-! ## The status table -/

/-- Ordinal of an enumerant of `WebSession::Response::SuccessCode`. -/
abbrev SuccessCode := Nat

/-- Ordinal of an enumerant of `WebSession::Response::ClientErrorCode`. -/
abbrev ClientErrorCode := Nat

/-- Modelled from the spec: the enumerant `ClientErrorCode::BAD_REQUEST` of the schema
`web-session.capnp`, which is not in the source tree ("unknown 4xx degrades to
`badRequest`"); it is the first enumerant of its enum. -/
def BAD_REQUEST : ClientErrorCode := 0

/-- A schema enumerant as `makeStatusCodes` reads it: `getOrdinal()` and the `id` of its
`httpStatus` annotation (`getHttpStatusAnnotation(enumerant).getId()`). -/
structure Enumerant where
  ordinal : Nat
  httpStatus : Nat
  deriving DecidableEq, Repr

/-- The struct `HttpStatusInfo`: the tag `type` with the member of the union it selects. -/
inductive HttpStatusInfo where
  | content (successCode : SuccessCode)
  | noContent (shouldResetForm : Bool)
  | preconditionFailed
  | redirect (isPermanent : Bool) (switchToGet : Bool)
  | clientError (clientErrorCode : ClientErrorCode)
  | serverError
  deriving DecidableEq, Repr

/-- The function `noContentInfo`. -/
def noContentInfo (shouldResetForm : Bool) : HttpStatusInfo := .noContent shouldResetForm

/-- The function `redirectInfo`. -/
def redirectInfo (isPermanent switchToGet : Bool) : HttpStatusInfo :=
  .redirect isPermanent switchToGet

/-- The function `preconditionFailedInfo`. -/
def preconditionFailedInfo : HttpStatusInfo := .preconditionFailed

/-- The table `std::unordered_map<uint, HttpStatusInfo>`. -/
abbrev StatusMap := Nat → Option HttpStatusInfo

/-- The assignment `result[key] = info`. -/
def StatusMap.set (m : StatusMap) (key : Nat) (info : HttpStatusInfo) : StatusMap :=
  fun k => if k = key then some info else m k

/-- The function `makeStatusCodes`; the enumerants of the two schema enums, in the order
`getEnumerants()` lists them, are parameters because the schema is not in the source tree. -/
def makeStatusCodes (successCodes clientErrorCodes : List Enumerant) : StatusMap :=
  let result : StatusMap := fun _ => none
  let result := successCodes.foldl (fun r e => r.set e.httpStatus (.content e.ordinal)) result
  let result :=
    clientErrorCodes.foldl (fun r e => r.set e.httpStatus (.clientError e.ordinal)) result
  let result := result.set 204 (noContentInfo false)
  let result := result.set 205 (noContentInfo true)
  let result := result.set 304 preconditionFailedInfo
  let result := result.set 301 (redirectInfo true true)
  let result := result.set 302 (redirectInfo false true)
  let result := result.set 303 (redirectInfo false true)
  let result := result.set 307 (redirectInfo false false)
  let result := result.set 308 (redirectInfo true false)
  let result := result.set 412 preconditionFailedInfo
  result

/-! ## C strings, `strtoull`, `strptime`, `timegm` -/

/-- What a C function sees of `kj::String::cStr()`: the bytes before the first NUL. -/
def cStr (s : Str) : Str := s.takeWhile (fun c => c.toNat != 0)

/-- The test `'0' <= c && c <= '9'`. -/
def isDigit (c : Char) : Bool := 48 ≤ c.toNat && c.toNat ≤ 57

/-- The value `c - '0'` of a digit. -/
def digitVal (c : Char) : Nat := c.toNat - 48

/-- The largest `unsigned long long`. -/
def ULLONG_MAX : Nat := 2 ^ 64 - 1

/-- The conversion of an `unsigned long long` to `int64_t` (two's complement). -/
def toInt64 (n : Nat) : Int :=
  if n % 2 ^ 64 < 2 ^ 63 then ((n % 2 ^ 64 : Nat) : Int) else ((n % 2 ^ 64 : Nat) : Int) - 2 ^ 64

/-- C library `strtoull(nptr, &end, 10)` (ISO C): skips white space, reads an optional sign
and then decimal digits.  The result is the value and the text at `end`; with no digits
there is no conversion, the value is 0 and `end` is `nptr`.  A value above `ULLONG_MAX`
gives `ULLONG_MAX`; a minus sign negates the value as an unsigned number. -/
def strtoull (nptr : Str) : Nat × Str :=
  let s := nptr.dropWhile isspace
  let signed : Bool × Str :=
    match s with
    | '-' :: t => (true, t)
    | '+' :: t => (false, t)
    | _ => (false, s)
  let digits := signed.2.takeWhile isDigit
  if digits = [] then (0, nptr)
  else
    let n := digits.foldl (fun acc c => acc * 10 + digitVal c) 0
    let v := if ULLONG_MAX < n then ULLONG_MAX
             else if signed.1 then (2 ^ 64 - n) % 2 ^ 64 else n
    (v, signed.2.dropWhile isDigit)

/-- The fields of `struct tm` that `strptime` writes for the formats used here and that
`timegm` reads (`tm_yday` and `tm_isdst` are left out: `timegm` ignores both). -/
structure Tm where
  tm_sec : Int
  tm_min : Int
  tm_hour : Int
  tm_mday : Int
  tm_mon : Int
  tm_year : Int
  tm_wday : Int
  deriving DecidableEq, Repr

/-- The result of `memset(&t, 0, sizeof(t))`. -/
def Tm.zero : Tm := ⟨0, 0, 0, 0, 0, 0, 0⟩

/-- The digit loop of glibc's `get_number`: at most `n` further digits, and none once ten
times the value read so far exceeds the upper bound `hi`. -/
def getNumberLoop (hi : Nat) : Nat → Nat → Str → Nat × Str
  | 0, val, rp => (val, rp)
  | _ + 1, val, [] => (val, [])
  | n + 1, val, c :: cs =>
    if val * 10 ≤ hi ∧ isDigit c = true then getNumberLoop hi n (val * 10 + digitVal c) cs
    else (val, c :: cs)

/-- The macro `get_number(from, to, n)` of glibc's `strptime`: skips white space, reads up
to `n` digits and fails when there is no digit or the value is outside `lo..hi`. -/
def getNumber (lo hi n : Nat) (rp : Str) : Option (Nat × Str) :=
  match rp.dropWhile isspace with
  | [] => none
  | c :: cs =>
    if isDigit c then
      let r := getNumberLoop hi (n - 1) (digitVal c) cs
      if lo ≤ r.1 ∧ r.1 ≤ hi then some r else none
    else none

/-- The macro `match_string` of glibc's `strptime`: `name` is a prefix of the input, letter
case ignored (`strncasecmp`); the result is the input after it. -/
def matchString (name : Str) (rp : Str) : Option Str :=
  if toLower (rp.take name.length) = toLower name then some (rp.drop name.length) else none

/-- Weekday names of the "C" locale, full and abbreviated, from Sunday. -/
def weekdayNames : List (String × String) :=
  [("Sunday", "Sun"), ("Monday", "Mon"), ("Tuesday", "Tue"), ("Wednesday", "Wed"),
   ("Thursday", "Thu"), ("Friday", "Fri"), ("Saturday", "Sat")]

/-- Month names of the "C" locale, full and abbreviated, from January. -/
def monthNames : List (String × String) :=
  [("January", "Jan"), ("February", "Feb"), ("March", "Mar"), ("April", "Apr"),
   ("May", "May"), ("June", "Jun"), ("July", "Jul"), ("August", "Aug"),
   ("September", "Sep"), ("October", "Oct"), ("November", "Nov"), ("December", "Dec")]

/-- The name search of `%a` and `%b`: the first entry, counted from `cnt`, whose full or
abbreviated name starts the input, the full name tried first; the result is its index and
the input after the name. -/
def matchName : List (String × String) → Nat → Str → Option (Nat × Str)
  | [], _, _ => none
  | (full, ab) :: rest, cnt, rp =>
    match matchString full.toList rp with
    | some rp1 => some (cnt, rp1)
    | none =>
      match matchString ab.toList rp with
      | some rp1 => some (cnt, rp1)
      | none => matchName rest (cnt + 1) rp

/-- The conversion `%H:%M:%S` (that is `%T`) of `strptime`. -/
def strptimeTime (rp : Str) (tm : Tm) : Tm × Option Str :=
  match getNumber 0 23 2 rp with
  | none => (tm, none)
  | some (h, rp1) =>
    let tm1 := { tm with tm_hour := h }
    match rp1 with
    | ':' :: rp2 =>
      match getNumber 0 59 2 rp2 with
      | none => (tm1, none)
      | some (m, rp3) =>
        let tm2 := { tm1 with tm_min := m }
        match rp3 with
        | ':' :: rp4 =>
          match getNumber 0 61 2 rp4 with
          | none => (tm2, none)
          | some (s, rp5) => ({ tm2 with tm_sec := s }, some rp5)
        | _ => (tm2, none)
    | _ => (tm1, none)

/-- C library `strptime(buf, fmt, &tm)` (POSIX, as glibc implements it in the "C" locale),
for the conversions the bridge uses: `%a %b %d %Y %y %T`.  White space in the format
matches any run of white space, any other character outside a conversion matches itself.
The result is the `tm` as the call leaves it (a failed call keeps the fields it has
already written) and the unread input, or `none` for the null pointer. -/
def strptime : Str → Str → Tm → Tm × Option Str
  | rp, [], tm => (tm, some rp)
  | rp, '%' :: 'a' :: fmt, tm =>
    match matchName weekdayNames 0 rp with
    | none => (tm, none)
    | some (cnt, rp1) => strptime rp1 fmt { tm with tm_wday := cnt }
  | rp, '%' :: 'b' :: fmt, tm =>
    match matchName monthNames 0 rp with
    | none => (tm, none)
    | some (cnt, rp1) => strptime rp1 fmt { tm with tm_mon := cnt }
  | rp, '%' :: 'd' :: fmt, tm =>
    match getNumber 1 31 2 rp with
    | none => (tm, none)
    | some (val, rp1) => strptime rp1 fmt { tm with tm_mday := val }
  | rp, '%' :: 'Y' :: fmt, tm =>
    match getNumber 0 9999 4 rp with
    | none => (tm, none)
    | some (val, rp1) => strptime rp1 fmt { tm with tm_year := (val : Int) - 1900 }
  | rp, '%' :: 'y' :: fmt, tm =>
    match getNumber 0 99 2 rp with
    | none => (tm, none)
    | some (val, rp1) =>
      strptime rp1 fmt { tm with tm_year := if 69 ≤ val then (val : Int) else (val : Int) + 100 }
  | rp, '%' :: 'T' :: fmt, tm =>
    match strptimeTime rp tm with
    | (tm1, none) => (tm1, none)
    | (tm1, some rp1) => strptime rp1 fmt tm1
  | rp, c :: fmt, tm =>
    if isspace c then strptime (rp.dropWhile isspace) fmt tm
    else
      match rp with
      | [] => (tm, none)
      | r :: rp1 => if r = c then strptime rp1 fmt tm else (tm, none)

/-- The table `__mon_yday` of glibc: days of the year before each month. -/
def monYday (leap : Bool) (mon : Nat) : Int :=
  let t : List Int :=
    if leap then [0, 31, 60, 91, 121, 152, 182, 213, 244, 274, 305, 335]
    else [0, 31, 59, 90, 120, 151, 181, 212, 243, 273, 304, 334]
  t.getD mon 0

/-- The function `leapyear` of glibc's `mktime.c`; `year` counts from 1900, so the
century test `((year / 100) & 3) == (- (TM_YEAR_BASE / 100) & 3)` compares with 1. -/
def leapyear (year : Int) : Bool :=
  year % 4 = 0 ∧ (year % 100 ≠ 0 ∨ (year / 100) % 4 = 1)

/-- The function `ydhms_diff` of glibc's `mktime.c` against the epoch (year 70, day 0,
00:00:00); years count from 1900 and divisions round down. -/
def ydhmsDiff (year1 yday1 hour1 min1 sec1 : Int) : Int :=
  let a4 := year1 / 4 + 1900 / 4 - (if year1 % 4 = 0 then 1 else 0)
  let b4 : Int := 70 / 4 + 1900 / 4 - 0
  let a100 := a4 / 25
  let b100 := b4 / 25
  let a400 := a100 / 4
  let b400 := b100 / 4
  let intervening_leap_days := (a4 - b4) - (a100 - b100) + (a400 - b400)
  let years := year1 - 70
  let days := 365 * years + yday1 - 0 + intervening_leap_days
  let hours := 24 * days + hour1 - 0
  let minutes := 60 * hours + min1 - 0
  60 * minutes + sec1 - 0

/-- C library `timegm` (as glibc's `__mktime_internal` computes it for UTC): the months
are first folded into the year, the other fields need not be in range. -/
def timegm (t : Tm) : Int :=
  let mon_remainder := t.tm_mon % 12
  let mon_years := t.tm_mon / 12
  let year := t.tm_year + mon_years
  let mon_yday := monYday (leapyear year) mon_remainder.toNat - 1
  let yday := mon_yday + t.tm_mday
  ydhmsDiff year yday t.tm_hour t.tm_min t.tm_sec

/-! ## The response parser -/

/-- The enum `Cookie::ExpirationType`. -/
inductive ExpirationType where
  | NONE
  | RELATIVE
  | ABSOLUTE
  deriving DecidableEq, Repr

/-- The struct `Cookie`.  A null `kj::String` is the empty list (`path != nullptr` holds
exactly for a non-empty string); `expires` is read only when the type is not `NONE`, and
stands at 0 until it is assigned. -/
structure Cookie where
  name : Str
  value : Str
  path : Str
  expires : Int
  expirationType : ExpirationType
  httpOnly : Bool
  deriving DecidableEq, Repr

/-- The default-constructed `Cookie cookie;`. -/
def Cookie.init : Cookie := ⟨[], [], [], 0, .NONE, false⟩

/-- The struct `RawHeader`. -/
structure RawHeader where
  name : Str
  value : Str
  deriving DecidableEq, Repr

/-- The struct `Header`. -/
structure Header where
  name : Str
  value : Str
  deriving DecidableEq, Repr

/-- The enum `HeaderElementType`. -/
inductive HeaderElementType where
  | NONE
  | FIELD
  | VALUE
  deriving DecidableEq, Repr

/-- A call made on the response sink `responseStream`. -/
inductive SinkCall where
  | write (data : Str)
  | done
  deriving DecidableEq, Repr

/-- The members of `HttpParser` and the fields `status_code` and `upgrade` of its base
`http_parser`; `sent` records the calls made on `responseStream`, oldest first. -/
structure HttpParser where
  status_code : Nat
  upgrade : Bool
  headersComplete : Bool
  messageComplete : Bool
  rawHeaders : List RawHeader
  rawStatusString : Str
  lastHeaderElement : HeaderElementType
  headers : Str → Option Header
  body : Str
  cookies : List Cookie
  statusString : Str
  isStreaming : Bool
  sent : List SinkCall

/-- A parser as its constructor leaves it, before any callback. -/
def HttpParser.init : HttpParser :=
  { status_code := 0, upgrade := false, headersComplete := false, messageComplete := false,
    rawHeaders := [], rawStatusString := [], lastHeaderElement := .NONE,
    headers := fun _ => none, body := [], cookies := [], statusString := [],
    isStreaming := false, sent := [] }

/-- The method `findHeader`. -/
def findHeader (p : HttpParser) (name : Str) : Option Str :=
  match p.headers name with
  | none => none
  | some h => some h.value

/-- The five `strptime` attempts of the `expires` branch of `addHeader`, on the one
`struct tm t`: the result is `end`, with the `t` the attempts leave behind. -/
def parseHttpDate (value : Str) : Tm × Option Str :=
  let t := Tm.zero
  match strptime (cStr value) "%a, %d %b %Y %T GMT".toList t with
  | (t, some e) => (t, some e)
  | (t, none) =>
    match strptime (cStr value) "%a, %d-%b-%y %T GMT".toList t with
    | (t, some e) => (t, some e)
    | (t, none) =>
      match strptime (cStr value) "%a %b %d %T %Y".toList t with
      | (t, some e) => (t, some e)
      | (t, none) =>
        match strptime (cStr value) "%a, %d-%b-%Y %T GMT".toList t with
        | (t, some e) => (t, some e)
        | (t, none) => strptime (cStr value) "%a, %d %b %Y %T -0000".toList t

/-- The body of the loop over `split(value, ';')` in `addHeader` for a part that is not
the first: one cookie attribute. -/
def cookieAttribute (cookie : Cookie) (part : Str) : Except Failure Cookie :=
  match splitFirst part '=' with
  | some (name, part) =>
    let prop := toLower (trim name)
    if prop = "expires".toList then
      let value := trim part
      match parseHttpDate value with
      | (t, some []) => .ok { cookie with expires := timegm t, expirationType := .ABSOLUTE }
      | _ => .error .invalidHttpDate
    else if prop = "max-age".toList then
      let value := trim part
      let r := strtoull (cStr value)
      if r.2.length < (cStr value).length ∧ r.2 = [] then
        .ok { cookie with expires := toInt64 r.1, expirationType := .RELATIVE }
      else .error .invalidMaxAge
    else if prop = "path".toList then
      .ok { cookie with path := trim part }
    else .ok cookie
  | none =>
    let prop := toLower (trim part)
    if prop = "httponly".toList then .ok { cookie with httpOnly := true } else .ok cookie

/-- The loop of `addHeader` over the parts that follow the first. -/
def cookieAttributes (cookie : Cookie) : List Str → Except Failure Cookie
  | [] => .ok cookie
  | part :: parts =>
    match cookieAttribute cookie part with
    | .error e => .error e
    | .ok cookie1 => cookieAttributes cookie1 parts

/-- The `set-cookie` branch of `addHeader`: the cookie parsed from one header value. -/
def parseSetCookie (value : Str) : Except Failure Cookie :=
  match split value ';' with
  | [] => .ok Cookie.init
  | part :: parts =>
    match splitFirst part '=' with
    | none => .error .invalidCookieHeader
    | some (name, part) =>
      cookieAttributes { Cookie.init with name := trim name, value := trim part } parts

/-- The method `addHeader`.  A slot that `headers[name]` has just created has a null name,
and `slot.name != nullptr` holds exactly for a non-empty name. -/
def addHeader (p : HttpParser) (rawHeader : RawHeader) : Except Failure HttpParser :=
  let name := toLower rawHeader.name
  let value := rawHeader.value
  if name = "set-cookie".toList then
    match parseSetCookie value with
    | .error e => .error e
    | .ok cookie => .ok { p with cookies := p.cookies ++ [cookie] }
  else
    let slot : Header := (p.headers name).getD ⟨[], []⟩
    let slot : Header :=
      if slot.name ≠ [] then { slot with value := slot.value ++ ", ".toList ++ value }
      else ⟨name, value⟩
    .ok { p with headers := fun k => if k = name then some slot else p.headers k }

/-- The loop `for (auto &rawHeader : rawHeaders) addHeader(rawHeader)`. -/
def addHeaders (p : HttpParser) : List RawHeader → Except Failure HttpParser
  | [] => .ok p
  | h :: hs =>
    match addHeader p h with
    | .error e => .error e
    | .ok p1 => addHeaders p1 hs

/-- The method `onStatus`. -/
def onStatus (p : HttpParser) (status : Str) : HttpParser :=
  { p with rawStatusString := p.rawStatusString ++ status }

/-- Applies `f` to the last raw header, `rawHeaders[rawHeaders.size() - 1]`; the HTTP parser
never reports a value before a field, so the list is not empty when this runs. -/
def modifyLast (f : RawHeader → RawHeader) : List RawHeader → List RawHeader
  | [] => []
  | [h] => [f h]
  | h :: hs => h :: modifyLast f hs

/-- The method `onHeaderField`. -/
def onHeaderField (p : HttpParser) (name : Str) : HttpParser :=
  let raw := if p.lastHeaderElement ≠ .FIELD then p.rawHeaders ++ [⟨[], []⟩] else p.rawHeaders
  { p with rawHeaders := modifyLast (fun h => { h with name := h.name ++ name }) raw,
           lastHeaderElement := .FIELD }

/-- The method `onHeaderValue`. -/
def onHeaderValue (p : HttpParser) (value : Str) : HttpParser :=
  { p with rawHeaders := modifyLast (fun h => { h with value := h.value ++ value }) p.rawHeaders,
           lastHeaderElement := .VALUE }

/-- The method `onBody`. -/
def onBody (p : HttpParser) (data : Str) : HttpParser :=
  if p.isStreaming then { p with sent := p.sent ++ [.write data] }
  else { p with body := p.body ++ data }

/-- The method `onHeadersComplete`. -/
def onHeadersComplete (p : HttpParser) : Except Failure HttpParser :=
  match addHeaders p p.rawHeaders with
  | .error e => .error e
  | .ok p1 =>
    let p2 := { p1 with statusString := p1.rawStatusString, headersComplete := true }
    if 100 ≤ p2.status_code then .ok p2 else .error .statusBelow100

/-- The method `onMessageComplete`. -/
def onMessageComplete (p : HttpParser) : HttpParser :=
  { p with messageComplete := true }

/-! ## Building the response -/

/-- The struct `WebSession::ETag` as `parseETag` fills it. -/
structure ETag where
  value : Str
  weak : Bool
  deriving DecidableEq, Repr

/-- The loop of `parseETag` over the text between the quotes. -/
def parseETagLoop : Str → Bool → Str → Except Failure Str
  | [], _, result => .ok result
  | c :: cs, escaped, result =>
    if escaped then parseETagLoop cs false (result ++ [c])
    else if c = '"' then .error .invalidETag
    else if c = '\\' then parseETagLoop cs true result
    else parseETagLoop cs false (result ++ [c])

/-- The method `startsWith` of `kj::StringPtr`. -/
def startsWith (s pre : Str) : Bool := s.take pre.length == pre

/-- The method `endsWith` of `kj::StringPtr`. -/
def endsWith (s suf : Str) : Bool := s.drop (s.length - suf.length) == suf && suf.length ≤ s.length

/-- The function `parseETag`. -/
def parseETag (input : Str) : Except Failure ETag :=
  let trimmed := trim input
  let weak := startsWith trimmed "W/".toList
  let input := if weak then trimmed.drop 2 else trimmed
  if startsWith input "\"".toList && endsWith input "\"".toList && 1 < input.length then
    match parseETagLoop ((input.drop 1).take (input.length - 2)) false [] with
    | .error e => .error e
    | .ok result => .ok ⟨result, weak⟩
  else .error .invalidETag

/-- The unescaping loop of the `content-disposition` branch of `build`: a backslash
followed by a character stands for that character. -/
def unescapeFilename : Str → Str
  | [] => []
  | '\\' :: [] => []
  | '\\' :: c :: cs => c :: unescapeFilename cs
  | c :: cs => c :: unescapeFilename cs

/-- The union `disposition` of the content variant. -/
inductive Disposition where
  | normal
  | download (filename : Str)
  deriving DecidableEq, Repr

/-- One parameter of `content-disposition`: the search for the first `=` and what follows. -/
def dispositionParam (d : Disposition) (part : Str) : Disposition :=
  match splitFirstAux '=' part [] with
  | none => d
  | some (name, rest) =>
    if trim name = "filename".toList then
      let filename := trimArray rest
      if 2 ≤ filename.length ∧ filename.head? = some '"' ∧ filename.getLast? = some '"' then
        .download (unescapeFilename ((filename.drop 1).take (filename.length - 2)))
      else .download filename
    else d

/-- The `content-disposition` branch of `build`. -/
def parseDisposition (disposition : Str) : Disposition :=
  let parts := split disposition ';'
  if 1 < parts.length ∧ trim (parts.headD []) = "attachment".toList then
    (parts.drop 1).foldl dispositionParam .normal
  else .normal

/-- The union `body` of the content variant. -/
inductive Body where
  | bytes (data : Str)
  | stream
  deriving DecidableEq, Repr

/-- The group `content` of `WebSession::Response`; a field the code does not set is
`none`. -/
structure Content where
  statusCode : SuccessCode
  encoding : Option Str
  language : Option Str
  mimeType : Option Str
  eTag : Option ETag
  disposition : Disposition
  body : Body
  deriving DecidableEq, Repr

/-- The union of `WebSession::Response`. -/
inductive Variant where
  | content (c : Content)
  | noContent (shouldResetForm : Bool)
  | preconditionFailed (matchingETag : Option ETag)
  | redirect (isPermanent : Bool) (switchToGet : Bool) (location : Str)
  | clientError (statusCode : ClientErrorCode) (descriptionHtml : Str)
  | serverError (descriptionHtml : Str)
  deriving DecidableEq, Repr

/-- The union `expires` of `WebSession::Cookie`. -/
inductive Expires where
  | none
  | absolute (t : Int)
  | relative (t : Int)
  deriving DecidableEq, Repr

/-- The struct `WebSession::Cookie` as `build` fills it. -/
structure SetCookie where
  name : Str
  value : Str
  path : Option Str
  expires : Expires
  httpOnly : Bool
  deriving DecidableEq, Repr

/-- The struct `WebSession::Response` as `build` fills it. -/
structure Response where
  setCookies : List SetCookie
  variant : Variant
  deriving DecidableEq, Repr

/-- The body of the loop of `build` over `cookies`. -/
def buildCookie (c : Cookie) : SetCookie :=
  { name := c.name, value := c.value,
    path := if c.path ≠ [] then some c.path else none,
    expires :=
      match c.expirationType with
      | .NONE => .none
      | .ABSOLUTE => .absolute c.expires
      | .RELATIVE => .relative c.expires,
    httpOnly := c.httpOnly }

/-- The `CONTENT` case of the switch of `build`. -/
def buildContent (p : HttpParser) (successCode : SuccessCode) : Except Failure Content :=
  let encoding := findHeader p "content-encoding".toList
  let language := findHeader p "content-language".toList
  let mimeType := findHeader p "content-type".toList
  let etag : Except Failure (Option ETag) :=
    match findHeader p "etag".toList with
    | none => .ok none
    | some etag =>
      match parseETag etag with
      | .error e => .error e
      | .ok t => .ok (some t)
  match etag with
  | .error e => .error e
  | .ok eTag =>
    let disposition :=
      match findHeader p "content-disposition".toList with
      | none => Disposition.normal
      | some d => parseDisposition d
    if p.isStreaming then
      if p.body.length = 0 then
        .ok ⟨successCode, encoding, language, mimeType, eTag, disposition, .stream⟩
      else .error .streamingBodyNotEmpty
    else .ok ⟨successCode, encoding, language, mimeType, eTag, disposition, .bytes p.body⟩

/-- The method `build`, with the table `HTTP_STATUS_CODES` as a parameter. -/
def build (codes : StatusMap) (p : HttpParser) : Except Failure Response :=
  if p.upgrade then .error .upgradeNotRequested
  else
    let statusInfo : Except Failure HttpStatusInfo :=
      match codes p.status_code with
      | some info => .ok info
      | none =>
        if p.status_code / 100 = 4 then .ok (.clientError BAD_REQUEST)
        else if p.status_code / 100 = 5 then .ok .serverError
        else .error .unsupportedStatus
    match statusInfo with
    | .error e => .error e
    | .ok statusInfo =>
      let cookieList := p.cookies.map buildCookie
      match statusInfo with
      | .content successCode =>
        match buildContent p successCode with
        | .error e => .error e
        | .ok c => .ok ⟨cookieList, .content c⟩
      | .noContent shouldResetForm => .ok ⟨cookieList, .noContent shouldResetForm⟩
      | .preconditionFailed =>
        match findHeader p "etag".toList with
        | none => .ok ⟨cookieList, .preconditionFailed none⟩
        | some etag =>
          match parseETag etag with
          | .error e => .error e
          | .ok t => .ok ⟨cookieList, .preconditionFailed (some t)⟩
      | .redirect isPermanent switchToGet =>
        match findHeader p "location".toList with
        | none => .error .missingLocation
        | some location => .ok ⟨cookieList, .redirect isPermanent switchToGet location⟩
      | .clientError clientErrorCode => .ok ⟨cookieList, .clientError clientErrorCode p.body⟩
      | .serverError => .ok ⟨cookieList, .serverError p.body⟩

/-- The global `HTTP_STATUS_CODES`, for the enumerants of the schema. -/
def HTTP_STATUS_CODES (successCodes clientErrorCodes : List Enumerant) : StatusMap :=
  makeStatusCodes successCodes clientErrorCodes


/-! ## Reading the response -/

/-- One thing the library function `http_parser_execute` does while it runs over the bytes
of a read: it writes a field of the base `http_parser`, or it calls one of the callbacks
registered in `settings`. -/
inductive ParserAction where
  | setStatusCode (code : Nat)
  | setUpgrade (flag : Bool)
  | on_status (data : Str)
  | on_header_field (data : Str)
  | on_header_value (data : Str)
  | on_headers_complete
  | on_body (data : Str)
  | on_message_complete
  deriving DecidableEq, Repr

/-- One completed `tryRead` on the connection to the app, with what `http_parser_execute`
does with it.  The function belongs to the HTTP parser library and is not in the source
tree, so its run is part of the input: `data` holds the `actual` bytes read (none at end of
file), `actions` the field writes and callbacks in order, `nread` the value returned. -/
structure Read where
  data : Str
  actions : List ParserAction
  nread : Nat
  deriving DecidableEq, Repr

/-- The effect of one action on the parser: the callbacks `on_status` .. `on_message_complete`
defined by `ON_DATA` and `ON_EVENT` call the methods `onStatus` .. `onMessageComplete`. -/
def runAction (p : HttpParser) : ParserAction → Except Failure HttpParser
  | .setStatusCode code => .ok { p with status_code := code }
  | .setUpgrade flag => .ok { p with upgrade := flag }
  | .on_status data => .ok (onStatus p data)
  | .on_header_field data => .ok (onHeaderField p data)
  | .on_header_value data => .ok (onHeaderValue p data)
  | .on_headers_complete => onHeadersComplete p
  | .on_body data => .ok (onBody p data)
  | .on_message_complete => .ok (onMessageComplete p)

/-- The call `http_parser_execute(this, &settings, buffer, actual)`: the actions of the read
in order.  An exception thrown by a callback ends the run; the result is the parser reached
and that exception. -/
def http_parser_execute (p : HttpParser) : List ParserAction → HttpParser × Option Failure
  | [] => (p, none)
  | a :: as =>
    match runAction p a with
    | .error e => (p, some e)
    | .ok p1 => http_parser_execute p1 as

/-- What the continuation of `tryRead` in `readResponse` does after one read. -/
inductive ReadStep where
  /-- An exception leaves the continuation. -/
  | failed (e : Failure)
  /-- The promise is fulfilled with `remainder`. -/
  | returned (p : HttpParser) (remainder : Str)
  /-- The continuation calls `readResponse(stream)` again. -/
  | again (p : HttpParser)

/-- The continuation of `tryRead` in `readResponse`, for one read. -/
def readResponseStep (p : HttpParser) (r : Read) : ReadStep :=
  let actual := r.data.length
  match http_parser_execute p r.actions with
  | (_, some e) => .failed e
  | (p, none) =>
    let nread := r.nread
    if nread ≠ actual ∧ p.upgrade = false then .failed .parseFailed
    else if p.upgrade then
      if nread ≤ actual then .returned p (r.data.drop nread) else .failed .nreadOutOfRange
    else if p.messageComplete ∨ actual = 0 then
      if p.headersComplete then .returned p [] else .failed .incompleteHeaders
    else if p.headersComplete ∧ p.status_code / 100 = 2 then
      .returned { p with isStreaming := true } []
    else .again p

/-- The method `readResponse` on a connection that delivers the reads `stream`, oldest
first.  The result is `none` while the promise is not settled (every read so far asked for
another one); otherwise the exception, or the parser, the remainder returned and the reads
left on the connection. -/
def readResponse (p : HttpParser) :
    List Read → Option (Except Failure (HttpParser × Str × List Read))
  | [] => none
  | r :: stream =>
    match readResponseStep p r with
    | .failed e => some (.error e)
    | .returned p remainder => some (.ok (p, remainder, stream))
    | .again p => readResponse p stream

/-- How far the task started by `pumpStream` has come. -/
inductive PumpState where
  /-- The method `pumpStream` started no task: the response is not streaming. -/
  | notStarted
  /-- The task waits for the next read. -/
  | reading
  /-- The task has sent `done` and ended. -/
  | finished
  /-- The task ended with an exception, which `taskFailed` logs. -/
  | failed (e : Failure)
  deriving DecidableEq, Repr

/-- The method `pumpStreamInternal` on a connection that delivers the reads `stream`. -/
def pumpStreamInternal (p : HttpParser) : List Read → HttpParser × PumpState
  | [] => (p, .reading)
  | r :: stream =>
    let actual := r.data.length
    match http_parser_execute p r.actions with
    | (p, some e) => (p, .failed e)
    | (p, none) =>
      if r.nread ≠ actual then (p, .failed .parseFailed)
      else if p.messageComplete ∨ actual = 0 then
        ({ p with sent := p.sent ++ [.done] }, .finished)
      else pumpStreamInternal p stream

/-- The block of `pumpStream` that forwards the body buffered so far to the sink and
empties the buffer. -/
def forwardBufferedBody (p : HttpParser) : HttpParser :=
  if 0 < p.body.length then { p with sent := p.sent ++ [.write p.body], body := [] } else p

/-- The method `pumpStream`, with the task it adds run over the reads `stream`. -/
def pumpStream (p : HttpParser) (stream : List Read) : HttpParser × PumpState :=
  if p.isStreaming then pumpStreamInternal (forwardBufferedBody p) stream
  else (p, .notStarted)

/-- The continuation of `readResponse` in `sendRequest`, for a fresh parser: the check of the
remainder, `pumpStream` and `build`, with the table `HTTP_STATUS_CODES` as a parameter.  The
result is `none` while `readResponse` has not settled. -/
def sendRequest (codes : StatusMap) (stream : List Read) : Option (Except Failure Response) :=
  match readResponse HttpParser.init stream with
  | none => none
  | some (.error e) => some (.error e)
  | some (.ok (p, remainder, _)) =>
    if remainder.length = 0 then
      some (build codes (if p.isStreaming then forwardBufferedBody p else p))
    else some (.error .remainderNotEmpty)

/-! ## The streaming request -/

/-- The digit characters `"0123456789abcdef"` of `kj::hex`. -/
def hexDigit (d : Nat) : Char :=
  if d < 10 then Char.ofNat (48 + d) else Char.ofNat (87 + d)

/-- The digit loop of the KJ stringifiers of unsigned integers: the digits of `i` to the
base `base`, most significant first, in front of `acc`; `fuel` bounds the number of
digits. -/
def digitsLoop (base : Nat) (digit : Nat → Char) : Nat → Nat → Str → Str
  | 0, _, acc => acc
  | fuel + 1, i, acc =>
    if i = 0 then acc else digitsLoop base digit fuel (i / base) (digit (i % base) :: acc)

/-- The stringifier `kj::hex` of the KJ library for a 64-bit value: lower-case hexadecimal
digits, at most 16 of them. -/
def hex (i : Nat) : Str := if i = 0 then ['0'] else digitsLoop 16 hexDigit 16 i []

/-- The stringifier `kj::str` of the KJ library for a `uint64_t`: decimal digits, at most 20
of them. -/
def decimal (i : Nat) : Str :=
  if i = 0 then ['0'] else digitsLoop 10 (fun d => Char.ofNat (48 + d)) 20 i []

/-- The members of `RequestStreamImpl`.  The field `written` records the `stream->write`
calls on the connection to the app, oldest first: `previousWrite` chains them, so they run
in the order in which they are queued. -/
structure RequestStreamImpl where
  doneCalled : Bool
  getResponseCalled : Bool
  isChunked : Bool
  bytesReceived : Nat
  expectedSize : Option Nat
  httpRequest : Option Str
  written : List Str
  deriving DecidableEq, Repr

/-- A request stream as its constructor leaves it, holding the header block `httpRequest`. -/
def RequestStreamImpl.init (httpRequest : Str) : RequestStreamImpl :=
  { doneCalled := false, getResponseCalled := false, isChunked := true, bytesReceived := 0,
    expectedSize := none, httpRequest := some httpRequest, written := [] }

/-- The method `writeHeadersOnce`; the result is the state the call leaves and the
exception it throws, if any. -/
def writeHeadersOnce (s : RequestStreamImpl) (contentLength : Option Nat) :
    RequestStreamImpl × Option Failure :=
  match s.httpRequest with
  | none => (s, none)
  | some reqString =>
    let s := { s with httpRequest := none }
    if endsWith reqString "\r\n\r\n".toList then
      match contentLength with
      | some l =>
        ({ s with
            isChunked := false,
            written := s.written ++ [reqString.take (reqString.length - 2) ++
              "Content-Length: ".toList ++ decimal l ++ "\r\n\r\n".toList] }, none)
      | none =>
        ({ s with
            written := s.written ++ [reqString.take (reqString.length - 2) ++
              "Transfer-Encoding: chunked\r\n\r\n".toList] }, none)
    else (s, some .requestNotTerminated)

/-- The method `write` of `RequestStreamImpl`; the result is the state the call leaves and
the exception it throws, if any. -/
def write (s : RequestStreamImpl) (data : Str) : RequestStreamImpl × Option Failure :=
  if s.doneCalled then (s, some .writeAfterDone)
  else
    match writeHeadersOnce s none with
    | (s, some e) => (s, some e)
    | (s, none) =>
      let s := { s with bytesReceived := (s.bytesReceived + data.length) % 2 ^ 64 }
      let withinExpected : Bool :=
        match s.expectedSize with
        | some e => decide (s.bytesReceived ≤ e)
        | none => true
      if withinExpected then
        if s.isChunked then
          ({ s with
              written := s.written ++
                [hex data.length ++ "\r\n".toList, data, "\r\n".toList] }, none)
        else ({ s with written := s.written ++ [data] }, none)
      else (s, some .receivedMoreThanExpected)

/-- The method `done` of `RequestStreamImpl`; the result is the state the call leaves and
the exception it throws, if any. -/
def done (s : RequestStreamImpl) : RequestStreamImpl × Option Failure :=
  let allReceived : Bool :=
    match s.expectedSize with
    | some e => decide (s.bytesReceived = e)
    | none => true
  if allReceived then
    if s.doneCalled then (s, some .doneCalledTwice)
    else
      let s := { s with doneCalled := true }
      match writeHeadersOnce s (some 0) with
      | (s, some e) => (s, some e)
      | (s, none) =>
        if s.isChunked then ({ s with written := s.written ++ ["0\r\n\r\n".toList] }, none)
        else (s, none)
  else (s, some .doneBeforeExpectedSize)

/-- The method `expectSize` of `RequestStreamImpl`, for a `UInt64` parameter `size`; the
result is the state the call leaves and the exception it throws, if any. -/
def expectSize (s : RequestStreamImpl) (size : Nat) : RequestStreamImpl × Option Failure :=
  let s := { s with expectedSize := some ((s.bytesReceived + size) % 2 ^ 64) }
  writeHeadersOnce s (some size)

/-- A call that a client makes on the `RequestStream` capability. -/
inductive Call where
  | write (data : Str)
  | done
  | expectSize (size : Nat)
  deriving DecidableEq, Repr

/-- The dispatch of a call to its method. -/
def call (s : RequestStreamImpl) : Call → RequestStreamImpl × Option Failure
  | .write data => write s data
  | .done => done s
  | .expectSize size => expectSize s size

/-- The state after a sequence of calls that all return without an exception; `none` when
one of them throws. -/
def calls (s : RequestStreamImpl) : List Call → Option RequestStreamImpl
  | [] => some s
  | c :: cs =>
    match call s c with
    | (s1, none) => calls s1 cs
    | (_, some _) => none

/-- The method `getResponse` of `RequestStreamImpl`, for the reads `stream` that the
connection delivers: the state the call leaves and its result, `none` while the response is
not settled.  The continuation of `readResponse` is the one of `sendRequest`. -/
def getResponse (codes : StatusMap) (s : RequestStreamImpl) (stream : List Read) :
    RequestStreamImpl × Option (Except Failure Response) :=
  if s.getResponseCalled then (s, some (.error .getResponseCalledTwice))
  else ({ s with getResponseCalled := true }, sendRequest codes stream)

/-! ## The request builder -/

/-- The function `percentEncode` for one byte; the byte `b` is the character read as an
unsigned number. -/
def percentEncodeChar (c : Char) : Str :=
  if ('A' ≤ c ∧ c ≤ 'Z') ∨ ('a' ≤ c ∧ c ≤ 'z') ∨ ('0' ≤ c ∧ c ≤ '9') ∨
      c = '-' ∨ c = '_' ∨ c = '.' ∨ c = '~' then [c]
  else ['%', hexDigit (c.toNat % 256 / 16), hexDigit (c.toNat % 256 % 16)]

/-- The function `percentEncode`. -/
def percentEncode : Str → Str
  | [] => []
  | c :: text => percentEncodeChar c ++ percentEncode text

/-- Modelled from the spec: the helper `hexEncode` of `util.h`, which is not in the source
tree ("hex-encoded opaque bytes", "hex of first 16 bytes"): two lower-case hexadecimal
digits for each byte. -/
def hexEncode : Str → Str
  | [] => []
  | c :: bytes => hexDigit (c.toNat % 256 / 16) :: hexDigit (c.toNat % 256 % 16) :: hexEncode bytes

/-- The function `toBytes`. -/
def toBytes (text data : Str) : Str := text ++ data

/-- The function `kj::strArray` of the KJ library: the elements with `delim` between them. -/
def strArray : List Str → Str → Str
  | [], _ => []
  | [a], _ => a
  | a :: b :: rest, delim => a ++ delim ++ strArray (b :: rest) delim

/-- What the request builder takes from outside the source file: the helpers
`extractHostFromUrl` and `extractProtocolFromUrl` of `util.h`, which may throw, and the names
of the enumerants of `UserInfo.Pronouns` in the schema, in ordinal order. -/
structure Environment where
  extractHostFromUrl : Str → Except Failure Str
  extractProtocolFromUrl : Str → Except Failure Str
  pronounNames : List Str

/-- A capability `SessionContext::Client`, known by its identity. -/
abbrev SessionContext := Nat

/-- The part of `UserInfo` that the bridge reads; `identityId` is absent when
`hasIdentityId()` is false. -/
structure UserInfo where
  displayName : Str
  preferredHandle : Str
  pictureUrl : Str
  pronouns : Nat
  identityId : Option Str
  permissions : List Bool
  deriving DecidableEq, Repr

/-- The members of `WebSessionImpl` that the request builder reads. -/
structure WebSessionImpl where
  sessionContext : SessionContext
  sessionId : Str
  tabId : Str
  userDisplayName : Str
  userHandle : Str
  userPicture : Str
  userPronouns : Nat
  userId : Option Str
  permissions : Str
  basePath : Str
  userAgent : Str
  acceptLanguages : Str
  rootPath : Str
  remoteAddress : Option Str
  deriving DecidableEq, Repr

/-- A `Float32` quality value of the accept list, known by what the code asks of it: whether
it compares equal to `1.0`, and the text `kj::str` gives for it. -/
structure QValue where
  isOne : Bool
  text : Str
  deriving DecidableEq, Repr

/-- The struct `Util.KeyValue` of the schema: a cookie of the request context. -/
structure KeyValue where
  key : Str
  value : Str
  deriving DecidableEq, Repr

/-- The struct `WebSession.AcceptedType` of the schema. -/
structure AcceptedType where
  mimeType : Str
  qValue : QValue
  deriving DecidableEq, Repr

/-- The struct `WebSession.Context.Header` of the schema: an additional header. -/
structure ContextHeader where
  name : Str
  value : Str
  deriving DecidableEq, Repr

/-- The union `WebSession.Context.eTagPrecondition` of the schema. -/
inductive ETagPrecondition where
  | NONE
  | EXISTS
  | DOESNT_EXIST
  | MATCHES_ONE_OF (eTags : List ETag)
  | MATCHES_NONE_OF (eTags : List ETag)
  deriving DecidableEq, Repr

/-- The part of `WebSession.Context` that the request builder reads. -/
structure Context where
  cookies : List KeyValue
  accept : List AcceptedType
  additionalHeaders : List ContextHeader
  eTagPrecondition : ETagPrecondition
  deriving DecidableEq, Repr

/-- The lines of `addCommonHeaders` up to `X-Sandstorm-Username`. -/
def tabLines (s : WebSessionImpl) : List Str :=
  (if 0 < s.userAgent.length then ["User-Agent: ".toList ++ s.userAgent] else []) ++
    ["X-Sandstorm-Tab-Id: ".toList ++ s.tabId,
     "X-Sandstorm-Username: ".toList ++ s.userDisplayName]

/-- The lines of the block `KJ_IF_MAYBE(u, userId)` of `addCommonHeaders`. -/
def userLines (env : Environment) (s : WebSessionImpl) : List Str :=
  match s.userId with
  | some u =>
    ["X-Sandstorm-User-Id: ".toList ++ u] ++
      (if 0 < s.userHandle.length then
        ["X-Sandstorm-Preferred-Handle: ".toList ++ s.userHandle] else []) ++
      (if 0 < s.userPicture.length then
        ["X-Sandstorm-User-Picture: ".toList ++ s.userPicture] else []) ++
      (if 0 < s.userPronouns ∧ s.userPronouns < env.pronounNames.length then
        ["X-Sandstorm-User-Pronouns: ".toList ++ env.pronounNames.getD s.userPronouns []]
      else [])
  | none => []

/-- The lines of `addCommonHeaders` for the base path; the helpers of `util.h` may throw. -/
def baseLines (env : Environment) (s : WebSessionImpl) : Except Failure (List Str) :=
  if 0 < s.basePath.length then
    match env.extractHostFromUrl s.basePath with
    | .error e => .error e
    | .ok host =>
      match env.extractProtocolFromUrl s.basePath with
      | .error e => .error e
      | .ok protocol =>
        .ok ["X-Sandstorm-Base-Path: ".toList ++ s.basePath, "Host: ".toList ++ host,
          "X-Forwarded-Proto: ".toList ++ protocol]
  else .ok ["Host: sandbox".toList]

/-- The lines `X-Sandstorm-Session-Id` and `X-Real-IP` of `addCommonHeaders`. -/
def sessionLines (s : WebSessionImpl) : List Str :=
  ["X-Sandstorm-Session-Id: ".toList ++ s.sessionId] ++
    (match s.remoteAddress with
     | some addr => ["X-Real-IP: ".toList ++ addr]
     | none => [])

/-- The line `Cookie` of `addCommonHeaders`. -/
def cookieLines (context : Context) : List Str :=
  if 0 < context.cookies.length then
    ["Cookie: ".toList ++
      strArray (context.cookies.map (fun c => c.key ++ "=".toList ++ c.value)) "; ".toList]
  else []

/-- One element of the accept list as `addCommonHeaders` renders it. -/
def renderAccepted (c : AcceptedType) : Str :=
  if c.qValue.isOne then c.mimeType else c.mimeType ++ "; q=".toList ++ c.qValue.text

/-- The line `Accept` of `addCommonHeaders`. -/
def acceptLines (context : Context) : List Str :=
  if 0 < context.accept.length then
    ["Accept: ".toList ++ strArray (context.accept.map renderAccepted) ", ".toList]
  else ["Accept: */*".toList]

/-- The lines of `addCommonHeaders` for the additional headers of the context. -/
def additionalLines (context : Context) : List Str :=
  context.additionalHeaders.map (fun header => header.name ++ ": ".toList ++ header.value)

/-- One ETag as the `KJ_MAP` of `addCommonHeaders` renders it. -/
def renderETag (e : ETag) : Str :=
  if e.weak then "W/\"".toList ++ e.value ++ ['"'] else '"' :: e.value ++ ['"']

/-- The lines of the `switch (eTagPrecondition.which())` of `addCommonHeaders`. -/
def preconditionLines : ETagPrecondition → List Str
  | .NONE => []
  | .EXISTS => ["If-Match: *".toList]
  | .DOESNT_EXIST => ["If-None-Match: *".toList]
  | .MATCHES_ONE_OF eTags =>
    ["If-Match: ".toList ++ strArray (eTags.map renderETag) ", ".toList]
  | .MATCHES_NONE_OF eTags =>
    ["If-None-Match: ".toList ++ strArray (eTags.map renderETag) ", ".toList]

/-- The method `addCommonHeaders`: the vector `lines` with the lines it adds, in the order of
the source, the two empty lines last. -/
def addCommonHeaders (env : Environment) (s : WebSessionImpl) (lines : List Str)
    (context : Context) : Except Failure (List Str) :=
  match baseLines env s with
  | .error e => .error e
  | .ok base =>
    .ok (lines ++ tabLines s ++ userLines env s ++
      ["X-Sandstorm-Permissions: ".toList ++ s.permissions] ++ base ++ sessionLines s ++
      cookieLines context ++ acceptLines context ++ additionalLines context ++
      preconditionLines context.eTagPrecondition ++ [[], []])

/-- The lines of `makeHeaders` before `addCommonHeaders`; an extra header that is `nullptr`
is the empty string. -/
def requestLines (s : WebSessionImpl) (method path extraHeader1 extraHeader2 extraHeader3 : Str) :
    List Str :=
  [method ++ " ".toList ++ s.rootPath ++ path ++ " HTTP/1.1".toList,
   "Connection: close".toList] ++
    (if extraHeader1 ≠ [] then [extraHeader1] else []) ++
    (if extraHeader2 ≠ [] then [extraHeader2] else []) ++
    (if extraHeader3 ≠ [] then [extraHeader3] else []) ++
    ["Accept-Encoding: gzip".toList] ++
    (if 0 < s.acceptLanguages.length then ["Accept-Language: ".toList ++ s.acceptLanguages]
     else [])

/-- The vector `lines` of `makeHeaders` when it is joined. -/
def makeHeaderLines (env : Environment) (s : WebSessionImpl) (method path : Str)
    (context : Context) (extraHeader1 extraHeader2 extraHeader3 : Str) :
    Except Failure (List Str) :=
  addCommonHeaders env s (requestLines s method path extraHeader1 extraHeader2 extraHeader3)
    context

/-- The method `makeHeaders`. -/
def makeHeaders (env : Environment) (s : WebSessionImpl) (method path : Str)
    (context : Context) (extraHeader1 extraHeader2 extraHeader3 : Str) : Except Failure Str :=
  match makeHeaderLines env s method path context extraHeader1 extraHeader2 extraHeader3 with
  | .error e => .error e
  | .ok lines => .ok (strArray lines "\r\n".toList)

/-- The struct of the schema that carries the content of `post`, `put`, `patch`, `mkcol` and
`report`; `encoding` is absent when `hasEncoding()` is false. -/
structure RequestContent where
  mimeType : Str
  content : Str
  encoding : Option Str
  deriving DecidableEq, Repr

/-- The third extra header of the methods with content: `nullptr` without an encoding. -/
def encodingHeader (content : RequestContent) : Str :=
  match content.encoding with
  | some encoding => "Content-Encoding: ".toList ++ encoding
  | none => []

/-- The bytes that `post` hands to `sendRequest`, which writes them to the connection. -/
def post (env : Environment) (s : WebSessionImpl) (path : Str) (context : Context)
    (content : RequestContent) : Except Failure Str :=
  match makeHeaders env s "POST".toList path context
      ("Content-Type: ".toList ++ content.mimeType)
      ("Content-Length: ".toList ++ decimal content.content.length)
      (encodingHeader content) with
  | .error e => .error e
  | .ok httpRequest => .ok (toBytes httpRequest content.content)

/-- The bytes that `put` hands to `sendRequest`. -/
def put (env : Environment) (s : WebSessionImpl) (path : Str) (context : Context)
    (content : RequestContent) : Except Failure Str :=
  match makeHeaders env s "PUT".toList path context
      ("Content-Type: ".toList ++ content.mimeType)
      ("Content-Length: ".toList ++ decimal content.content.length)
      (encodingHeader content) with
  | .error e => .error e
  | .ok httpRequest => .ok (toBytes httpRequest content.content)

/-- The bytes that `patch` hands to `sendRequest`. -/
def patch (env : Environment) (s : WebSessionImpl) (path : Str) (context : Context)
    (content : RequestContent) : Except Failure Str :=
  match makeHeaders env s "PATCH".toList path context
      ("Content-Type: ".toList ++ content.mimeType)
      ("Content-Length: ".toList ++ decimal content.content.length)
      (encodingHeader content) with
  | .error e => .error e
  | .ok httpRequest => .ok (toBytes httpRequest content.content)

/-- The bytes that `mkcol` hands to `sendRequest`. -/
def mkcol (env : Environment) (s : WebSessionImpl) (path : Str) (context : Context)
    (content : RequestContent) : Except Failure Str :=
  match makeHeaders env s "MKCOL".toList path context
      ("Content-Type: ".toList ++ content.mimeType)
      ("Content-Length: ".toList ++ decimal content.content.length)
      (encodingHeader content) with
  | .error e => .error e
  | .ok httpRequest => .ok (toBytes httpRequest content.content)

/-- The bytes that `report` hands to `sendRequest`. -/
def report (env : Environment) (s : WebSessionImpl) (path : Str) (context : Context)
    (content : RequestContent) : Except Failure Str :=
  match makeHeaders env s "REPORT".toList path context
      ("Content-Type: ".toList ++ content.mimeType)
      ("Content-Length: ".toList ++ decimal content.content.length)
      (encodingHeader content) with
  | .error e => .error e
  | .ok httpRequest => .ok (toBytes httpRequest content.content)

/-- The C type `char` of the platform of the bridge (Linux on x86-64) is signed: the value of
a byte as the comparison `c > ' '` sees it. -/
def charValue (c : Char) : Int :=
  if c.toNat % 256 < 128 then (c.toNat % 256 : Nat) else (c.toNat % 256 : Nat) - 256

/-- The method `makeDestinationHeader`. -/
def makeDestinationHeader (s : WebSessionImpl) (destination : Str) : Except Failure Str :=
  if destination.all (fun c => decide (charValue c > charValue ' ') && c != ',') then
    .ok ("Destination: ".toList ++ s.basePath ++ destination)
  else .error .invalidDestination

/-- The method `makeOverwriteHeader`. -/
def makeOverwriteHeader (noOverwrite : Bool) : Str :=
  if noOverwrite then "Overwrite: F".toList else "Overwrite: T".toList

/-- The method `makeDepthHeader`. -/
def makeDepthHeader (shallow : Bool) : Str :=
  if shallow then "Depth: 0".toList else "Depth: infinity".toList

/-- The bytes that `copy` hands to `sendRequest`. -/
def copy (env : Environment) (s : WebSessionImpl) (path : Str) (context : Context)
    (destination : Str) (noOverwrite shallow : Bool) : Except Failure Str :=
  match makeDestinationHeader s destination with
  | .error e => .error e
  | .ok destinationHeader =>
    match makeHeaders env s "COPY".toList path context destinationHeader
        (makeOverwriteHeader noOverwrite) (makeDepthHeader shallow) with
    | .error e => .error e
    | .ok httpRequest => .ok (toBytes httpRequest [])

/-- The bytes that `move` hands to `sendRequest`. -/
def move (env : Environment) (s : WebSessionImpl) (path : Str) (context : Context)
    (destination : Str) (noOverwrite : Bool) : Except Failure Str :=
  match makeDestinationHeader s destination with
  | .error e => .error e
  | .ok destinationHeader =>
    match makeHeaders env s "MOVE".toList path context destinationHeader
        (makeOverwriteHeader noOverwrite) [] with
    | .error e => .error e
    | .ok httpRequest => .ok (toBytes httpRequest [])

/-! ## Sessions and the session-context map -/

/-- The type `SessionContextMap`, a `std::map` from session identifier to context. -/
abbrev SessionContextMap := Str → Option SessionContext

/-- The method `insert` of `std::map`: an entry whose key is present is left alone. -/
def SessionContextMap.insert (m : SessionContextMap) (key : Str) (value : SessionContext) :
    SessionContextMap :=
  if (m key).isSome then m else fun k => if k = key then some value else m k

/-- The method `erase` of `std::map`. -/
def SessionContextMap.erase (m : SessionContextMap) (key : Str) : SessionContextMap :=
  fun k => if k = key then none else m k

/-- The constructor of `WebSessionImpl`: the session and the map with its entry, or the
exception of `KJ_ASSERT(id.size() == 32)`, thrown before the map is touched. -/
def WebSessionImpl.new (userInfo : UserInfo) (sessionContext : SessionContext)
    (sessionContextMap : SessionContextMap)
    (sessionId tabId basePath userAgent acceptLanguages rootPath permissions : Str)
    (remoteAddress : Option Str) : Except Failure (WebSessionImpl × SessionContextMap) :=
  let userId : Except Failure (Option Str) :=
    match userInfo.identityId with
    | some id =>
      if id.length = 32 then .ok (some (hexEncode (id.take 16))) else .error .identityIdSize
    | none => .ok none
  match userId with
  | .error e => .error e
  | .ok userId =>
    .ok ({ sessionContext := sessionContext, sessionId := sessionId, tabId := tabId,
           userDisplayName := percentEncode userInfo.displayName,
           userHandle := userInfo.preferredHandle, userPicture := userInfo.pictureUrl,
           userPronouns := userInfo.pronouns, userId := userId, permissions := permissions,
           basePath := basePath, userAgent := userAgent, acceptLanguages := acceptLanguages,
           rootPath := rootPath, remoteAddress := remoteAddress },
         sessionContextMap.insert sessionId sessionContext)

/-- The destructor of `WebSessionImpl`. -/
def WebSessionImpl.delete (s : WebSessionImpl) (sessionContextMap : SessionContextMap) :
    SessionContextMap :=
  sessionContextMap.erase s.sessionId

/-- The method `getSessionContext` of `SandstormHttpBridgeImpl`. -/
def getSessionContext (sessionContextMap : SessionContextMap) (id : Str) :
    Except Failure SessionContext :=
  match sessionContextMap id with
  | none => .error .sessionIdNotFound
  | some context => .ok context

/-- The loop of `formatPermissions` from index `i`; `fuel` bounds the number of rounds. -/
def formatPermissionsLoop (configPermissions : List Str) (userPermissions : List Bool) :
    Nat → Nat → List Str
  | 0, _ => []
  | fuel + 1, i =>
    if i < configPermissions.length ∧ i < userPermissions.length then
      (if userPermissions.getD i false then [configPermissions.getD i []] else []) ++
        formatPermissionsLoop configPermissions userPermissions fuel (i + 1)
    else []

/-- The method `formatPermissions`, for the names of the permissions of the configuration. -/
def formatPermissions (configPermissions : List Str) (userPermissions : List Bool) : Str :=
  strArray
    (formatPermissionsLoop configPermissions userPermissions configPermissions.length 0)
    ",".toList

/-- The part of `spk::BridgeConfig` that `UiViewImpl` reads: the API path and the names of
the permissions of the view info. -/
structure BridgeConfig where
  apiPath : Str
  permissions : List Str
  deriving DecidableEq, Repr

/-- The session type that `newSession` is asked for, a type id of the schema. -/
inductive SessionType where
  | webSession
  | apiSession
  | hackEmailSession
  | other
  deriving DecidableEq, Repr

/-- The parameters of `newSession`.  The session parameters are those of
`WebSession.Params` (`basePath`, `userAgent`, `acceptableLanguages`) or of
`ApiSession.Params` (`remoteAddress`, as the text that `addressToString` gives for it). -/
structure NewSessionParams where
  sessionType : SessionType
  userInfo : UserInfo
  context : SessionContext
  tabId : Str
  basePath : Str
  userAgent : Str
  acceptableLanguages : List Str
  remoteAddress : Option Str
  deriving DecidableEq, Repr

/-- The session object that `newSession` returns. -/
inductive SessionObject where
  | web (s : WebSessionImpl)
  | email
  deriving DecidableEq, Repr

/-- The method `newSession` of `UiViewImpl`: the counter `sessionIdCounter`, an `uint`, and
the session-context map after the call, and the session or the exception.  The counter is
incremented when the arguments of the constructor are evaluated, before its body runs. -/
def newSession (config : BridgeConfig) (sessionIdCounter : Nat)
    (sessionContextMap : SessionContextMap) (params : NewSessionParams) :
    Nat × SessionContextMap × Except Failure SessionObject :=
  if params.sessionType = .webSession ∨ params.sessionType = .hackEmailSession ∨
      (0 < config.apiPath.length ∧ params.sessionType = .apiSession) then
    if params.sessionType = .webSession then
      match WebSessionImpl.new params.userInfo params.context sessionContextMap
          (decimal sessionIdCounter) (hexEncode params.tabId) params.basePath params.userAgent
          (strArray params.acceptableLanguages ",".toList) "/".toList
          (formatPermissions config.permissions params.userInfo.permissions) none with
      | .error e => ((sessionIdCounter + 1) % 2 ^ 32, sessionContextMap, .error e)
      | .ok (s, map) => ((sessionIdCounter + 1) % 2 ^ 32, map, .ok (.web s))
    else if params.sessionType = .apiSession then
      match WebSessionImpl.new params.userInfo params.context sessionContextMap
          (decimal sessionIdCounter) (hexEncode params.tabId) [] [] [] config.apiPath
          (formatPermissions config.permissions params.userInfo.permissions)
          params.remoteAddress with
      | .error e => ((sessionIdCounter + 1) % 2 ^ 32, sessionContextMap, .error e)
      | .ok (s, map) => ((sessionIdCounter + 1) % 2 ^ 32, map, .ok (.web s))
    else (sessionIdCounter, sessionContextMap, .ok .email)
  else (sessionIdCounter, sessionContextMap, .error .unsupportedSessionType)

/-- What the host does with the bridge: it asks for a session, or it drops a web or API
session that it holds, the one at `index` among the live ones. -/
inductive HostAction where
  | newSession (params : NewSessionParams)
  | dropSession (index : Nat)
  deriving DecidableEq, Repr

/-- The bridge between two actions of the host: the counter of `UiViewImpl`, the
session-context map, and the web and API session objects that are alive, oldest first. -/
structure BridgeState where
  sessionIdCounter : Nat
  sessionContextMap : SessionContextMap
  sessions : List WebSessionImpl

/-- The bridge when it starts. -/
def BridgeState.init : BridgeState := ⟨0, fun _ => none, []⟩

/-- One action of the host: `newSession` may add a session object, a drop runs the
destructor of the object. -/
def hostAction (config : BridgeConfig) (b : BridgeState) : HostAction → BridgeState
  | .newSession params =>
    match newSession config b.sessionIdCounter b.sessionContextMap params with
    | (counter, map, .ok (.web s)) => ⟨counter, map, b.sessions ++ [s]⟩
    | (counter, map, _) => ⟨counter, map, b.sessions⟩
  | .dropSession index =>
    match b.sessions.get? index with
    | some s => ⟨b.sessionIdCounter, s.delete b.sessionContextMap, b.sessions.eraseIdx index⟩
    | none => b

/-- The bridge after a sequence of actions of the host. -/
def hostActions (config : BridgeConfig) (b : BridgeState) : List HostAction → BridgeState
  | [] => b
  | a :: as => hostActions config (hostAction config b a) as

/-! ## WebSocket and OPTIONS responses -/

/-- The method `buildForWebSocket`: the list `protocol` of the results, which stays empty
when the method does not initialise it. -/
def buildForWebSocket (p : HttpParser) : Except Failure (List Str) :=
  if p.status_code = 101 then
    match findHeader p "sec-websocket-protocol".toList with
    | some protocol => .ok ((split protocol ',').map (fun part => trim part))
    | none => .ok []
  else .error .webSocketNotSupported

/-- The struct `WebSession::Options` as `buildOptions` fills it; a field that is not set
keeps its default, `false` or the empty list. -/
structure Options where
  davClass1 : Bool
  davClass2 : Bool
  davClass3 : Bool
  davExtensions : List Str
  deriving DecidableEq, Repr

/-- The body of the loop of `buildOptions` over `split(*dav, ',')`, on the builder and the
vector `extensions`. -/
def davLevel (state : Options × List Str) (level : Str) : Options × List Str :=
  let trimmed := trim level
  if trimmed = "1".toList then ({ state.1 with davClass1 := true }, state.2)
  else if trimmed = "2".toList then ({ state.1 with davClass2 := true }, state.2)
  else if trimmed = "3".toList then ({ state.1 with davClass3 := true }, state.2)
  else (state.1, state.2 ++ [trimmed])

/-- The method `buildOptions`. -/
def buildOptions (p : HttpParser) : Except Failure Options :=
  if p.upgrade then .error .upgradeNotRequested
  else
    let builder : Options := ⟨false, false, false, []⟩
    match findHeader p "dav".toList with
    | some dav =>
      let state := (split dav ',').foldl davLevel (builder, [])
      if 0 < state.2.length then .ok { state.1 with davExtensions := state.2 }
      else .ok state.1
    | none => .ok builder

/-- The continuation of `readResponse` in `sendOptionsRequest`, for a fresh parser whose
sink is an `IgnoreStream`: the check of the remainder, `pumpStream` and `buildOptions`.  The
result is `none` while `readResponse` has not settled. -/
def sendOptionsRequest (stream : List Read) : Option (Except Failure Options) :=
  match readResponse HttpParser.init stream with
  | none => none
  | some (.error e) => some (.error e)
  | some (.ok (p, remainder, _)) =>
    if remainder.length = 0 then
      some (buildOptions (if p.isStreaming then forwardBufferedBody p else p))
    else some (.error .remainderNotEmpty)

/-! ## The WebSocket pump -/

/-- How far a promise that `sendBytes` made has come: its continuation has not run; the
continuation has called `serverStream->write` and the write is not complete; the write is
complete; or the promise is rejected, by an exception of its write or of the promise it was
chained on. -/
inductive WriteState where
  | waiting
  | writing
  | fulfilled
  | rejected
  deriving DecidableEq, Repr

/-- The promise `upstreamOp.then(...)` that a call of `sendBytes` makes: `after` is the value
of `upstreamOp` it is chained on, `none` for the initial `kj::READY_NOW` and `some i` for the
promise of the call number `i`; `message` is the parameter of the call. -/
structure UpstreamWrite where
  after : Option Nat
  message : Str
  state : WriteState
  deriving DecidableEq, Repr

/-- The members of `WebSocketPump` and what it has done: `promises` holds the promises made
by `sendBytes`, oldest first, and `upstreamOp` the one the member refers to; `serverWrites`
records the calls of `serverStream->write` and `clientCalls` the `sendBytes` requests made on
`clientStream`, oldest first; `reading` holds while a `tryRead` of `pump` is pending. -/
structure WebSocketPump where
  promises : List UpstreamWrite
  upstreamOp : Option Nat
  serverWrites : List Str
  clientCalls : List Str
  reading : Bool
  deriving DecidableEq, Repr

/-- The pump as its constructor leaves it. -/
def WebSocketPump.init : WebSocketPump :=
  { promises := [], upstreamOp := none, serverWrites := [], clientCalls := [], reading := false }

/-- The method `sendData`. -/
def WebSocketPump.sendData (w : WebSocketPump) (data : Str) : WebSocketPump :=
  { w with clientCalls := w.clientCalls ++ [data] }

/-- The method `pump`: it starts a `tryRead`. -/
def WebSocketPump.pump (w : WebSocketPump) : WebSocketPump := { w with reading := true }

/-- The method `sendBytes`: the new promise is chained on `upstreamOp` and replaces it. -/
def WebSocketPump.sendBytes (w : WebSocketPump) (message : Str) : WebSocketPump :=
  { w with promises := w.promises ++ [⟨w.upstreamOp, message, .waiting⟩],
           upstreamOp := some w.promises.length }

/-- The state of the promise that `after` refers to; the initial `kj::READY_NOW` is
fulfilled. -/
def WebSocketPump.stateOf (w : WebSocketPump) (after : Option Nat) : Option WriteState :=
  match after with
  | none => some .fulfilled
  | some i => (w.promises.get? i).map (fun q => q.state)

/-- What happens to a pump: the host calls `sendBytes`; the event loop runs the continuation
of the promise number `i`; the write of that promise completes or fails; the exception of
the promise it is chained on reaches the promise; the pending `tryRead` completes with
`data`, no bytes at the end of the file. -/
inductive PumpEvent where
  | sendBytes (message : Str)
  | run (i : Nat)
  | complete (i : Nat)
  | fail (i : Nat)
  | propagate (i : Nat)
  | read (data : Str)
  deriving DecidableEq, Repr

/-- One event on the pump; `none` when the event cannot happen in the state.  The event loop
of KJ runs a continuation attached with `then` once, after the promise it is attached to
is fulfilled, and not at all when that promise is rejected; `tryRead(buffer, 1,
sizeof(buffer))` delivers at most 4096 bytes. -/
def WebSocketPump.step (w : WebSocketPump) : PumpEvent → Option WebSocketPump
  | .sendBytes message => some (w.sendBytes message)
  | .run i =>
    match w.promises.get? i with
    | some q =>
      if q.state = .waiting ∧ w.stateOf q.after = some .fulfilled then
        some { w with promises := w.promises.set i { q with state := .writing },
                      serverWrites := w.serverWrites ++ [q.message] }
      else none
    | none => none
  | .complete i =>
    match w.promises.get? i with
    | some q =>
      if q.state = .writing then
        some { w with promises := w.promises.set i { q with state := .fulfilled } }
      else none
    | none => none
  | .fail i =>
    match w.promises.get? i with
    | some q =>
      if q.state = .writing then
        some { w with promises := w.promises.set i { q with state := .rejected } }
      else none
    | none => none
  | .propagate i =>
    match w.promises.get? i with
    | some q =>
      if q.state = .waiting ∧ w.stateOf q.after = some .rejected then
        some { w with promises := w.promises.set i { q with state := .rejected } }
      else none
    | none => none
  | .read data =>
    if w.reading = true ∧ data.length ≤ 4096 then
      if 0 < data.length then some (w.sendData data).pump
      else some { w with reading := false }
    else none

/-- The pump after a sequence of events; `none` when one of them cannot happen. -/
def WebSocketPump.steps (w : WebSocketPump) : List PumpEvent → Option WebSocketPump
  | [] => some w
  | e :: es =>
    match w.step e with
    | some w1 => w1.steps es
    | none => none

/-- The continuation of `readResponse` in `openWebSocket`, for a fresh parser: the protocol
list that `buildForWebSocket` returns and the pump, to which the remainder is handed before
it starts to read.  The result is `none` while `readResponse` has not settled. -/
def openWebSocket (stream : List Read) : Option (Except Failure (List Str × WebSocketPump)) :=
  match readResponse HttpParser.init stream with
  | none => none
  | some (.error e) => some (.error e)
  | some (.ok (p, remainder, _)) =>
    let pump := WebSocketPump.init
    match buildForWebSocket p with
    | .error e => some (.error e)
    | .ok protocol =>
      let pump := if 0 < remainder.length then pump.sendData remainder else pump
      some (.ok (protocol, pump.pump))

/-- The pump as the continuation of `openWebSocket` leaves it for the remainder
`remainder`: `pump->sendData(remainder)` when `remainder.size() > 0`, then
`pump->pump()`. -/
def WebSocketPump.start (remainder : Str) : WebSocketPump :=
  (if 0 < remainder.length then WebSocketPump.init.sendData remainder
   else WebSocketPump.init).pump

/-! ## The mail identifier -/

/-- The array `DIGITS` of `genRandomString`, without its terminator. -/
def DIGITS : Str :=
  "0123456789ABCDEFGHIJKLMNOPQRSTUVWXYZabcdefghijklmnopqrstuvwxyz_.".toList

/-- The loop `while (bufBits >= 6)` of `genRandomString` on the `uint` variables `buffer` and
`bufBits` and on the builder `chars`; `fuel` bounds the number of rounds. -/
def drainBuffer : Nat → Nat × Nat × Str → Nat × Nat × Str
  | 0, state => state
  | fuel + 1, (buffer, bufBits, chars) =>
    if 6 ≤ bufBits then
      drainBuffer fuel
        (buffer >>> 6, bufBits - 6, chars ++ [DIGITS.getD (buffer &&& 63) (Char.ofNat 0)])
    else (buffer, bufBits, chars)

/-- The loop `for (kj::byte b: bytes)` of `genRandomString`. -/
def encodeBytes : List Nat → Nat × Nat × Str → Nat × Nat × Str
  | [], state => state
  | b :: bytes, (buffer, bufBits, chars) =>
    let buffer := (buffer ||| (b <<< bufBits) % 2 ^ 32) % 2 ^ 32
    let bufBits := (bufBits + 8) % 2 ^ 32
    encodeBytes bytes (drainBuffer bufBits (buffer, bufBits, chars))

/-- The characters that `genRandomString` adds to its builder of 23 slots, as a function of
the bytes read from `/dev/urandom`: the digits and the terminator. -/
def genRandomChars (bytes : List Nat) : Str :=
  let state := encodeBytes bytes (0, 0, [])
  state.2.2 ++ [DIGITS.getD (state.1 &&& 63) (Char.ofNat 0)] ++ [Char.ofNat 0]

/-- The function `genRandomString`, as a function of the bytes read from `/dev/urandom`:
the `kj::String` made of the array, whose last element is the terminator. -/
def genRandomString (bytes : List Nat) : Str := (genRandomChars bytes).dropLast

/-- The value of the header `Content-Type` that `send` writes into the mail file, for the
identifier `id` that `genRandomString` returned. -/
def mailContentType (id : Str) : Str := "multipart/alternative; boundary=".toList ++ id

/-- The name under which `send` leaves the mail file. -/
def mailFilename (id : Str) : Str := "/var/mail/new/_".toList ++ id

/-! ## Definitions that follow the specification -/

/-- The values in `vs` joined with ", ", in order. -/
def commaJoined : List Str → Str
  | [] => []
  | [v] => v
  | v :: vs => v ++ ", ".toList ++ commaJoined vs

/-- The folded value the specification gives a header name: the values of the raw headers
whose name equals `n` ignoring ASCII case, joined with ", " in arrival order; nothing when
there is no such raw header. -/
def foldedValue (rawHeaders : List RawHeader) (n : Str) : Option Str :=
  match (rawHeaders.filter (fun h => toLower h.name = toLower n)).map (fun h => h.value) with
  | [] => none
  | vs => some (commaJoined vs)

/-- Every slot of the header map is stored under its own name. -/
def HeadersKeyed (p : HttpParser) : Prop :=
  ∀ k h, p.headers k = some h → h.name = k

/-- The value of a slot after one more raw value arrived for it. -/
def foldValue (acc : Option Str) (v : Str) : Option Str :=
  match acc with
  | none => some v
  | some a => some (a ++ ", ".toList ++ v)

/-- The name of an attribute segment of the form `name=value`: the text before the first
`=`, trimmed and lower-cased; nothing for a segment without `=`. -/
def attributeName (part : Str) : Option Str :=
  (splitFirst part '=').map (fun x => toLower (trim x.1))


/-- The number a string of decimal digits denotes, by place value. -/
def decimalValue : Str → Nat
  | [] => 0
  | c :: cs => digitVal c * 10 ^ cs.length + decimalValue cs

/-- A non-empty string of decimal digits. -/
def IsDigits (s : Str) : Prop := s ≠ [] ∧ ∀ c ∈ s, isDigit c = true

/-- A non-empty string of decimal digits after an optional sign `+` or `-`. -/
def IsSignedDigits (s : Str) : Prop :=
  IsDigits s ∨ ∃ t, IsDigits t ∧ (s = '-' :: t ∨ s = '+' :: t)

/-- The first byte of `s`, if any, is not white space. -/
def NoLeadingSpace (s : Str) : Prop := ∀ c t, s = c :: t → isspace c = false

/-- A date and time of day as an HTTP date writes it: the weekday name by its index from
Sunday (long form or three-letter form), the month by its index from January, the day of
the month from 1. -/
structure HttpDate where
  wday : Nat
  longWeekday : Bool
  year : Nat
  month : Nat
  day : Nat
  hour : Nat
  minute : Nat
  second : Nat
  deriving DecidableEq, Repr

/-- Leap years of the Gregorian calendar. -/
def isLeapYear (y : Nat) : Bool := y % 4 = 0 ∧ (y % 100 ≠ 0 ∨ y % 400 = 0)

/-- The number of days of month `m` (from 0) of year `y`. -/
def daysInMonth (y m : Nat) : Nat :=
  if m = 1 then (if isLeapYear y then 29 else 28)
  else if m = 3 ∨ m = 5 ∨ m = 8 ∨ m = 10 then 30
  else 31

/-- The number of days of year `y`. -/
def daysInYear (y : Nat) : Nat := if isLeapYear y then 366 else 365

/-- The days from 1 January of year 0 to 1 January of year `y`. -/
def daysBeforeYear : Nat → Nat
  | 0 => 0
  | y + 1 => daysBeforeYear y + daysInYear y

/-- The days from 1 January of year `y` to the first day of month `m` (from 0). -/
def daysBeforeMonth (y : Nat) : Nat → Nat
  | 0 => 0
  | m + 1 => daysBeforeMonth y m + daysInMonth y m

/-- A date of the Gregorian calendar with a time of day, and a weekday name. -/
def HttpDate.Valid (d : HttpDate) : Prop :=
  d.wday < 7 ∧ d.year ≤ 9999 ∧ d.month < 12 ∧ 1 ≤ d.day ∧ d.day ≤ daysInMonth d.year d.month ∧
    d.hour < 24 ∧ d.minute < 60 ∧ d.second < 60

/-- The number of seconds from 1970-01-01T00:00:00Z to the date and time `d`, read as UTC:
whole days counted year by year and month by month, then the time of day. -/
def secondsSinceEpoch (d : HttpDate) : Int :=
  (((daysBeforeYear d.year + daysBeforeMonth d.year d.month + (d.day - 1) : Nat) : Int)
      - (daysBeforeYear 1970 : Nat)) * 86400
    + d.hour * 3600 + d.minute * 60 + d.second

/-- The decimal digit for `n % 10`. -/
def digitChar (n : Nat) : Char := Char.ofNat (48 + n % 10)

/-- Two decimal digits, with a leading zero. -/
def twoDigits (n : Nat) : Str := [digitChar (n / 10), digitChar n]

/-- Four decimal digits, with leading zeros. -/
def fourDigits (n : Nat) : Str :=
  [digitChar (n / 1000), digitChar (n / 100), digitChar (n / 10), digitChar n]

/-- The weekday name of a date, long or abbreviated. -/
def weekdayName (d : HttpDate) : Str :=
  let names := weekdayNames.getD d.wday ("", "")
  if d.longWeekday then names.1.toList else names.2.toList

/-- The abbreviated month name of a date. -/
def monthName (d : HttpDate) : Str := (monthNames.getD d.month ("", "")).2.toList

/-- The time of day `HH:MM:SS`, followed by `rest`. -/
def timeOfDay (d : HttpDate) (rest : Str) : Str :=
  twoDigits d.hour ++ ':' :: (twoDigits d.minute ++ ':' :: (twoDigits d.second ++ rest))

/-- RFC 1123 form: `Wed, 15 Nov 1995 06:25:24 GMT`. -/
def renderRfc1123 (d : HttpDate) : Str :=
  weekdayName d ++ ',' :: ' ' :: (twoDigits d.day ++ ' ' :: (monthName d ++ ' ' ::
    (fourDigits d.year ++ ' ' :: timeOfDay d " GMT".toList)))

/-- Two-digit-year hyphenated form: `Wed, 15-Nov-95 06:25:24 GMT`. -/
def renderTwoDigitYear (d : HttpDate) : Str :=
  weekdayName d ++ ',' :: ' ' :: (twoDigits d.day ++ '-' :: (monthName d ++ '-' ::
    (twoDigits d.year ++ ' ' :: timeOfDay d " GMT".toList)))

/-- The form of ANSI C `asctime`: `Wed Nov 15 06:25:24 1995`, the day padded with a
space. -/
def renderAsctime (d : HttpDate) : Str :=
  weekdayName d ++ ' ' :: (monthName d ++ ' ' ::
    ((if d.day < 10 then [' ', digitChar d.day] else twoDigits d.day) ++ ' ' ::
      timeOfDay d (' ' :: fourDigits d.year)))

/-- Four-digit-year hyphenated form: `Wed, 15-Nov-1995 06:25:24 GMT`. -/
def renderHyphenated (d : HttpDate) : Str :=
  weekdayName d ++ ',' :: ' ' :: (twoDigits d.day ++ '-' :: (monthName d ++ '-' ::
    (fourDigits d.year ++ ' ' :: timeOfDay d " GMT".toList)))

/-- The form with the zone `-0000`: `Wed, 15 Nov 1995 06:25:24 -0000`. -/
def renderZone0000 (d : HttpDate) : Str :=
  weekdayName d ++ ',' :: ' ' :: (twoDigits d.day ++ ' ' :: (monthName d ++ ' ' ::
    (fourDigits d.year ++ ' ' :: timeOfDay d " -0000".toList)))

/-- The `struct tm` of a date: months from 0, years from 1900. -/
def HttpDate.toTm (d : HttpDate) : Tm :=
  { tm_sec := d.second, tm_min := d.minute, tm_hour := d.hour, tm_mday := d.day,
    tm_mon := d.month, tm_year := (d.year : Int) - 1900, tm_wday := d.wday }

/-- The five `strptime` formats of the `expires` branch of `addHeader`, in the order they
are tried. -/
def httpDateFormats : List Str :=
  ["%a, %d %b %Y %T GMT".toList, "%a, %d-%b-%y %T GMT".toList, "%a %b %d %T %Y".toList,
   "%a, %d-%b-%Y %T GMT".toList, "%a, %d %b %Y %T -0000".toList]

/-- The text `value` is the date `d` written in one of the five accepted forms; in the
two-digit-year form the year is one of 1969..2068, the years `%y` can denote. -/
def IsHttpDate (value : Str) (d : HttpDate) : Prop :=
  d.Valid ∧
    (value = renderRfc1123 d ∨ (value = renderTwoDigitYear d ∧ 1969 ≤ d.year ∧ d.year ≤ 2068) ∨
      value = renderAsctime d ∨ value = renderHyphenated d ∨ value = renderZone0000 d)

/-- The raw headers named `Set-Cookie`, in any letter case, in arrival order. -/
def setCookieHeaders (rawHeaders : List RawHeader) : List RawHeader :=
  rawHeaders.filter (fun h => toLower h.name = "set-cookie".toList)

/-- What reading the inside of a quoted string from left to right finds, a backslash
escaping the byte after it: the text with the escaping backslashes removed, a `"` that no
backslash escapes, or a last backslash with nothing after it (with the text before it). -/
inductive QuotedText where
  | text (x : Str)
  | bareQuote
  | dangling (x : Str)
  deriving DecidableEq, Repr

/-- Puts one more byte in front of the text read. -/
def QuotedText.cons (c : Char) : QuotedText → QuotedText
  | .text x => .text (c :: x)
  | .bareQuote => .bareQuote
  | .dangling x => .dangling (c :: x)

/-- Reads the inside of a quoted string: `\c` stands for `c`, any other byte but `"` for
itself. -/
def readQuoted : Str → QuotedText
  | [] => .text []
  | c :: cs =>
    if c = '\\' then
      match cs with
      | [] => .dangling []
      | d :: ds => (readQuoted ds).cons d
    else if c = '"' then .bareQuote
    else (readQuoted cs).cons c

/-- The text `s` with a backslash put before every `"` and every backslash. -/
def escapeQuoted : Str → Str
  | [] => []
  | c :: cs =>
    if c = '"' ∨ c = '\\' then '\\' :: c :: escapeQuoted cs else c :: escapeQuoted cs

/-- The text `x` between double quotes, after `W/` when `weak`. -/
def quotedETag (weak : Bool) (x : Str) : Str :=
  (if weak then "W/".toList else []) ++ '"' :: x ++ ['"']

/-- The text of an ETag after its optional `W/` prefix. -/
def afterWeakPrefix (trimmed : Str) : Str :=
  if startsWith trimmed "W/".toList then trimmed.drop 2 else trimmed

/-- A parameter value in double quotes, as the `content-disposition` branch tests it. -/
def IsQuoted (t : Str) : Prop := 2 ≤ t.length ∧ t.head? = some '"' ∧ t.getLast? = some '"'

instance IsQuoted.decidable (t : Str) : Decidable (IsQuoted t) := by
  unfold IsQuoted
  infer_instance

/-- The body chunks that the callback `on_body` delivers during `actions`, in order. -/
def bodyChunks : List ParserAction → List Str
  | [] => []
  | .on_body data :: as => data :: bodyChunks as
  | _ :: as => bodyChunks as

/-- The body chunks delivered during the reads, in order. -/
def readsBodyChunks : List Read → List Str
  | [] => []
  | r :: rs => bodyChunks r.actions ++ readsBodyChunks rs

/-- The parser after the reads `pre`, when `readResponse` asks for another read after each
of them. -/
def afterReads (p : HttpParser) : List Read → Option HttpParser
  | [] => some p
  | r :: rs =>
    match readResponseStep p r with
    | .again p1 => afterReads p1 rs
    | _ => none

/-- The condition under which a read switches the response to streaming: the parser
consumed all bytes of the read, signalled no upgrade, the read was not empty, the message is
not complete, the headers are complete and the status code is in 200..299.  The parser `p1`
is the one the read leaves. -/
def StreamingRead (p1 : HttpParser) (r : Read) : Prop :=
  r.nread = r.data.length ∧ p1.upgrade = false ∧ r.data ≠ [] ∧ p1.messageComplete = false ∧
    p1.headersComplete = true ∧ 200 ≤ p1.status_code ∧ p1.status_code ≤ 299

/-- The parser after the reads `pre`, when each of them parses without error, consumes all
its bytes, is not empty and leaves the message incomplete, so that `pumpStreamInternal` reads
on. -/
def afterPumpReads (p : HttpParser) : List Read → Option HttpParser
  | [] => some p
  | r :: rs =>
    match http_parser_execute p r.actions with
    | (p1, none) =>
      if r.nread = r.data.length ∧ p1.messageComplete = false ∧ r.data ≠ [] then
        afterPumpReads p1 rs
      else none
    | (_, some _) => none

/-- The value of a hexadecimal digit, in either letter case. -/
def hexDigitValue (c : Char) : Option Nat :=
  if 48 ≤ c.toNat ∧ c.toNat ≤ 57 then some (c.toNat - 48)
  else if 97 ≤ c.toNat ∧ c.toNat ≤ 102 then some (c.toNat - 87)
  else if 65 ≤ c.toNat ∧ c.toNat ≤ 70 then some (c.toNat - 55)
  else none

/-- The value of a decimal digit. -/
def decimalDigitValue (c : Char) : Option Nat :=
  if 48 ≤ c.toNat ∧ c.toNat ≤ 57 then some (c.toNat - 48) else none

/-- The number that the digits `s` denote to the base `base` after digits of value `acc`;
`none` when a character is not a digit. -/
def numeralValueFrom (base : Nat) (value : Char → Option Nat) (acc : Nat) : Str → Option Nat
  | [] => some acc
  | c :: cs =>
    match value c with
    | none => none
    | some d => numeralValueFrom base value (acc * base + d) cs

/-- The text `s` is the numeral of `n` to the base `base` without leading zeros: one digit
at least, only digits, of value `n`, and a first digit `0` only for `0` itself. -/
def IsNumeral (base : Nat) (value : Char → Option Nat) (s : Str) (n : Nat) : Prop :=
  s ≠ [] ∧ numeralValueFrom base value 0 s = some n ∧ (s.head? = some '0' → s = ['0'])

/-- The text `s` is the hexadecimal numeral of `n` without leading zeros. -/
def IsHexNumeral (s : Str) (n : Nat) : Prop := IsNumeral 16 hexDigitValue s n

/-- The text `s` is the decimal numeral of `n` without leading zeros. -/
def IsDecimalNumeral (s : Str) (n : Nat) : Prop := IsNumeral 10 decimalDigitValue s n

/-- The header block that ends with `base`, CR LF and the empty line, with the line `line`
put before the empty line. -/
def withHeaderLine (base line : Str) : Str :=
  base ++ "\r\n".toList ++ line ++ "\r\n".toList ++ "\r\n".toList

/-- Decoding of an HTTP/1.1 chunked body without chunk extensions and trailers: each chunk
is its size in hexadecimal, CR LF, that many bytes, CR LF, and a chunk of size zero ends the
body.  The result is the body and the bytes that follow its last chunk; `none` when the
input is not a complete chunked body.  The argument `fuel` bounds the number of chunks. -/
def decodeChunks : Nat → Str → Option (Str × Str)
  | 0, _ => none
  | fuel + 1, input =>
    let digits := input.takeWhile (fun c => (hexDigitValue c).isSome)
    match numeralValueFrom 16 hexDigitValue 0 digits,
        input.dropWhile (fun c => (hexDigitValue c).isSome) with
    | some size, '\r' :: '\n' :: rest =>
      if digits = [] then none
      else if size = 0 then
        match rest with
        | '\r' :: '\n' :: after => some ([], after)
        | _ => none
      else if (rest.drop size).take 2 = "\r\n".toList then
        match decodeChunks fuel (rest.drop (size + 2)) with
        | some (body, after) => some (rest.take size ++ body, after)
        | none => none
      else none
    | _, _ => none

/-- Decoding of a chunked body: the body and the bytes that follow it. -/
def decodeChunked (input : Str) : Option (Str × Str) := decodeChunks (input.length + 1) input

/-- The data of the `write` calls among `cs`, in call order. -/
def writtenData : List Call → List Str
  | [] => []
  | .write data :: cs => data :: writtenData cs
  | _ :: cs => writtenData cs

/-- What a call appends to the writes once the header block is sent. -/
def sentAfterHeaders (t : RequestStreamImpl) : Call → List Str
  | .write data =>
    if (write t data).2 = none then
      if t.isChunked then [hex data.length ++ "\r\n".toList, data, "\r\n".toList] else [data]
    else []
  | .done => if (done t).2 = none ∧ t.isChunked = true then ["0\r\n\r\n".toList] else []
  | .expectSize _ => []

/-- The state after the calls `cs`, made one after the other whether or not they throw. -/
def callsAny (s : RequestStreamImpl) : List Call → RequestStreamImpl
  | [] => s
  | c :: cs => callsAny (call s c).1 cs

/-- The names, in configuration order, of the configured permissions whose index is within
both lists and whose user bit is set. -/
def grantedPermissions (configPermissions : List Str) (userPermissions : List Bool) : List Str :=
  ((List.range configPermissions.length).filter
    (fun i => decide (i < userPermissions.length) && userPermissions.getD i false)).map
    (fun i => configPermissions.getD i [])

/-- The name of a header line: the text before its first colon. -/
def headerName (line : Str) : Str := line.takeWhile (fun c => c != ':')

/-- The lines among `lines` whose header name is `name`, in order. -/
def linesNamed (name : String) (lines : List Str) : List Str :=
  lines.filter (fun line => headerName line = name.toList)

/-- The names of the lines that `addCommonHeaders` adds for the session itself, outside the
user block, the `Accept` line and the precondition. -/
def sessionNames : List Str :=
  ["User-Agent".toList, "X-Sandstorm-Tab-Id".toList, "X-Sandstorm-Username".toList,
   "X-Sandstorm-Permissions".toList, "X-Sandstorm-Base-Path".toList, "Host".toList,
   "X-Forwarded-Proto".toList, "X-Sandstorm-Session-Id".toList, "X-Real-IP".toList,
   "Cookie".toList, []]

/-- The five methods whose request carries a content, with the name of the HTTP method. -/
def contentMethods : List (String ×
    (Environment → WebSessionImpl → Str → Context → RequestContent → Except Failure Str)) :=
  [("POST", post), ("PUT", put), ("PATCH", patch), ("MKCOL", mkcol), ("REPORT", report)]

/-- The `Content-Encoding` line of a content, if it has an encoding. -/
def encodingLines (content : RequestContent) : List Str :=
  match content.encoding with
  | some encoding => ["Content-Encoding: ".toList ++ encoding]
  | none => []

/-- The number of requests among `events` for which `newSession` builds a `WebSessionImpl`
and advances its counter: those for a web session, and those for an API session when the
configuration has an API path.  A request whose constructor throws is counted. -/
def sessionRequests (config : BridgeConfig) (events : List HostAction) : Nat :=
  (events.filter (fun a =>
    match a with
    | .newSession params =>
      decide (params.sessionType = .webSession ∨
        (0 < config.apiPath.length ∧ params.sessionType = .apiSession))
    | .dropSession _ => false)).length

/-- What holds of the bridge between two actions of the host, `past` being the actions so
far: the identifiers of the live sessions are the decimal numerals of distinct earlier
values of the counter, the map holds for each live session its context under its
identifier and has no other key, and the context is the one supplied with the request for
the session. -/
structure SessionInvariant (past : List HostAction) (b : BridgeState) : Prop where
  ids : ∀ s ∈ b.sessions, ∃ n, n < b.sessionIdCounter ∧ s.sessionId = decimal n
  distinct : b.sessions.Pairwise (fun s t => s.sessionId ≠ t.sessionId)
  live : ∀ s ∈ b.sessions, b.sessionContextMap s.sessionId = some s.sessionContext
  keys : ∀ id c, b.sessionContextMap id = some c → ∃ s ∈ b.sessions, s.sessionId = id
  supplied : ∀ s ∈ b.sessions, ∃ params, HostAction.newSession params ∈ past ∧
    (params.sessionType = .webSession ∨ params.sessionType = .apiSession) ∧
    s.sessionContext = params.context

/-- The bridge after the first `k` of the actions `events`. -/
def bridgeAfter (config : BridgeConfig) (events : List HostAction) (k : Nat) : BridgeState :=
  hostActions config BridgeState.init (events.take k)

/-- The identity id of the user, if there is one, has the 32 bytes of a SHA-256. -/
def IdentityIdFits (userInfo : UserInfo) : Prop :=
  ∀ id, userInfo.identityId = some id → id.length = 32

instance IdentityIdFits.decidable (userInfo : UserInfo) : Decidable (IdentityIdFits userInfo) := by
  unfold IdentityIdFits
  cases userInfo.identityId with
  | none => exact isTrue (fun id h => by cases h)
  | some x =>
    by_cases hx : x.length = 32
    · exact isTrue (fun id h => by cases h; exact hx)
    · exact isFalse (fun h => hx (h x rfl))

/-- The elements of a `DAV` header value that are not the class `1`, `2` or `3`. -/
def davExtensionsOf (elements : List Str) : List Str :=
  elements.filter
    (fun t => decide (t ≠ "1".toList) && decide (t ≠ "2".toList) && decide (t ≠ "3".toList))

/-- The message that an event hands to `sendBytes`, if it is a call of the host. -/
def hostMessage : PumpEvent → List Str
  | .sendBytes message => [message]
  | _ => []

/-- The messages of the `sendBytes` calls of the host among `events`, in call order. -/
def hostMessages (events : List PumpEvent) : List Str := events.flatMap hostMessage

/-- The bytes that a read of `pump` delivers, if the event is such a read and not the end of
the file. -/
def childRead : PumpEvent → List Str
  | .read data => if data = [] then [] else [data]
  | _ => []

/-- The bytes of the reads from the child among `events`, in the order of the reads. -/
def childReads (events : List PumpEvent) : List Str := events.flatMap childRead

/-- What holds of a pump whose host has called `sendBytes` with `messages`: the promises
carry these messages and each is chained on the one before it; the writes made on the
server stream are the first messages, in order; the promises before the last write are
fulfilled, the promise of the last write has left the state `waiting`, and those after it
wait or are rejected. -/
structure PumpInvariant (messages : List Str) (w : WebSocketPump) : Prop where
  carried : w.promises.map (fun q => q.message) = messages
  chained : ∀ i q, w.promises.get? i = some q →
    q.after = if i = 0 then none else some (i - 1)
  upstream : w.upstreamOp =
    if w.promises.length = 0 then none else some (w.promises.length - 1)
  started : w.serverWrites.length ≤ w.promises.length
  writes : w.serverWrites = messages.take w.serverWrites.length
  before : ∀ i q, i + 1 < w.serverWrites.length → w.promises.get? i = some q →
    q.state = .fulfilled
  last : ∀ q, 0 < w.serverWrites.length →
    w.promises.get? (w.serverWrites.length - 1) = some q → q.state ≠ .waiting
  later : ∀ i q, w.serverWrites.length ≤ i → w.promises.get? i = some q →
    q.state = .waiting ∨ q.state = .rejected

/-- The bytes that `percentEncode` copies: ASCII letters, digits, `-`, `_`, `.` and `~`. -/
def isUnreserved (c : Char) : Bool :=
  decide (('A' ≤ c ∧ c ≤ 'Z') ∨ ('a' ≤ c ∧ c ≤ 'z') ∨ ('0' ≤ c ∧ c ≤ '9') ∨
    c = '-' ∨ c = '_' ∨ c = '.' ∨ c = '~')

/-- Percent-decoding: `%` followed by two hexadecimal digits stands for the byte of that
value, any other byte for itself; `none` when a `%` is not followed by two hexadecimal
digits. -/
def percentDecode : Str → Option Str
  | [] => some []
  | c :: rest =>
    if c = '%' then
      match rest with
      | high :: low :: rest2 =>
        match hexDigitValue high, hexDigitValue low, percentDecode rest2 with
        | some h, some l, some decoded => some (Char.ofNat (16 * h + l) :: decoded)
        | _, _, _ => none
      | _ => none
    else
      match percentDecode rest with
      | some decoded => some (c :: decoded)
      | none => none

/-- The digit of `genRandomString` for a value below 64. -/
def digitOf (i : Nat) : Char := DIGITS.getD i (Char.ofNat 0)

/-- The values of the four digits that `genRandomString` makes of three bytes, the first
byte in the lowest bits. -/
def groupDigits (b0 b1 b2 : Nat) : List Nat :=
  [b0 % 64, (b0 / 64 + b1 * 4) % 64, ((b0 / 64 + b1 * 4) / 64 + b2 * 16) % 64,
   ((b0 / 64 + b1 * 4) / 64 + b2 * 16) / 64 % 64]

/-- The values of the 22 digits that `genRandomString` makes of 16 bytes. -/
def stringDigits (b : List Nat) : List Nat :=
  groupDigits (b.getD 0 0) (b.getD 1 0) (b.getD 2 0) ++
  groupDigits (b.getD 3 0) (b.getD 4 0) (b.getD 5 0) ++
  groupDigits (b.getD 6 0) (b.getD 7 0) (b.getD 8 0) ++
  groupDigits (b.getD 9 0) (b.getD 10 0) (b.getD 11 0) ++
  groupDigits (b.getD 12 0) (b.getD 13 0) (b.getD 14 0) ++
  [b.getD 15 0 % 64, b.getD 15 0 / 64 % 64]

/-- The calls `cs` are calls of `write` and `expectSize`, and every `expectSize` among them,
made when `received` bytes and those of the writes before it were received, declares the
total `total`: the bytes received so far and its size add up to `total`. -/
def DeclaresTotal (total : Nat) : Nat → List Call → Prop
  | _, [] => True
  | received, .write data :: cs => DeclaresTotal total (received + data.length) cs
  | received, .expectSize size :: cs => received + size = total ∧ DeclaresTotal total received cs
  | _, .done :: _ => False

instance DeclaresTotal.decidable (total : Nat) :
    (received : Nat) → (cs : List Call) → Decidable (DeclaresTotal total received cs)
  | _, [] => isTrue trivial
  | received, .write data :: cs => DeclaresTotal.decidable total (received + data.length) cs
  | received, .expectSize size :: cs =>
    match Nat.decEq (received + size) total, DeclaresTotal.decidable total received cs with
    | isTrue h1, isTrue h2 => isTrue ⟨h1, h2⟩
    | isFalse h1, _ => isFalse (fun h => h1 h.1)
    | _, isFalse h2 => isFalse (fun h => h2 h.2)
  | _, .done :: _ => isFalse (fun h => h)

/-! ## Examples used by the closed statements -/

/-- A success enum in the shape of the schema: ok, created, accepted. -/
def exampleSuccessCodes : List Enumerant := [⟨0, 200⟩, ⟨1, 201⟩, ⟨2, 202⟩]

/-- A client-error enum in the shape of the schema: badRequest, forbidden, notFound. -/
def exampleClientErrorCodes : List Enumerant := [⟨0, 400⟩, ⟨1, 403⟩, ⟨2, 404⟩]

/-- The status codes `makeStatusCodes` assigns itself, after the schema loops. -/
def fixedStatusCodes : List Nat := [204, 205, 304, 301, 302, 303, 307, 308, 412]

/-- The parser after the header callbacks of a response with status 200 and the headers
`Vary: a`, `Set-Cookie: x=y`, `vary: b`. -/
def exampleVaryParser : HttpParser :=
  onHeaderValue (onHeaderField (onHeaderValue (onHeaderField (onHeaderValue (onHeaderField
    { HttpParser.init with status_code := 200 }
    "Vary".toList) "a".toList) "Set-Cookie".toList) "x=y".toList) "vary".toList) "b".toList

/-- The parser `p` after its `onHeadersComplete` call, when that call succeeds. -/
def headersDone (p : HttpParser) : HttpParser :=
  match onHeadersComplete p with
  | .ok p1 => p1
  | .error _ => p

/-- The parser after the header callbacks of `HTTP/1.1 200 OK`, `Content-Type: text/plain`,
`Content-Length: 5`. -/
def exampleHelloParser : HttpParser :=
  onHeaderValue (onHeaderField (onHeaderValue (onHeaderField
    (onStatus { HttpParser.init with status_code := 200 } "OK".toList)
    "Content-Type".toList) "text/plain".toList) "Content-Length".toList) "5".toList

/-- The parser after the header callbacks of a 200 response with the header `ETag: abc`,
an entity tag without quotes. -/
def exampleBadETagParser : HttpParser :=
  onHeaderValue (onHeaderField { HttpParser.init with status_code := 200 } "ETag".toList)
    "abc".toList

/-- The parser after the header callbacks of `HTTP/1.1 301 Moved`, `Location: /x`. -/
def exampleRedirectParser : HttpParser :=
  onHeaderValue (onHeaderField
    (onStatus { HttpParser.init with status_code := 301 } "Moved".toList)
    "Location".toList) "/x".toList

/-- The parser after the header callbacks of a 200 response with the header
`Set-Cookie: a=b; Max-Age=-1`. -/
def exampleSignedMaxAgeParser : HttpParser :=
  onHeaderValue (onHeaderField { HttpParser.init with status_code := 200 }
    "Set-Cookie".toList) "a=b; Max-Age=-1".toList

/-- The date `Wed, 15 Nov 1995 06:25:24`. -/
def exampleDate : HttpDate := ⟨3, false, 1995, 10, 15, 6, 25, 24⟩

/-- A NUL byte followed by `x`. -/
def nulThenX : Str := [Char.ofNat 0, 'x']

/-- A response with two `Set-Cookie` headers, the first with commas in its value, around a
`Vary` header. -/
def exampleCookiesParser : HttpParser :=
  { HttpParser.init with
    status_code := 200,
    rawHeaders :=
      [⟨"Set-Cookie".toList, "a=1, 2; Expires=Wed, 15 Nov 1995 06:25:24 GMT".toList⟩,
       ⟨"Vary".toList, "Accept".toList⟩,
       ⟨"set-cookie".toList, "b=2".toList⟩] }

/-- A read whose bytes the HTTP parser consumes entirely. -/
def fullRead (data : String) (actions : List ParserAction) : Read :=
  ⟨data.toList, actions, data.toList.length⟩

/-- The first read of a `200` response: the status line and one header. -/
def exampleHeadRead : Read :=
  fullRead "HTTP/1.1 200 OK\r\nContent-Type: text/plain\r\n"
    [.setStatusCode 200, .on_status "OK".toList, .on_header_field "Content-Type".toList,
     .on_header_value "text/plain".toList]

/-- The second read: the end of the headers and the first body bytes. -/
def exampleBodyRead : Read :=
  fullRead "\r\nhel" [.on_headers_complete, .on_body "hel".toList]

/-- The third read: more body bytes. -/
def exampleTailRead : Read := fullRead "lo" [.on_body "lo".toList]

/-- The end of the file, where the HTTP parser reports the message complete. -/
def exampleEofRead : Read := fullRead "" [.on_message_complete]

/-- The parser after `exampleHeadRead`. -/
def exampleHeadParser : HttpParser :=
  (http_parser_execute HttpParser.init exampleHeadRead.actions).1

/-- The parser after `exampleHeadRead` and the actions of `exampleBodyRead`. -/
def exampleBodyParser : HttpParser :=
  (http_parser_execute exampleHeadParser exampleBodyRead.actions).1

/-- The parser that `readResponse` returns for the example: switched to streaming. -/
def exampleStreamingParser : HttpParser := { exampleBodyParser with isStreaming := true }

/-- A read after which the HTTP parser reports an upgrade, three bytes unconsumed. -/
def exampleUpgradeRead : Read :=
  ⟨"HTTP/1.1 101 Switching Protocols\r\nUpgrade: websocket\r\n\r\nabc".toList,
   [.setStatusCode 101, .on_status "Switching Protocols".toList,
    .on_header_field "Upgrade".toList, .on_header_value "websocket".toList, .setUpgrade true,
    .on_headers_complete, .on_message_complete], 56⟩

/-- The parser after the actions of `exampleUpgradeRead`. -/
def exampleUpgradeParser : HttpParser :=
  (http_parser_execute HttpParser.init exampleUpgradeRead.actions).1

/-- A read that is not HTTP: the HTTP parser stops at its first byte. -/
def exampleGarbageRead : Read := ⟨"garbage".toList, [], 0⟩

/-- A header block as `makeHeaders` produces it, without its final empty line. -/
def exampleRequestBase : Str := "POST /upload HTTP/1.1\r\nHost: sandbox".toList

/-- The pending header block of the example request. -/
def exampleRequest : Str := exampleRequestBase ++ "\r\n\r\n".toList

/-- An upload in chunked mode with a write of no bytes between two writes. -/
def exampleUpload : List Call :=
  [.write "ab".toList, .write [], .write "cd".toList, .done]

/-- A request stream on which `expectSize(5)` and a write of three bytes were made. -/
def exampleExpecting : RequestStreamImpl :=
  (write (expectSize (RequestStreamImpl.init exampleRequest) 5).1 "abc".toList).1

/-- A session of a user without an account, as `newSession` builds it for a web session. -/
def exampleSession : WebSessionImpl :=
  { sessionContext := 7, sessionId := "0".toList, tabId := "ab12".toList,
    userDisplayName := "Alice".toList, userHandle := [], userPicture := [], userPronouns := 0,
    userId := none, permissions := "read,write".toList, basePath := [],
    userAgent := "curl".toList, acceptLanguages := [], rootPath := "/".toList,
    remoteAddress := none }

/-- Helpers that always throw and the pronoun names of the schema, for sessions without a
base path. -/
def exampleEnvironment : Environment :=
  { extractHostFromUrl := fun _ => .error .helperFailed,
    extractProtocolFromUrl := fun _ => .error .helperFailed,
    pronounNames := ["neutral".toList, "he".toList, "she".toList, "they".toList, "it".toList] }

/-- A session of a user with an account who gave no handle, no picture and no pronouns. -/
def exampleUserSession : WebSessionImpl :=
  { exampleSession with userId := some "00112233445566778899aabbccddeeff".toList }

/-- A request context with nothing in it. -/
def exampleContext : Context := ⟨[], [], [], .NONE⟩

/-- A request context whose accept list is the one element `*/*` of quality 1. -/
def exampleAcceptAll : Context :=
  { exampleContext with accept := [⟨"*/*".toList, ⟨true, "1".toList⟩⟩] }

/-- The header lines of a `GET` for the example session with an empty context or with the
accept list `*/*`. -/
def exampleHeaderLines : List Str :=
  ["GET /index.html HTTP/1.1".toList, "Connection: close".toList,
   "Accept-Encoding: gzip".toList, "User-Agent: curl".toList,
   "X-Sandstorm-Tab-Id: ab12".toList, "X-Sandstorm-Username: Alice".toList,
   "X-Sandstorm-Permissions: read,write".toList, "Host: sandbox".toList,
   "X-Sandstorm-Session-Id: 0".toList, "Accept: */*".toList, [], []]

/-- A session of a user with an account, a handle, a picture and the pronouns of ordinal 2. -/
def exampleFullSession : WebSessionImpl :=
  { exampleUserSession with
    userHandle := "alice".toList, userPicture := "https://x/a.png".toList, userPronouns := 2 }

/-- The lines that `addCommonHeaders` adds for the session with a handle, a picture and
pronouns. -/
def exampleFullLines : List Str :=
  ["User-Agent: curl".toList, "X-Sandstorm-Tab-Id: ab12".toList,
   "X-Sandstorm-Username: Alice".toList,
   "X-Sandstorm-User-Id: 00112233445566778899aabbccddeeff".toList,
   "X-Sandstorm-Preferred-Handle: alice".toList,
   "X-Sandstorm-User-Picture: https://x/a.png".toList,
   "X-Sandstorm-User-Pronouns: she".toList,
   "X-Sandstorm-Permissions: read,write".toList, "Host: sandbox".toList,
   "X-Sandstorm-Session-Id: 0".toList, "Accept: */*".toList, [], []]

/-- The lines that `addCommonHeaders` adds for the session of a user with an account and
neither handle, picture nor pronouns. -/
def exampleUserLines : List Str :=
  ["User-Agent: curl".toList, "X-Sandstorm-Tab-Id: ab12".toList,
   "X-Sandstorm-Username: Alice".toList,
   "X-Sandstorm-User-Id: 00112233445566778899aabbccddeeff".toList,
   "X-Sandstorm-Permissions: read,write".toList, "Host: sandbox".toList,
   "X-Sandstorm-Session-Id: 0".toList, "Accept: */*".toList, [], []]

/-- A request for a web session by a user without an account whose permission bits are
true, false, true, true. -/
def examplePermissionParams : NewSessionParams :=
  { sessionType := .webSession,
    userInfo := ⟨"Alice".toList, [], [], 0, none, [true, false, true, true]⟩,
    context := 7, tabId := "t".toList, basePath := [], userAgent := [],
    acceptableLanguages := [], remoteAddress := none }

/-- A request context without a precondition whose additional headers hold an `If-Match`
header. -/
def exampleAdditionalIfMatch : Context :=
  { exampleContext with additionalHeaders := [⟨"If-Match".toList, "*".toList⟩] }

/-- A request context with the precondition that the ETag is one of a strong and a weak
one. -/
def examplePrecondition : Context :=
  { exampleContext with
    eTagPrecondition := .MATCHES_ONE_OF [⟨"v1".toList, false⟩, ⟨"v2".toList, true⟩] }

/-- A content of two bytes without an encoding. -/
def examplePlainContent : RequestContent := ⟨"text/plain".toList, "hi".toList, none⟩

/-- A content of two bytes with the encoding `gzip`. -/
def exampleEncodedContent : RequestContent :=
  ⟨"text/plain".toList, "hi".toList, some "gzip".toList⟩

/-- A request context whose additional headers hold a `Content-Encoding` header. -/
def exampleAdditionalEncoding : Context :=
  { exampleContext with additionalHeaders := [⟨"Content-Encoding".toList, "br".toList⟩] }

/-- The header lines of a `POST` of the content with the encoding `gzip` for the example
session. -/
def examplePostLines : List Str :=
  ["POST /upload HTTP/1.1".toList, "Connection: close".toList,
   "Content-Type: text/plain".toList, "Content-Length: 2".toList,
   "Content-Encoding: gzip".toList,
   "Accept-Encoding: gzip".toList, "User-Agent: curl".toList,
   "X-Sandstorm-Tab-Id: ab12".toList, "X-Sandstorm-Username: Alice".toList,
   "X-Sandstorm-Permissions: read,write".toList, "Host: sandbox".toList,
   "X-Sandstorm-Session-Id: 0".toList, "Accept: */*".toList, [], []]

/-- The header lines of a `POST` of the content without an encoding for the example session,
with the additional header `Content-Encoding: br`. -/
def exampleAdditionalPostLines : List Str :=
  ["POST /upload HTTP/1.1".toList, "Connection: close".toList,
   "Content-Type: text/plain".toList, "Content-Length: 2".toList,
   "Accept-Encoding: gzip".toList, "User-Agent: curl".toList,
   "X-Sandstorm-Tab-Id: ab12".toList, "X-Sandstorm-Username: Alice".toList,
   "X-Sandstorm-Permissions: read,write".toList, "Host: sandbox".toList,
   "X-Sandstorm-Session-Id: 0".toList, "Accept: */*".toList,
   "Content-Encoding: br".toList, [], []]

/-- A configuration with an API path and the permissions `read` and `write`. -/
def exampleConfig : BridgeConfig := ⟨"/api".toList, ["read".toList, "write".toList]⟩

/-- A request for a web session with the context 7, a request for an API session with the
context 8, then the drop of the older of the two sessions. -/
def exampleEvents : List HostAction :=
  [.newSession
     { sessionType := .webSession, userInfo := ⟨"Alice".toList, [], [], 0, none, [true]⟩,
       context := 7, tabId := "t".toList, basePath := [], userAgent := [],
       acceptableLanguages := [], remoteAddress := none },
   .newSession
     { sessionType := .apiSession, userInfo := ⟨"Bob".toList, [], [], 0, none, [true]⟩,
       context := 8, tabId := "u".toList, basePath := [], userAgent := [],
       acceptableLanguages := [], remoteAddress := none },
   .dropSession 0]

/-- A request for a web session by a user whose identity id has three bytes. -/
def exampleShortIdentity : NewSessionParams :=
  { sessionType := .webSession,
    userInfo := ⟨"Alice".toList, [], [], 0, some "abc".toList, [true]⟩,
    context := 7, tabId := "t".toList, basePath := [], userAgent := [],
    acceptableLanguages := [], remoteAddress := none }

/-- A request for a session of a type that is neither web, API nor e-mail. -/
def exampleOtherType : NewSessionParams :=
  { exampleShortIdentity with sessionType := .other }

/-- A parser with the status 101 and the header `Sec-WebSocket-Protocol: chat , superchat`. -/
def exampleWebSocketParser : HttpParser :=
  { HttpParser.init with
    status_code := 101, upgrade := true,
    headers := fun k =>
      if k = "sec-websocket-protocol".toList then
        some ⟨"sec-websocket-protocol".toList, "chat , superchat".toList⟩
      else none }

/-- A parser with the status 200 and the header `DAV: 1, 3 ,calendar-access,1` whose upgrade
flag is `upgrade`. -/
def exampleDavParser (upgrade : Bool) : HttpParser :=
  { HttpParser.init with
    status_code := 200, upgrade := upgrade,
    headers := fun k =>
      if k = "dav".toList then some ⟨"dav".toList, "1, 3 ,calendar-access,1".toList⟩
      else none }

/-- A host that sends `x` and `y` while the first write is not complete, and a child that
sends `hi` and closes. -/
def examplePumpEvents : List PumpEvent :=
  [.sendBytes "x".toList, .run 0, .sendBytes "y".toList, .read "hi".toList, .complete 0,
   .run 1, .read [], .complete 1]

/-- Sixteen bytes: 0, 1, .., 14 and 255. -/
def exampleRandomBytes : List Nat := [0, 1, 2, 3, 4, 5, 6, 7, 8, 9, 10, 11, 12, 13, 14, 255]

/-- A streaming request in identity mode: `expectSize(5)`, then `expectSize(3)`, then a
write of three bytes. -/
def exampleResized : List Call := [.expectSize 5, .expectSize 3, .write "abc".toList]

/-- A streaming request in identity mode: `expectSize(5)`, a write of three bytes,
`expectSize(2)`, a write of two bytes. -/
def exampleDeclared : List Call :=
  [.expectSize 5, .write "abc".toList, .expectSize 2, .write "de".toList]

/-- A read with the whole head of a `101` response that sets the upgrade flag, and no byte
after it. -/
def exampleSwitchRead : Read :=
  ⟨"HTTP/1.1 101 Switching Protocols\r\nUpgrade: websocket\r\n\r\n".toList,
   [.setStatusCode 101, .on_status "Switching Protocols".toList,
    .on_header_field "Upgrade".toList, .on_header_value "websocket".toList, .setUpgrade true,
    .on_headers_complete, .on_message_complete], 56⟩

/-- The parser after the actions of `exampleSwitchRead`. -/
def exampleSwitchParser : HttpParser :=
  (http_parser_execute HttpParser.init exampleSwitchRead.actions).1

/-! ## The status table: lemmas -/

theorem foldl_set_of_not_mem (f : Enumerant → HttpStatusInfo) (l : List Enumerant)
    (m : StatusMap) (k : Nat) (h : ∀ e ∈ l, e.httpStatus ≠ k) :
    (l.foldl (fun r e => r.set e.httpStatus (f e)) m) k = m k := by
  induction l generalizing m with
  | nil => rfl
  | cons e l ih =>
    simp only [List.foldl_cons]
    rw [ih _ (fun e' he' => h e' (List.mem_cons_of_mem _ he'))]
    have : k ≠ e.httpStatus := fun hk => h e (List.mem_cons_self _ _) hk.symm
    simp [StatusMap.set, this]

theorem foldl_set_of_mem (f : Enumerant → HttpStatusInfo) (l : List Enumerant)
    (m : StatusMap) (k : Nat) (h : ∃ e ∈ l, e.httpStatus = k) :
    ∃ e ∈ l, e.httpStatus = k ∧ (l.foldl (fun r e => r.set e.httpStatus (f e)) m) k = some (f e) := by
  induction l generalizing m with
  | nil => simp at h
  | cons e l ih =>
    by_cases hl : ∃ e' ∈ l, e'.httpStatus = k
    · obtain ⟨e', he', hk, hv⟩ := ih (m.set e.httpStatus (f e)) hl
      exact ⟨e', List.mem_cons_of_mem _ he', hk, by simpa using hv⟩
    · have hne : ∀ e' ∈ l, e'.httpStatus ≠ k := fun e' he' hk => hl ⟨e', he', hk⟩
      obtain ⟨e', he', hk⟩ := h
      rcases List.mem_cons.mp he' with rfl | he'
      · refine ⟨e', List.mem_cons_self _ _, hk, ?_⟩
        simp only [List.foldl_cons]
        rw [foldl_set_of_not_mem f l _ k hne]
        simp [StatusMap.set, hk]
      · exact absurd hk (hne e' he')

theorem makeStatusCodes_of_not_fixed (successCodes clientErrorCodes : List Enumerant) (k : Nat)
    (hk : k ∉ fixedStatusCodes) :
    makeStatusCodes successCodes clientErrorCodes k =
      (clientErrorCodes.foldl (fun r e => StatusMap.set r e.httpStatus (.clientError e.ordinal))
        (successCodes.foldl (fun r e => StatusMap.set r e.httpStatus (.content e.ordinal))
          (fun _ => none))) k := by
  simp only [fixedStatusCodes, List.mem_cons, List.mem_singleton, not_or, List.not_mem_nil,
    or_false] at hk
  obtain ⟨h1, h2, h3, h4, h5, h6, h7, h8, h9⟩ := hk
  simp [makeStatusCodes, StatusMap.set, h1, h2, h3, h4, h5, h6, h7, h8, h9]

/-! ## Header folding: lemmas -/

theorem addHeader_findHeader (p p1 : HttpParser) (raw : RawHeader) (k : Str) (hk : k ≠ [])
    (hsc : k ≠ "set-cookie".toList) (hinv : HeadersKeyed p) (h : addHeader p raw = .ok p1) :
    HeadersKeyed p1 ∧
      findHeader p1 k =
        if toLower raw.name = k then foldValue (findHeader p k) raw.value else findHeader p k := by
  unfold addHeader at h
  generalize "set-cookie".toList = sc at *
  by_cases hname : toLower raw.name = sc
  · simp only [hname, if_true] at h
    have hne : ¬ (sc = k) := fun e => hsc e.symm
    cases hc : parseSetCookie raw.value with
    | error e => simp [hc] at h
    | ok c =>
      simp only [hc, Except.ok.injEq] at h
      subst h
      exact ⟨hinv, by simp [findHeader, hname, hne]⟩
  · simp only [hname, if_false, Except.ok.injEq] at h
    subst h
    constructor
    · intro k' h'
      simp only
      by_cases hk' : k' = toLower raw.name
      · simp only [hk', if_true, Option.some.injEq]
        intro hh
        subst hh
        cases hs : p.headers (toLower raw.name) with
        | none => simp [Option.getD]
        | some s =>
          have := hinv _ _ hs
          by_cases hsn : s.name = []
          · simp [Option.getD, hsn]
          · simp only [Option.getD, this]
            split <;> rfl
      · simp only [hk', if_false]
        exact hinv k' h'
    · by_cases hk' : toLower raw.name = k
      · subst hk'
        simp only [findHeader, if_true]
        cases hs : p.headers (toLower raw.name) with
        | none => simp [Option.getD, foldValue]
        | some s =>
          have := hinv _ _ hs
          have hsn : s.name ≠ [] := by rw [this]; exact hk
          simp [Option.getD, hsn, foldValue]
      · have hk'' : ¬ k = toLower raw.name := fun e => hk' e.symm
        simp [findHeader, hk', hk'']

theorem addHeaders_findHeader (raws : List RawHeader) (p p1 : HttpParser) (k : Str)
    (hk : k ≠ []) (hsc : k ≠ "set-cookie".toList) (hinv : HeadersKeyed p)
    (h : addHeaders p raws = .ok p1) :
    findHeader p1 k =
      ((raws.filter (fun h => toLower h.name = k)).map (fun h => h.value)).foldl foldValue
        (findHeader p k) := by
  induction raws generalizing p with
  | nil =>
    simp only [addHeaders, Except.ok.injEq] at h
    subst h
    rfl
  | cons r rs ih =>
    simp only [addHeaders] at h
    cases h1 : addHeader p r with
    | error e => simp [h1] at h
    | ok p2 =>
      simp only [h1] at h
      obtain ⟨hinv2, hf⟩ := addHeader_findHeader p p2 r k hk hsc hinv h1
      rw [ih p2 hinv2 h, hf]
      by_cases hn : toLower r.name = k
      · simp [List.filter_cons, hn]
      · simp [List.filter_cons, hn]

theorem foldl_foldValue_some (vs : List Str) (a : Str) :
    vs.foldl foldValue (some a) = some (commaJoined (a :: vs)) := by
  induction vs generalizing a with
  | nil => rfl
  | cons v vs ih =>
    simp only [List.foldl_cons, foldValue]
    rw [ih]
    cases vs with
    | nil => simp [commaJoined]
    | cons w ws => simp [commaJoined, List.append_assoc]

theorem foldl_foldValue_none (vs : List Str) :
    vs.foldl foldValue none = match vs with | [] => none | vs => some (commaJoined vs) := by
  cases vs with
  | nil => rfl
  | cons v vs => simp only [List.foldl_cons, foldValue]; exact foldl_foldValue_some vs v

theorem toLower_eq_nil (n : Str) : toLower n = [] ↔ n = [] := by
  simp [toLower]

theorem addHeaders_ok_of_cookies (raws : List RawHeader) (p : HttpParser)
    (h : ∀ r ∈ raws, toLower r.name = "set-cookie".toList →
      ∃ c, parseSetCookie r.value = .ok c) :
    ∃ p1, addHeaders p raws = .ok p1 ∧ p1.status_code = p.status_code := by
  induction raws generalizing p with
  | nil => exact ⟨p, rfl, rfl⟩
  | cons r rs ih =>
    have hr : ∃ p2, addHeader p r = .ok p2 ∧ p2.status_code = p.status_code := by
      unfold addHeader
      by_cases hname : toLower r.name = "set-cookie".toList
      · obtain ⟨c, hc⟩ := h r (List.mem_cons_self _ _) hname
        simp only [hname, if_true, hc]
        exact ⟨_, rfl, rfl⟩
      · simp only [hname, if_false]
        exact ⟨_, rfl, rfl⟩
    obtain ⟨p2, h2, hs2⟩ := hr
    obtain ⟨p3, h3, hs3⟩ := ih p2 (fun r' hr' => h r' (List.mem_cons_of_mem _ hr'))
    exact ⟨p3, by simp [addHeaders, h2, h3], by rw [hs3, hs2]⟩

theorem onHeadersComplete_findHeader (p p1 : HttpParser) (n : Str)
    (hfresh : ∀ k, p.headers k = none) (hn : n ≠ [])
    (hsc : toLower n ≠ "set-cookie".toList) (h : onHeadersComplete p = .ok p1) :
    findHeader p1 (toLower n) = foldedValue p.rawHeaders n := by
  unfold onHeadersComplete at h
  cases h1 : addHeaders p p.rawHeaders with
  | error e => simp [h1] at h
  | ok p2 =>
    simp only [h1] at h
    split at h
    · simp only [Except.ok.injEq] at h
      subst h
      have hinv : HeadersKeyed p := fun k h hk => by simp [hfresh k] at hk
      have hl : toLower n ≠ [] := fun e => hn ((toLower_eq_nil n).mp e)
      have hf := addHeaders_findHeader p.rawHeaders p p2 (toLower n) hl hsc hinv h1
      have h0 : findHeader p (toLower n) = none := by simp [findHeader, hfresh]
      rw [h0, foldl_foldValue_none] at hf
      simp only [foldedValue]
      exact hf
    · simp at h

theorem foldedValue_eq_none_iff (raws : List RawHeader) (n : Str) :
    foldedValue raws n = none ↔ ∀ h ∈ raws, toLower h.name ≠ toLower n := by
  rw [foldedValue]
  cases hm : (raws.filter (fun h => toLower h.name = toLower n)).map (fun h => h.value) with
  | nil =>
    simp only [true_iff]
    intro h hh he
    have : h ∈ raws.filter (fun h => toLower h.name = toLower n) := by
      simp [List.mem_filter, hh, he]
    simp only [List.map_eq_nil_iff] at hm
    rw [hm] at this
    simp at this
  | cons v vs =>
    simp only [false_iff, reduceCtorEq]
    intro hall
    have : raws.filter (fun h => toLower h.name = toLower n) = [] := by
      simp only [List.filter_eq_nil_iff, decide_eq_true_eq]
      exact hall
    simp [this] at hm

theorem onHeadersComplete_ok (p : HttpParser)
    (hc : ∀ r ∈ p.rawHeaders, toLower r.name = "set-cookie".toList →
      ∃ c, parseSetCookie r.value = .ok c)
    (hs : 100 ≤ p.status_code) : ∃ p1, onHeadersComplete p = .ok p1 := by
  obtain ⟨p2, h2, hs2⟩ := addHeaders_ok_of_cookies p.rawHeaders p hc
  have : 100 ≤ p2.status_code := by rw [hs2]; exact hs
  refine ⟨{ p2 with statusString := p2.rawStatusString, headersComplete := true }, ?_⟩
  simp [onHeadersComplete, h2, this]

/-! ## Building the response: lemmas -/

theorem foldl_onBody_buffered (chunks : List Str) (p : HttpParser) (hs : p.isStreaming = false) :
    chunks.foldl onBody p = { p with body := p.body ++ chunks.flatten } := by
  induction chunks generalizing p with
  | nil => simp
  | cons c cs ih =>
    have h1 : onBody p c = { p with body := p.body ++ c } := by simp [onBody, hs]
    rw [List.foldl_cons, h1,
      ih _ (show ({ p with body := p.body ++ c } : HttpParser).isStreaming = false from hs)]
    simp [List.append_assoc]

theorem onHeadersComplete_fields (p p1 : HttpParser) (h : onHeadersComplete p = .ok p1) :
    p1.status_code = p.status_code ∧ p1.upgrade = p.upgrade ∧ p1.isStreaming = p.isStreaming ∧
      p1.body = p.body ∧ p1.rawHeaders = p.rawHeaders := by
  have key : ∀ (raws : List RawHeader) (q q1 : HttpParser), addHeaders q raws = .ok q1 →
      q1.status_code = q.status_code ∧ q1.upgrade = q.upgrade ∧
        q1.isStreaming = q.isStreaming ∧ q1.body = q.body ∧ q1.rawHeaders = q.rawHeaders := by
    intro raws
    induction raws with
    | nil => intro q q1 hq; simp only [addHeaders, Except.ok.injEq] at hq; subst hq; simp
    | cons r rs ih =>
      intro q q1 hq
      simp only [addHeaders] at hq
      cases h1 : addHeader q r with
      | error e => simp [h1] at hq
      | ok q2 =>
        simp only [h1] at hq
        have h2 : q2.status_code = q.status_code ∧ q2.upgrade = q.upgrade ∧
            q2.isStreaming = q.isStreaming ∧ q2.body = q.body ∧ q2.rawHeaders = q.rawHeaders := by
          unfold addHeader at h1
          by_cases hname : toLower r.name = "set-cookie".toList
          · simp only [hname, if_true] at h1
            cases hc : parseSetCookie r.value with
            | error e => simp [hc] at h1
            | ok c => simp only [hc, Except.ok.injEq] at h1; subst h1; simp
          · simp only [hname, if_false, Except.ok.injEq] at h1; subst h1; simp
        obtain ⟨a1, a2, a3, a4, a5⟩ := ih q2 q1 hq
        obtain ⟨b1, b2, b3, b4, b5⟩ := h2
        exact ⟨a1.trans b1, a2.trans b2, a3.trans b3, a4.trans b4, a5.trans b5⟩
  unfold onHeadersComplete at h
  cases h1 : addHeaders p p.rawHeaders with
  | error e => simp [h1] at h
  | ok p2 =>
    simp only [h1] at h
    split at h
    · simp only [Except.ok.injEq] at h
      subst h
      exact key p.rawHeaders p p2 h1
    · simp at h

theorem content_variant_of_state (codes : StatusMap) (q : HttpParser) (code : SuccessCode)
    (hup : q.upgrade = false) (hstatus : codes q.status_code = some (.content code))
    (hst : q.isStreaming = false)
    (hetag : ∀ e, findHeader q "etag".toList = some e → ∃ t, parseETag e = .ok t) :
    ∃ c, build codes q = .ok ⟨q.cookies.map buildCookie, .content c⟩ ∧
      c.statusCode = code ∧
      c.mimeType = findHeader q "content-type".toList ∧
      c.encoding = findHeader q "content-encoding".toList ∧
      c.language = findHeader q "content-language".toList ∧
      c.body = .bytes q.body := by
  unfold build
  simp only [hup, Bool.false_eq_true, if_false, hstatus]
  unfold buildContent
  simp only [hst, Bool.false_eq_true, if_false]
  cases hE : findHeader q "etag".toList with
  | none => exact ⟨_, rfl, rfl, rfl, rfl, rfl, rfl⟩
  | some e =>
    obtain ⟨t, ht⟩ := hetag e hE
    simp only [ht]
    exact ⟨_, rfl, rfl, rfl, rfl, rfl, rfl⟩


theorem makeStatusCodes_redirect (successCodes clientErrorCodes : List Enumerant) (s : Nat)
    (hs : s ∈ [301, 302, 303, 307, 308]) :
    makeStatusCodes successCodes clientErrorCodes s
      = some (.redirect (s == 301 || s == 308) (s == 301 || s == 302 || s == 303)) := by
  simp only [List.mem_cons, List.mem_singleton, List.not_mem_nil, or_false] at hs
  rcases hs with rfl | rfl | rfl | rfl | rfl <;>
    simp [makeStatusCodes, StatusMap.set, redirectInfo]

theorem redirect_variant_of_state (codes : StatusMap) (q : HttpParser) (isPermanent switchToGet : Bool)
    (hup : q.upgrade = false)
    (hstatus : codes q.status_code = some (.redirect isPermanent switchToGet)) :
    build codes q =
      match findHeader q "location".toList with
      | none => .error .missingLocation
      | some location =>
        .ok ⟨q.cookies.map buildCookie, .redirect isPermanent switchToGet location⟩ := by
  unfold build
  simp only [hup, Bool.false_eq_true, if_false, hstatus]

/-! ## Cookies: lemmas -/

theorem splitFirstAux_eq (d : Char) (s pre : Str) :
    splitFirstAux d s pre =
      if d ∈ s then
        some (pre.reverse ++ s.takeWhile (fun c => c != d), (s.dropWhile (fun c => c != d)).drop 1)
      else none := by
  induction s generalizing pre with
  | nil => simp [splitFirstAux]
  | cons c cs ih =>
    by_cases h : c = d
    · subst h
      simp [splitFirstAux]
    · have h2 : ¬ d = c := fun e => h e.symm
      simp only [splitFirstAux, h, if_false, ih, List.mem_cons, h2, false_or]
      simp [List.takeWhile_cons, List.dropWhile_cons, h]

theorem splitFirst_eq (d : Char) (s : Str) :
    splitFirst s d =
      if d ∈ s then
        some (s.takeWhile (fun c => c != d), (s.dropWhile (fun c => c != d)).drop 1)
      else none := by
  simp [splitFirst, splitFirstAux_eq]

theorem splitAux_head (d : Char) (s cur : Str) :
    ∃ rest, splitAux d s cur = (cur.reverse ++ s.takeWhile (fun c => c != d)) :: rest := by
  induction s generalizing cur with
  | nil => exact ⟨[], by simp [splitAux]⟩
  | cons c cs ih =>
    by_cases h : c = d
    · subst h
      exact ⟨splitAux c cs [], by simp [splitAux]⟩
    · obtain ⟨rest, hr⟩ := ih (c :: cur)
      exact ⟨rest, by simp [splitAux, h, hr, List.takeWhile_cons]⟩

theorem split_head (d : Char) (s : Str) :
    ∃ rest, split s d = s.takeWhile (fun c => c != d) :: rest := by
  obtain ⟨rest, h⟩ := splitAux_head d s []
  exact ⟨rest, by simpa [split] using h⟩

theorem cookieAttribute_name_value (c c1 : Cookie) (part : Str)
    (h : cookieAttribute c part = .ok c1) : c1.name = c.name ∧ c1.value = c.value := by
  unfold cookieAttribute at h
  split at h
  · dsimp only at h
    split at h
    · split at h
      · simp only [Except.ok.injEq] at h; subst h; exact ⟨rfl, rfl⟩
      · simp at h
    · split at h
      · split at h
        · simp only [Except.ok.injEq] at h; subst h; exact ⟨rfl, rfl⟩
        · simp at h
      · split at h
        · simp only [Except.ok.injEq] at h; subst h; exact ⟨rfl, rfl⟩
        · simp only [Except.ok.injEq] at h; subst h; exact ⟨rfl, rfl⟩
  · dsimp only at h
    split at h
    · simp only [Except.ok.injEq] at h; subst h; exact ⟨rfl, rfl⟩
    · simp only [Except.ok.injEq] at h; subst h; exact ⟨rfl, rfl⟩

theorem cookieAttributes_name_value (parts : List Str) (c c1 : Cookie)
    (h : cookieAttributes c parts = .ok c1) : c1.name = c.name ∧ c1.value = c.value := by
  induction parts generalizing c with
  | nil => simp only [cookieAttributes, Except.ok.injEq] at h; subst h; exact ⟨rfl, rfl⟩
  | cons part parts ih =>
    simp only [cookieAttributes] at h
    cases h1 : cookieAttribute c part with
    | error e => simp [h1] at h
    | ok c2 =>
      simp only [h1] at h
      obtain ⟨a1, a2⟩ := ih c2 h
      obtain ⟨b1, b2⟩ := cookieAttribute_name_value c c2 part h1
      exact ⟨a1.trans b1, a2.trans b2⟩

theorem cookieAttributes_ok (parts : List Str) (c : Cookie)
    (h : ∀ part ∈ parts, ∀ c0, ∃ c1, cookieAttribute c0 part = .ok c1) :
    ∃ c1, cookieAttributes c parts = .ok c1 := by
  induction parts generalizing c with
  | nil => exact ⟨c, rfl⟩
  | cons part parts ih =>
    obtain ⟨c2, h2⟩ := h part (List.mem_cons_self _ _) c
    obtain ⟨c3, h3⟩ := ih c2 (fun q hq => h q (List.mem_cons_of_mem _ hq))
    exact ⟨c3, by simp [cookieAttributes, h2, h3]⟩

theorem cookieAttributes_preserve {β : Type} (f : Cookie → β) (parts : List Str)
    (hstep : ∀ part ∈ parts, ∀ c c1, cookieAttribute c part = .ok c1 → f c1 = f c)
    (c c1 : Cookie) (h : cookieAttributes c parts = .ok c1) : f c1 = f c := by
  induction parts generalizing c with
  | nil => simp only [cookieAttributes, Except.ok.injEq] at h; subst h; rfl
  | cons part parts ih =>
    simp only [cookieAttributes] at h
    cases h1 : cookieAttribute c part with
    | error e => simp [h1] at h
    | ok c2 =>
      simp only [h1] at h
      rw [ih (fun q hq => hstep q (List.mem_cons_of_mem _ hq)) c2 h]
      exact hstep part (List.mem_cons_self _ _) c c2 h1

theorem cookieAttribute_path (c c1 : Cookie) (part : Str)
    (hp : attributeName part ≠ some "path".toList)
    (h : cookieAttribute c part = .ok c1) : c1.path = c.path := by
  unfold cookieAttribute at h
  unfold attributeName at hp
  split at h
  · rename_i name rest hs
    simp only [hs, Option.map_some', ne_eq, Option.some.injEq] at hp
    dsimp only at h
    split at h
    · split at h
      · simp only [Except.ok.injEq] at h; subst h; rfl
      · simp at h
    · split at h
      · split at h
        · simp only [Except.ok.injEq] at h; subst h; rfl
        · simp at h
      · simp only [hp, if_false, Except.ok.injEq] at h; subst h; rfl
  · dsimp only at h
    split at h
    · simp only [Except.ok.injEq] at h; subst h; rfl
    · simp only [Except.ok.injEq] at h; subst h; rfl

theorem cookieAttribute_httpOnly (c c1 : Cookie) (part : Str)
    (hp : ¬ (splitFirst part '=' = none ∧ toLower (trim part) = "httponly".toList))
    (h : cookieAttribute c part = .ok c1) : c1.httpOnly = c.httpOnly := by
  unfold cookieAttribute at h
  split at h
  · dsimp only at h
    split at h
    · split at h
      · simp only [Except.ok.injEq] at h; subst h; rfl
      · simp at h
    · split at h
      · split at h
        · simp only [Except.ok.injEq] at h; subst h; rfl
        · simp at h
      · split at h
        · simp only [Except.ok.injEq] at h; subst h; rfl
        · simp only [Except.ok.injEq] at h; subst h; rfl
  · rename_i hs
    have hp2 : ¬ toLower (trim part) = "httponly".toList := fun e => hp ⟨hs, e⟩
    simp only [hp2, if_false, Except.ok.injEq] at h
    subst h
    rfl

theorem cookieAttribute_expiration (c c1 : Cookie) (part : Str)
    (hp : attributeName part ≠ some "expires".toList ∧
      attributeName part ≠ some "max-age".toList)
    (h : cookieAttribute c part = .ok c1) :
    c1.expirationType = c.expirationType ∧ c1.expires = c.expires := by
  unfold cookieAttribute at h
  unfold attributeName at hp
  split at h
  · rename_i name rest hs
    simp only [hs, Option.map_some', ne_eq, Option.some.injEq] at hp
    simp only [hp.1, hp.2, if_false] at h
    split at h
    · simp only [Except.ok.injEq] at h; subst h; exact ⟨rfl, rfl⟩
    · simp only [Except.ok.injEq] at h; subst h; exact ⟨rfl, rfl⟩
  · dsimp only at h
    split at h
    · simp only [Except.ok.injEq] at h; subst h; exact ⟨rfl, rfl⟩
    · simp only [Except.ok.injEq] at h; subst h; exact ⟨rfl, rfl⟩

theorem parseSetCookie_attributes (value : Str) (c : Cookie) (h : parseSetCookie value = .ok c) :
    ∃ c0 : Cookie, c0.path = [] ∧ c0.httpOnly = false ∧ c0.expirationType = .NONE ∧
      c0.expires = 0 ∧ cookieAttributes c0 (split value ';').tail = .ok c := by
  unfold parseSetCookie at h
  split at h
  · rename_i hnil
    obtain ⟨rest, hr⟩ := split_head ';' value
    rw [hr] at hnil
    cases hnil
  · rename_i part parts hsplit
    split at h
    · simp at h
    · rename_i name rest hs
      exact ⟨_, rfl, rfl, rfl, rfl, by rw [hsplit]; exact h⟩


theorem parseSetCookie_ok (value : Str) (hyes : '=' ∈ value.takeWhile (fun c => c != ';'))
    (hattrs : ∀ part ∈ (split value ';').tail, ∀ c0, ∃ c1, cookieAttribute c0 part = .ok c1) :
    ∃ c, parseSetCookie value = .ok c := by
  obtain ⟨rest, hsplit⟩ := split_head ';' value
  rw [hsplit] at hattrs
  obtain ⟨c1, h1⟩ := cookieAttributes_ok rest
    { Cookie.init with
      name := trim ((value.takeWhile (fun c => c != ';')).takeWhile (fun c => c != '=')),
      value := trim (((value.takeWhile (fun c => c != ';')).dropWhile
        (fun c => c != '=')).drop 1) } hattrs
  refine ⟨c1, ?_⟩
  simp only [parseSetCookie, hsplit, splitFirst_eq, hyes, if_true]
  exact h1

/-! ## `max-age`: lemmas -/

theorem foldl_digits (s : Str) (acc : Nat) :
    s.foldl (fun acc c => acc * 10 + digitVal c) acc = acc * 10 ^ s.length + decimalValue s := by
  induction s generalizing acc with
  | nil => simp [decimalValue]
  | cons c cs ih =>
    simp only [List.foldl_cons, ih, decimalValue, List.length_cons, pow_succ]
    ring

theorem isDigit_not_isspace (c : Char) (h : isDigit c = true) : isspace c = false := by
  simp only [isDigit, Bool.and_eq_true, decide_eq_true_eq] at h
  simp only [isspace, Bool.or_eq_false_iff, beq_eq_false_iff_ne, ne_eq, Bool.and_eq_false_iff,
    decide_eq_false_iff_not, not_le]
  omega

theorem isDigit_ne_sign (c : Char) (h : isDigit c = true) : c ≠ '-' ∧ c ≠ '+' := by
  constructor <;> (rintro rfl; revert h; decide)

theorem isDigit_ne_nul (c : Char) (h : isDigit c = true) : (c.toNat != 0) = true := by
  simp only [isDigit, Bool.and_eq_true, decide_eq_true_eq] at h
  simp only [bne_iff_ne, ne_eq]
  omega

theorem takeWhile_of_all (f : Char → Bool) (s : Str) (h : ∀ c ∈ s, f c = true) :
    s.takeWhile f = s ∧ s.dropWhile f = [] := by
  induction s with
  | nil => simp
  | cons c cs ih =>
    have hc := h c (List.mem_cons_self _ _)
    obtain ⟨i1, i2⟩ := ih (fun d hd => h d (List.mem_cons_of_mem _ hd))
    simp [List.takeWhile_cons, List.dropWhile_cons, hc, i1, i2]

/-- What `strtoull` returns for an unsigned digit string. -/
theorem strtoull_digits (s : Str) (h : IsDigits s) :
    strtoull s = (if ULLONG_MAX < decimalValue s then ULLONG_MAX else decimalValue s, []) := by
  obtain ⟨hne, hall⟩ := h
  obtain ⟨c, cs, rfl⟩ := List.exists_cons_of_ne_nil hne
  have hc := hall c (List.mem_cons_self _ _)
  have hsp := isDigit_not_isspace c hc
  obtain ⟨hm, hp⟩ := isDigit_ne_sign c hc
  obtain ⟨t1, t2⟩ := takeWhile_of_all isDigit (c :: cs) hall
  have hdw : (c :: cs).dropWhile isspace = c :: cs := by simp [List.dropWhile_cons, hsp]
  unfold strtoull
  simp only [hdw]
  have hmatch : (match (c :: cs : Str) with
      | '-' :: t => (true, t)
      | '+' :: t => (false, t)
      | _ => (false, c :: cs)) = (false, c :: cs) := by
    split
    · rename_i heq; simp only [List.cons.injEq] at heq; exact absurd heq.1 hm
    · rename_i heq; simp only [List.cons.injEq] at heq; exact absurd heq.1 hp
    · rfl
  rw [hmatch]
  simp only [t1, t2, reduceCtorEq, if_false, Bool.false_eq_true]
  rw [foldl_digits]
  simp

/-- What `strtoull` returns for a digit string after a sign. -/
theorem strtoull_signed (t : Str) (h : IsDigits t) (neg : Bool) :
    strtoull ((if neg then '-' else '+') :: t) =
      (if ULLONG_MAX < decimalValue t then ULLONG_MAX
        else if neg then (2 ^ 64 - decimalValue t) % 2 ^ 64 else decimalValue t, []) := by
  obtain ⟨hne, hall⟩ := h
  obtain ⟨t1, t2⟩ := takeWhile_of_all isDigit t hall
  have hsp : isspace (if neg then '-' else '+') = false := by cases neg <;> decide
  have hdw : ((if neg then '-' else '+') :: t).dropWhile isspace = (if neg then '-' else '+') :: t := by
    simp [List.dropWhile_cons, hsp]
  unfold strtoull
  simp only [hdw]
  cases neg
  · simp only [Bool.false_eq_true, if_false, t1, t2, hne]
    rw [foldl_digits]
    simp
  · simp only [if_true, t1, t2, hne, if_false]
    rw [foldl_digits]
    simp


theorem noLeadingSpace_dropWhile (s : Str) : NoLeadingSpace (s.dropWhile isspace) := by
  induction s with
  | nil => intro c t h; simp at h
  | cons a s ih =>
    by_cases ha : isspace a = true
    · simpa [List.dropWhile_cons, ha] using ih
    · intro c t h
      simp only [List.dropWhile_cons, ha, Bool.false_eq_true, if_false, List.cons.injEq] at h
      rw [← h.1]
      simpa using ha

theorem noLeadingSpace_dropTrailingSpace (s : Str) (h : NoLeadingSpace s) :
    NoLeadingSpace (dropTrailingSpace s) := by
  cases s with
  | nil => intro c t hc; simp [dropTrailingSpace] at hc
  | cons a s =>
    have ha : isspace a = false := h a s rfl
    intro c t hc
    simp only [dropTrailingSpace] at hc
    split at hc
    · simp only [ha, Bool.false_eq_true, if_false, List.cons.injEq] at hc
      rw [← hc.1]; exact ha
    · simp only [List.cons.injEq] at hc
      rw [← hc.1]; exact ha

theorem noLeadingSpace_cStr (s : Str) (h : NoLeadingSpace s) : NoLeadingSpace (cStr s) := by
  cases s with
  | nil => intro c t hc; simp [cStr] at hc
  | cons a s =>
    intro c t hc
    simp only [cStr, List.takeWhile_cons] at hc
    split at hc
    · simp only [List.cons.injEq] at hc
      rw [← hc.1]; exact h a s rfl
    · simp at hc

theorem noLeadingSpace_trim (v : Str) : NoLeadingSpace (cStr (trim v)) :=
  noLeadingSpace_cStr _ (noLeadingSpace_dropTrailingSpace _ (noLeadingSpace_dropWhile v))

theorem dropWhile_of_noLeadingSpace (s : Str) (h : NoLeadingSpace s) :
    s.dropWhile isspace = s := by
  cases s with
  | nil => rfl
  | cons a s => simp [List.dropWhile_cons, h a s rfl]

theorem isDigits_of_span (s : Str) (h1 : s.takeWhile isDigit ≠ [])
    (h2 : s.dropWhile isDigit = []) : IsDigits s := by
  have hall : ∀ c ∈ s, isDigit c = true := by
    simpa [List.dropWhile_eq_nil_iff] using h2
  refine ⟨?_, hall⟩
  rintro rfl
  simp at h1

theorem strtoull_snd_minus (t : Str) :
    (strtoull ('-' :: t)).2 = if t.takeWhile isDigit = [] then '-' :: t else t.dropWhile isDigit := by
  have hdw : ('-' :: t : Str).dropWhile isspace = '-' :: t := by
    rw [List.dropWhile_cons]; rfl
  unfold strtoull
  simp only [hdw]
  split <;> rfl

theorem strtoull_snd_plus (t : Str) :
    (strtoull ('+' :: t)).2 = if t.takeWhile isDigit = [] then '+' :: t else t.dropWhile isDigit := by
  have hdw : ('+' :: t : Str).dropWhile isspace = '+' :: t := by
    rw [List.dropWhile_cons]; rfl
  unfold strtoull
  simp only [hdw]
  split <;> rfl

theorem strtoull_snd_other (s : Str) (hs : NoLeadingSpace s)
    (hm : ∀ t, s ≠ '-' :: t) (hp : ∀ t, s ≠ '+' :: t) :
    (strtoull s).2 = if s.takeWhile isDigit = [] then s else s.dropWhile isDigit := by
  have hdw := dropWhile_of_noLeadingSpace s hs
  cases s with
  | nil => rfl
  | cons c t =>
    have hmatch : (match (c :: t : Str) with
        | '-' :: t => (true, t)
        | '+' :: t => (false, t)
        | _ => (false, c :: t)) = (false, c :: t) := by
      split
      · rename_i heq; simp only [List.cons.injEq] at heq; exact absurd (by rw [heq.1, heq.2]) (hm t)
      · rename_i heq; simp only [List.cons.injEq] at heq; exact absurd (by rw [heq.1, heq.2]) (hp t)
      · rfl
    unfold strtoull
    simp only [hdw, hmatch]
    split <;> rfl

/-- The test `end > value.begin() && *end == '\0'` after `strtoull` holds exactly for a
digit string with an optional sign, when the text has no leading white space. -/
theorem strtoull_accepts_iff (s : Str) (hs : NoLeadingSpace s) :
    ((strtoull s).2.length < s.length ∧ (strtoull s).2 = []) ↔ IsSignedDigits s := by
  constructor
  · intro h
    by_cases hm : ∃ t, s = '-' :: t
    · obtain ⟨t, rfl⟩ := hm
      rw [strtoull_snd_minus] at h
      split at h
      · simp at h
      · rename_i hd
        exact Or.inr ⟨t, isDigits_of_span t hd h.2, Or.inl rfl⟩
    · by_cases hp : ∃ t, s = '+' :: t
      · obtain ⟨t, rfl⟩ := hp
        rw [strtoull_snd_plus] at h
        split at h
        · simp at h
        · rename_i hd
          exact Or.inr ⟨t, isDigits_of_span t hd h.2, Or.inr rfl⟩
      · rw [strtoull_snd_other s hs (fun t e => hm ⟨t, e⟩) (fun t e => hp ⟨t, e⟩)] at h
        split at h
        · simp at h
        · rename_i hd
          exact Or.inl (isDigits_of_span s hd h.2)
  · rintro (h | ⟨t, ht, rfl | rfl⟩)
    · rw [strtoull_digits s h]
      exact ⟨by simpa using List.length_pos.mpr h.1, rfl⟩
    · have := strtoull_signed t ht true
      simp only [if_true] at this
      rw [this]
      exact ⟨by simp, rfl⟩
    · have := strtoull_signed t ht false
      simp only [Bool.false_eq_true, if_false] at this
      rw [this]
      exact ⟨by simp, rfl⟩

theorem cookieAttribute_maxAge (cookie : Cookie) (part name v : Str)
    (hs : splitFirst part '=' = some (name, v))
    (hn : toLower (trim name) = "max-age".toList) :
    (IsSignedDigits (cStr (trim v)) →
      cookieAttribute cookie part = .ok { cookie with
        expires := toInt64 (strtoull (cStr (trim v))).1, expirationType := .RELATIVE }) ∧
    (¬ IsSignedDigits (cStr (trim v)) → cookieAttribute cookie part = .error .invalidMaxAge) := by
  have hiff := strtoull_accepts_iff (cStr (trim v)) (noLeadingSpace_trim v)
  have h1 : ¬ "max-age".toList = "expires".toList := by decide
  constructor
  · intro h
    simp only [cookieAttribute, hs, hn, h1, if_false, if_true]
    exact if_pos (hiff.mpr h)
  · intro h
    simp only [cookieAttribute, hs, hn, h1, if_false, if_true]
    exact if_neg (fun hh => h (hiff.mp hh))

theorem cookieAttributes_append (pre post : List Str) (c : Cookie) :
    cookieAttributes c (pre ++ post) =
      match cookieAttributes c pre with
      | .error e => .error e
      | .ok c1 => cookieAttributes c1 post := by
  induction pre generalizing c with
  | nil => rfl
  | cons p pre ih =>
    simp only [List.cons_append, cookieAttributes]
    cases cookieAttribute c p with
    | error e => rfl
    | ok c2 => exact ih c2

theorem cookieAttributes_error_of_mem (parts : List Str) (part : Str) (hmem : part ∈ parts)
    (hfail : ∀ c, ∃ e, cookieAttribute c part = .error e) (c : Cookie) :
    ∃ e, cookieAttributes c parts = .error e := by
  induction parts generalizing c with
  | nil => cases hmem
  | cons q parts ih =>
    simp only [cookieAttributes]
    cases hq : cookieAttribute c q with
    | error e => exact ⟨e, rfl⟩
    | ok c2 =>
      rcases List.mem_cons.mp hmem with rfl | hm
      · obtain ⟨e, he⟩ := hfail c
        rw [hq] at he
        cases he
      · exact ih hm c2

theorem parseSetCookie_error_of_attribute (value part : Str)
    (hmem : part ∈ (split value ';').tail)
    (hfail : ∀ c, ∃ e, cookieAttribute c part = .error e) :
    ∃ e, parseSetCookie value = .error e := by
  unfold parseSetCookie
  split
  · rename_i hnil; rw [hnil] at hmem; cases hmem
  · rename_i first parts hsplit
    rw [hsplit] at hmem
    split
    · exact ⟨_, rfl⟩
    · exact cookieAttributes_error_of_mem parts part hmem hfail _

theorem addHeaders_error_of_mem (raws : List RawHeader) (raw : RawHeader) (hmem : raw ∈ raws)
    (hfail : ∀ p, ∃ e, addHeader p raw = .error e) (p : HttpParser) :
    ∃ e, addHeaders p raws = .error e := by
  induction raws generalizing p with
  | nil => cases hmem
  | cons q raws ih =>
    simp only [addHeaders]
    cases hq : addHeader p q with
    | error e => exact ⟨e, rfl⟩
    | ok p2 =>
      rcases List.mem_cons.mp hmem with rfl | hm
      · obtain ⟨e, he⟩ := hfail p
        rw [hq] at he
        cases he
      · exact ih hm p2

theorem cStr_of_digits (s : Str) (h : IsDigits s) : cStr s = s :=
  (takeWhile_of_all _ s (fun c hc => isDigit_ne_nul c (h.2 c hc))).1

theorem toInt64_of_lt (n : Nat) (h : n < 2 ^ 63) : toInt64 n = (n : Int) := by
  have h2 : n % 2 ^ 64 = n := Nat.mod_eq_of_lt (by omega)
  unfold toInt64
  rw [h2, if_pos h]

theorem cookieAttribute_maxAge_digits (cookie : Cookie) (part name v : Str)
    (hs : splitFirst part '=' = some (name, v))
    (hn : toLower (trim name) = "max-age".toList)
    (hd : IsDigits (trim v)) (hN : decimalValue (trim v) < 2 ^ 63) :
    cookieAttribute cookie part = .ok { cookie with
      expires := (decimalValue (trim v) : Int), expirationType := .RELATIVE } := by
  have hc := cStr_of_digits _ hd
  have h1 := (cookieAttribute_maxAge cookie part name v hs hn).1 (by rw [hc]; exact Or.inl hd)
  rw [h1, hc, strtoull_digits _ hd]
  have hle : ¬ ULLONG_MAX < decimalValue (trim v) := by
    simp only [ULLONG_MAX]; omega
  simp only [hle, if_false, toInt64_of_lt _ hN]

/-! ## `expires`: lemmas -/

theorem daysBeforeYear_eq (y : Nat) :
    (daysBeforeYear y : Int) = 365 * y + (y + 3) / 4 - (y + 99) / 100 + (y + 399) / 400 := by
  induction y with
  | zero => simp [daysBeforeYear]
  | succ y ih =>
    simp only [daysBeforeYear, daysInYear, isLeapYear, Nat.cast_add, ih]
    by_cases h4 : y % 4 = 0 <;> by_cases h100 : y % 100 = 0 <;> by_cases h400 : y % 400 = 0 <;>
      simp [h4, h100, h400] <;> omega

theorem leapyear_eq (y : Nat) : leapyear ((y : Int) - 1900) = isLeapYear y := by
  simp only [leapyear, isLeapYear]
  by_cases h4 : y % 4 = 0 <;> by_cases h100 : y % 100 = 0 <;> by_cases h400 : y % 400 = 0 <;>
    simp [h4, h100, h400] <;> omega

theorem monYday_eq (y m : Nat) (hm : m < 12) :
    monYday (isLeapYear y) m = (daysBeforeMonth y m : Int) := by
  cases hl : isLeapYear y <;> interval_cases m <;>
    simp [monYday, daysBeforeMonth, daysInMonth, hl]

theorem timegm_toTm (d : HttpDate) (hd : d.Valid) : timegm d.toTm = secondsSinceEpoch d := by
  obtain ⟨_, _, hm, hd1, _, _, _, _⟩ := hd
  have hmod : (d.month : Int) % 12 = d.month := by omega
  have hdiv : (d.month : Int) / 12 = 0 := by omega
  simp only [timegm, HttpDate.toTm, hmod, hdiv, add_zero, Int.toNat_ofNat, leapyear_eq,
    monYday_eq d.year d.month hm, secondsSinceEpoch, ydhmsDiff]
  have h1970 := daysBeforeYear_eq 1970
  have hy := daysBeforeYear_eq d.year
  push_cast
  rw [hy, h1970]
  have hday : ((d.day - 1 : Nat) : Int) = (d.day : Int) - 1 := by omega
  rw [hday]
  split <;> omega

theorem digitChar_props (n : Nat) :
    isDigit (digitChar n) = true ∧ digitVal (digitChar n) = n % 10 ∧
      isspace (digitChar n) = false ∧ ((digitChar n).toNat != 0) = true ∧
      digitChar n ≠ ':' := by
  have key : ∀ k < 10, isDigit (Char.ofNat (48 + k)) = true ∧
      digitVal (Char.ofNat (48 + k)) = k ∧ isspace (Char.ofNat (48 + k)) = false ∧
      ((Char.ofNat (48 + k)).toNat != 0) = true ∧ Char.ofNat (48 + k) ≠ ':' := by decide
  exact key (n % 10) (Nat.mod_lt _ (by decide))

theorem getNumber_twoDigits (lo hi n : Nat) (rest : Str) (hn : n < 100) (hlo : lo ≤ n)
    (hhi : n ≤ hi) : getNumber lo hi 2 (twoDigits n ++ rest) = some (n, rest) := by
  obtain ⟨a1, a2, a3, _, _⟩ := digitChar_props (n / 10)
  obtain ⟨b1, b2, _, _, _⟩ := digitChar_props n
  have hcond : digitVal (digitChar (n / 10)) * 10 ≤ hi := by rw [a2]; omega
  have hval : digitVal (digitChar (n / 10)) * 10 + digitVal (digitChar n) = n := by
    rw [a2, b2]; omega
  simp only [getNumber, twoDigits, List.cons_append, List.nil_append, List.dropWhile_cons, a3,
    Bool.false_eq_true, if_false, a1, if_true, getNumberLoop, hcond, b1, and_self, hval, hlo,
    hhi]

theorem getNumber_fourDigits (n : Nat) (rest : Str) (hn : n ≤ 9999) :
    getNumber 0 9999 4 (fourDigits n ++ rest) = some (n, rest) := by
  obtain ⟨a1, a2, a3, _, _⟩ := digitChar_props (n / 1000)
  obtain ⟨b1, b2, _, _, _⟩ := digitChar_props (n / 100)
  obtain ⟨c1, c2, _, _, _⟩ := digitChar_props (n / 10)
  obtain ⟨d1, d2, _, _, _⟩ := digitChar_props n
  have h1 : digitVal (digitChar (n / 1000)) * 10 ≤ 9999 := by rw [a2]; omega
  have h2 : (digitVal (digitChar (n / 1000)) * 10 + digitVal (digitChar (n / 100))) * 10
      ≤ 9999 := by rw [a2, b2]; omega
  have h3 : ((digitVal (digitChar (n / 1000)) * 10 + digitVal (digitChar (n / 100))) * 10
      + digitVal (digitChar (n / 10))) * 10 ≤ 9999 := by rw [a2, b2, c2]; omega
  have hval : ((digitVal (digitChar (n / 1000)) * 10 + digitVal (digitChar (n / 100))) * 10
      + digitVal (digitChar (n / 10))) * 10 + digitVal (digitChar n) = n := by
    rw [a2, b2, c2, d2]; omega
  simp only [getNumber, fourDigits, List.cons_append, List.nil_append, List.dropWhile_cons, a3,
    Bool.false_eq_true, if_false, a1, if_true, getNumberLoop, h1, h2, h3, b1, c1, d1, and_self,
    hval, hn, Nat.zero_le]

theorem getNumber_oneDigit (lo hi n : Nat) (rest : Str) (hn : n < 10) (hlo : lo ≤ n)
    (hhi : n ≤ hi) : getNumber lo hi 2 (digitChar n :: ' ' :: rest) = some (n, ' ' :: rest) := by
  obtain ⟨a1, a2, a3, _, _⟩ := digitChar_props n
  have hsp : isDigit ' ' = false := by decide
  have hval : digitVal (digitChar n) = n := by rw [a2]; omega
  simp only [getNumber, List.dropWhile_cons, a3, Bool.false_eq_true, if_false, a1, if_true,
    getNumberLoop, hsp, and_false, hval, hlo, hhi, and_self]

theorem strptimeTime_timeOfDay (d : HttpDate) (rest : Str) (tm : Tm) (hh : d.hour < 24)
    (hm : d.minute < 60) (hs : d.second < 60) :
    strptimeTime (timeOfDay d rest) tm =
      ({ tm with tm_hour := d.hour, tm_min := d.minute, tm_sec := d.second }, some rest) := by
  simp only [strptimeTime, timeOfDay,
    getNumber_twoDigits 0 23 d.hour _ (by omega) (Nat.zero_le _) (by omega),
    getNumber_twoDigits 0 59 d.minute _ (by omega) (Nat.zero_le _) (by omega),
    getNumber_twoDigits 0 61 d.second _ (by omega) (Nat.zero_le _) (by omega)]

theorem dropWhile_isspace_timeOfDay (d : HttpDate) (rest : Str) :
    (timeOfDay d rest).dropWhile isspace = timeOfDay d rest := by
  simp [timeOfDay, twoDigits, List.dropWhile_cons, (digitChar_props (d.hour / 10)).2.2.1]

theorem matchString_append (name rest : Str) : matchString name (name ++ rest) = some rest := by
  simp [matchString]

theorem matchName_weekday (d : HttpDate) (hw : d.wday < 7) (c : Char) (hc : c = ',' ∨ c = ' ')
    (rest : Str) :
    matchName weekdayNames 0 (weekdayName d ++ c :: rest) = some (d.wday, c :: rest) := by
  obtain ⟨w, long, y, m, dd, h, mi, s⟩ := d
  simp only at hw
  rcases hc with rfl | rfl <;> interval_cases w <;> cases long <;>
    simp [weekdayName, weekdayNames, matchName, matchString, toLower, toLowerChar]

theorem matchName_month (d : HttpDate) (hm : d.month < 12) (c : Char) (hc : c = '-' ∨ c = ' ')
    (rest : Str) :
    matchName monthNames 0 (monthName d ++ c :: rest) = some (d.month, c :: rest) := by
  obtain ⟨w, long, y, m, dd, h, mi, s⟩ := d
  simp only at hm
  rcases hc with rfl | rfl <;> interval_cases m <;>
    simp [monthName, monthNames, matchName, matchString, toLower, toLowerChar]

theorem matchName_month_none (c : Char) (hc : c = '-' ∨ c = ',') (rest : Str) :
    matchName monthNames 0 (c :: rest) = none := by
  rcases hc with rfl | rfl <;>
    simp [monthNames, matchName, matchString, toLower, toLowerChar]

theorem dropWhile_isspace_twoDigits (n : Nat) (rest : Str) :
    (twoDigits n ++ rest).dropWhile isspace = twoDigits n ++ rest := by
  simp [twoDigits, List.dropWhile_cons, (digitChar_props (n / 10)).2.2.1]

theorem dropWhile_isspace_fourDigits (n : Nat) (rest : Str) :
    (fourDigits n ++ rest).dropWhile isspace = fourDigits n ++ rest := by
  simp [fourDigits, List.dropWhile_cons, (digitChar_props (n / 1000)).2.2.1]

theorem dropWhile_isspace_monthName (d : HttpDate) (hm : d.month < 12) (rest : Str) :
    (monthName d ++ rest).dropWhile isspace = monthName d ++ rest := by
  obtain ⟨w, long, y, m, dd, h, mi, s⟩ := d
  simp only at hm
  interval_cases m <;> simp [monthName, monthNames, List.dropWhile_cons, isspace]

theorem dropWhile_isspace_space (s : Str) :
    (' ' :: s).dropWhile isspace = s.dropWhile isspace := by
  simp [List.dropWhile_cons, isspace]

theorem fmt_rfc1123 : "%a, %d %b %Y %T GMT".toList =
    ['%', 'a', ',', ' ', '%', 'd', ' ', '%', 'b', ' ', '%', 'Y', ' ', '%', 'T', ' ',
      'G', 'M', 'T'] := rfl

theorem strptime_rfc1123 (d : HttpDate) (hd : d.Valid) (tm : Tm) :
    strptime (renderRfc1123 d) "%a, %d %b %Y %T GMT".toList tm = (d.toTm, some []) := by
  obtain ⟨hw, hy, hm, hd1, hd2, hh, hmi, hs⟩ := hd
  have hd3 : d.day ≤ 31 := by
    have : daysInMonth d.year d.month ≤ 31 := by
      simp only [daysInMonth]; split <;> [split; split] <;> omega
    omega
  rw [fmt_rfc1123, renderRfc1123]
  simp only [strptime, matchName_weekday d hw ',' (Or.inl rfl), dropWhile_isspace_space,
    dropWhile_isspace_twoDigits, getNumber_twoDigits 1 31 d.day _ (by omega) hd1 hd3,
    dropWhile_isspace_monthName d hm, matchName_month d hm ' ' (Or.inr rfl),
    dropWhile_isspace_fourDigits, getNumber_fourDigits d.year _ hy,
    dropWhile_isspace_timeOfDay, strptimeTime_timeOfDay d _ _ hh hmi hs]
  simp [HttpDate.toTm, isspace]

theorem fmt_twoDigitYear : "%a, %d-%b-%y %T GMT".toList =
    ['%', 'a', ',', ' ', '%', 'd', '-', '%', 'b', '-', '%', 'y', ' ', '%', 'T', ' ',
      'G', 'M', 'T'] := rfl

theorem fmt_asctime : "%a %b %d %T %Y".toList =
    ['%', 'a', ' ', '%', 'b', ' ', '%', 'd', ' ', '%', 'T', ' ', '%', 'Y'] := rfl

theorem fmt_hyphenated : "%a, %d-%b-%Y %T GMT".toList =
    ['%', 'a', ',', ' ', '%', 'd', '-', '%', 'b', '-', '%', 'Y', ' ', '%', 'T', ' ',
      'G', 'M', 'T'] := rfl

theorem fmt_zone0000 : "%a, %d %b %Y %T -0000".toList =
    ['%', 'a', ',', ' ', '%', 'd', ' ', '%', 'b', ' ', '%', 'Y', ' ', '%', 'T', ' ',
      '-', '0', '0', '0', '0'] := rfl

theorem isspace_space : isspace ' ' = true := rfl

theorem day_le_31 (d : HttpDate) (hd : d.Valid) : d.day ≤ 31 := by
  have : daysInMonth d.year d.month ≤ 31 := by
    simp only [daysInMonth]; split <;> [split; split] <;> omega
  have := hd.2.2.2.2.1
  omega

theorem twoDigits_mod (y : Nat) : twoDigits y = twoDigits (y % 100) := by
  have h1 : (y / 10) % 10 = (y % 100 / 10) % 10 := by omega
  have h2 : y % 10 = y % 100 % 10 := by omega
  simp only [twoDigits, digitChar, h1, h2]

theorem strptime_twoDigitYear (d : HttpDate) (hd : d.Valid) (hlo : 1969 ≤ d.year)
    (hhi : d.year ≤ 2068) (tm : Tm) :
    strptime (renderTwoDigitYear d) "%a, %d-%b-%y %T GMT".toList tm = (d.toTm, some []) := by
  have hd3 := day_le_31 d hd
  obtain ⟨hw, hy, hm, hd1, hd2, hh, hmi, hs⟩ := hd
  rw [fmt_twoDigitYear, renderTwoDigitYear, twoDigits_mod d.year]
  simp only [strptime, matchName_weekday d hw ',' (Or.inl rfl), dropWhile_isspace_space,
    dropWhile_isspace_twoDigits, getNumber_twoDigits 1 31 d.day _ (by omega) hd1 hd3,
    matchName_month d hm '-' (Or.inl rfl),
    getNumber_twoDigits 0 99 (d.year % 100) _ (by omega) (Nat.zero_le _) (by omega),
    dropWhile_isspace_timeOfDay, strptimeTime_timeOfDay d _ _ hh hmi hs]
  simp [HttpDate.toTm, isspace]
  split <;> omega

theorem strptime_asctime (d : HttpDate) (hd : d.Valid) (tm : Tm) :
    strptime (renderAsctime d) "%a %b %d %T %Y".toList tm = (d.toTm, some []) := by
  have hd3 := day_le_31 d hd
  obtain ⟨hw, hy, hm, hd1, hd2, hh, hmi, hs⟩ := hd
  rw [fmt_asctime, renderAsctime]
  by_cases h10 : d.day < 10
  · simp only [h10, if_true, List.cons_append, List.nil_append]
    simp only [strptime, matchName_weekday d hw ' ' (Or.inr rfl), dropWhile_isspace_space,
      isspace_space, ↓reduceIte,
      dropWhile_isspace_monthName d hm, matchName_month d hm ' ' (Or.inr rfl),
      List.dropWhile_cons, (digitChar_props d.day).2.2.1, Bool.false_eq_true, if_false,
      getNumber_oneDigit 1 31 d.day _ h10 hd1 hd3,
      dropWhile_isspace_timeOfDay, strptimeTime_timeOfDay d _ _ hh hmi hs]
    have h4 := dropWhile_isspace_fourDigits d.year []
    have g4 := getNumber_fourDigits d.year [] hy
    simp only [List.append_nil] at h4 g4
    simp [HttpDate.toTm, isspace, h4, g4]
  · simp only [h10, if_false]
    simp only [strptime, matchName_weekday d hw ' ' (Or.inr rfl), dropWhile_isspace_space,
      isspace_space, ↓reduceIte,
      dropWhile_isspace_monthName d hm, matchName_month d hm ' ' (Or.inr rfl),
      dropWhile_isspace_twoDigits, getNumber_twoDigits 1 31 d.day _ (by omega) hd1 hd3,
      dropWhile_isspace_timeOfDay, strptimeTime_timeOfDay d _ _ hh hmi hs]
    have h4 := dropWhile_isspace_fourDigits d.year []
    have g4 := getNumber_fourDigits d.year [] hy
    simp only [List.append_nil] at h4 g4
    simp [HttpDate.toTm, isspace, h4, g4]

theorem strptime_hyphenated (d : HttpDate) (hd : d.Valid) (tm : Tm) :
    strptime (renderHyphenated d) "%a, %d-%b-%Y %T GMT".toList tm = (d.toTm, some []) := by
  have hd3 := day_le_31 d hd
  obtain ⟨hw, hy, hm, hd1, hd2, hh, hmi, hs⟩ := hd
  rw [fmt_hyphenated, renderHyphenated]
  simp only [strptime, matchName_weekday d hw ',' (Or.inl rfl), dropWhile_isspace_space,
    dropWhile_isspace_twoDigits, getNumber_twoDigits 1 31 d.day _ (by omega) hd1 hd3,
    matchName_month d hm '-' (Or.inl rfl), getNumber_fourDigits d.year _ hy,
    dropWhile_isspace_timeOfDay, strptimeTime_timeOfDay d _ _ hh hmi hs]
  simp [HttpDate.toTm, isspace]

theorem strptime_zone0000 (d : HttpDate) (hd : d.Valid) (tm : Tm) :
    strptime (renderZone0000 d) "%a, %d %b %Y %T -0000".toList tm = (d.toTm, some []) := by
  have hd3 := day_le_31 d hd
  obtain ⟨hw, hy, hm, hd1, hd2, hh, hmi, hs⟩ := hd
  rw [fmt_zone0000, renderZone0000]
  simp only [strptime, matchName_weekday d hw ',' (Or.inl rfl), dropWhile_isspace_space,
    dropWhile_isspace_twoDigits, getNumber_twoDigits 1 31 d.day _ (by omega) hd1 hd3,
    dropWhile_isspace_monthName d hm, matchName_month d hm ' ' (Or.inr rfl),
    dropWhile_isspace_fourDigits, getNumber_fourDigits d.year _ hy,
    dropWhile_isspace_timeOfDay, strptimeTime_timeOfDay d _ _ hh hmi hs]
  simp [HttpDate.toTm, isspace]

theorem strptimeTime_year_digits (a b : Nat) (rest : Str) (tm : Tm) :
    (strptimeTime (digitChar a :: digitChar b :: ' ' :: rest) tm).2 = none := by
  obtain ⟨a1, a2, a3, _, _⟩ := digitChar_props a
  obtain ⟨b1, b2, _, _, b5⟩ := digitChar_props b
  simp only [strptimeTime, getNumber, List.dropWhile_cons, a3, Bool.false_eq_true, if_false, a1,
    if_true, getNumberLoop, b1, and_true]
  by_cases h : digitVal (digitChar a) * 10 ≤ 23
  · simp only [h, if_true]
    split
    · rfl
    · rename_i hh m rp1 heq
      split at heq
      · simp only [Option.some.injEq, Prod.mk.injEq] at heq
        obtain ⟨_, h2⟩ := heq
        rw [← h2]
        simp
      · simp at heq
  · simp only [h, if_false]
    split
    · rfl
    · rename_i hh m rp1 heq
      split at heq
      · simp only [Option.some.injEq, Prod.mk.injEq] at heq
        obtain ⟨_, h2⟩ := heq
        rw [← h2]
        split
        · rename_i rp2 heq2
          simp only [List.cons.injEq] at heq2
          exact absurd heq2.1 b5
        · rfl
      · simp at heq

theorem strptime_rfc1123_twoDigitYear (d : HttpDate) (hd : d.Valid) (tm : Tm) :
    (strptime (renderTwoDigitYear d) "%a, %d %b %Y %T GMT".toList tm).2 = none := by
  have hd3 := day_le_31 d hd
  obtain ⟨hw, hy, hm, hd1, hd2, hh, hmi, hs⟩ := hd
  rw [fmt_rfc1123, renderTwoDigitYear]
  simp only [strptime, matchName_weekday d hw ',' (Or.inl rfl), dropWhile_isspace_space,
    dropWhile_isspace_twoDigits, getNumber_twoDigits 1 31 d.day _ (by omega) hd1 hd3,
    isspace_space, ↓reduceIte, matchName_month_none '-' (Or.inl rfl)]
  simp [isspace, matchName_month_none '-' (Or.inl rfl)]

theorem strptime_rfc1123_hyphenated (d : HttpDate) (hd : d.Valid) (tm : Tm) :
    (strptime (renderHyphenated d) "%a, %d %b %Y %T GMT".toList tm).2 = none := by
  have hd3 := day_le_31 d hd
  obtain ⟨hw, hy, hm, hd1, hd2, hh, hmi, hs⟩ := hd
  rw [fmt_rfc1123, renderHyphenated]
  simp only [strptime, matchName_weekday d hw ',' (Or.inl rfl), dropWhile_isspace_space,
    dropWhile_isspace_twoDigits, getNumber_twoDigits 1 31 d.day _ (by omega) hd1 hd3,
    isspace_space, ↓reduceIte, matchName_month_none '-' (Or.inl rfl)]
  simp [isspace, matchName_month_none '-' (Or.inl rfl)]

theorem strptime_comma_asctime (d : HttpDate) (hd : d.Valid) (fmt : Str) (tm : Tm) :
    (strptime (renderAsctime d) ('%' :: 'a' :: ',' :: fmt) tm).2 = none := by
  obtain ⟨hw, hy, hm, hd1, hd2, hh, hmi, hs⟩ := hd
  rw [renderAsctime]
  simp only [strptime, matchName_weekday d hw ' ' (Or.inr rfl)]
  simp [isspace]

theorem strptime_asctime_comma (d : HttpDate) (hd : d.Valid) (rest : Str) (tm : Tm) :
    (strptime (weekdayName d ++ ',' :: rest) "%a %b %d %T %Y".toList tm).2 = none := by
  obtain ⟨hw, hy, hm, hd1, hd2, hh, hmi, hs⟩ := hd
  rw [fmt_asctime]
  simp only [strptime, matchName_weekday d hw ',' (Or.inl rfl), isspace_space, ↓reduceIte]
  simp [isspace, List.dropWhile_cons, matchName_month_none ',' (Or.inr rfl)]

theorem strptime_hyphen_space (d : HttpDate) (hd : d.Valid) (rest fmt : Str) (tm : Tm) :
    (strptime (weekdayName d ++ ',' :: ' ' :: (twoDigits d.day ++ ' ' :: rest))
      ('%' :: 'a' :: ',' :: ' ' :: '%' :: 'd' :: '-' :: fmt) tm).2 = none := by
  have hd3 := day_le_31 d hd
  obtain ⟨hw, hy, hm, hd1, hd2, hh, hmi, hs⟩ := hd
  simp only [strptime, matchName_weekday d hw ',' (Or.inl rfl), dropWhile_isspace_space,
    dropWhile_isspace_twoDigits, getNumber_twoDigits 1 31 d.day _ (by omega) hd1 hd3,
    isspace_space, ↓reduceIte]
  simp [isspace]

theorem isspace_comma : isspace ',' = false := rfl

theorem isspace_hyphen : isspace '-' = false := rfl

theorem getNumber_century (y : Nat) (rest : Str) :
    getNumber 0 99 2 (fourDigits y ++ rest) =
      some (y / 1000 % 10 * 10 + y / 100 % 10, digitChar (y / 10) :: digitChar y :: rest) := by
  obtain ⟨a1, a2, a3, _, _⟩ := digitChar_props (y / 1000)
  obtain ⟨b1, b2, _, _, _⟩ := digitChar_props (y / 100)
  have hcond : digitVal (digitChar (y / 1000)) * 10 ≤ 99 := by rw [a2]; omega
  have hrange : digitVal (digitChar (y / 1000)) * 10 + digitVal (digitChar (y / 100)) ≤ 99 := by
    rw [a2, b2]; omega
  simp only [getNumber, fourDigits, List.cons_append, List.nil_append, List.dropWhile_cons, a3,
    Bool.false_eq_true, if_false, a1, if_true, getNumberLoop, hcond, b1, and_self, hrange,
    Nat.zero_le]
  rw [a2, b2]

theorem strptime_twoDigitYear_hyphenated (d : HttpDate) (hd : d.Valid) (tm : Tm) :
    (strptime (renderHyphenated d) "%a, %d-%b-%y %T GMT".toList tm).2 = none := by
  have hd3 := day_le_31 d hd
  obtain ⟨hw, hy, hm, hd1, hd2, hh, hmi, hs⟩ := hd
  have hsp : (digitChar (d.year / 10) :: digitChar d.year :: ' ' ::
      timeOfDay d " GMT".toList).dropWhile isspace
      = digitChar (d.year / 10) :: digitChar d.year :: ' ' :: timeOfDay d " GMT".toList := by
    simp [List.dropWhile_cons, (digitChar_props (d.year / 10)).2.2.1]
  rw [fmt_twoDigitYear, renderHyphenated]
  simp only [strptime, matchName_weekday d hw ',' (Or.inl rfl), dropWhile_isspace_space,
    dropWhile_isspace_twoDigits, getNumber_twoDigits 1 31 d.day _ (by omega) hd1 hd3,
    isspace_space, isspace_comma, isspace_hyphen, Bool.false_eq_true, ↓reduceIte,
    matchName_month d hm '-' (Or.inl rfl), getNumber_century, hsp]
  obtain ⟨t1, ht1⟩ : ∃ t1, strptimeTime (digitChar (d.year / 10) :: digitChar d.year :: ' ' ::
      timeOfDay d " GMT".toList)
      { tm with tm_wday := d.wday, tm_mday := d.day, tm_mon := d.month,
                tm_year := if 69 ≤ d.year / 1000 % 10 * 10 + d.year / 100 % 10
                  then ((d.year / 1000 % 10 * 10 + d.year / 100 % 10 : Nat) : Int)
                  else ((d.year / 1000 % 10 * 10 + d.year / 100 % 10 : Nat) : Int) + 100 }
      = (t1, none) := by
    have h := strptimeTime_year_digits (d.year / 10) d.year (timeOfDay d " GMT".toList)
      { tm with tm_wday := d.wday, tm_mday := d.day, tm_mon := d.month,
                tm_year := if 69 ≤ d.year / 1000 % 10 * 10 + d.year / 100 % 10
                  then ((d.year / 1000 % 10 * 10 + d.year / 100 % 10 : Nat) : Int)
                  else ((d.year / 1000 % 10 * 10 + d.year / 100 % 10 : Nat) : Int) + 100 }
    exact ⟨_, Prod.ext rfl h⟩
  simp only [ht1]

theorem strptime_rfc1123_zone0000 (d : HttpDate) (hd : d.Valid) (tm : Tm) :
    (strptime (renderZone0000 d) "%a, %d %b %Y %T GMT".toList tm).2 = none := by
  have hd3 := day_le_31 d hd
  obtain ⟨hw, hy, hm, hd1, hd2, hh, hmi, hs⟩ := hd
  rw [fmt_rfc1123, renderZone0000]
  simp only [strptime, matchName_weekday d hw ',' (Or.inl rfl), dropWhile_isspace_space,
    dropWhile_isspace_twoDigits, getNumber_twoDigits 1 31 d.day _ (by omega) hd1 hd3,
    dropWhile_isspace_monthName d hm, matchName_month d hm ' ' (Or.inr rfl),
    dropWhile_isspace_fourDigits, getNumber_fourDigits d.year _ hy,
    dropWhile_isspace_timeOfDay, strptimeTime_timeOfDay d _ _ hh hmi hs]
  simp [isspace]

theorem weekdayName_noNul (d : HttpDate) (hw : d.wday < 7) :
    (weekdayName d).all (fun c => c.toNat != 0) = true := by
  obtain ⟨w, long, y, m, dd, h, mi, s⟩ := d
  simp only at hw
  interval_cases w <;> cases long <;> rfl

theorem monthName_noNul (d : HttpDate) (hm : d.month < 12) :
    (monthName d).all (fun c => c.toNat != 0) = true := by
  obtain ⟨w, long, y, m, dd, h, mi, s⟩ := d
  simp only at hm
  interval_cases m <;> rfl

theorem cStr_of_all (s : Str) (h : s.all (fun c => c.toNat != 0) = true) : cStr s = s :=
  (takeWhile_of_all _ s (by simpa using h)).1

theorem digitChar_noNul (n : Nat) : ((digitChar n).toNat != 0) = true :=
  (digitChar_props n).2.2.2.1

theorem timeOfDay_noNul (d : HttpDate) (rest : Str) :
    (timeOfDay d rest).all (fun c => c.toNat != 0) = rest.all (fun c => c.toNat != 0) := by
  simp only [timeOfDay, twoDigits, List.cons_append, List.nil_append, List.all_cons,
    digitChar_noNul, Bool.true_and]
  rfl

theorem cStr_render (d : HttpDate) (hd : d.Valid) :
    cStr (renderRfc1123 d) = renderRfc1123 d ∧
    cStr (renderTwoDigitYear d) = renderTwoDigitYear d ∧
    cStr (renderAsctime d) = renderAsctime d ∧
    cStr (renderHyphenated d) = renderHyphenated d ∧
    cStr (renderZone0000 d) = renderZone0000 d := by
  obtain ⟨hw, hy, hm, hd1, hd2, hh, hmi, hs⟩ := hd
  have hW := weekdayName_noNul d hw
  have hM := monthName_noNul d hm
  have hc : ∀ c : Char, c = ',' ∨ c = ' ' ∨ c = '-' → (c.toNat != 0) = true := by
    rintro c (rfl | rfl | rfl) <;> rfl
  refine ⟨cStr_of_all _ ?_, cStr_of_all _ ?_, cStr_of_all _ ?_, cStr_of_all _ ?_,
    cStr_of_all _ ?_⟩
  · simp only [renderRfc1123, List.all_append, List.all_cons, hW, hM, timeOfDay_noNul, twoDigits,
      fourDigits, digitChar_noNul, List.all_nil, Bool.and_true, Bool.true_and]
    decide
  · simp only [renderTwoDigitYear, List.all_append, List.all_cons, hW, hM, timeOfDay_noNul,
      twoDigits, fourDigits, digitChar_noNul, List.all_nil, Bool.and_true, Bool.true_and]
    decide
  · simp only [renderAsctime, List.all_append, List.all_cons, hW, hM, timeOfDay_noNul,
      twoDigits, fourDigits, digitChar_noNul, List.all_nil, Bool.and_true, Bool.true_and]
    split <;> simp only [List.all_cons, digitChar_noNul, List.all_nil] <;> decide
  · simp only [renderHyphenated, List.all_append, List.all_cons, hW, hM, timeOfDay_noNul,
      twoDigits, fourDigits, digitChar_noNul, List.all_nil, Bool.and_true, Bool.true_and]
    decide
  · simp only [renderZone0000, List.all_append, List.all_cons, hW, hM, timeOfDay_noNul,
      twoDigits, fourDigits, digitChar_noNul, List.all_nil, Bool.and_true, Bool.true_and]
    decide

theorem pair_of_snd_none (x : Tm × Option Str) (h : x.2 = none) : x = (x.1, none) :=
  Prod.ext rfl h

theorem parseHttpDate_of_isHttpDate (value : Str) (d : HttpDate) (h : IsHttpDate value d) :
    parseHttpDate value = (d.toTm, some []) := by
  obtain ⟨hd, hv⟩ := h
  obtain ⟨c1, c2, c3, c4, c5⟩ := cStr_render d hd
  unfold parseHttpDate
  rcases hv with rfl | ⟨rfl, hlo, hhi⟩ | rfl | rfl | rfl
  · simp only [c1, strptime_rfc1123 d hd]
  · simp only [c2]
    rw [pair_of_snd_none _ (strptime_rfc1123_twoDigitYear d hd _)]
    simp only [strptime_twoDigitYear d hd hlo hhi]
  · simp only [c3]
    rw [fmt_rfc1123, pair_of_snd_none _ (strptime_comma_asctime d hd _ _)]
    simp only
    rw [fmt_twoDigitYear, pair_of_snd_none _ (strptime_comma_asctime d hd _ _)]
    simp only [strptime_asctime d hd]
  · simp only [c4]
    rw [pair_of_snd_none _ (strptime_rfc1123_hyphenated d hd _)]
    simp only
    rw [pair_of_snd_none _ (strptime_twoDigitYear_hyphenated d hd _)]
    simp only
    rw [renderHyphenated, pair_of_snd_none _ (strptime_asctime_comma d hd _ _)]
    simp only
    rw [← renderHyphenated]
    simp only [strptime_hyphenated d hd]
  · simp only [c5]
    rw [pair_of_snd_none _ (strptime_rfc1123_zone0000 d hd _)]
    simp only
    rw [fmt_twoDigitYear, renderZone0000, pair_of_snd_none _ (strptime_hyphen_space d hd _ _ _)]
    simp only
    rw [pair_of_snd_none _ (strptime_asctime_comma d hd _ _)]
    simp only
    rw [fmt_hyphenated, pair_of_snd_none _ (strptime_hyphen_space d hd _ _ _)]
    simp only
    rw [← renderZone0000]
    simp only [strptime_zone0000 d hd]

theorem cookieAttribute_expires_date (cookie : Cookie) (part name v : Str) (d : HttpDate)
    (hs : splitFirst part '=' = some (name, v))
    (hn : toLower (trim name) = "expires".toList) (hv : IsHttpDate (trim v) d) :
    cookieAttribute cookie part = .ok { cookie with
      expires := secondsSinceEpoch d, expirationType := .ABSOLUTE } := by
  simp only [cookieAttribute, hs, hn, if_true, parseHttpDate_of_isHttpDate _ d hv,
    timegm_toTm d hv.1]

theorem cookieAttribute_expires_error (cookie : Cookie) (part name v : Str)
    (hs : splitFirst part '=' = some (name, v))
    (hn : toLower (trim name) = "expires".toList)
    (h : (parseHttpDate (trim v)).2 ≠ some []) :
    cookieAttribute cookie part = .error .invalidHttpDate := by
  simp only [cookieAttribute, hs, hn, if_true]
  split
  · rename_i t heq
    rw [heq] at h
    exact absurd rfl h
  · rfl

theorem pair_of_snd_some (x : Tm × Option Str) (rest : Str) (h : x.2 = some rest) :
    x = (x.1, some rest) :=
  Prod.ext rfl h

theorem parseHttpDate_none (value : Str)
    (h : ∀ fmt ∈ httpDateFormats, ∀ t, (strptime (cStr value) fmt t).2 = none) :
    (parseHttpDate value).2 = none := by
  have h1 := h "%a, %d %b %Y %T GMT".toList (by simp [httpDateFormats])
  have h2 := h "%a, %d-%b-%y %T GMT".toList (by simp [httpDateFormats])
  have h3 := h "%a %b %d %T %Y".toList (by simp [httpDateFormats])
  have h4 := h "%a, %d-%b-%Y %T GMT".toList (by simp [httpDateFormats])
  have h5 := h "%a, %d %b %Y %T -0000".toList (by simp [httpDateFormats])
  unfold parseHttpDate
  dsimp only
  rw [pair_of_snd_none _ (h1 _)]
  simp only
  rw [pair_of_snd_none _ (h2 _)]
  simp only
  rw [pair_of_snd_none _ (h3 _)]
  simp only
  rw [pair_of_snd_none _ (h4 _)]
  simp only
  exact h5 _

theorem parseHttpDate_first_match (value rest : Str) (k : Nat) (hk : k < 5)
    (hbefore : ∀ j < k, ∀ t, (strptime (cStr value) (httpDateFormats.getD j []) t).2 = none)
    (hmatch : ∀ t, (strptime (cStr value) (httpDateFormats.getD k []) t).2 = some rest) :
    (parseHttpDate value).2 = some rest := by
  have g0 : httpDateFormats.getD 0 [] = "%a, %d %b %Y %T GMT".toList := rfl
  have g1 : httpDateFormats.getD 1 [] = "%a, %d-%b-%y %T GMT".toList := rfl
  have g2 : httpDateFormats.getD 2 [] = "%a %b %d %T %Y".toList := rfl
  have g3 : httpDateFormats.getD 3 [] = "%a, %d-%b-%Y %T GMT".toList := rfl
  have g4 : httpDateFormats.getD 4 [] = "%a, %d %b %Y %T -0000".toList := rfl
  unfold parseHttpDate
  dsimp only
  interval_cases k
  · rw [g0] at hmatch
    rw [pair_of_snd_some _ rest (hmatch _)]
  · have b0 := hbefore 0 (by omega)
    rw [g0] at b0
    rw [g1] at hmatch
    rw [pair_of_snd_none _ (b0 _)]
    simp only
    rw [pair_of_snd_some _ rest (hmatch _)]
  · have b0 := hbefore 0 (by omega)
    have b1 := hbefore 1 (by omega)
    rw [g0] at b0
    rw [g1] at b1
    rw [g2] at hmatch
    rw [pair_of_snd_none _ (b0 _)]
    simp only
    rw [pair_of_snd_none _ (b1 _)]
    simp only
    rw [pair_of_snd_some _ rest (hmatch _)]
  · have b0 := hbefore 0 (by omega)
    have b1 := hbefore 1 (by omega)
    have b2 := hbefore 2 (by omega)
    rw [g0] at b0
    rw [g1] at b1
    rw [g2] at b2
    rw [g3] at hmatch
    rw [pair_of_snd_none _ (b0 _)]
    simp only
    rw [pair_of_snd_none _ (b1 _)]
    simp only
    rw [pair_of_snd_none _ (b2 _)]
    simp only
    rw [pair_of_snd_some _ rest (hmatch _)]
  · have b0 := hbefore 0 (by omega)
    have b1 := hbefore 1 (by omega)
    have b2 := hbefore 2 (by omega)
    have b3 := hbefore 3 (by omega)
    rw [g0] at b0
    rw [g1] at b1
    rw [g2] at b2
    rw [g3] at b3
    rw [g4] at hmatch
    rw [pair_of_snd_none _ (b0 _)]
    simp only
    rw [pair_of_snd_none _ (b1 _)]
    simp only
    rw [pair_of_snd_none _ (b2 _)]
    simp only
    rw [pair_of_snd_none _ (b3 _)]
    simp only
    exact hmatch _

/-! ## Cookies per header: lemmas -/

theorem addHeader_cookies (p p1 : HttpParser) (raw : RawHeader) (h : addHeader p raw = .ok p1) :
    p1.cookies.map Except.ok =
        p.cookies.map Except.ok ++ (setCookieHeaders [raw]).map (fun r => parseSetCookie r.value) ∧
      (p.headers "set-cookie".toList = none → p1.headers "set-cookie".toList = none) := by
  unfold addHeader at h
  unfold setCookieHeaders
  generalize "set-cookie".toList = sc at *
  by_cases hname : toLower raw.name = sc
  · simp only [hname, if_true] at h
    cases hc : parseSetCookie raw.value with
    | error e => simp [hc] at h
    | ok c =>
      simp only [hc, Except.ok.injEq] at h
      subst h
      simp [hname, hc]
  · simp only [hname, if_false, Except.ok.injEq] at h
    subst h
    refine ⟨by simp [hname], ?_⟩
    intro h0
    have hne : ¬ (sc = toLower raw.name) := fun e => hname e.symm
    simp [hne, h0]

theorem addHeaders_cookies (raws : List RawHeader) (p p1 : HttpParser)
    (h : addHeaders p raws = .ok p1) :
    p1.cookies.map Except.ok =
        p.cookies.map Except.ok ++ (setCookieHeaders raws).map (fun r => parseSetCookie r.value) ∧
      (p.headers "set-cookie".toList = none → p1.headers "set-cookie".toList = none) := by
  induction raws generalizing p with
  | nil =>
    simp only [addHeaders, Except.ok.injEq] at h
    subst h
    simp [setCookieHeaders]
  | cons r rs ih =>
    simp only [addHeaders] at h
    cases h1 : addHeader p r with
    | error e => simp [h1] at h
    | ok p2 =>
      simp only [h1] at h
      obtain ⟨a1, a2⟩ := addHeader_cookies p p2 r h1
      obtain ⟨b1, b2⟩ := ih p2 h
      refine ⟨?_, fun h0 => b2 (a2 h0)⟩
      have hsplit : setCookieHeaders (r :: rs) = setCookieHeaders [r] ++ setCookieHeaders rs := by
        unfold setCookieHeaders
        rw [← List.filter_append]
        rfl
      rw [b1, a1, hsplit, List.map_append, List.append_assoc]

theorem onHeadersComplete_cookies (p p1 : HttpParser) (h : onHeadersComplete p = .ok p1) :
    p1.cookies.map Except.ok =
        p.cookies.map Except.ok ++
          (setCookieHeaders p.rawHeaders).map (fun r => parseSetCookie r.value) ∧
      (p.headers "set-cookie".toList = none → p1.headers "set-cookie".toList = none) := by
  unfold onHeadersComplete at h
  cases h1 : addHeaders p p.rawHeaders with
  | error e => simp [h1] at h
  | ok p2 =>
    simp only [h1] at h
    split at h
    · simp only [Except.ok.injEq] at h
      subst h
      exact addHeaders_cookies p.rawHeaders p p2 h1
    · cases h

theorem build_setCookies (codes : StatusMap) (p : HttpParser) (r : Response)
    (h : build codes p = .ok r) : r.setCookies = p.cookies.map buildCookie := by
  unfold build at h
  split at h
  · cases h
  · dsimp only at h
    split at h
    · cases h
    · split at h
      all_goals first
        | (cases h <;> rfl)
        | (split at h
           all_goals first
             | (cases h <;> rfl)
             | (split at h
                all_goals (cases h <;> rfl)))

/-! ## ETags: lemmas -/

theorem readQuoted_backslash (d : Char) (ds : Str) :
    readQuoted ('\\' :: d :: ds) = (readQuoted ds).cons d := by
  rw [readQuoted]
  simp

theorem readQuoted_quote (cs : Str) : readQuoted ('"' :: cs) = .bareQuote := by
  rw [readQuoted.eq_def]
  simp

theorem readQuoted_other (c : Char) (cs : Str) (h1 : c ≠ '\\') (h2 : c ≠ '"') :
    readQuoted (c :: cs) = (readQuoted cs).cons c := by
  rw [readQuoted.eq_def]
  simp [h1, h2]

theorem readQuoted_escapeQuoted (s : Str) : readQuoted (escapeQuoted s) = .text s := by
  induction s with
  | nil => rfl
  | cons c cs ih =>
    unfold escapeQuoted
    by_cases h : c = '"' ∨ c = '\\'
    · rw [if_pos h]
      rw [readQuoted_backslash, ih]
      rfl
    · rw [if_neg h]
      have h1 : ¬ c = '\\' := fun e => h (Or.inr e)
      have h2 : ¬ c = '"' := fun e => h (Or.inl e)
      rw [readQuoted_other c _ h1 h2, ih]
      rfl

theorem parseETagLoop_readQuoted (n : Nat) (x : Str) (hn : x.length ≤ n) (acc : Str) :
    parseETagLoop x false acc =
      match readQuoted x with
      | .text y => .ok (acc ++ y)
      | .bareQuote => .error .invalidETag
      | .dangling y => .ok (acc ++ y) := by
  induction n generalizing x acc with
  | zero =>
    have : x = [] := List.length_eq_zero.mp (Nat.le_zero.mp hn)
    subst this
    simp [parseETagLoop, readQuoted]
  | succ n ih =>
    cases x with
    | nil => simp [parseETagLoop, readQuoted]
    | cons c cs =>
      simp only [List.length_cons, Nat.add_le_add_iff_right] at hn
      by_cases hb : c = '\\'
      · subst hb
        cases cs with
        | nil => simp [parseETagLoop, readQuoted]
        | cons d ds =>
          have hd : ds.length ≤ n := by simp only [List.length_cons] at hn; omega
          have hq : ¬ ('\\' = '"') := by decide
          simp only [parseETagLoop, Bool.false_eq_true, if_false, hq, if_true]
          rw [ih ds hd, readQuoted_backslash]
          cases readQuoted ds <;> simp [QuotedText.cons]
      · by_cases hq : c = '"'
        · subst hq
          simp [parseETagLoop, readQuoted_quote]
        · simp only [parseETagLoop, Bool.false_eq_true, if_false, hq, hb]
          rw [ih cs hn, readQuoted_other c cs hb hq]
          cases readQuoted cs <;> simp [QuotedText.cons]

theorem quoted_parts (x : Str) :
    startsWith ('"' :: x ++ ['"']) "\"".toList = true ∧
      endsWith ('"' :: x ++ ['"']) "\"".toList = true ∧
      1 < ('"' :: x ++ ['"']).length ∧
      ((('"' :: x ++ ['"']).drop 1).take (('"' :: x ++ ['"']).length - 2)) = x := by
  refine ⟨by simp [startsWith], ?_, by simp, by simp⟩
  simp [endsWith]

theorem afterWeakPrefix_quotedETag (weak : Bool) (x : Str) :
    startsWith (quotedETag weak x) "W/".toList = weak ∧
      afterWeakPrefix (quotedETag weak x) = '"' :: x ++ ['"'] := by
  cases weak <;> simp [quotedETag, afterWeakPrefix, startsWith]

theorem parseETag_eq (input : Str) :
    parseETag input =
      if startsWith (afterWeakPrefix (trim input)) "\"".toList
          && endsWith (afterWeakPrefix (trim input)) "\"".toList
          && 1 < (afterWeakPrefix (trim input)).length then
        match parseETagLoop (((afterWeakPrefix (trim input)).drop 1).take
            ((afterWeakPrefix (trim input)).length - 2)) false [] with
        | .error e => .error e
        | .ok result => .ok ⟨result, startsWith (trim input) "W/".toList⟩
      else .error .invalidETag := rfl

theorem parseETag_quoted (input x : Str) (weak : Bool) (h : trim input = quotedETag weak x) :
    parseETag input =
      match readQuoted x with
      | .text y => .ok ⟨y, weak⟩
      | .bareQuote => .error .invalidETag
      | .dangling y => .ok ⟨y, weak⟩ := by
  obtain ⟨w1, w2⟩ := afterWeakPrefix_quotedETag weak x
  obtain ⟨q1, q2, q3, q4⟩ := quoted_parts x
  rw [parseETag_eq, h, w1, w2, q1, q2, q4]
  simp only [q3, decide_True, Bool.and_self, if_true]
  rw [parseETagLoop_readQuoted _ x (le_refl _)]
  cases readQuoted x <;> simp

theorem parseETag_malformed (input : Str)
    (h : (afterWeakPrefix (trim input)).length < 2 ∨
      (afterWeakPrefix (trim input)).head? ≠ some '"' ∨
      (afterWeakPrefix (trim input)).getLast? ≠ some '"') :
    parseETag input = .error .invalidETag := by
  rw [parseETag_eq]
  generalize afterWeakPrefix (trim input) = b at h
  rw [if_neg]
  intro hc
  simp only [Bool.and_eq_true, decide_eq_true_eq] at hc
  obtain ⟨⟨h1, h2⟩, h3⟩ := hc
  rcases h with h | h | h
  · omega
  · apply h
    cases b with
    | nil => simp at h3
    | cons c cs =>
      simp [startsWith] at h1
      simp [h1]
  · apply h
    simp only [endsWith, Bool.and_eq_true, decide_eq_true_eq, beq_iff_eq] at h2
    have h4 := h2.1
    simp only [String.toList, List.length_singleton] at h4
    have hb : b = b.take (b.length - 1) ++ b.drop (b.length - 1) := (List.take_append_drop _ _).symm
    rw [hb, h4]
    simp

/-! ## Content disposition: lemmas -/

theorem unescapeFilename_backslash (c : Char) (cs : Str) :
    unescapeFilename ('\\' :: c :: cs) = c :: unescapeFilename cs := by
  rw [unescapeFilename]

theorem unescapeFilename_other (c : Char) (cs : Str) (h : c ≠ '\\') :
    unescapeFilename (c :: cs) = c :: unescapeFilename cs := by
  rw [unescapeFilename.eq_def]
  simp [h]

theorem unescapeFilename_escapeQuoted (s : Str) : unescapeFilename (escapeQuoted s) = s := by
  induction s with
  | nil => rfl
  | cons c cs ih =>
    unfold escapeQuoted
    by_cases h : c = '"' ∨ c = '\\'
    · rw [if_pos h, unescapeFilename_backslash, ih]
    · rw [if_neg h, unescapeFilename_other c _ (fun e => h (Or.inr e)), ih]

theorem not_mem_escapeQuoted (s : Str) (c : Char) (hc : c ≠ '\\') (h : c ∉ s) :
    c ∉ escapeQuoted s := by
  induction s with
  | nil => simp [escapeQuoted]
  | cons a as ih =>
    simp only [List.mem_cons, not_or] at h
    unfold escapeQuoted
    split
    · simp [hc, h.1, ih h.2]
    · simp [h.1, ih h.2]

theorem splitAux_of_not_mem (d : Char) (s cur : Str) (h : d ∉ s) :
    splitAux d s cur = [cur.reverse ++ s] := by
  induction s generalizing cur with
  | nil => simp [splitAux]
  | cons c cs ih =>
    simp only [List.mem_cons, not_or] at h
    have hc : ¬ c = d := fun e => h.1 e.symm
    simp [splitAux, hc, ih _ h.2]

theorem splitAux_append (d : Char) (a b cur : Str) (h : d ∉ a) :
    splitAux d (a ++ d :: b) cur = (cur.reverse ++ a) :: splitAux d b [] := by
  induction a generalizing cur with
  | nil => simp [splitAux]
  | cons c cs ih =>
    simp only [List.mem_cons, not_or] at h
    have hc : ¬ c = d := fun e => h.1 e.symm
    simp [splitAux, hc, ih _ h.2]

theorem split_two (d : Char) (a b : Str) (ha : d ∉ a) (hb : d ∉ b) :
    split (a ++ d :: b) d = [a, b] := by
  unfold split
  rw [splitAux_append d a b [] ha, splitAux_of_not_mem d b [] hb]
  simp

theorem dropTrailingSpace_append (l : Str) (c : Char) (h : isspace c = false) :
    dropTrailingSpace (l ++ [c]) = l ++ [c] := by
  induction l with
  | nil => simp [dropTrailingSpace, h]
  | cons a as ih =>
    have e : dropTrailingSpace (a :: (as ++ [c])) = a :: (as ++ [c]) := by
      rw [dropTrailingSpace, ih]
      simp
    exact e

theorem trimArray_quoted (x : Str) : trimArray ('"' :: x ++ ['"']) = '"' :: x ++ ['"'] := by
  unfold trimArray
  have h1 : ('"' :: x ++ ['"']).dropWhile isspace = '"' :: x ++ ['"'] := by
    simp [List.dropWhile_cons, isspace]
  rw [h1]
  exact dropTrailingSpace_append ('"' :: x) '"' (by decide)

theorem dispositionParam_filename (d : Disposition) (v : Str) :
    dispositionParam d (" filename=".toList ++ v) =
      if 2 ≤ (trimArray v).length ∧ (trimArray v).head? = some '"' ∧
          (trimArray v).getLast? = some '"' then
        .download (unescapeFilename (((trimArray v).drop 1).take ((trimArray v).length - 2)))
      else .download (trimArray v) := by
  have h1 : splitFirstAux '=' (" filename=".toList ++ v) [] = some (" filename".toList, v) := by
    simp [splitFirstAux]
  have h2 : trim " filename".toList = "filename".toList := by decide
  unfold dispositionParam
  rw [h1]
  simp only [h2, if_true]

theorem parseDisposition_attachment (v : Str) (hv : ';' ∉ v) :
    parseDisposition ("attachment; filename=".toList ++ v) =
      if 2 ≤ (trimArray v).length ∧ (trimArray v).head? = some '"' ∧
          (trimArray v).getLast? = some '"' then
        .download (unescapeFilename (((trimArray v).drop 1).take ((trimArray v).length - 2)))
      else .download (trimArray v) := by
  have hsplit : split ("attachment; filename=".toList ++ v) ';' =
      ["attachment".toList, " filename=".toList ++ v] := by
    have e : "attachment; filename=".toList ++ v =
        "attachment".toList ++ ';' :: (" filename=".toList ++ v) := by simp
    rw [e]
    apply split_two
    · decide
    · simp [hv]
  have h2 : trim "attachment".toList = "attachment".toList := by decide
  unfold parseDisposition
  rw [hsplit]
  simp only [List.length_cons, List.length_nil, List.headD_cons, h2, List.drop_succ_cons,
    List.drop_zero, List.foldl_cons, List.foldl_nil]
  rw [dispositionParam_filename]
  simp

theorem parseDisposition_normal (d : Str)
    (h : trim (d.takeWhile (fun c => c != ';')) ≠ "attachment".toList) :
    parseDisposition d = .normal := by
  obtain ⟨rest, hr⟩ := split_head ';' d
  unfold parseDisposition
  rw [hr]
  simp only [List.headD_cons]
  rw [if_neg]
  exact fun hc => h hc.2

theorem buildContent_disposition (p : HttpParser) (code : SuccessCode) (c : Content)
    (h : buildContent p code = .ok c) :
    c.disposition =
      match findHeader p "content-disposition".toList with
      | none => .normal
      | some d => parseDisposition d := by
  unfold buildContent at h
  dsimp only at h
  split at h
  · cases h
  · split at h
    · split at h
      · cases h; rfl
      · cases h
    · cases h; rfl

/-! ## Reading and pumping the response: lemmas -/

theorem onHeadersComplete_sent (p p1 : HttpParser) (h : onHeadersComplete p = .ok p1) :
    p1.sent = p.sent ∧ p1.messageComplete = p.messageComplete := by
  have key : ∀ (raws : List RawHeader) (q q1 : HttpParser), addHeaders q raws = .ok q1 →
      q1.sent = q.sent ∧ q1.messageComplete = q.messageComplete := by
    intro raws
    induction raws with
    | nil => intro q q1 hq; simp only [addHeaders, Except.ok.injEq] at hq; subst hq; simp
    | cons r rs ih =>
      intro q q1 hq
      simp only [addHeaders] at hq
      cases h1 : addHeader q r with
      | error e => simp [h1] at hq
      | ok q2 =>
        simp only [h1] at hq
        have h2 : q2.sent = q.sent ∧ q2.messageComplete = q.messageComplete := by
          unfold addHeader at h1
          dsimp only at h1
          split at h1
          · split at h1
            · cases h1
            · simp only [Except.ok.injEq] at h1; subst h1; simp
          · simp only [Except.ok.injEq] at h1; subst h1; simp
        obtain ⟨a, b⟩ := ih q2 q1 hq
        exact ⟨a.trans h2.1, b.trans h2.2⟩
  unfold onHeadersComplete at h
  cases h1 : addHeaders p p.rawHeaders with
  | error e => simp [h1] at h
  | ok p2 =>
    simp only [h1] at h
    split at h
    · simp only [Except.ok.injEq] at h
      subst h
      exact key p.rawHeaders p p2 h1
    · cases h

/-- The fields a callback leaves alone or extends, for a parser that buffers. -/
theorem runAction_buffered (p p1 : HttpParser) (a : ParserAction) (hs : p.isStreaming = false)
    (h : runAction p a = .ok p1) :
    p1.isStreaming = false ∧ p1.sent = p.sent ∧ p1.body = p.body ++ (bodyChunks [a]).flatten := by
  cases a with
  | on_headers_complete =>
    obtain ⟨-, -, h3, h4, -⟩ := onHeadersComplete_fields p p1 h
    obtain ⟨h5, -⟩ := onHeadersComplete_sent p p1 h
    exact ⟨h3.trans hs, h5, by simp [bodyChunks, h4]⟩
  | on_body data =>
    simp only [runAction, onBody, hs, Bool.false_eq_true, if_false, Except.ok.injEq] at h
    subst h
    simp [bodyChunks, hs]
  | _ =>
    simp only [runAction, onStatus, onHeaderField, onHeaderValue, onMessageComplete,
      Except.ok.injEq] at h
    subst h
    simp [bodyChunks, hs]

/-- The fields a callback leaves alone or extends, for a parser that streams. -/
theorem runAction_streaming (p p1 : HttpParser) (a : ParserAction) (hs : p.isStreaming = true)
    (h : runAction p a = .ok p1) :
    p1.isStreaming = true ∧ p1.body = p.body ∧
      p1.sent = p.sent ++ (bodyChunks [a]).map SinkCall.write := by
  cases a with
  | on_headers_complete =>
    obtain ⟨-, -, h3, h4, -⟩ := onHeadersComplete_fields p p1 h
    obtain ⟨h5, -⟩ := onHeadersComplete_sent p p1 h
    exact ⟨h3.trans hs, h4, by simp [bodyChunks, h5]⟩
  | on_body data =>
    simp only [runAction, onBody, hs, if_true, Except.ok.injEq] at h
    subst h
    simp [bodyChunks, hs]
  | _ =>
    simp only [runAction, onStatus, onHeaderField, onHeaderValue, onMessageComplete,
      Except.ok.injEq] at h
    subst h
    simp [bodyChunks, hs]

theorem bodyChunks_cons (a : ParserAction) (as : List ParserAction) :
    bodyChunks (a :: as) = bodyChunks [a] ++ bodyChunks as := by
  cases a <;> simp [bodyChunks]

theorem bodyChunks_append (as bs : List ParserAction) :
    bodyChunks (as ++ bs) = bodyChunks as ++ bodyChunks bs := by
  induction as with
  | nil => simp [bodyChunks]
  | cons a as ih =>
    rw [List.cons_append, bodyChunks_cons, ih, bodyChunks_cons a as, List.append_assoc]

theorem execute_buffered (as : List ParserAction) (p p1 : HttpParser)
    (hs : p.isStreaming = false) (h : http_parser_execute p as = (p1, none)) :
    p1.isStreaming = false ∧ p1.sent = p.sent ∧ p1.body = p.body ++ (bodyChunks as).flatten := by
  induction as generalizing p with
  | nil =>
    simp only [http_parser_execute, Prod.mk.injEq, and_true] at h
    subst h
    simp [bodyChunks, hs]
  | cons a as ih =>
    simp only [http_parser_execute] at h
    cases h1 : runAction p a with
    | error e => simp [h1] at h
    | ok p2 =>
      simp only [h1] at h
      obtain ⟨a1, a2, a3⟩ := runAction_buffered p p2 a hs h1
      obtain ⟨b1, b2, b3⟩ := ih p2 a1 h
      refine ⟨b1, b2.trans a2, ?_⟩
      rw [b3, a3, bodyChunks_cons a as]
      simp

theorem execute_streaming (as : List ParserAction) (p p1 : HttpParser)
    (hs : p.isStreaming = true) (h : http_parser_execute p as = (p1, none)) :
    p1.isStreaming = true ∧ p1.body = p.body ∧
      p1.sent = p.sent ++ (bodyChunks as).map SinkCall.write := by
  induction as generalizing p with
  | nil =>
    simp only [http_parser_execute, Prod.mk.injEq, and_true] at h
    subst h
    simp [bodyChunks, hs]
  | cons a as ih =>
    simp only [http_parser_execute] at h
    cases h1 : runAction p a with
    | error e => simp [h1] at h
    | ok p2 =>
      simp only [h1] at h
      obtain ⟨a1, a2, a3⟩ := runAction_streaming p p2 a hs h1
      obtain ⟨b1, b2, b3⟩ := ih p2 a1 h
      refine ⟨b1, b2.trans a2, ?_⟩
      rw [b3, a3, bodyChunks_cons a as]
      simp

/-- The step of `readResponse` after a read whose actions ran through, as a case
distinction on the parser they leave. -/
theorem readResponseStep_eq (p p1 : HttpParser) (r : Read)
    (h : http_parser_execute p r.actions = (p1, none)) :
    readResponseStep p r =
      if r.nread ≠ r.data.length ∧ p1.upgrade = false then .failed .parseFailed
      else if p1.upgrade then
        if r.nread ≤ r.data.length then .returned p1 (r.data.drop r.nread)
        else .failed .nreadOutOfRange
      else if p1.messageComplete ∨ r.data.length = 0 then
        if p1.headersComplete then .returned p1 [] else .failed .incompleteHeaders
      else if p1.headersComplete ∧ p1.status_code / 100 = 2 then
        .returned { p1 with isStreaming := true } []
      else .again p1 := by
  unfold readResponseStep
  rw [h]

theorem readResponseStep_failed (p p1 : HttpParser) (r : Read) (e : Failure)
    (h : http_parser_execute p r.actions = (p1, some e)) :
    readResponseStep p r = .failed e := by
  unfold readResponseStep
  rw [h]

theorem execute_cases (p : HttpParser) (as : List ParserAction) :
    (∃ p1, http_parser_execute p as = (p1, none)) ∨
      ∃ p1 e, http_parser_execute p as = (p1, some e) := by
  rcases hx : http_parser_execute p as with ⟨p1, _ | e⟩
  · exact Or.inl ⟨p1, rfl⟩
  · exact Or.inr ⟨p1, e, rfl⟩

theorem readResponseStep_of_streamingRead (p p1 : HttpParser) (r : Read)
    (h : http_parser_execute p r.actions = (p1, none)) (hr : StreamingRead p1 r) :
    readResponseStep p r = .returned { p1 with isStreaming := true } [] := by
  obtain ⟨h1, h2, h3, h4, h5, h6, h7⟩ := hr
  have hlen : ¬ r.data.length = 0 := fun e => h3 (List.length_eq_zero.mp e)
  rw [readResponseStep_eq p p1 r h, if_neg (fun hc => hc.1 h1), if_neg (by simp [h2]),
    if_neg (by simp [h4, hlen]), if_pos ⟨h5, by omega⟩]

theorem readResponseStep_of_not_streamingRead (p p1 : HttpParser) (r : Read)
    (h : http_parser_execute p r.actions = (p1, none)) (hr : ¬ StreamingRead p1 r) :
    (∃ e, readResponseStep p r = .failed e) ∨
      (∃ remainder, readResponseStep p r = .returned p1 remainder) ∨
      readResponseStep p r = .again p1 := by
  rw [readResponseStep_eq p p1 r h]
  by_cases c1 : r.nread ≠ r.data.length ∧ p1.upgrade = false
  · rw [if_pos c1]; exact Or.inl ⟨_, rfl⟩
  rw [if_neg c1]
  by_cases c2 : p1.upgrade = true
  · rw [if_pos c2]
    by_cases c3 : r.nread ≤ r.data.length
    · rw [if_pos c3]; exact Or.inr (Or.inl ⟨_, rfl⟩)
    · rw [if_neg c3]; exact Or.inl ⟨_, rfl⟩
  rw [if_neg c2]
  by_cases c4 : p1.messageComplete = true ∨ r.data.length = 0
  · rw [if_pos c4]
    by_cases c5 : p1.headersComplete = true
    · rw [if_pos c5]; exact Or.inr (Or.inl ⟨_, rfl⟩)
    · rw [if_neg c5]; exact Or.inl ⟨_, rfl⟩
  rw [if_neg c4]
  by_cases c6 : p1.headersComplete = true ∧ p1.status_code / 100 = 2
  · exfalso
    apply hr
    have hu : p1.upgrade = false := by simpa using c2
    refine ⟨?_, hu, ?_, ?_, c6.1, by omega, by omega⟩
    · by_contra hne
      exact c1 ⟨hne, hu⟩
    · intro e
      exact c4 (Or.inr (by simp [e]))
    · cases hm : p1.messageComplete
      · rfl
      · exact absurd (Or.inl hm) c4
  · rw [if_neg c6]; exact Or.inr (Or.inr rfl)

theorem readResponseStep_streaming_iff (p p1 : HttpParser) (r : Read)
    (hs : p.isStreaming = false) (h : http_parser_execute p r.actions = (p1, none)) :
    (∃ q remainder, readResponseStep p r = .returned q remainder ∧ q.isStreaming = true) ↔
      StreamingRead p1 r := by
  have hs1 : p1.isStreaming = false := (execute_buffered _ p p1 hs h).1
  constructor
  · rintro ⟨q, rem, hq, hqs⟩
    by_contra hr
    rcases readResponseStep_of_not_streamingRead p p1 r h hr with ⟨e, he⟩ | ⟨rem2, he⟩ | he
    · rw [he] at hq; cases hq
    · rw [he] at hq
      simp only [ReadStep.returned.injEq] at hq
      rw [← hq.1, hs1] at hqs
      cases hqs
    · rw [he] at hq; cases hq
  · intro hr
    exact ⟨_, _, readResponseStep_of_streamingRead p p1 r h hr, rfl⟩

theorem readResponseStep_again (p q : HttpParser) (r : Read)
    (h : readResponseStep p r = .again q) :
    http_parser_execute p r.actions = (q, none) ∧ r.nread = r.data.length ∧
      q.upgrade = false ∧ q.messageComplete = false ∧ r.data ≠ [] ∧
      ¬ (q.headersComplete = true ∧ q.status_code / 100 = 2) := by
  rcases execute_cases p r.actions with ⟨p1, h1⟩ | ⟨p1, e, h1⟩
  · rw [readResponseStep_eq p p1 r h1] at h
    by_cases c1 : r.nread ≠ r.data.length ∧ p1.upgrade = false
    · rw [if_pos c1] at h; cases h
    rw [if_neg c1] at h
    by_cases c2 : p1.upgrade = true
    · rw [if_pos c2] at h
      split at h <;> cases h
    rw [if_neg c2] at h
    by_cases c4 : p1.messageComplete = true ∨ r.data.length = 0
    · rw [if_pos c4] at h
      split at h <;> cases h
    rw [if_neg c4] at h
    by_cases c6 : p1.headersComplete = true ∧ p1.status_code / 100 = 2
    · rw [if_pos c6] at h; cases h
    rw [if_neg c6] at h
    simp only [ReadStep.again.injEq] at h
    subst h
    have hu : p1.upgrade = false := by simpa using c2
    refine ⟨h1, ?_, hu, ?_, ?_, c6⟩
    · by_contra hne
      exact c1 ⟨hne, hu⟩
    · cases hm : p1.messageComplete
      · rfl
      · exact absurd (Or.inl hm) c4
    · intro e
      exact c4 (Or.inr (by simp [e]))
  · rw [readResponseStep_failed p p1 r e h1] at h
    cases h

theorem readResponse_of_afterReads (pre : List Read) (p p0 : HttpParser) (stream : List Read)
    (h : afterReads p pre = some p0) : readResponse p (pre ++ stream) = readResponse p0 stream := by
  induction pre generalizing p with
  | nil =>
    simp only [afterReads, Option.some.injEq] at h
    subst h
    rfl
  | cons r rs ih =>
    simp only [afterReads] at h
    rw [List.cons_append, readResponse]
    cases hstep : readResponseStep p r with
    | failed e => rw [hstep] at h; cases h
    | returned q rem => rw [hstep] at h; cases h
    | again q =>
      rw [hstep] at h
      exact ih q h

theorem afterReads_buffered (pre : List Read) (p p0 : HttpParser) (hs : p.isStreaming = false)
    (h : afterReads p pre = some p0) :
    p0.isStreaming = false ∧ p0.sent = p.sent ∧
      p0.body = p.body ++ (readsBodyChunks pre).flatten := by
  induction pre generalizing p with
  | nil =>
    simp only [afterReads, Option.some.injEq] at h
    subst h
    simp [readsBodyChunks, hs]
  | cons r rs ih =>
    simp only [afterReads] at h
    cases hstep : readResponseStep p r with
    | failed e => rw [hstep] at h; cases h
    | returned q rem => rw [hstep] at h; cases h
    | again q =>
      rw [hstep] at h
      obtain ⟨hx, -⟩ := readResponseStep_again p q r hstep
      obtain ⟨a1, a2, a3⟩ := execute_buffered _ p q hs hx
      obtain ⟨b1, b2, b3⟩ := ih q a1 h
      refine ⟨b1, b2.trans a2, ?_⟩
      rw [b3, a3]
      simp [readsBodyChunks]

theorem afterReads_append (pre : List Read) (p p0 p1 : HttpParser) (r : Read)
    (h : afterReads p pre = some p0) (hr : readResponseStep p0 r = .again p1) :
    afterReads p (pre ++ [r]) = some p1 := by
  induction pre generalizing p with
  | nil =>
    simp only [afterReads, Option.some.injEq] at h
    subst h
    simp [afterReads, hr]
  | cons a as ih =>
    simp only [afterReads] at h
    cases hstep : readResponseStep p a with
    | failed e => rw [hstep] at h; cases h
    | returned q rem => rw [hstep] at h; cases h
    | again q =>
      rw [hstep] at h
      simp only [List.cons_append, afterReads, hstep]
      exact ih q h

theorem readsBodyChunks_append (as bs : List Read) :
    readsBodyChunks (as ++ bs) = readsBodyChunks as ++ readsBodyChunks bs := by
  induction as with
  | nil => simp [readsBodyChunks]
  | cons a as ih => simp [readsBodyChunks, ih]

theorem readResponse_cons (p : HttpParser) (r : Read) (stream : List Read) :
    readResponse p (r :: stream) =
      match readResponseStep p r with
      | .failed e => some (.error e)
      | .returned q remainder => some (.ok (q, remainder, stream))
      | .again q => readResponse q stream := by
  cases h : readResponseStep p r <;> simp [readResponse, h]

/-- An empty read, the end of the file, never asks for another read. -/
theorem readResponseStep_eof (p : HttpParser) (r : Read) (h : r.data = []) :
    ∀ q, readResponseStep p r ≠ .again q := by
  intro q hq
  exact (readResponseStep_again p q r hq).2.2.2.2.1 h

theorem pumpStreamInternal_of_afterPumpReads (pre : List Read) (p p0 : HttpParser)
    (stream : List Read) (h : afterPumpReads p pre = some p0) :
    pumpStreamInternal p (pre ++ stream) = pumpStreamInternal p0 stream := by
  induction pre generalizing p with
  | nil =>
    simp only [afterPumpReads, Option.some.injEq] at h
    subst h
    rfl
  | cons r rs ih =>
    simp only [afterPumpReads] at h
    rw [List.cons_append, pumpStreamInternal]
    rcases execute_cases p r.actions with ⟨p1, h1⟩ | ⟨p1, e, h1⟩
    · rw [h1] at h ⊢
      dsimp only at h ⊢
      by_cases c : r.nread = r.data.length ∧ p1.messageComplete = false ∧ r.data ≠ []
      · rw [if_pos c] at h
        have hlen : ¬ r.data.length = 0 := fun e => c.2.2 (List.length_eq_zero.mp e)
        rw [if_neg (by simp [c.1]), if_neg (by simp [c.2.1, hlen])]
        exact ih p1 h
      · rw [if_neg c] at h; cases h
    · rw [h1] at h
      cases h

theorem afterPumpReads_streaming (pre : List Read) (p p0 : HttpParser)
    (hs : p.isStreaming = true) (h : afterPumpReads p pre = some p0) :
    p0.isStreaming = true ∧ p0.body = p.body ∧
      p0.sent = p.sent ++ (readsBodyChunks pre).map SinkCall.write := by
  induction pre generalizing p with
  | nil =>
    simp only [afterPumpReads, Option.some.injEq] at h
    subst h
    simp [readsBodyChunks, hs]
  | cons r rs ih =>
    simp only [afterPumpReads] at h
    rcases execute_cases p r.actions with ⟨p1, h1⟩ | ⟨p1, e, h1⟩
    · rw [h1] at h
      dsimp only at h
      by_cases c : r.nread = r.data.length ∧ p1.messageComplete = false ∧ r.data ≠ []
      · rw [if_pos c] at h
        obtain ⟨a1, a2, a3⟩ := execute_streaming _ p p1 hs h1
        obtain ⟨b1, b2, b3⟩ := ih p1 a1 h
        refine ⟨b1, b2.trans a2, ?_⟩
        rw [b3, a3]
        simp [readsBodyChunks]
      · rw [if_neg c] at h; cases h
    · rw [h1] at h
      cases h

theorem pumpStreamInternal_last (p p1 : HttpParser) (last : Read) (rest : List Read)
    (hx : http_parser_execute p last.actions = (p1, none))
    (hn : last.nread = last.data.length)
    (hend : p1.messageComplete = true ∨ last.data = []) :
    pumpStreamInternal p (last :: rest) = ({ p1 with sent := p1.sent ++ [.done] }, .finished) := by
  rw [pumpStreamInternal, hx]
  dsimp only
  have hend2 : p1.messageComplete = true ∨ last.data.length = 0 := by
    rcases hend with h | h
    · exact Or.inl h
    · exact Or.inr (by simp [h])
  rw [if_neg (by simp [hn]), if_pos hend2]

theorem forwardBufferedBody_fields (p : HttpParser) :
    (forwardBufferedBody p).isStreaming = p.isStreaming ∧
      (forwardBufferedBody p).body = [] ∧
      (forwardBufferedBody p).sent =
        p.sent ++ (if p.body = [] then [] else [SinkCall.write p.body]) := by
  unfold forwardBufferedBody
  by_cases hb : p.body = []
  · simp [hb]
  · have hpos : 0 < p.body.length := List.length_pos.mpr hb
    simp [hb, hpos]

/-! ## The streaming request: lemmas -/

theorem digitsLoop_zero (base : Nat) (digit : Nat → Char) (fuel : Nat) (acc : Str) :
    digitsLoop base digit fuel 0 acc = acc := by
  cases fuel <;> simp [digitsLoop]

theorem digitsLoop_acc (base : Nat) (digit : Nat → Char) (fuel i : Nat) (acc : Str) :
    digitsLoop base digit fuel i acc = digitsLoop base digit fuel i [] ++ acc := by
  induction fuel generalizing i acc with
  | zero => simp [digitsLoop]
  | succ f ih =>
    simp only [digitsLoop]
    split
    · simp
    · rw [ih (i / base) (digit (i % base) :: acc), ih (i / base) [digit (i % base)]]
      simp

theorem digitsLoop_succ (base : Nat) (digit : Nat → Char) (fuel i : Nat) (h : i ≠ 0) :
    digitsLoop base digit (fuel + 1) i [] =
      digitsLoop base digit fuel (i / base) [] ++ [digit (i % base)] := by
  simp only [digitsLoop, h, if_false]
  exact digitsLoop_acc base digit fuel (i / base) _

theorem numeralValueFrom_append (base : Nat) (value : Char → Option Nat) (s : Str) (c : Char)
    (acc x d : Nat) (hs : numeralValueFrom base value acc s = some x) (hc : value c = some d) :
    numeralValueFrom base value acc (s ++ [c]) = some (x * base + d) := by
  induction s generalizing acc with
  | nil =>
    simp only [numeralValueFrom, Option.some.injEq] at hs
    subst hs
    simp [numeralValueFrom, hc]
  | cons a as ih =>
    simp only [numeralValueFrom, List.cons_append] at hs ⊢
    cases ha : value a with
    | none => simp [ha] at hs
    | some v =>
      simp only [ha] at hs ⊢
      exact ih _ hs

/-- The digits that `digitsLoop` produces denote the number, and the first of them is not
`0`, when the digit characters fit their values and the fuel suffices. -/
theorem digitsLoop_numeral (base : Nat) (digit : Nat → Char) (value : Char → Option Nat)
    (hb : 1 < base) (hv : ∀ d, d < base → value (digit d) = some d)
    (h0 : ∀ d, d < base → 0 < d → digit d ≠ '0') (fuel i : Nat) (hi : i < base ^ fuel) :
    numeralValueFrom base value 0 (digitsLoop base digit fuel i []) = some i ∧
      (0 < i → digitsLoop base digit fuel i [] ≠ [] ∧
        (digitsLoop base digit fuel i []).head? ≠ some '0') := by
  induction fuel generalizing i with
  | zero =>
    have : i = 0 := by simpa using hi
    subst this
    simp [digitsLoop, numeralValueFrom]
  | succ f ih =>
    by_cases hz : i = 0
    · subst hz
      simp [digitsLoop, numeralValueFrom]
    · have hpos : 0 < base := by omega
      have hdiv : i / base < base ^ f := by
        rw [Nat.div_lt_iff_lt_mul hpos]
        rw [pow_succ] at hi
        exact hi
      have hmod : i % base < base := Nat.mod_lt _ hpos
      obtain ⟨v1, v2⟩ := ih (i / base) hdiv
      rw [digitsLoop_succ base digit f i hz]
      refine ⟨?_, fun _ => ⟨by simp, ?_⟩⟩
      · rw [numeralValueFrom_append base value _ _ 0 (i / base) (i % base) v1 (hv _ hmod)]
        congr 1
        exact Nat.div_add_mod' i base
      · by_cases hq : i / base = 0
        · rw [hq, digitsLoop_zero]
          have hlt : i < base := by
            by_contra hge
            have : 0 < i / base := Nat.div_pos (by omega) hpos
            omega
          have hmi : i % base = i := Nat.mod_eq_of_lt hlt
          rw [hmi]
          simp only [List.nil_append, List.head?_cons, ne_eq, Option.some.injEq]
          exact h0 i hlt (Nat.pos_of_ne_zero hz)
        · obtain ⟨w1, w2⟩ := v2 (Nat.pos_of_ne_zero hq)
          cases hl : digitsLoop base digit f (i / base) [] with
          | nil => exact absurd hl w1
          | cons a as =>
            rw [hl] at w2
            simpa using w2

theorem hexDigit_value (d : Nat) (h : d < 16) : hexDigitValue (hexDigit d) = some d := by
  interval_cases d <;> rfl

theorem hexDigit_ne_zero (d : Nat) (h : d < 16) (h0 : 0 < d) : hexDigit d ≠ '0' := by
  interval_cases d <;> decide

theorem decimalDigit_value (d : Nat) (h : d < 10) :
    decimalDigitValue (Char.ofNat (48 + d)) = some d := by
  interval_cases d <;> rfl

theorem decimalDigit_ne_zero (d : Nat) (h : d < 10) (h0 : 0 < d) : Char.ofNat (48 + d) ≠ '0' := by
  interval_cases d <;> decide

theorem hex_isHexNumeral (n : Nat) (h : n < 2 ^ 64) : IsHexNumeral (hex n) n := by
  unfold hex IsHexNumeral IsNumeral
  by_cases hz : n = 0
  · subst hz
    simp [numeralValueFrom, hexDigitValue]
  · rw [if_neg hz]
    obtain ⟨v1, v2⟩ := digitsLoop_numeral 16 hexDigit hexDigitValue (by decide) hexDigit_value
      hexDigit_ne_zero 16 n (by norm_num at h ⊢; exact h)
    obtain ⟨w1, w2⟩ := v2 (by omega)
    exact ⟨w1, v1, fun hc => absurd hc w2⟩

theorem decimal_isDecimalNumeral (n : Nat) (h : n < 2 ^ 64) : IsDecimalNumeral (decimal n) n := by
  unfold decimal IsDecimalNumeral IsNumeral
  by_cases hz : n = 0
  · subst hz
    simp [numeralValueFrom, decimalDigitValue]
  · rw [if_neg hz]
    obtain ⟨v1, v2⟩ := digitsLoop_numeral 10 (fun d => Char.ofNat (48 + d)) decimalDigitValue
      (by decide) decimalDigit_value decimalDigit_ne_zero 20 n (by norm_num at h ⊢; omega)
    obtain ⟨w1, w2⟩ := v2 (by omega)
    exact ⟨w1, v1, fun hc => absurd hc w2⟩

theorem endsWith_blankLine (base : Str) :
    endsWith (base ++ "\r\n\r\n".toList) "\r\n\r\n".toList = true ∧
      (base ++ "\r\n\r\n".toList).take ((base ++ "\r\n\r\n".toList).length - 2)
        = base ++ "\r\n".toList := by
  constructor
  · simp [endsWith]
  · have e : base ++ "\r\n\r\n".toList = (base ++ "\r\n".toList) ++ "\r\n".toList := by simp
    rw [e, List.length_append]
    have l2 : "\r\n".toList.length = 2 := rfl
    rw [l2, Nat.add_sub_cancel, List.take_left']
    rfl

theorem writeHeadersOnce_sent (s : RequestStreamImpl) (contentLength : Option Nat)
    (h : s.httpRequest = none) : writeHeadersOnce s contentLength = (s, none) := by
  unfold writeHeadersOnce
  rw [h]

theorem writeHeadersOnce_pending (s : RequestStreamImpl) (base : Str)
    (h : s.httpRequest = some (base ++ "\r\n\r\n".toList)) :
    (∀ l : Nat, writeHeadersOnce s (some l) =
      ({ s with
          httpRequest := none, isChunked := false,
          written := s.written ++
            [withHeaderLine base ("Content-Length: ".toList ++ decimal l)] }, none)) ∧
    writeHeadersOnce s none =
      ({ s with
          httpRequest := none,
          written := s.written ++
            [withHeaderLine base "Transfer-Encoding: chunked".toList] }, none) := by
  obtain ⟨e1, e2⟩ := endsWith_blankLine base
  constructor
  · intro l
    unfold writeHeadersOnce
    rw [h]
    simp only [e1, if_true, e2, withHeaderLine]
    simp
  · unfold writeHeadersOnce
    rw [h]
    simp only [e1, if_true, e2, withHeaderLine]
    simp

theorem call_after_headers (t : RequestStreamImpl) (c : Call) (h : t.httpRequest = none) :
    (call t c).1.httpRequest = none ∧ (call t c).1.isChunked = t.isChunked ∧
      (call t c).1.written = t.written ++ sentAfterHeaders t c := by
  cases c with
  | write data =>
    simp only [call, sentAfterHeaders]
    unfold write
    by_cases hd : t.doneCalled = true
    · simp [hd, h]
    · rw [if_neg hd, writeHeadersOnce_sent t none h]
      dsimp only
      split
      · rename_i hw
        by_cases hc : t.isChunked = true
        · simp [hc, h]
        · simp [hc, h]
      · simp [h]
  | done =>
    simp only [call, sentAfterHeaders]
    unfold done
    dsimp only
    split
    · by_cases hd : t.doneCalled = true
      · simp [hd, h]
      · rw [if_neg hd, writeHeadersOnce_sent _ _ (by simpa using h)]
        dsimp only
        by_cases hc : t.isChunked = true
        · simp [hc, h]
        · simp [hc, h]
    · simp [h]
  | expectSize size =>
    simp only [call, sentAfterHeaders, expectSize]
    rw [writeHeadersOnce_sent _ _ (by simpa using h)]
    simp [h]

/-! ## The streaming request: checks: lemmas -/

theorem writeHeadersOnce_fields (s : RequestStreamImpl) (contentLength : Option Nat) :
    (writeHeadersOnce s contentLength).1.doneCalled = s.doneCalled ∧
      (writeHeadersOnce s contentLength).1.getResponseCalled = s.getResponseCalled ∧
      (writeHeadersOnce s contentLength).1.bytesReceived = s.bytesReceived ∧
      (writeHeadersOnce s contentLength).1.expectedSize = s.expectedSize ∧
      ((writeHeadersOnce s contentLength).2 = none →
        (writeHeadersOnce s contentLength).1.httpRequest = none) := by
  unfold writeHeadersOnce
  cases hreq : s.httpRequest with
  | none => simp [hreq]
  | some r =>
    dsimp only
    split
    · cases contentLength <;> simp
    · simp

theorem write_fields (s : RequestStreamImpl) (data : Str) :
    (write s data).1.doneCalled = s.doneCalled ∧
      (write s data).1.getResponseCalled = s.getResponseCalled ∧
      (write s data).1.expectedSize = s.expectedSize := by
  obtain ⟨h1, h2, -, h4, -⟩ := writeHeadersOnce_fields s none
  unfold write
  by_cases hd : s.doneCalled = true
  · simp [hd]
  · rw [if_neg hd]
    rcases hx : writeHeadersOnce s none with ⟨s1, _ | e⟩
    · rw [hx] at h1 h2 h4
      dsimp only at h1 h2 h4 ⊢
      split
      · split <;> exact ⟨h1, h2, h4⟩
      · exact ⟨h1, h2, h4⟩
    · rw [hx] at h1 h2 h4
      exact ⟨h1, h2, h4⟩

theorem done_fields (s : RequestStreamImpl) :
    (s.doneCalled = true → (done s).1 = s ∧ (done s).2 ≠ none) ∧
      ((done s).2 = none → (done s).1.doneCalled = true ∧ (done s).1.httpRequest = none ∧
        (done s).1.expectedSize = s.expectedSize ∧
        (done s).1.bytesReceived = s.bytesReceived) ∧
      (done s).1.getResponseCalled = s.getResponseCalled ∧
      ((done s).2 ≠ none → (done s).1.written = s.written) := by
  obtain ⟨h1, h2, h3, h4, h5⟩ := writeHeadersOnce_fields { s with doneCalled := true } (some 0)
  unfold done
  dsimp only
  split
  · by_cases hd : s.doneCalled = true
    · simp [hd]
    · rw [if_neg hd]
      rcases hx : writeHeadersOnce { s with doneCalled := true } (some 0) with ⟨s1, _ | e⟩
      · rw [hx] at h1 h2 h3 h4 h5
        dsimp only at h1 h2 h3 h4 h5 ⊢
        refine ⟨fun hc => absurd hc hd, fun _ => ?_, ?_, ?_⟩
        · split <;> exact ⟨h1, h5 rfl, h4, h3⟩
        · split <;> exact h2
        · intro hne
          split at hne <;> exact absurd rfl hne
      · rw [hx] at h1 h2 h3 h4 h5
        dsimp only at h1 h2 h3 h4 h5 ⊢
        refine ⟨fun hc => absurd hc hd, fun hc => (by cases hc), h2, fun _ => ?_⟩
        have hw : (writeHeadersOnce { s with doneCalled := true } (some 0)).1.written
            = s.written := by
          unfold writeHeadersOnce
          unfold writeHeadersOnce at hx
          cases hreq : s.httpRequest with
          | none => simp [hreq] at hx
          | some r =>
            simp only [hreq] at hx ⊢
            split
            · rename_i hends
              simp only [hends, if_true] at hx
              simp at hx
            · rfl
        rw [hx] at hw
        exact hw
  · simp

theorem expectSize_fields (s : RequestStreamImpl) (size : Nat) :
    (expectSize s size).1.doneCalled = s.doneCalled ∧
      (expectSize s size).1.getResponseCalled = s.getResponseCalled ∧
      (expectSize s size).1.bytesReceived = s.bytesReceived ∧
      (expectSize s size).1.expectedSize = some ((s.bytesReceived + size) % 2 ^ 64) := by
  obtain ⟨h1, h2, h3, h4, -⟩ := writeHeadersOnce_fields
    { s with expectedSize := some ((s.bytesReceived + size) % 2 ^ 64) } (some size)
  unfold expectSize
  exact ⟨h1, h2, h3, h4⟩

theorem call_doneCalled (s : RequestStreamImpl) (c : Call) (h : s.doneCalled = true) :
    (call s c).1.doneCalled = true := by
  cases c with
  | write data => exact (write_fields s data).1.trans h
  | done => rw [show call s .done = done s from rfl, ((done_fields s).1 h).1]; exact h
  | expectSize size => exact (expectSize_fields s size).1.trans h

theorem call_getResponseCalled (s : RequestStreamImpl) (c : Call) :
    (call s c).1.getResponseCalled = s.getResponseCalled := by
  cases c with
  | write data => exact (write_fields s data).2.1
  | done => exact (done_fields s).2.2.1
  | expectSize size => exact (expectSize_fields s size).2.1

theorem callsAny_doneCalled (cs : List Call) (s : RequestStreamImpl) (h : s.doneCalled = true) :
    (callsAny s cs).doneCalled = true := by
  induction cs generalizing s with
  | nil => exact h
  | cons c cs ih => exact ih _ (call_doneCalled s c h)

theorem callsAny_getResponseCalled (cs : List Call) (s : RequestStreamImpl) :
    (callsAny s cs).getResponseCalled = s.getResponseCalled := by
  induction cs generalizing s with
  | nil => rfl
  | cons c cs ih => exact (ih _).trans (call_getResponseCalled s c)

theorem write_after_done (s : RequestStreamImpl) (data : Str) (h : s.doneCalled = true) :
    write s data = (s, some .writeAfterDone) := by
  unfold write
  rw [if_pos h]

theorem write_exceeds (t : RequestStreamImpl) (e : Nat) (data : Str)
    (ht : t.expectedSize = some e) (hlen : t.bytesReceived + data.length < 2 ^ 64)
    (hover : e < t.bytesReceived + data.length) : (write t data).2 ≠ none := by
  obtain ⟨-, -, h3, h4, -⟩ := writeHeadersOnce_fields t none
  unfold write
  by_cases hd : t.doneCalled = true
  · rw [if_pos hd]; simp
  · rw [if_neg hd]
    rcases hx : writeHeadersOnce t none with ⟨s1, _ | f⟩
    · rw [hx] at h3 h4
      dsimp only at h3 h4 ⊢
      rw [h4, ht, h3, Nat.mod_eq_of_lt hlen]
      dsimp only
      rw [if_neg (by simpa using hover)]
      simp
    · simp

theorem writeHeadersOnce_failure (s : RequestStreamImpl) (contentLength : Option Nat)
    (f : Failure) (h : (writeHeadersOnce s contentLength).2 = some f) :
    f = .requestNotTerminated := by
  unfold writeHeadersOnce at h
  cases hreq : s.httpRequest with
  | none => simp [hreq] at h
  | some r =>
    simp only [hreq] at h
    split at h
    · cases contentLength <;> simp at h
    · simp only [Option.some.injEq] at h
      exact h.symm

theorem done_sizeCheck (t : RequestStreamImpl) (e : Nat) (ht : t.expectedSize = some e) :
    (done t).2 = some .doneBeforeExpectedSize ↔ t.bytesReceived ≠ e := by
  obtain ⟨dc, gr, ch, br, es, hr, wr⟩ := t
  simp only at ht
  subst ht
  unfold done
  dsimp only
  by_cases heq : br = e
  · rw [if_pos (by simpa using heq)]
    by_cases hd : dc = true
    · simp [hd, heq]
    · rw [if_neg hd]
      rcases hx : writeHeadersOnce ⟨true, gr, ch, br, some e, hr, wr⟩ (some 0) with ⟨s1, _ | f⟩
      · dsimp only
        split <;> simp [heq]
      · have hf := writeHeadersOnce_failure _ _ f (by rw [hx])
        subst hf
        simp [heq]
  · rw [if_neg (by simpa using heq)]
    simp [heq]

/-! ## Permissions and sessions: lemmas -/

theorem formatPermissionsLoop_eq (configPermissions : List Str) (userPermissions : List Bool)
    (fuel i : Nat) (h : i + fuel = configPermissions.length) :
    formatPermissionsLoop configPermissions userPermissions fuel i =
      ((List.range' i fuel).filter
        (fun i => decide (i < userPermissions.length) && userPermissions.getD i false)).map
        (fun i => configPermissions.getD i []) := by
  induction fuel generalizing i with
  | zero => simp [formatPermissionsLoop]
  | succ fuel ih =>
    have hi : i < configPermissions.length := by omega
    rw [formatPermissionsLoop, List.range'_succ, List.filter_cons]
    by_cases hu : i < userPermissions.length
    · rw [if_pos ⟨hi, hu⟩, ih (i + 1) (by omega)]
      by_cases hb : userPermissions.getD i false = true
      · have hp : (decide (i < userPermissions.length) && userPermissions.getD i false) = true := by
          rw [hb, decide_eq_true hu]; rfl
        rw [if_pos hb, if_pos hp, List.map_cons]
        rfl
      · have hp : ¬ (decide (i < userPermissions.length) && userPermissions.getD i false) = true := by
          intro hc
          rw [Bool.and_eq_true] at hc
          exact hb hc.2
        rw [if_neg hb, if_neg hp]
        rfl
    · rw [if_neg (fun hc => hu hc.2)]
      have hp : ¬ (decide (i < userPermissions.length) && userPermissions.getD i false) = true := by
        intro hc
        rw [Bool.and_eq_true, decide_eq_true_eq] at hc
        exact hu hc.1
      have hnil : (List.range' (i + 1) fuel).filter
          (fun i => decide (i < userPermissions.length) && userPermissions.getD i false) = [] := by
        rw [List.filter_eq_nil_iff]
        intro j hj
        rw [List.mem_range'_1] at hj
        intro hc
        rw [Bool.and_eq_true, decide_eq_true_eq] at hc
        omega
      rw [if_neg hp, hnil]
      rfl

theorem formatPermissions_eq (configPermissions : List Str) (userPermissions : List Bool) :
    formatPermissions configPermissions userPermissions =
      strArray (grantedPermissions configPermissions userPermissions) ",".toList := by
  unfold formatPermissions grantedPermissions
  rw [formatPermissionsLoop_eq configPermissions userPermissions _ 0 (by simp),
    List.range_eq_range']

theorem newSession_web (config : BridgeConfig) (counter : Nat) (map : SessionContextMap)
    (params : NewSessionParams) (counter1 : Nat) (map1 : SessionContextMap) (s : WebSessionImpl)
    (h : newSession config counter map params = (counter1, map1, .ok (.web s))) :
    s.sessionId = decimal counter ∧ s.sessionContext = params.context ∧
      s.permissions = formatPermissions config.permissions params.userInfo.permissions ∧
      counter1 = (counter + 1) % 2 ^ 32 ∧
      map1 = map.insert (decimal counter) params.context ∧
      (params.sessionType = .webSession ∨ params.sessionType = .apiSession) := by
  have key : ∀ (tabId basePath userAgent acceptLanguages rootPath permissions : Str)
      (remoteAddress : Option Str) (t : WebSessionImpl) (m : SessionContextMap),
      WebSessionImpl.new params.userInfo params.context map (decimal counter) tabId basePath
        userAgent acceptLanguages rootPath permissions remoteAddress = .ok (t, m) →
      t.sessionId = decimal counter ∧ t.sessionContext = params.context ∧
        t.permissions = permissions ∧ m = map.insert (decimal counter) params.context := by
    intro tabId basePath userAgent acceptLanguages rootPath permissions remoteAddress t m hnew
    unfold WebSessionImpl.new at hnew
    dsimp only at hnew
    split at hnew
    · cases hnew
    · simp only [Except.ok.injEq, Prod.mk.injEq] at hnew
      obtain ⟨h1, h2⟩ := hnew
      subst h1
      exact ⟨rfl, rfl, rfl, h2.symm⟩
  unfold newSession at h
  split at h
  · split at h
    · rename_i hweb
      split at h
      · simp at h
      · rename_i t m hnew
        simp only [Prod.mk.injEq, Except.ok.injEq, SessionObject.web.injEq] at h
        obtain ⟨h1, h2, h3⟩ := h
        subst h3
        obtain ⟨k1, k2, k3, k4⟩ := key _ _ _ _ _ _ _ _ _ hnew
        exact ⟨k1, k2, k3, h1.symm, h2 ▸ k4, Or.inl hweb⟩
    · split at h
      · rename_i hapi
        split at h
        · simp at h
        · rename_i t m hnew
          simp only [Prod.mk.injEq, Except.ok.injEq, SessionObject.web.injEq] at h
          obtain ⟨h1, h2, h3⟩ := h
          subst h3
          obtain ⟨k1, k2, k3, k4⟩ := key _ _ _ _ _ _ _ _ _ hnew
          exact ⟨k1, k2, k3, h1.symm, h2 ▸ k4, Or.inr hapi⟩
      · simp at h
  · simp at h

/-! ## The request header block: lemmas -/

theorem strArray_cons (a : Str) (rest : List Str) (delim : Str) (h : rest ≠ []) :
    strArray (a :: rest) delim = a ++ delim ++ strArray rest delim := by
  cases rest with
  | nil => exact absurd rfl h
  | cons b bs => rfl

theorem strArray_append_singleton (l : List Str) (a : Str) (delim : Str) (h : l ≠ []) :
    strArray (l ++ [a]) delim = strArray l delim ++ delim ++ a := by
  induction l with
  | nil => exact absurd rfl h
  | cons b bs ih =>
    by_cases hb : bs = []
    · subst hb
      rfl
    · rw [List.cons_append, strArray_cons _ _ _ (by simp), ih hb, strArray_cons _ _ _ hb]
      simp

theorem strArray_blankLines (l : List Str) (h : l ≠ []) :
    strArray (l ++ [[], []]) "\r\n".toList = strArray l "\r\n".toList ++ "\r\n\r\n".toList := by
  have e : l ++ [[], []] = (l ++ [[]]) ++ [[]] := by simp
  rw [e, strArray_append_singleton _ _ _ (by simp), strArray_append_singleton _ _ _ h]
  simp

theorem strArray_eq_commaJoined (l : List Str) : strArray l ", ".toList = commaJoined l := by
  induction l with
  | nil => rfl
  | cons a rest ih =>
    cases rest with
    | nil => rfl
    | cons b bs =>
      rw [strArray_cons _ _ _ (by simp), ih]
      rfl

theorem renderETag_eq (e : ETag) : renderETag e = quotedETag e.weak e.value := by
  unfold renderETag quotedETag
  cases e.weak <;> simp

theorem headerName_cons (c : Char) (rest : Str) (h : c ≠ ':') :
    headerName (c :: rest) = c :: headerName rest := by
  simp [headerName, List.takeWhile_cons, h]

theorem headerName_colon (rest : Str) : headerName (':' :: rest) = [] := by
  simp [headerName, List.takeWhile_cons]

theorem headerName_append (name rest : Str) (h : ':' ∉ name) :
    headerName (name ++ ':' :: rest) = name := by
  induction name with
  | nil => exact headerName_colon rest
  | cons c cs ih =>
    simp only [List.mem_cons, not_or] at h
    rw [List.cons_append, headerName_cons _ _ (fun e => h.1 e.symm), ih h.2]

/-- A block of lines whose names all lie in `names` has no line of another name. -/
theorem linesNamed_of_names (name : String) (names : List Str) (block : List Str)
    (hblock : ∀ line ∈ block, headerName line ∈ names) (hname : name.toList ∉ names) :
    linesNamed name block = [] := by
  unfold linesNamed
  rw [List.filter_eq_nil_iff]
  intro line hline hc
  have := hblock line hline
  rw [decide_eq_true_eq] at hc
  rw [hc] at this
  exact hname this

theorem linesNamed_append (name : String) (a b : List Str) :
    linesNamed name (a ++ b) = linesNamed name a ++ linesNamed name b := by
  unfold linesNamed
  rw [List.filter_append]

theorem tabLines_names (s : WebSessionImpl) :
    ∀ line ∈ tabLines s, headerName line ∈
      ["User-Agent".toList, "X-Sandstorm-Tab-Id".toList, "X-Sandstorm-Username".toList] := by
  have h1 : headerName ("User-Agent: ".toList ++ s.userAgent) = "User-Agent".toList :=
    headerName_append "User-Agent".toList (' ' :: s.userAgent) (by decide)
  have h2 : headerName ("X-Sandstorm-Tab-Id: ".toList ++ s.tabId) = "X-Sandstorm-Tab-Id".toList :=
    headerName_append "X-Sandstorm-Tab-Id".toList (' ' :: s.tabId) (by decide)
  have h3 : headerName ("X-Sandstorm-Username: ".toList ++ s.userDisplayName)
      = "X-Sandstorm-Username".toList :=
    headerName_append "X-Sandstorm-Username".toList (' ' :: s.userDisplayName) (by decide)
  intro line hline
  unfold tabLines at hline
  rw [List.mem_append] at hline
  rcases hline with hline | hline
  · split at hline
    · rw [List.mem_singleton] at hline
      rw [hline, h1]
      decide
    · cases hline
  · simp only [List.mem_cons, List.mem_singleton, List.not_mem_nil, or_false] at hline
    rcases hline with hline | hline
    · rw [hline, h2]; decide
    · rw [hline, h3]; decide

theorem userLines_names (env : Environment) (s : WebSessionImpl) :
    ∀ line ∈ userLines env s, headerName line ∈
      ["X-Sandstorm-User-Id".toList, "X-Sandstorm-Preferred-Handle".toList,
       "X-Sandstorm-User-Picture".toList, "X-Sandstorm-User-Pronouns".toList] := by
  have h1 : ∀ v : Str, headerName ("X-Sandstorm-User-Id: ".toList ++ v)
      = "X-Sandstorm-User-Id".toList :=
    fun v => headerName_append "X-Sandstorm-User-Id".toList (' ' :: v) (by decide)
  have h2 : ∀ v : Str, headerName ("X-Sandstorm-Preferred-Handle: ".toList ++ v)
      = "X-Sandstorm-Preferred-Handle".toList :=
    fun v => headerName_append "X-Sandstorm-Preferred-Handle".toList (' ' :: v) (by decide)
  have h3 : ∀ v : Str, headerName ("X-Sandstorm-User-Picture: ".toList ++ v)
      = "X-Sandstorm-User-Picture".toList :=
    fun v => headerName_append "X-Sandstorm-User-Picture".toList (' ' :: v) (by decide)
  have h4 : ∀ v : Str, headerName ("X-Sandstorm-User-Pronouns: ".toList ++ v)
      = "X-Sandstorm-User-Pronouns".toList :=
    fun v => headerName_append "X-Sandstorm-User-Pronouns".toList (' ' :: v) (by decide)
  intro line hline
  unfold userLines at hline
  cases hu : s.userId with
  | none => rw [hu] at hline; cases hline
  | some u =>
    rw [hu] at hline
    simp only [List.mem_append, List.mem_singleton] at hline
    rcases hline with ((hline | hline) | hline) | hline
    · rw [hline, h1]; decide
    · split at hline
      · rw [List.mem_singleton] at hline; rw [hline, h2]; decide
      · cases hline
    · split at hline
      · rw [List.mem_singleton] at hline; rw [hline, h3]; decide
      · cases hline
    · split at hline
      · rw [List.mem_singleton] at hline; rw [hline, h4]; decide
      · cases hline

theorem baseLines_names (env : Environment) (s : WebSessionImpl) (base : List Str)
    (h : baseLines env s = .ok base) :
    ∀ line ∈ base, headerName line ∈
      ["X-Sandstorm-Base-Path".toList, "Host".toList, "X-Forwarded-Proto".toList] := by
  have h1 : ∀ v : Str, headerName ("X-Sandstorm-Base-Path: ".toList ++ v)
      = "X-Sandstorm-Base-Path".toList :=
    fun v => headerName_append "X-Sandstorm-Base-Path".toList (' ' :: v) (by decide)
  have h2 : ∀ v : Str, headerName ("Host: ".toList ++ v) = "Host".toList :=
    fun v => headerName_append "Host".toList (' ' :: v) (by decide)
  have h3 : ∀ v : Str, headerName ("X-Forwarded-Proto: ".toList ++ v)
      = "X-Forwarded-Proto".toList :=
    fun v => headerName_append "X-Forwarded-Proto".toList (' ' :: v) (by decide)
  intro line hline
  unfold baseLines at h
  split at h
  · split at h
    · cases h
    · split at h
      · cases h
      · simp only [Except.ok.injEq] at h
        rw [← h] at hline
        simp only [List.mem_cons, List.mem_singleton, List.not_mem_nil, or_false] at hline
        rcases hline with hline | hline | hline
        · rw [hline, h1]; decide
        · rw [hline, h2]; decide
        · rw [hline, h3]; decide
  · simp only [Except.ok.injEq] at h
    rw [← h] at hline
    rw [List.mem_singleton] at hline
    rw [hline]
    decide

theorem sessionLines_names (s : WebSessionImpl) :
    ∀ line ∈ sessionLines s, headerName line ∈
      ["X-Sandstorm-Session-Id".toList, "X-Real-IP".toList] := by
  have h1 : ∀ v : Str, headerName ("X-Sandstorm-Session-Id: ".toList ++ v)
      = "X-Sandstorm-Session-Id".toList :=
    fun v => headerName_append "X-Sandstorm-Session-Id".toList (' ' :: v) (by decide)
  have h2 : ∀ v : Str, headerName ("X-Real-IP: ".toList ++ v) = "X-Real-IP".toList :=
    fun v => headerName_append "X-Real-IP".toList (' ' :: v) (by decide)
  intro line hline
  unfold sessionLines at hline
  rw [List.mem_append, List.mem_singleton] at hline
  rcases hline with hline | hline
  · rw [hline, h1]; decide
  · split at hline
    · rw [List.mem_singleton] at hline; rw [hline, h2]; decide
    · cases hline

theorem cookieLines_names (context : Context) :
    ∀ line ∈ cookieLines context, headerName line ∈ ["Cookie".toList] := by
  have h1 : ∀ v : Str, headerName ("Cookie: ".toList ++ v) = "Cookie".toList :=
    fun v => headerName_append "Cookie".toList (' ' :: v) (by decide)
  intro line hline
  unfold cookieLines at hline
  split at hline
  · rw [List.mem_singleton] at hline; rw [hline, h1]; decide
  · cases hline

theorem acceptLines_names (context : Context) :
    ∀ line ∈ acceptLines context, headerName line ∈ ["Accept".toList] := by
  have h1 : ∀ v : Str, headerName ("Accept: ".toList ++ v) = "Accept".toList :=
    fun v => headerName_append "Accept".toList (' ' :: v) (by decide)
  intro line hline
  unfold acceptLines at hline
  split at hline
  · rw [List.mem_singleton] at hline; rw [hline, h1]; decide
  · rw [List.mem_singleton] at hline; rw [hline]; decide

theorem headerName_ifMatch (v : Str) : headerName ("If-Match: ".toList ++ v) = "If-Match".toList :=
  headerName_append "If-Match".toList (' ' :: v) (by decide)

theorem headerName_ifNoneMatch (v : Str) :
    headerName ("If-None-Match: ".toList ++ v) = "If-None-Match".toList :=
  headerName_append "If-None-Match".toList (' ' :: v) (by decide)

theorem preconditionLines_names (p : ETagPrecondition) :
    ∀ line ∈ preconditionLines p, headerName line ∈
      ["If-Match".toList, "If-None-Match".toList] := by
  intro line hline
  cases p with
  | NONE => cases hline
  | EXISTS => rw [preconditionLines, List.mem_singleton] at hline; rw [hline]; decide
  | DOESNT_EXIST => rw [preconditionLines, List.mem_singleton] at hline; rw [hline]; decide
  | MATCHES_ONE_OF l =>
    rw [preconditionLines, List.mem_singleton] at hline
    rw [hline, headerName_ifMatch]; decide
  | MATCHES_NONE_OF l =>
    rw [preconditionLines, List.mem_singleton] at hline
    rw [hline, headerName_ifNoneMatch]; decide

theorem headerName_permissions (v : Str) :
    headerName ("X-Sandstorm-Permissions: ".toList ++ v) = "X-Sandstorm-Permissions".toList :=
  headerName_append "X-Sandstorm-Permissions".toList (' ' :: v) (by decide)

theorem addCommonHeaders_ok (env : Environment) (s : WebSessionImpl) (lines : List Str)
    (context : Context) (base : List Str) (h : baseLines env s = .ok base) :
    addCommonHeaders env s lines context =
      .ok (lines ++ tabLines s ++ userLines env s ++
        ["X-Sandstorm-Permissions: ".toList ++ s.permissions] ++ base ++ sessionLines s ++
        cookieLines context ++ acceptLines context ++ additionalLines context ++
        preconditionLines context.eTagPrecondition ++ [[], []]) := by
  unfold addCommonHeaders
  rw [h]

theorem addCommonHeaders_base (env : Environment) (s : WebSessionImpl) (lines : List Str)
    (context : Context) (result : List Str) (h : addCommonHeaders env s lines context = .ok result) :
    ∃ base, baseLines env s = .ok base := by
  unfold addCommonHeaders at h
  cases hb : baseLines env s with
  | error e => rw [hb] at h; cases h
  | ok base => exact ⟨base, rfl⟩

theorem linesNamed_nil_of_subset (name : String) (names big : List Str) (block : List Str)
    (hblock : ∀ line ∈ block, headerName line ∈ names) (hsub : ∀ n ∈ names, n ∈ big)
    (hname : name.toList ∉ big) : linesNamed name block = [] :=
  linesNamed_of_names name names block hblock (fun hc => hname (hsub _ hc))

/-- The lines of a given name among those that `addCommonHeaders` returns, for a name that
the session lines do not bear: they come from the lines given, the user block, the `Accept`
line, the additional headers and the precondition. -/
theorem addCommonHeaders_linesNamed (env : Environment) (s : WebSessionImpl) (lines : List Str)
    (context : Context) (result : List Str) (name : String)
    (h : addCommonHeaders env s lines context = .ok result)
    (hname : name.toList ∉ sessionNames) :
    linesNamed name result =
      linesNamed name lines ++ linesNamed name (userLines env s) ++
        linesNamed name (acceptLines context) ++ linesNamed name (additionalLines context) ++
        linesNamed name (preconditionLines context.eTagPrecondition) := by
  obtain ⟨base, hbase⟩ := addCommonHeaders_base env s lines context result h
  rw [addCommonHeaders_ok env s lines context base hbase] at h
  simp only [Except.ok.injEq] at h
  rw [← h]
  simp only [linesNamed_append]
  rw [linesNamed_nil_of_subset name _ sessionNames _ (tabLines_names s) (by decide) hname,
    linesNamed_nil_of_subset name _ sessionNames _ (baseLines_names env s base hbase)
      (by decide) hname,
    linesNamed_nil_of_subset name _ sessionNames _ (sessionLines_names s) (by decide) hname,
    linesNamed_nil_of_subset name _ sessionNames _ (cookieLines_names context) (by decide) hname,
    linesNamed_nil_of_subset name ["X-Sandstorm-Permissions".toList] sessionNames
      ["X-Sandstorm-Permissions: ".toList ++ s.permissions]
      (by intro line hl; rw [List.mem_singleton] at hl; rw [hl, headerName_permissions]; decide)
      (by decide) hname,
    linesNamed_nil_of_subset name [[]] sessionNames [[], []]
      (by intro line hl
          simp only [List.mem_cons, List.mem_singleton, List.not_mem_nil, or_false, or_self] at hl
          rw [hl]; decide)
      (by decide) hname]
  simp

/-- The lines named `X-Sandstorm-Permissions` among those that `addCommonHeaders` returns. -/
theorem addCommonHeaders_permissions (env : Environment) (s : WebSessionImpl)
    (lines : List Str) (context : Context) (result : List Str)
    (h : addCommonHeaders env s lines context = .ok result) :
    linesNamed "X-Sandstorm-Permissions" result =
      linesNamed "X-Sandstorm-Permissions" lines ++
        ["X-Sandstorm-Permissions: ".toList ++ s.permissions] ++
        linesNamed "X-Sandstorm-Permissions" (additionalLines context) := by
  obtain ⟨base, hbase⟩ := addCommonHeaders_base env s lines context result h
  rw [addCommonHeaders_ok env s lines context base hbase] at h
  simp only [Except.ok.injEq] at h
  rw [← h]
  simp only [linesNamed_append]
  rw [linesNamed_of_names _ _ _ (tabLines_names s) (by decide),
    linesNamed_of_names _ _ _ (userLines_names env s) (by decide),
    linesNamed_of_names _ _ _ (baseLines_names env s base hbase) (by decide),
    linesNamed_of_names _ _ _ (sessionLines_names s) (by decide),
    linesNamed_of_names _ _ _ (cookieLines_names context) (by decide),
    linesNamed_of_names _ _ _ (acceptLines_names context) (by decide),
    linesNamed_of_names _ _ _ (preconditionLines_names context.eTagPrecondition) (by decide),
    linesNamed_of_names "X-Sandstorm-Permissions" [[]] [[], []]
      (by intro line hl
          simp only [List.mem_cons, List.mem_singleton, List.not_mem_nil, or_false, or_self] at hl
          rw [hl]; decide)
      (by decide)]
  have hp : linesNamed "X-Sandstorm-Permissions"
      ["X-Sandstorm-Permissions: ".toList ++ s.permissions]
      = ["X-Sandstorm-Permissions: ".toList ++ s.permissions] := by
    unfold linesNamed
    rw [List.filter_cons, if_pos (by rw [headerName_permissions]; decide)]
    rfl
  rw [hp]
  simp

theorem requestLines_eq (s : WebSessionImpl) (method path e1 e2 e3 : Str) :
    ∃ rest, requestLines s method path e1 e2 e3 =
        (method ++ " ".toList ++ s.rootPath ++ path ++ " HTTP/1.1".toList) ::
          "Connection: close".toList :: rest ∧
      "Accept-Encoding: gzip".toList ∈ rest ∧
      (e1 ≠ [] → e1 ∈ rest) ∧ (e2 ≠ [] → e2 ∈ rest) ∧ (e3 ≠ [] → e3 ∈ rest) := by
  refine ⟨_, rfl, by simp, fun h => by simp [h], fun h => by simp [h], fun h => by simp [h]⟩

theorem acceptLines_eq (context : Context) :
    acceptLines context =
      [if context.accept = [] then "Accept: */*".toList
       else "Accept: ".toList ++ strArray (context.accept.map renderAccepted) ", ".toList] := by
  unfold acceptLines
  by_cases h : context.accept = []
  · simp [h]
  · have hpos : 0 < context.accept.length := List.length_pos.mpr h
    simp [h, hpos]

theorem linesNamed_accept (context : Context) :
    linesNamed "Accept" (acceptLines context) = acceptLines context := by
  unfold linesNamed
  rw [List.filter_eq_self]
  intro line hline
  have := acceptLines_names context line hline
  rw [List.mem_singleton] at this
  rw [this]
  decide

theorem writeHeadersOnce_blankLine (text : Str) (contentLength : Option Nat)
    (h : endsWith text "\r\n\r\n".toList = true) :
    (writeHeadersOnce (RequestStreamImpl.init text) contentLength).2 = none := by
  unfold writeHeadersOnce RequestStreamImpl.init
  dsimp only
  rw [if_pos h]
  cases contentLength <;> rfl

/-- The header lines and the header text of `makeHeaders` when the helpers of `util.h` do
not throw. -/
theorem makeHeaders_ok (env : Environment) (s : WebSessionImpl) (method path : Str)
    (context : Context) (e1 e2 e3 : Str) (base : List Str) (hbase : baseLines env s = .ok base) :
    ∃ lines middle : List Str,
      makeHeaderLines env s method path context e1 e2 e3 = .ok lines ∧
      makeHeaders env s method path context e1 e2 e3 = .ok (strArray lines "\r\n".toList) ∧
      lines = requestLines s method path e1 e2 e3 ++ middle ++ [[], []] ∧
      strArray lines "\r\n".toList =
        strArray (requestLines s method path e1 e2 e3 ++ middle) "\r\n".toList
          ++ "\r\n\r\n".toList ∧
      endsWith (strArray lines "\r\n".toList) "\r\n\r\n".toList = true ∧
      (∀ line ∈ acceptLines context, line ∈ middle) := by
  refine ⟨requestLines s method path e1 e2 e3 ++ (tabLines s ++ userLines env s ++
      ["X-Sandstorm-Permissions: ".toList ++ s.permissions] ++ base ++ sessionLines s ++
      cookieLines context ++ acceptLines context ++ additionalLines context ++
      preconditionLines context.eTagPrecondition) ++ [[], []],
    tabLines s ++ userLines env s ++
      ["X-Sandstorm-Permissions: ".toList ++ s.permissions] ++ base ++ sessionLines s ++
      cookieLines context ++ acceptLines context ++ additionalLines context ++
      preconditionLines context.eTagPrecondition, ?_, ?_, ?_, ?_, ?_, ?_⟩
  · unfold makeHeaderLines
    rw [addCommonHeaders_ok env s _ context base hbase]
    simp only [List.append_assoc]
  · unfold makeHeaders makeHeaderLines
    rw [addCommonHeaders_ok env s _ context base hbase]
    simp only [List.append_assoc]
  · rfl
  · exact strArray_blankLines _ (by simp [requestLines])
  · rw [strArray_blankLines _ (by simp [requestLines])]
    exact (endsWith_blankLine _).1
  · intro line hline
    simp [hline]

theorem headerName_userId (v : Str) :
    headerName ("X-Sandstorm-User-Id: ".toList ++ v) = "X-Sandstorm-User-Id".toList :=
  headerName_append "X-Sandstorm-User-Id".toList (' ' :: v) (by decide)

theorem headerName_handle (v : Str) :
    headerName ("X-Sandstorm-Preferred-Handle: ".toList ++ v)
      = "X-Sandstorm-Preferred-Handle".toList :=
  headerName_append "X-Sandstorm-Preferred-Handle".toList (' ' :: v) (by decide)

theorem headerName_picture (v : Str) :
    headerName ("X-Sandstorm-User-Picture: ".toList ++ v) = "X-Sandstorm-User-Picture".toList :=
  headerName_append "X-Sandstorm-User-Picture".toList (' ' :: v) (by decide)

theorem headerName_pronouns (v : Str) :
    headerName ("X-Sandstorm-User-Pronouns: ".toList ++ v)
      = "X-Sandstorm-User-Pronouns".toList :=
  headerName_append "X-Sandstorm-User-Pronouns".toList (' ' :: v) (by decide)

theorem linesNamed_singleton (name : String) (line : Str) :
    linesNamed name [line] = if headerName line = name.toList then [line] else [] := by
  unfold linesNamed
  rw [List.filter_cons]
  by_cases h : headerName line = name.toList
  · rw [if_pos (by simpa using h), if_pos h]; rfl
  · rw [if_neg (by simpa using h), if_neg h]; rfl

theorem linesNamed_ite (name : String) (c : Prop) [Decidable c] (line : Str) :
    linesNamed name (if c then [line] else []) =
      if c ∧ headerName line = name.toList then [line] else [] := by
  by_cases hc : c
  · rw [if_pos hc, linesNamed_singleton]
    simp [hc]
  · rw [if_neg hc]
    simp [hc, linesNamed]

/-- The lines of each of the four names in the user block. -/
theorem userLines_named (env : Environment) (s : WebSessionImpl) :
    linesNamed "X-Sandstorm-User-Id" (userLines env s) =
      (match s.userId with
       | some u => ["X-Sandstorm-User-Id: ".toList ++ u]
       | none => []) ∧
    linesNamed "X-Sandstorm-Preferred-Handle" (userLines env s) =
      (if s.userId ≠ none ∧ s.userHandle ≠ [] then
        ["X-Sandstorm-Preferred-Handle: ".toList ++ s.userHandle] else []) ∧
    linesNamed "X-Sandstorm-User-Picture" (userLines env s) =
      (if s.userId ≠ none ∧ s.userPicture ≠ [] then
        ["X-Sandstorm-User-Picture: ".toList ++ s.userPicture] else []) ∧
    linesNamed "X-Sandstorm-User-Pronouns" (userLines env s) =
      (if s.userId ≠ none ∧ 0 < s.userPronouns ∧ s.userPronouns < env.pronounNames.length then
        ["X-Sandstorm-User-Pronouns: ".toList ++ env.pronounNames.getD s.userPronouns []]
       else []) := by
  have n12 : ¬ ("X-Sandstorm-User-Id".toList = "X-Sandstorm-Preferred-Handle".toList) := by decide
  have n13 : ¬ ("X-Sandstorm-User-Id".toList = "X-Sandstorm-User-Picture".toList) := by decide
  have n14 : ¬ ("X-Sandstorm-User-Id".toList = "X-Sandstorm-User-Pronouns".toList) := by decide
  have n21 : ¬ ("X-Sandstorm-Preferred-Handle".toList = "X-Sandstorm-User-Id".toList) := by decide
  have n23 : ¬ ("X-Sandstorm-Preferred-Handle".toList = "X-Sandstorm-User-Picture".toList) := by
    decide
  have n24 : ¬ ("X-Sandstorm-Preferred-Handle".toList = "X-Sandstorm-User-Pronouns".toList) := by
    decide
  have n31 : ¬ ("X-Sandstorm-User-Picture".toList = "X-Sandstorm-User-Id".toList) := by decide
  have n32 : ¬ ("X-Sandstorm-User-Picture".toList = "X-Sandstorm-Preferred-Handle".toList) := by
    decide
  have n34 : ¬ ("X-Sandstorm-User-Picture".toList = "X-Sandstorm-User-Pronouns".toList) := by
    decide
  have n41 : ¬ ("X-Sandstorm-User-Pronouns".toList = "X-Sandstorm-User-Id".toList) := by decide
  have n42 : ¬ ("X-Sandstorm-User-Pronouns".toList = "X-Sandstorm-Preferred-Handle".toList) := by
    decide
  have n43 : ¬ ("X-Sandstorm-User-Pronouns".toList = "X-Sandstorm-User-Picture".toList) := by
    decide
  have hh : (0 < s.userHandle.length) ↔ s.userHandle ≠ [] := List.length_pos
  have hp : (0 < s.userPicture.length) ↔ s.userPicture ≠ [] := List.length_pos
  unfold userLines
  cases hu : s.userId with
  | none => simp [linesNamed]
  | some u =>
    dsimp only
    simp only [linesNamed_append, linesNamed_ite, linesNamed_singleton, headerName_userId,
      headerName_handle, headerName_picture, headerName_pronouns, n12, n13, n14, n21, n23, n24,
      n31, n32, n34, n41, n42, n43, and_false, and_true, if_false, if_true, List.nil_append,
      List.append_nil, hh, hp, ne_eq, not_false_eq_true, true_and, reduceCtorEq]

theorem mem_grantedPermissions (configPermissions : List Str) (userPermissions : List Bool)
    (name : Str) :
    name ∈ grantedPermissions configPermissions userPermissions ↔
      ∃ i, i < configPermissions.length ∧ i < userPermissions.length ∧
        userPermissions.getD i false = true ∧ configPermissions.getD i [] = name := by
  unfold grantedPermissions
  rw [List.mem_map]
  constructor
  · rintro ⟨i, hi, hname⟩
    rw [List.mem_filter, List.mem_range, Bool.and_eq_true, decide_eq_true_eq] at hi
    exact ⟨i, hi.1, hi.2.1, hi.2.2, hname⟩
  · rintro ⟨i, h1, h2, h3, h4⟩
    refine ⟨i, ?_, h4⟩
    rw [List.mem_filter, List.mem_range, Bool.and_eq_true, decide_eq_true_eq]
    exact ⟨h1, h2, h3⟩

/-- The rendering of an ETag: its value in double quotes, after `W/` when it is weak. -/
theorem strArray_renderETag (eTags : List ETag) :
    strArray (eTags.map renderETag) ", ".toList =
      commaJoined (eTags.map (fun e => quotedETag e.weak e.value)) := by
  rw [strArray_eq_commaJoined]
  congr 1
  apply List.map_congr_left
  intro e _
  exact renderETag_eq e

theorem headerName_ne_of_head (c d : Char) (rest name : Str) (hc : c ≠ ':') (hcd : c ≠ d) :
    headerName (c :: rest) ≠ d :: name := by
  rw [headerName_cons c rest hc]
  intro h
  exact hcd (List.cons.inj h).1

theorem headerName_connection : headerName "Connection: close".toList = "Connection".toList := by
  decide

theorem headerName_acceptEncoding :
    headerName "Accept-Encoding: gzip".toList = "Accept-Encoding".toList := by
  decide

theorem headerName_acceptLanguage (v : Str) :
    headerName ("Accept-Language: ".toList ++ v) = "Accept-Language".toList :=
  headerName_append "Accept-Language".toList (' ' :: v) (by decide)

theorem headerName_contentType (v : Str) :
    headerName ("Content-Type: ".toList ++ v) = "Content-Type".toList :=
  headerName_append "Content-Type".toList (' ' :: v) (by decide)

theorem headerName_contentLength (v : Str) :
    headerName ("Content-Length: ".toList ++ v) = "Content-Length".toList :=
  headerName_append "Content-Length".toList (' ' :: v) (by decide)

theorem headerName_contentEncoding (v : Str) :
    headerName ("Content-Encoding: ".toList ++ v) = "Content-Encoding".toList :=
  headerName_append "Content-Encoding".toList (' ' :: v) (by decide)

/-- The lines of a given name among the first lines of `makeHeaders`, for a name that is
neither that of the request line nor one of the fixed ones: they are the extra headers of
that name. -/
theorem requestLines_linesNamed (s : WebSessionImpl) (method path e1 e2 e3 : Str)
    (name : String)
    (hm : headerName (method ++ " ".toList ++ s.rootPath ++ path ++ " HTTP/1.1".toList)
      ≠ name.toList)
    (hn : name.toList ∉
      ["Connection".toList, "Accept-Encoding".toList, "Accept-Language".toList]) :
    linesNamed name (requestLines s method path e1 e2 e3) =
      linesNamed name (if e1 ≠ [] then [e1] else []) ++
        linesNamed name (if e2 ≠ [] then [e2] else []) ++
        linesNamed name (if e3 ≠ [] then [e3] else []) := by
  have h1 : linesNamed name
      [method ++ " ".toList ++ s.rootPath ++ path ++ " HTTP/1.1".toList,
       "Connection: close".toList] = [] := by
    apply linesNamed_of_names name
      [headerName (method ++ " ".toList ++ s.rootPath ++ path ++ " HTTP/1.1".toList),
       "Connection".toList]
    · intro line hline
      rw [List.mem_cons, List.mem_singleton] at hline
      rcases hline with rfl | rfl
      · exact List.mem_cons_self _ _
      · rw [headerName_connection]
        exact List.mem_cons_of_mem _ (List.mem_singleton.mpr rfl)
    · intro hc
      rw [List.mem_cons, List.mem_singleton] at hc
      rcases hc with hc | hc
      · exact hm hc.symm
      · exact hn (by rw [hc]; exact List.mem_cons_self _ _)
  have h2 : linesNamed name ["Accept-Encoding: gzip".toList] = [] := by
    rw [linesNamed_singleton, headerName_acceptEncoding, if_neg]
    intro hc
    exact hn (by rw [← hc]; exact List.mem_cons_of_mem _ (List.mem_cons_self _ _))
  have h3 : linesNamed name
      (if 0 < s.acceptLanguages.length then ["Accept-Language: ".toList ++ s.acceptLanguages]
       else []) = [] := by
    rw [linesNamed_ite, headerName_acceptLanguage, if_neg]
    intro hc
    exact hn (by
      rw [← hc.2]
      exact List.mem_cons_of_mem _ (List.mem_cons_of_mem _ (List.mem_singleton.mpr rfl)))
  unfold requestLines
  simp only [linesNamed_append]
  rw [h1, h2, h3]
  simp

/-- The request of a method with content whose name does not begin with `C`. -/
theorem contentRequest_ok (env : Environment) (s : WebSessionImpl) (c : Char) (method : Str)
    (path : Str) (context : Context) (content : RequestContent) (base : List Str)
    (hbase : baseLines env s = .ok base) (hc : c ≠ ':') (hC : c ≠ 'C') :
    ∃ lines : List Str,
      makeHeaderLines env s (c :: method) path context
        ("Content-Type: ".toList ++ content.mimeType)
        ("Content-Length: ".toList ++ decimal content.content.length)
        (encodingHeader content) = .ok lines ∧
      (match makeHeaders env s (c :: method) path context
          ("Content-Type: ".toList ++ content.mimeType)
          ("Content-Length: ".toList ++ decimal content.content.length)
          (encodingHeader content) with
        | .error e => Except.error e
        | .ok httpRequest => Except.ok (toBytes httpRequest content.content)) =
        (.ok (strArray lines "\r\n".toList ++ content.content) : Except Failure Str) ∧
      endsWith (strArray lines "\r\n".toList) "\r\n\r\n".toList = true ∧
      linesNamed "Content-Type" lines =
        ["Content-Type: ".toList ++ content.mimeType] ++
          linesNamed "Content-Type" (additionalLines context) ∧
      linesNamed "Content-Length" lines =
        ["Content-Length: ".toList ++ decimal content.content.length] ++
          linesNamed "Content-Length" (additionalLines context) ∧
      linesNamed "Content-Encoding" lines =
        encodingLines content ++ linesNamed "Content-Encoding" (additionalLines context) := by
  obtain ⟨lines, middle, h1, h2, -, -, h5, -⟩ :=
    makeHeaders_ok env s (c :: method) path context
      ("Content-Type: ".toList ++ content.mimeType)
      ("Content-Length: ".toList ++ decimal content.content.length)
      (encodingHeader content) base hbase
  have hct : ("Content-Type: ".toList ++ content.mimeType) ≠ [] := by simp
  have hcl : ("Content-Length: ".toList ++ decimal content.content.length) ≠ [] := by simp
  have henc : linesNamed "Content-Encoding"
      (if encodingHeader content ≠ [] then [encodingHeader content] else []) =
      encodingLines content := by
    unfold encodingHeader encodingLines
    cases content.encoding with
    | none => simp [linesNamed]
    | some e =>
      have hne : ("Content-Encoding: ".toList ++ e) ≠ [] := by simp
      dsimp only
      rw [if_pos hne, linesNamed_singleton, headerName_contentEncoding, if_pos rfl]
  have hencT : linesNamed "Content-Type"
      (if encodingHeader content ≠ [] then [encodingHeader content] else []) = [] := by
    unfold encodingHeader
    cases content.encoding with
    | none => simp [linesNamed]
    | some e =>
      have hne : ("Content-Encoding: ".toList ++ e) ≠ [] := by simp
      dsimp only
      rw [if_pos hne, linesNamed_singleton, headerName_contentEncoding, if_neg (by decide)]
  have hencL : linesNamed "Content-Length"
      (if encodingHeader content ≠ [] then [encodingHeader content] else []) = [] := by
    unfold encodingHeader
    cases content.encoding with
    | none => simp [linesNamed]
    | some e =>
      have hne : ("Content-Encoding: ".toList ++ e) ≠ [] := by simp
      dsimp only
      rw [if_pos hne, linesNamed_singleton, headerName_contentEncoding, if_neg (by decide)]
  refine ⟨lines, h1, ?_, h5, ?_, ?_, ?_⟩
  · rw [h2]
    rfl
  · unfold makeHeaderLines at h1
    rw [addCommonHeaders_linesNamed env s _ context lines "Content-Type" h1 (by decide),
      linesNamed_of_names _ _ _ (userLines_names env s) (by decide),
      linesNamed_of_names _ _ _ (acceptLines_names context) (by decide),
      linesNamed_of_names _ _ _ (preconditionLines_names context.eTagPrecondition) (by decide),
      requestLines_linesNamed s (c :: method) path _ _ _ "Content-Type"
        (headerName_ne_of_head c 'C' _ _ hc hC) (by decide),
      if_pos hct, if_pos hcl, hencT, linesNamed_singleton, linesNamed_singleton,
      headerName_contentType, headerName_contentLength, if_pos rfl, if_neg (by decide)]
    simp
  · unfold makeHeaderLines at h1
    rw [addCommonHeaders_linesNamed env s _ context lines "Content-Length" h1 (by decide),
      linesNamed_of_names _ _ _ (userLines_names env s) (by decide),
      linesNamed_of_names _ _ _ (acceptLines_names context) (by decide),
      linesNamed_of_names _ _ _ (preconditionLines_names context.eTagPrecondition) (by decide),
      requestLines_linesNamed s (c :: method) path _ _ _ "Content-Length"
        (headerName_ne_of_head c 'C' _ _ hc hC) (by decide),
      if_pos hct, if_pos hcl, hencL, linesNamed_singleton, linesNamed_singleton,
      headerName_contentType, headerName_contentLength, if_pos rfl, if_neg (by decide)]
    simp
  · unfold makeHeaderLines at h1
    rw [addCommonHeaders_linesNamed env s _ context lines "Content-Encoding" h1 (by decide),
      linesNamed_of_names _ _ _ (userLines_names env s) (by decide),
      linesNamed_of_names _ _ _ (acceptLines_names context) (by decide),
      linesNamed_of_names _ _ _ (preconditionLines_names context.eTagPrecondition) (by decide),
      requestLines_linesNamed s (c :: method) path _ _ _ "Content-Encoding"
        (headerName_ne_of_head c 'C' _ _ hc hC) (by decide),
      if_pos hct, if_pos hcl, henc, linesNamed_singleton, linesNamed_singleton,
      headerName_contentType, headerName_contentLength, if_neg (by decide), if_neg (by decide)]
    simp

/-- The bytes that `makeDestinationHeader` lets through: those above the space as a signed
`char`, other than the comma. -/
theorem makeDestinationHeader_eq (s : WebSessionImpl) (destination : Str) :
    (makeDestinationHeader s destination = .error .invalidDestination ↔
      ∃ c ∈ destination, charValue c ≤ 32 ∨ c = ',') ∧
    ((¬ ∃ c ∈ destination, charValue c ≤ 32 ∨ c = ',') →
      makeDestinationHeader s destination =
        .ok ("Destination: ".toList ++ s.basePath ++ destination)) := by
  have hsp : charValue ' ' = 32 := by decide
  have hall : destination.all (fun c => decide (charValue c > charValue ' ') && c != ',') = true
      ↔ ¬ ∃ c ∈ destination, charValue c ≤ 32 ∨ c = ',' := by
    rw [List.all_eq_true]
    constructor
    · rintro h ⟨c, hc, hbad⟩
      have := h c hc
      rw [Bool.and_eq_true, decide_eq_true_eq, hsp, bne_iff_ne] at this
      rcases hbad with hb | hb
      · omega
      · exact this.2 hb
    · intro h c hc
      rw [Bool.and_eq_true, decide_eq_true_eq, hsp, bne_iff_ne]
      constructor
      · by_contra hle
        exact h ⟨c, hc, Or.inl (by omega)⟩
      · intro hcomma
        exact h ⟨c, hc, Or.inr hcomma⟩
  unfold makeDestinationHeader
  constructor
  · constructor
    · intro h
      by_contra hno
      rw [if_pos (hall.mpr hno)] at h
      cases h
    · intro h
      rw [if_neg (fun hc => (hall.mp hc) h)]
  · intro h
    rw [if_pos (hall.mpr h)]

theorem charValue_ascii (c : Char) (h : c.toNat < 128) : charValue c = c.toNat := by
  unfold charValue
  have : c.toNat % 256 = c.toNat := Nat.mod_eq_of_lt (by omega)
  rw [this, if_pos h]

/-! ## The session-context map: lemmas -/

theorem decimal_injective (a b : Nat) (ha : a < 2 ^ 64) (hb : b < 2 ^ 64)
    (h : decimal a = decimal b) : a = b := by
  have h1 := (decimal_isDecimalNumeral a ha).2.1
  have h2 := (decimal_isDecimalNumeral b hb).2.1
  rw [h] at h1
  rw [h1] at h2
  exact Option.some.inj h2

theorem newSession_counter (config : BridgeConfig) (counter : Nat) (map : SessionContextMap)
    (params : NewSessionParams) :
    (newSession config counter map params).1 =
      if params.sessionType = .webSession ∨
          (0 < config.apiPath.length ∧ params.sessionType = .apiSession)
      then (counter + 1) % 2 ^ 32 else counter := by
  unfold newSession
  by_cases hweb : params.sessionType = .webSession
  · have h1 : params.sessionType = .webSession ∨ params.sessionType = .hackEmailSession ∨
        (0 < config.apiPath.length ∧ params.sessionType = .apiSession) := Or.inl hweb
    rw [if_pos h1, if_pos hweb, if_pos (Or.inl hweb)]
    split <;> rfl
  · by_cases hapi : params.sessionType = .apiSession
    · by_cases hpath : 0 < config.apiPath.length
      · have h1 : params.sessionType = .webSession ∨ params.sessionType = .hackEmailSession ∨
            (0 < config.apiPath.length ∧ params.sessionType = .apiSession) :=
          Or.inr (Or.inr ⟨hpath, hapi⟩)
        rw [if_pos h1, if_neg hweb, if_pos hapi, if_pos (Or.inr ⟨hpath, hapi⟩)]
        split <;> rfl
      · have h1 : ¬ (params.sessionType = .webSession ∨
            params.sessionType = .hackEmailSession ∨
            (0 < config.apiPath.length ∧ params.sessionType = .apiSession)) := by
          rintro (h | h | h)
          · exact hweb h
          · rw [hapi] at h
            cases h
          · exact hpath h.1
        have h2 : ¬ (params.sessionType = .webSession ∨
            (0 < config.apiPath.length ∧ params.sessionType = .apiSession)) := by
          rintro (h | h)
          · exact hweb h
          · exact hpath h.1
        rw [if_neg h1, if_neg h2]
    · have h2 : ¬ (params.sessionType = .webSession ∨
          (0 < config.apiPath.length ∧ params.sessionType = .apiSession)) := by
        rintro (h | h)
        · exact hweb h
        · exact hapi h.2
      rw [if_neg h2]
      by_cases h1 : params.sessionType = .webSession ∨
          params.sessionType = .hackEmailSession ∨
          (0 < config.apiPath.length ∧ params.sessionType = .apiSession)
      · rw [if_pos h1, if_neg hweb, if_neg hapi]
      · rw [if_neg h1]

/-- A call of `newSession` that returns no web or API session leaves the map as it was. -/
theorem newSession_map (config : BridgeConfig) (counter : Nat) (map : SessionContextMap)
    (params : NewSessionParams)
    (h : ∀ s, (newSession config counter map params).2.2 ≠ .ok (.web s)) :
    (newSession config counter map params).2.1 = map := by
  unfold newSession at h ⊢
  split
  · split
    · split
      · rfl
      · rename_i h1 hweb _ t m hnew
        rw [if_pos h1, if_pos hweb, hnew] at h
        exact absurd rfl (h t)
    · split
      · split
        · rfl
        · rename_i h1 hweb hapi _ t m hnew
          rw [if_pos h1, if_neg hweb, if_pos hapi, hnew] at h
          exact absurd rfl (h t)
      · rfl
  · rfl

theorem mem_eraseIdx_of_distinct (l : List WebSessionImpl) (i : Nat) (s : WebSessionImpl)
    (hd : l.Pairwise (fun s t => s.sessionId ≠ t.sessionId)) (hs : l.get? i = some s)
    (t : WebSessionImpl) :
    t ∈ l.eraseIdx i ↔ t ∈ l ∧ t.sessionId ≠ s.sessionId := by
  induction l generalizing i with
  | nil => simp at hs
  | cons a rest ih =>
    rw [List.pairwise_cons] at hd
    cases i with
    | zero =>
      simp only [List.get?_cons_zero, Option.some.injEq] at hs
      subst hs
      rw [List.eraseIdx_cons_zero, List.mem_cons]
      constructor
      · intro ht
        exact ⟨Or.inr ht, fun e => hd.1 t ht e.symm⟩
      · rintro ⟨ht | ht, hne⟩
        · rw [ht] at hne
          exact absurd rfl hne
        · exact ht
    | succ j =>
      rw [List.get?_cons_succ] at hs
      rw [List.eraseIdx_cons_succ, List.mem_cons, List.mem_cons, ih j hd.2 hs]
      have hsmem : s ∈ rest := List.get?_mem hs
      constructor
      · rintro (ht | ht)
        · subst ht
          exact ⟨Or.inl rfl, hd.1 s hsmem⟩
        · exact ⟨Or.inr ht.1, ht.2⟩
      · rintro ⟨ht | ht, hne⟩
        · exact Or.inl ht
        · exact Or.inr ⟨ht, hne⟩

theorem sessionRequests_cons (config : BridgeConfig) (a : HostAction)
    (events : List HostAction) :
    sessionRequests config (a :: events) =
      sessionRequests config [a] + sessionRequests config events := by
  unfold sessionRequests
  rw [List.filter_cons, List.filter_cons]
  split
  · simp
    omega
  · simp

theorem sessionRequests_take (config : BridgeConfig) (events : List HostAction) (k : Nat) :
    sessionRequests config (events.take k) ≤ sessionRequests config events := by
  unfold sessionRequests
  exact ((List.take_sublist k events).filter _).length_le

theorem hostAction_counter (config : BridgeConfig) (b : BridgeState) (a : HostAction) :
    (hostAction config b a).sessionIdCounter =
      if sessionRequests config [a] = 1 then (b.sessionIdCounter + 1) % 2 ^ 32
      else b.sessionIdCounter := by
  cases a with
  | newSession params =>
    have hc := newSession_counter config b.sessionIdCounter b.sessionContextMap params
    have hreq : sessionRequests config [HostAction.newSession params] = 1 ↔
        (params.sessionType = .webSession ∨
          (0 < config.apiPath.length ∧ params.sessionType = .apiSession)) := by
      unfold sessionRequests
      rw [List.filter_cons]
      by_cases hp : params.sessionType = .webSession ∨
          (0 < config.apiPath.length ∧ params.sessionType = .apiSession)
      · simp [hp]
      · simp [hp]
    have hstate : (hostAction config b (.newSession params)).sessionIdCounter =
        (newSession config b.sessionIdCounter b.sessionContextMap params).1 := by
      simp only [hostAction]
      split
      · rename_i heq
        rw [heq]
      · rename_i heq
        rw [heq]
    rw [hstate, hc]
    by_cases hp : params.sessionType = .webSession ∨
        (0 < config.apiPath.length ∧ params.sessionType = .apiSession)
    · rw [if_pos hp, if_pos (hreq.mpr hp)]
    · rw [if_neg hp, if_neg (fun h => hp (hreq.mp h))]
  | dropSession index =>
    have hreq : sessionRequests config [HostAction.dropSession index] ≠ 1 := by
      simp [sessionRequests]
    rw [if_neg hreq]
    simp only [hostAction]
    split <;> rfl

/-- One action of the host keeps the invariant, as long as the counter does not wrap. -/
theorem hostAction_invariant (config : BridgeConfig) (past : List HostAction)
    (b : BridgeState) (a : HostAction) (hinv : SessionInvariant past b)
    (hcount : b.sessionIdCounter + sessionRequests config [a] < 2 ^ 32) :
    SessionInvariant (past ++ [a]) (hostAction config b a) := by
  have hsup : ∀ s ∈ b.sessions, ∃ params, HostAction.newSession params ∈ past ++ [a] ∧
      (params.sessionType = .webSession ∨ params.sessionType = .apiSession) ∧
      s.sessionContext = params.context := by
    intro s hs
    obtain ⟨params, h1, h2, h3⟩ := hinv.supplied s hs
    exact ⟨params, List.mem_append_left _ h1, h2, h3⟩
  cases a with
  | dropSession index =>
    simp only [hostAction]
    cases hget : b.sessions.get? index with
    | none => exact ⟨hinv.ids, hinv.distinct, hinv.live, hinv.keys, hsup⟩
    | some s =>
      dsimp only
      have hmem := mem_eraseIdx_of_distinct b.sessions index s hinv.distinct hget
      refine ⟨?_, ?_, ?_, ?_, ?_⟩
      · intro t ht
        exact hinv.ids t ((hmem t).mp ht).1
      · exact hinv.distinct.sublist (List.eraseIdx_sublist _ _)
      · intro t ht
        obtain ⟨ht1, ht2⟩ := (hmem t).mp ht
        show (if t.sessionId = s.sessionId then none else b.sessionContextMap t.sessionId) = _
        rw [if_neg ht2]
        exact hinv.live t ht1
      · intro id c hc
        have hc2 : (if id = s.sessionId then none else b.sessionContextMap id) = some c := hc
        by_cases hid : id = s.sessionId
        · rw [if_pos hid] at hc2
          cases hc2
        · rw [if_neg hid] at hc2
          obtain ⟨t, ht, htid⟩ := hinv.keys id c hc2
          exact ⟨t, (hmem t).mpr ⟨ht, by rw [htid]; exact hid⟩, htid⟩
      · intro t ht
        exact hsup t ((hmem t).mp ht).1
  | newSession params =>
    have hcounter := hostAction_counter config b (.newSession params)
    have hle : b.sessionIdCounter ≤ (hostAction config b (.newSession params)).sessionIdCounter := by
      rw [hcounter]
      split
      · rename_i h1
        rw [h1] at hcount
        rw [Nat.mod_eq_of_lt hcount]
        omega
      · exact Nat.le_refl _
    cases hres : newSession config b.sessionIdCounter b.sessionContextMap params with
    | mk counter1 rest =>
      obtain ⟨map1, result⟩ := rest
      by_cases hweb : ∃ s, result = .ok (.web s)
      · obtain ⟨s, hs⟩ := hweb
        subst hs
        obtain ⟨k1, k2, -, k4, k5, k6⟩ :=
          newSession_web config b.sessionIdCounter b.sessionContextMap params counter1 map1 s hres
        have hstate : hostAction config b (.newSession params) =
            ⟨counter1, map1, b.sessions ++ [s]⟩ := by
          simp only [hostAction]
          rw [hres]
        have hreq : sessionRequests config [HostAction.newSession params] = 1 := by
          by_contra hne
          rw [if_neg hne, hstate] at hcounter
          have h2 : counter1 = b.sessionIdCounter := hcounter
          rw [h2] at k4
          have hlt : b.sessionIdCounter < 2 ^ 32 := by omega
          by_cases h3 : b.sessionIdCounter + 1 < 2 ^ 32
          · rw [Nat.mod_eq_of_lt h3] at k4
            omega
          · have h4 : b.sessionIdCounter + 1 = 2 ^ 32 := by omega
            rw [h4, Nat.mod_self] at k4
            have hp : params.sessionType = .webSession ∨
                (0 < config.apiPath.length ∧ params.sessionType = .apiSession) := by
              by_contra hno
              have hc := newSession_counter config b.sessionIdCounter b.sessionContextMap params
              rw [if_neg hno, hres] at hc
              apply hne
              exfalso
              unfold newSession at hres
              rcases k6 with k6 | k6
              · exact hno (Or.inl k6)
              · have hpath : ¬ 0 < config.apiPath.length := fun hp => hno (Or.inr ⟨hp, k6⟩)
                have h1 : ¬ (params.sessionType = .webSession ∨
                    params.sessionType = .hackEmailSession ∨
                    (0 < config.apiPath.length ∧ params.sessionType = .apiSession)) := by
                  rintro (h | h | h)
                  · rw [k6] at h
                    cases h
                  · rw [k6] at h
                    cases h
                  · exact hpath h.1
                rw [if_neg h1] at hres
                cases hres
            apply hne
            unfold sessionRequests
            rw [List.filter_cons]
            simp [hp]
        rw [hreq] at hcount
        have hc1 : counter1 = b.sessionIdCounter + 1 := by
          rw [k4, Nat.mod_eq_of_lt hcount]
        have hfresh : ∀ t ∈ b.sessions, t.sessionId ≠ s.sessionId := by
          intro t ht heq
          obtain ⟨n, hn, hid⟩ := hinv.ids t ht
          rw [hid, k1] at heq
          have hbig : (2 : Nat) ^ 32 < 2 ^ 64 := by norm_num
          have hinj := decimal_injective n b.sessionIdCounter (by omega) (by omega) heq
          omega
        have habsent : b.sessionContextMap (decimal b.sessionIdCounter) = none := by
          cases hm : b.sessionContextMap (decimal b.sessionIdCounter) with
          | none => rfl
          | some c =>
            obtain ⟨t, ht, htid⟩ := hinv.keys _ c hm
            exact absurd (htid.trans k1.symm) (hfresh t ht)
        have hmap : ∀ id, map1 id =
            if id = decimal b.sessionIdCounter then some params.context
            else b.sessionContextMap id := by
          intro id
          rw [k5]
          unfold SessionContextMap.insert
          rw [habsent]
          rfl
        rw [hstate]
        refine ⟨?_, ?_, ?_, ?_, ?_⟩
        · intro t ht
          rw [List.mem_append, List.mem_singleton] at ht
          rcases ht with ht | ht
          · obtain ⟨n, hn, hid⟩ := hinv.ids t ht
            exact ⟨n, by show n < counter1; omega, hid⟩
          · subst ht
            exact ⟨b.sessionIdCounter, by show _ < counter1; omega, k1⟩
        · show (b.sessions ++ [s]).Pairwise _
          rw [List.pairwise_append]
          refine ⟨hinv.distinct, List.pairwise_singleton _ _, ?_⟩
          intro t ht u hu
          rw [List.mem_singleton] at hu
          subst hu
          exact hfresh t ht
        · intro t ht
          rw [List.mem_append, List.mem_singleton] at ht
          show map1 t.sessionId = some t.sessionContext
          rw [hmap]
          rcases ht with ht | ht
          · rw [if_neg (by rw [← k1]; exact hfresh t ht)]
            exact hinv.live t ht
          · subst ht
            rw [if_pos k1, k2]
        · intro id c hc
          have hc2 : map1 id = some c := hc
          rw [hmap] at hc2
          by_cases hid : id = decimal b.sessionIdCounter
          · exact ⟨s, List.mem_append_right _ (List.mem_singleton.mpr rfl), by rw [k1, hid]⟩
          · rw [if_neg hid] at hc2
            obtain ⟨t, ht, htid⟩ := hinv.keys id c hc2
            exact ⟨t, List.mem_append_left _ ht, htid⟩
        · intro t ht
          rw [List.mem_append, List.mem_singleton] at ht
          rcases ht with ht | ht
          · exact hsup t ht
          · subst ht
            exact ⟨params, List.mem_append_right _ (List.mem_singleton.mpr rfl), k6, k2⟩
      · have hno : ∀ s, (newSession config b.sessionIdCounter b.sessionContextMap params).2.2
            ≠ .ok (.web s) := by
          intro s hs
          rw [hres] at hs
          exact hweb ⟨s, hs⟩
        have hmap := newSession_map config b.sessionIdCounter b.sessionContextMap params hno
        rw [hres] at hmap
        have hmap1 : map1 = b.sessionContextMap := hmap
        have hstate : hostAction config b (.newSession params) =
            ⟨counter1, map1, b.sessions⟩ := by
          simp only [hostAction]
          rw [hres]
        rw [hstate] at hle ⊢
        subst hmap1
        refine ⟨?_, hinv.distinct, hinv.live, hinv.keys, hsup⟩
        intro t ht
        obtain ⟨n, hn, hid⟩ := hinv.ids t ht
        exact ⟨n, Nat.lt_of_lt_of_le hn hle, hid⟩

theorem hostActions_invariant (config : BridgeConfig) (events : List HostAction) :
    ∀ (past : List HostAction) (b : BridgeState), SessionInvariant past b →
      b.sessionIdCounter + sessionRequests config events < 2 ^ 32 →
      SessionInvariant (past ++ events) (hostActions config b events) := by
  induction events with
  | nil =>
    intro past b hinv _
    rw [List.append_nil]
    exact hinv
  | cons a rest ih =>
    intro past b hinv hcount
    rw [sessionRequests_cons] at hcount
    have h1 := hostAction_invariant config past b a hinv (by omega)
    have hc := hostAction_counter config b a
    have h2 : (hostAction config b a).sessionIdCounter + sessionRequests config rest
        < 2 ^ 32 := by
      rw [hc]
      split
      · rename_i h3
        rw [h3] at hcount
        rw [Nat.mod_eq_of_lt (by omega)]
        omega
      · omega
    have h3 := ih (past ++ [a]) (hostAction config b a) h1 h2
    rw [List.append_assoc] at h3
    exact h3

theorem init_invariant : SessionInvariant [] BridgeState.init :=
  ⟨fun s hs => (by cases hs), List.Pairwise.nil, fun s hs => (by cases hs),
    fun id c hc => (by cases hc), fun s hs => (by cases hs)⟩

theorem bridgeAfter_invariant (config : BridgeConfig) (events : List HostAction) (k : Nat)
    (hcount : sessionRequests config events < 2 ^ 32) :
    SessionInvariant (events.take k) (bridgeAfter config events k) := by
  have hle := sessionRequests_take config events k
  have hlt : BridgeState.init.sessionIdCounter + sessionRequests config (events.take k)
      < 2 ^ 32 := by
    show 0 + _ < _
    omega
  have h := hostActions_invariant config (events.take k) [] BridgeState.init init_invariant hlt
  rw [List.nil_append] at h
  exact h

/-! ## Session types: lemmas -/

theorem WebSessionImpl_new_ok (userInfo : UserInfo) (sessionContext : SessionContext)
    (map : SessionContextMap)
    (sessionId tabId basePath userAgent acceptLanguages rootPath permissions : Str)
    (remoteAddress : Option Str) :
    (IdentityIdFits userInfo →
      ∃ s, WebSessionImpl.new userInfo sessionContext map sessionId tabId basePath userAgent
        acceptLanguages rootPath permissions remoteAddress
          = .ok (s, map.insert sessionId sessionContext)) ∧
    (¬ IdentityIdFits userInfo →
      WebSessionImpl.new userInfo sessionContext map sessionId tabId basePath userAgent
        acceptLanguages rootPath permissions remoteAddress = .error .identityIdSize) := by
  unfold WebSessionImpl.new IdentityIdFits
  cases hid : userInfo.identityId with
  | none =>
    constructor
    · intro _
      exact ⟨_, rfl⟩
    · intro h
      exact absurd (fun id hc => by cases hc) h
  | some id =>
    by_cases hlen : id.length = 32
    · constructor
      · intro _
        dsimp only
        rw [if_pos hlen]
        exact ⟨_, rfl⟩
      · intro h
        exact absurd (fun x hx => by cases hx; exact hlen) h
    · constructor
      · intro h
        exact absurd (h id rfl) hlen
      · intro _
        dsimp only
        rw [if_neg hlen]

/-- The four outcomes of `newSession`. -/
theorem newSession_cases (config : BridgeConfig) (counter : Nat) (map : SessionContextMap)
    (params : NewSessionParams) :
    ((params.sessionType = .webSession ∨
        (params.sessionType = .apiSession ∧ 0 < config.apiPath.length)) →
      (IdentityIdFits params.userInfo →
        ∃ s, newSession config counter map params =
          ((counter + 1) % 2 ^ 32, map.insert (decimal counter) params.context,
            .ok (.web s))) ∧
      (¬ IdentityIdFits params.userInfo →
        newSession config counter map params =
          ((counter + 1) % 2 ^ 32, map, .error .identityIdSize))) ∧
    (params.sessionType = .hackEmailSession →
      newSession config counter map params = (counter, map, .ok .email)) ∧
    (¬ (params.sessionType = .webSession ∨ params.sessionType = .hackEmailSession ∨
        (params.sessionType = .apiSession ∧ 0 < config.apiPath.length)) →
      newSession config counter map params = (counter, map, .error .unsupportedSessionType)) := by
  refine ⟨?_, ?_, ?_⟩
  · intro htype
    rcases htype with hweb | ⟨hapi, hpath⟩
    · have h1 : params.sessionType = .webSession ∨ params.sessionType = .hackEmailSession ∨
          (0 < config.apiPath.length ∧ params.sessionType = .apiSession) := Or.inl hweb
      obtain ⟨k1, k2⟩ := WebSessionImpl_new_ok params.userInfo params.context map
        (decimal counter) (hexEncode params.tabId) params.basePath params.userAgent
        (strArray params.acceptableLanguages ",".toList) "/".toList
        (formatPermissions config.permissions params.userInfo.permissions) none
      constructor
      · intro hid
        obtain ⟨s, hs⟩ := k1 hid
        refine ⟨s, ?_⟩
        unfold newSession
        rw [if_pos h1, if_pos hweb, hs]
      · intro hid
        unfold newSession
        rw [if_pos h1, if_pos hweb, k2 hid]
    · have h1 : params.sessionType = .webSession ∨ params.sessionType = .hackEmailSession ∨
          (0 < config.apiPath.length ∧ params.sessionType = .apiSession) :=
        Or.inr (Or.inr ⟨hpath, hapi⟩)
      have hweb : ¬ params.sessionType = .webSession := by
        rw [hapi]
        decide
      obtain ⟨k1, k2⟩ := WebSessionImpl_new_ok params.userInfo params.context map
        (decimal counter) (hexEncode params.tabId) [] [] [] config.apiPath
        (formatPermissions config.permissions params.userInfo.permissions) params.remoteAddress
      constructor
      · intro hid
        obtain ⟨s, hs⟩ := k1 hid
        refine ⟨s, ?_⟩
        unfold newSession
        rw [if_pos h1, if_neg hweb, if_pos hapi, hs]
      · intro hid
        unfold newSession
        rw [if_pos h1, if_neg hweb, if_pos hapi, k2 hid]
  · intro hmail
    have h1 : params.sessionType = .webSession ∨ params.sessionType = .hackEmailSession ∨
        (0 < config.apiPath.length ∧ params.sessionType = .apiSession) := Or.inr (Or.inl hmail)
    have hweb : ¬ params.sessionType = .webSession := by
      rw [hmail]
      decide
    have hapi : ¬ params.sessionType = .apiSession := by
      rw [hmail]
      decide
    unfold newSession
    rw [if_pos h1, if_neg hweb, if_neg hapi]
  · intro hno
    have h1 : ¬ (params.sessionType = .webSession ∨ params.sessionType = .hackEmailSession ∨
        (0 < config.apiPath.length ∧ params.sessionType = .apiSession)) := by
      rintro (h | h | h)
      · exact hno (Or.inl h)
      · exact hno (Or.inr (Or.inl h))
      · exact hno (Or.inr (Or.inr ⟨h.2, h.1⟩))
    unfold newSession
    rw [if_neg h1]

/-! ## WebSocket and OPTIONS responses: lemmas -/

theorem davExtensionsOf_cons (element : Str) (elements : List Str) :
    davExtensionsOf (element :: elements) =
      davExtensionsOf [element] ++ davExtensionsOf elements := by
  unfold davExtensionsOf
  rw [← List.filter_append]
  rfl

theorem davLevel_fields (o : Options) (extensions : List Str) (level : Str) :
    ((davLevel (o, extensions) level).1.davClass1 = true ↔
      o.davClass1 = true ∨ trim level = "1".toList) ∧
    ((davLevel (o, extensions) level).1.davClass2 = true ↔
      o.davClass2 = true ∨ trim level = "2".toList) ∧
    ((davLevel (o, extensions) level).1.davClass3 = true ↔
      o.davClass3 = true ∨ trim level = "3".toList) ∧
    (davLevel (o, extensions) level).1.davExtensions = o.davExtensions ∧
    (davLevel (o, extensions) level).2 = extensions ++ davExtensionsOf [trim level] := by
  have n12 : ¬ "1".toList = "2".toList := by decide
  have n13 : ¬ "1".toList = "3".toList := by decide
  have n23 : ¬ "2".toList = "3".toList := by decide
  unfold davLevel davExtensionsOf
  generalize "1".toList = one at *
  generalize "2".toList = two at *
  generalize "3".toList = three at *
  generalize trim level = t
  dsimp only
  by_cases h1 : t = one
  · subst h1
    simp [n12, n13, List.filter_cons]
  · by_cases h2 : t = two
    · subst h2
      simp [h1, n23, List.filter_cons]
    · by_cases h3 : t = three
      · subst h3
        simp [h1, h2, List.filter_cons]
      · simp [h1, h2, h3, List.filter_cons]

theorem foldl_davLevel (levels : List Str) (o : Options) (extensions : List Str) :
    ((levels.foldl davLevel (o, extensions)).1.davClass1 = true ↔
      o.davClass1 = true ∨ "1".toList ∈ levels.map trim) ∧
    ((levels.foldl davLevel (o, extensions)).1.davClass2 = true ↔
      o.davClass2 = true ∨ "2".toList ∈ levels.map trim) ∧
    ((levels.foldl davLevel (o, extensions)).1.davClass3 = true ↔
      o.davClass3 = true ∨ "3".toList ∈ levels.map trim) ∧
    (levels.foldl davLevel (o, extensions)).1.davExtensions = o.davExtensions ∧
    (levels.foldl davLevel (o, extensions)).2 =
      extensions ++ davExtensionsOf (levels.map trim) := by
  induction levels generalizing o extensions with
  | nil =>
    refine ⟨?_, ?_, ?_, rfl, ?_⟩
    · exact ⟨fun h => Or.inl h, fun h => h.elim id (fun hc => by cases hc)⟩
    · exact ⟨fun h => Or.inl h, fun h => h.elim id (fun hc => by cases hc)⟩
    · exact ⟨fun h => Or.inl h, fun h => h.elim id (fun hc => by cases hc)⟩
    · exact (List.append_nil _).symm
  | cons level rest ih =>
    obtain ⟨f1, f2, f3, f4, f5⟩ := davLevel_fields o extensions level
    obtain ⟨a1, a2, a3, a4, a5⟩ :=
      ih (davLevel (o, extensions) level).1 (davLevel (o, extensions) level).2
    rw [List.foldl_cons, List.map_cons]
    refine ⟨?_, ?_, ?_, ?_, ?_⟩
    · rw [a1, f1, List.mem_cons]
      constructor
      · rintro ((h | h) | h)
        · exact Or.inl h
        · exact Or.inr (Or.inl h.symm)
        · exact Or.inr (Or.inr h)
      · rintro (h | h | h)
        · exact Or.inl (Or.inl h)
        · exact Or.inl (Or.inr h.symm)
        · exact Or.inr h
    · rw [a2, f2, List.mem_cons]
      constructor
      · rintro ((h | h) | h)
        · exact Or.inl h
        · exact Or.inr (Or.inl h.symm)
        · exact Or.inr (Or.inr h)
      · rintro (h | h | h)
        · exact Or.inl (Or.inl h)
        · exact Or.inl (Or.inr h.symm)
        · exact Or.inr h
    · rw [a3, f3, List.mem_cons]
      constructor
      · rintro ((h | h) | h)
        · exact Or.inl h
        · exact Or.inr (Or.inl h.symm)
        · exact Or.inr (Or.inr h)
      · rintro (h | h | h)
        · exact Or.inl (Or.inl h)
        · exact Or.inl (Or.inr h.symm)
        · exact Or.inr h
    · rw [a4, f4]
    · rw [a5, f5, List.append_assoc, davExtensionsOf_cons (trim level) (rest.map trim)]

/-! ## The WebSocket pump: lemmas -/

theorem map_message_set (ps : List UpstreamWrite) (i : Nat) (q : UpstreamWrite)
    (state : WriteState) (h : ps.get? i = some q) :
    (ps.set i { q with state := state }).map (fun q => q.message) =
      ps.map (fun q => q.message) := by
  induction ps generalizing i with
  | nil => rfl
  | cons a rest ih =>
    cases i with
    | zero =>
      simp only [List.get?_cons_zero, Option.some.injEq] at h
      subst h
      rfl
    | succ j =>
      rw [List.get?_cons_succ] at h
      rw [List.set_cons_succ, List.map_cons, List.map_cons, ih j h]

theorem get?_set_state (ps : List UpstreamWrite) (i j : Nat) (q r : UpstreamWrite)
    (h : ps.get? i = some q) :
    (ps.set i r).get? j = if j = i then some r else ps.get? j := by
  have hlt : i < ps.length := by
    by_contra hge
    rw [List.get?_eq_none.mpr (by omega)] at h
    cases h
  rw [List.get?_eq_getElem?, List.get?_eq_getElem?, List.getElem?_set]
  by_cases hij : i = j
  · rw [if_pos hij, if_pos hlt, if_pos hij.symm]
  · rw [if_neg hij, if_neg (fun e => hij e.symm)]

theorem get?_lt (ps : List UpstreamWrite) (i : Nat) (q : UpstreamWrite)
    (h : ps.get? i = some q) : i < ps.length := by
  by_contra hge
  rw [List.get?_eq_none.mpr (by omega)] at h
  cases h

/-- A promise that waits or is being written lies at or after the last write. -/
theorem PumpInvariant.index (messages : List Str) (w : WebSocketPump)
    (hinv : PumpInvariant messages w) (i : Nat) (q : UpstreamWrite)
    (hq : w.promises.get? i = some q) :
    (q.state = .waiting → w.serverWrites.length ≤ i) ∧
    (q.state = .writing → i + 1 = w.serverWrites.length) := by
  constructor
  · intro hs
    by_contra hlt
    by_cases h1 : i + 1 < w.serverWrites.length
    · have := hinv.before i q h1 hq
      rw [hs] at this
      cases this
    · have e : w.serverWrites.length - 1 = i := by omega
      exact hinv.last q (by omega) (by rw [e]; exact hq) hs
  · intro hs
    by_contra hne
    by_cases h1 : i + 1 < w.serverWrites.length
    · have := hinv.before i q h1 hq
      rw [hs] at this
      cases this
    · rcases hinv.later i q (by omega) hq with h2 | h2
      · rw [hs] at h2
        cases h2
      · rw [hs] at h2
        cases h2

theorem PumpInvariant.sendBytes (messages : List Str) (w : WebSocketPump)
    (hinv : PumpInvariant messages w) (message : Str) :
    PumpInvariant (messages ++ [message]) (w.sendBytes message) := by
  have hlen : messages.length = w.promises.length := by
    rw [← hinv.carried, List.length_map]
  generalize hnewq : (⟨w.upstreamOp, message, .waiting⟩ : UpstreamWrite) = newq
  have hp : (w.sendBytes message).promises = w.promises ++ [newq] := by
    rw [← hnewq]
    rfl
  have hsw : (w.sendBytes message).serverWrites = w.serverWrites := rfl
  have hup : (w.sendBytes message).upstreamOp = some w.promises.length := rfl
  have hget : ∀ i, i < w.promises.length →
      (w.promises ++ [newq]).get? i = w.promises.get? i := by
    intro i hi
    rw [List.get?_eq_getElem?, List.get?_eq_getElem?, List.getElem?_append_left hi]
  have hnew : ∀ i q, (w.promises ++ [newq]).get? i = some q →
      w.promises.length ≤ i → i = w.promises.length ∧ q = newq := by
    intro i q hq hi
    have hlt := get?_lt _ i q hq
    rw [List.length_append, List.length_singleton] at hlt
    have e : i = w.promises.length := by omega
    subst e
    rw [List.get?_eq_getElem?, List.getElem?_concat_length] at hq
    exact ⟨rfl, (Option.some.inj hq).symm⟩
  have hs := hinv.started
  refine ⟨?_, ?_, ?_, ?_, ?_, ?_, ?_, ?_⟩
  · rw [hp, List.map_append, hinv.carried, ← hnewq]
    rfl
  · intro i q hq
    rw [hp] at hq
    by_cases hi : i < w.promises.length
    · rw [hget i hi] at hq
      exact hinv.chained i q hq
    · obtain ⟨e1, e2⟩ := hnew i q hq (by omega)
      subst e1 e2
      rw [← hnewq]
      exact hinv.upstream
  · rw [hup, hp, List.length_append, List.length_singleton, if_neg (by omega)]
    rfl
  · rw [hsw, hp, List.length_append]
    exact Nat.le_trans hinv.started (Nat.le_add_right _ _)
  · rw [hsw, List.take_append_of_le_length (by rw [hlen]; exact hinv.started)]
    exact hinv.writes
  · intro i q hi hq
    rw [hsw] at hi
    rw [hp, hget i (by omega)] at hq
    exact hinv.before i q hi hq
  · intro q hpos hq
    rw [hsw] at hpos hq
    rw [hp, hget _ (by omega)] at hq
    exact hinv.last q hpos hq
  · intro i q hi hq
    rw [hsw] at hi
    rw [hp] at hq
    by_cases hlt : i < w.promises.length
    · rw [hget i hlt] at hq
      exact hinv.later i q hi hq
    · obtain ⟨-, e2⟩ := hnew i q hq (by omega)
      subst e2
      rw [← hnewq]
      exact Or.inl rfl

/-- The end of a write, with or without an exception, and the arrival of an exception at a
promise that waits keep the invariant. -/
theorem PumpInvariant.settle (messages : List Str) (w : WebSocketPump)
    (hinv : PumpInvariant messages w) (i : Nat) (q : UpstreamWrite) (state : WriteState)
    (hq : w.promises.get? i = some q)
    (hstate : (q.state = .writing ∧ state ≠ .waiting) ∨
      (q.state = .waiting ∧ state = .rejected)) :
    PumpInvariant messages
      { w with promises := w.promises.set i { q with state := state } } := by
  obtain ⟨hwait, hwrite⟩ := hinv.index messages w i q hq
  have hget := fun j => get?_set_state w.promises i j q { q with state := state } hq
  refine ⟨?_, ?_, ?_, ?_, hinv.writes, ?_, ?_, ?_⟩
  · show (w.promises.set i { q with state := state }).map _ = _
    rw [map_message_set w.promises i q state hq]
    exact hinv.carried
  · intro j r hr
    change (w.promises.set i { q with state := state }).get? j = some r at hr
    rw [hget j] at hr
    by_cases hj : j = i
    · rw [if_pos hj, Option.some.injEq] at hr
      subst hr hj
      exact hinv.chained j q hq
    · rw [if_neg hj] at hr
      exact hinv.chained j r hr
  · show w.upstreamOp = if (w.promises.set i _).length = 0 then none else _
    rw [List.length_set]
    exact hinv.upstream
  · show w.serverWrites.length ≤ (w.promises.set i _).length
    rw [List.length_set]
    exact hinv.started
  · intro j r hj hr
    change j + 1 < w.serverWrites.length at hj
    change (w.promises.set i { q with state := state }).get? j = some r at hr
    rw [hget j] at hr
    have hne : j ≠ i := by
      intro e
      subst e
      rcases hstate with h | h
      · have := hwrite h.1
        omega
      · have := hwait h.1
        omega
    rw [if_neg hne] at hr
    exact hinv.before j r hj hr
  · intro r hpos hr
    change 0 < w.serverWrites.length at hpos
    change (w.promises.set i { q with state := state }).get? (w.serverWrites.length - 1)
      = some r at hr
    rw [hget _] at hr
    by_cases hj : w.serverWrites.length - 1 = i
    · rw [if_pos hj, Option.some.injEq] at hr
      subst hr
      rcases hstate with h | h
      · exact h.2
      · have := hwait h.1
        omega
    · rw [if_neg hj] at hr
      exact hinv.last r hpos hr
  · intro j r hj hr
    change w.serverWrites.length ≤ j at hj
    change (w.promises.set i { q with state := state }).get? j = some r at hr
    rw [hget j] at hr
    by_cases hji : j = i
    · rw [if_pos hji, Option.some.injEq] at hr
      subst hr hji
      rcases hstate with h | h
      · have := hwrite h.1
        omega
      · exact Or.inr h.2
    · rw [if_neg hji] at hr
      exact hinv.later j r hj hr

/-- The run of a continuation keeps the invariant: the promise is the first one that has
not started, and its message is the next write. -/
theorem PumpInvariant.run (messages : List Str) (w : WebSocketPump)
    (hinv : PumpInvariant messages w) (i : Nat) (q : UpstreamWrite)
    (hq : w.promises.get? i = some q) (hstate : q.state = .waiting)
    (hafter : w.stateOf q.after = some .fulfilled) :
    i = w.serverWrites.length ∧
    PumpInvariant messages
      { w with promises := w.promises.set i { q with state := .writing },
               serverWrites := w.serverWrites ++ [q.message] } := by
  obtain ⟨hwait, -⟩ := hinv.index messages w i q hq
  have hge := hwait hstate
  have hch := hinv.chained i q hq
  have hlt := get?_lt _ i q hq
  have hprev : ∀ r, 0 < i → w.promises.get? (i - 1) = some r → r.state = .fulfilled := by
    intro r hpos hr
    rw [hch, if_neg (by omega)] at hafter
    unfold WebSocketPump.stateOf at hafter
    dsimp only at hafter
    rw [hr] at hafter
    exact Option.some.inj hafter
  have hi : i = w.serverWrites.length := by
    by_contra hne
    have hpos : 0 < i := by omega
    have hlt2 := Nat.lt_of_lt_of_le (Nat.sub_lt hpos Nat.one_pos) (Nat.le_of_lt hlt)
    cases hr : w.promises.get? (i - 1) with
    | none =>
      rw [List.get?_eq_none] at hr
      omega
    | some r =>
      have h1 := hprev r hpos hr
      rcases hinv.later (i - 1) r (by omega) hr with h2 | h2
      · rw [h1] at h2
        cases h2
      · rw [h1] at h2
        cases h2
  refine ⟨hi, ?_⟩
  have hget := fun j => get?_set_state w.promises i j q { q with state := .writing } hq
  have hlen : (w.serverWrites ++ [q.message]).length = w.serverWrites.length + 1 := by
    rw [List.length_append, List.length_singleton]
  refine ⟨?_, ?_, ?_, ?_, ?_, ?_, ?_, ?_⟩
  · show (w.promises.set i { q with state := .writing }).map _ = _
    rw [map_message_set w.promises i q .writing hq]
    exact hinv.carried
  · intro j r hr
    change (w.promises.set i { q with state := .writing }).get? j = some r at hr
    rw [hget j] at hr
    by_cases hj : j = i
    · rw [if_pos hj, Option.some.injEq] at hr
      subst hr hj
      exact hch
    · rw [if_neg hj] at hr
      exact hinv.chained j r hr
  · show w.upstreamOp = if (w.promises.set i _).length = 0 then none else _
    rw [List.length_set]
    exact hinv.upstream
  · show (w.serverWrites ++ [q.message]).length ≤ (w.promises.set i _).length
    rw [List.length_set, hlen]
    omega
  · show w.serverWrites ++ [q.message] = messages.take (w.serverWrites ++ [q.message]).length
    have hm : messages[w.serverWrites.length]? = some q.message := by
      rw [← hinv.carried, List.getElem?_map, ← hi, ← List.get?_eq_getElem?, hq]
      rfl
    rw [hlen, List.take_succ, hm, ← hinv.writes]
    rfl
  · intro j r hj hr
    change j + 1 < (w.serverWrites ++ [q.message]).length at hj
    change (w.promises.set i { q with state := .writing }).get? j = some r at hr
    rw [hlen] at hj
    rw [hget j, if_neg (by omega)] at hr
    by_cases h1 : j + 1 < w.serverWrites.length
    · exact hinv.before j r h1 hr
    · have e : j = i - 1 := by omega
      rw [e] at hr
      exact hprev r (by omega) hr
  · intro r _ hr
    change (w.promises.set i { q with state := .writing }).get?
      ((w.serverWrites ++ [q.message]).length - 1) = some r at hr
    rw [hlen, Nat.add_sub_cancel, hget _, if_pos hi.symm, Option.some.injEq] at hr
    subst hr
    intro hc
    cases hc
  · intro j r hj hr
    change (w.serverWrites ++ [q.message]).length ≤ j at hj
    change (w.promises.set i { q with state := .writing }).get? j = some r at hr
    rw [hlen] at hj
    rw [hget j, if_neg (by omega)] at hr
    exact hinv.later j r (by omega) hr

theorem PumpInvariant.init : PumpInvariant [] WebSocketPump.init := by
  refine ⟨rfl, ?_, rfl, Nat.le_refl _, rfl, ?_, ?_, ?_⟩
  · intro i q hq
    cases hq
  · intro i q _ hq
    cases hq
  · intro q hpos
    cases hpos
  · intro i q _ hq
    cases hq

/-- The fields of the pump that the promises do not touch play no part in the invariant. -/
theorem PumpInvariant.congr (messages : List Str) (w w1 : WebSocketPump)
    (hinv : PumpInvariant messages w) (h1 : w1.promises = w.promises)
    (h2 : w1.upstreamOp = w.upstreamOp) (h3 : w1.serverWrites = w.serverWrites) :
    PumpInvariant messages w1 := by
  obtain ⟨a1, a2, a3, a4, a5, a6, a7, a8⟩ := hinv
  refine ⟨?_, ?_, ?_, ?_, ?_, ?_, ?_, ?_⟩
  · rw [h1]; exact a1
  · rw [h1]; exact a2
  · rw [h1, h2]; exact a3
  · rw [h1, h3]; exact a4
  · rw [h3]; exact a5
  · rw [h1, h3]; exact a6
  · rw [h1, h3]; exact a7
  · rw [h1, h3]; exact a8

/-- One event keeps the invariant. -/
theorem PumpInvariant.step (messages : List Str) (w w1 : WebSocketPump) (e : PumpEvent)
    (hinv : PumpInvariant messages w) (h : w.step e = some w1) :
    PumpInvariant (messages ++ hostMessage e) w1 ∧
      w1.clientCalls = w.clientCalls ++ childRead e := by
  cases e with
  | sendBytes message =>
    simp only [WebSocketPump.step, Option.some.injEq] at h
    subst h
    exact ⟨hinv.sendBytes messages w message, (List.append_nil _).symm⟩
  | run i =>
    simp only [WebSocketPump.step] at h
    cases hq : w.promises.get? i with
    | none =>
      rw [hq] at h
      cases h
    | some q =>
      rw [hq] at h
      dsimp only at h
      split at h
      · rename_i hc
        simp only [Option.some.injEq] at h
        subst h
        rw [show hostMessage (.run i) = [] from rfl, List.append_nil]
        exact ⟨(hinv.run messages w i q hq hc.1 hc.2).2, (List.append_nil _).symm⟩
      · cases h
  | complete i =>
    simp only [WebSocketPump.step] at h
    cases hq : w.promises.get? i with
    | none =>
      rw [hq] at h
      cases h
    | some q =>
      rw [hq] at h
      dsimp only at h
      split at h
      · rename_i hc
        simp only [Option.some.injEq] at h
        subst h
        rw [show hostMessage (.complete i) = [] from rfl, List.append_nil]
        exact ⟨hinv.settle messages w i q .fulfilled hq (Or.inl ⟨hc, by decide⟩),
          (List.append_nil _).symm⟩
      · cases h
  | fail i =>
    simp only [WebSocketPump.step] at h
    cases hq : w.promises.get? i with
    | none =>
      rw [hq] at h
      cases h
    | some q =>
      rw [hq] at h
      dsimp only at h
      split at h
      · rename_i hc
        simp only [Option.some.injEq] at h
        subst h
        rw [show hostMessage (.fail i) = [] from rfl, List.append_nil]
        exact ⟨hinv.settle messages w i q .rejected hq (Or.inl ⟨hc, by decide⟩),
          (List.append_nil _).symm⟩
      · cases h
  | propagate i =>
    simp only [WebSocketPump.step] at h
    cases hq : w.promises.get? i with
    | none =>
      rw [hq] at h
      cases h
    | some q =>
      rw [hq] at h
      dsimp only at h
      split at h
      · rename_i hc
        simp only [Option.some.injEq] at h
        subst h
        rw [show hostMessage (.propagate i) = [] from rfl, List.append_nil]
        exact ⟨hinv.settle messages w i q .rejected hq (Or.inr ⟨hc.1, rfl⟩),
          (List.append_nil _).symm⟩
      · cases h
  | read data =>
    simp only [WebSocketPump.step] at h
    rw [show hostMessage (.read data) = [] from rfl, List.append_nil]
    split at h
    · split at h
      · rename_i hpos
        simp only [Option.some.injEq] at h
        subst h
        have hne : data ≠ [] := List.length_pos.mp hpos
        refine ⟨hinv.congr messages w _ rfl rfl rfl, ?_⟩
        show w.clientCalls ++ [data] = w.clientCalls ++ childRead (.read data)
        rw [childRead, if_neg hne]
      · rename_i hpos
        simp only [Option.some.injEq] at h
        subst h
        have he : data = [] := List.length_eq_zero.mp (Nat.eq_zero_of_not_pos hpos)
        refine ⟨hinv.congr messages w _ rfl rfl rfl, ?_⟩
        show w.clientCalls = w.clientCalls ++ childRead (.read data)
        rw [childRead, if_pos he, List.append_nil]
    · cases h

theorem PumpInvariant.steps (events : List PumpEvent) (messages : List Str)
    (w w1 : WebSocketPump) (hinv : PumpInvariant messages w) (h : w.steps events = some w1) :
    PumpInvariant (messages ++ hostMessages events) w1 ∧
      w1.clientCalls = w.clientCalls ++ childReads events := by
  induction events generalizing messages w with
  | nil =>
    simp only [WebSocketPump.steps, Option.some.injEq] at h
    subst h
    simp only [hostMessages, childReads, List.flatMap_nil, List.append_nil]
    exact ⟨hinv, trivial⟩
  | cons e rest ih =>
    simp only [WebSocketPump.steps] at h
    cases hs : w.step e with
    | none =>
      rw [hs] at h
      cases h
    | some w2 =>
      rw [hs] at h
      obtain ⟨a1, a2⟩ := PumpInvariant.step messages w w2 e hinv hs
      obtain ⟨b1, b2⟩ := ih (messages ++ hostMessage e) w2 a1 h
      refine ⟨?_, ?_⟩
      · rw [hostMessages, List.flatMap_cons, ← List.append_assoc]
        exact b1
      · rw [b2, a2, List.append_assoc]
        rfl

theorem loopEvent_enabled (w : WebSocketPump) (e : PumpEvent) (hhost : hostMessage e = [])
    (hchild : childRead e = []) (h : (w.step e).isSome = true) :
    ∃ e w1, hostMessage e = [] ∧ childRead e = [] ∧ w.step e = some w1 := by
  obtain ⟨w1, h1⟩ := Option.isSome_iff_exists.mp h
  exact ⟨e, w1, hhost, hchild, h1⟩

/-- While a promise waits or is being written, the event loop has something to do. -/
theorem PumpInvariant.progress (messages : List Str) (w : WebSocketPump)
    (hinv : PumpInvariant messages w)
    (h : ∃ i q, w.promises.get? i = some q ∧ (q.state = .waiting ∨ q.state = .writing)) :
    ∃ e w1, hostMessage e = [] ∧ childRead e = [] ∧ w.step e = some w1 := by
  by_cases hw : ∃ i q, w.promises.get? i = some q ∧ q.state = .writing
  · obtain ⟨i, q, hq, hs⟩ := hw
    refine loopEvent_enabled w (.complete i) rfl rfl ?_
    simp only [WebSocketPump.step, hq]
    rw [if_pos hs]
    rfl
  · have hwait : ∃ i, ∃ q, w.promises.get? i = some q ∧ q.state = .waiting := by
      obtain ⟨i, q, hq, hs⟩ := h
      rcases hs with hs | hs
      · exact ⟨i, q, hq, hs⟩
      · exact absurd ⟨i, q, hq, hs⟩ hw
    classical
    obtain ⟨q, hq, hs⟩ := Nat.find_spec hwait
    have hmin := fun j (hj : j < Nat.find hwait) => Nat.find_min hwait hj
    generalize Nat.find hwait = i at hq hmin
    have hch := hinv.chained i q hq
    by_cases hi : i = 0
    · refine loopEvent_enabled w (.run i) rfl rfl ?_
      simp only [WebSocketPump.step, hq]
      rw [if_pos ⟨hs, by rw [hch, if_pos hi]; rfl⟩]
      rfl
    · have hlt := get?_lt _ i q hq
      cases hr : w.promises.get? (i - 1) with
      | none =>
        rw [List.get?_eq_none] at hr
        omega
      | some r =>
        have hstateOf : w.stateOf q.after = some r.state := by
          rw [hch, if_neg hi]
          unfold WebSocketPump.stateOf
          dsimp only
          rw [hr]
          rfl
        cases hrs : r.state with
        | waiting => exact absurd ⟨r, hr, hrs⟩ (hmin (i - 1) (by omega))
        | writing => exact absurd ⟨i - 1, r, hr, hrs⟩ hw
        | fulfilled =>
          refine loopEvent_enabled w (.run i) rfl rfl ?_
          simp only [WebSocketPump.step, hq]
          rw [if_pos ⟨hs, by rw [hstateOf, hrs]⟩]
          rfl
        | rejected =>
          refine loopEvent_enabled w (.propagate i) rfl rfl ?_
          simp only [WebSocketPump.step, hq]
          rw [if_pos ⟨hs, by rw [hstateOf, hrs]⟩]
          rfl

theorem PumpInvariant.start (remainder : Str) :
    PumpInvariant [] (WebSocketPump.start remainder) := by
  unfold WebSocketPump.start
  split
  · exact PumpInvariant.init.congr [] _ _ rfl rfl rfl
  · exact PumpInvariant.init.congr [] _ _ rfl rfl rfl

theorem WebSocketPump.start_clientCalls (remainder : Str) :
    (WebSocketPump.start remainder).clientCalls = if remainder = [] then [] else [remainder] := by
  unfold WebSocketPump.start
  by_cases h : remainder = []
  · subst h
    rfl
  · rw [if_pos (List.length_pos.mpr h), if_neg h]
    rfl

theorem openWebSocket_pump (stream : List Read) (protocol : List Str) (pump : WebSocketPump)
    (h : openWebSocket stream = some (.ok (protocol, pump))) :
    ∃ p remainder rest, readResponse HttpParser.init stream = some (.ok (p, remainder, rest)) ∧
      buildForWebSocket p = .ok protocol ∧ pump = WebSocketPump.start remainder := by
  unfold openWebSocket at h
  cases hr : readResponse HttpParser.init stream with
  | none =>
    rw [hr] at h
    cases h
  | some result =>
    cases result with
    | error e =>
      rw [hr] at h
      cases h
    | ok triple =>
      obtain ⟨p, remainder, rest⟩ := triple
      rw [hr] at h
      dsimp only at h
      cases hb : buildForWebSocket p with
      | error e =>
        rw [hb] at h
        cases h
      | ok protocol1 =>
        rw [hb] at h
        simp only [Option.some.injEq, Except.ok.injEq, Prod.mk.injEq] at h
        exact ⟨p, remainder, rest, rfl, by rw [hb, h.1], h.2.symm⟩

/-! ## Percent-encoding: lemmas -/

theorem percentEncodeChar_eq (c : Char) :
    percentEncodeChar c =
      if isUnreserved c = true then [c]
      else ['%', hexDigit (c.toNat % 256 / 16), hexDigit (c.toNat % 256 % 16)] := by
  unfold percentEncodeChar isUnreserved
  by_cases h : ('A' ≤ c ∧ c ≤ 'Z') ∨ ('a' ≤ c ∧ c ≤ 'z') ∨ ('0' ≤ c ∧ c ≤ '9') ∨
      c = '-' ∨ c = '_' ∨ c = '.' ∨ c = '~'
  · rw [if_pos h, if_pos (decide_eq_true h)]
  · rw [if_neg h, if_neg (by rw [decide_eq_true_eq]; exact h)]

theorem percentEncode_flatMap (s : Str) : percentEncode s = s.flatMap percentEncodeChar := by
  induction s with
  | nil => rfl
  | cons c cs ih =>
    rw [percentEncode, ih, List.flatMap_cons]

theorem hexDigit_lower (d : Nat) (h : d < 16) :
    hexDigit d = "0123456789abcdef".toList.getD d '0' ∧ isUnreserved (hexDigit d) = true := by
  interval_cases d <;> exact ⟨rfl, by decide⟩

theorem isUnreserved_safe (c : Char) (h : isUnreserved c = true ∨ c = '%') :
    c ≠ '\r' ∧ c ≠ '\n' ∧ c ≠ ' ' ∧ c ≠ ':' := by
  refine ⟨?_, ?_, ?_, ?_⟩ <;>
  · intro hc
    subst hc
    rcases h with h | h
    · exact absurd h (by decide)
    · exact absurd h (by decide)

theorem percentEncodeChar_chars (c : Char) :
    ∀ d ∈ percentEncodeChar c, isUnreserved d = true ∨ d = '%' := by
  intro d hd
  rw [percentEncodeChar_eq] at hd
  by_cases h : isUnreserved c = true
  · rw [if_pos h, List.mem_singleton] at hd
    rw [hd]
    exact Or.inl h
  · rw [if_neg h] at hd
    simp only [List.mem_cons, List.mem_singleton, List.not_mem_nil, or_false] at hd
    rcases hd with hd | hd | hd
    · exact Or.inr hd
    · rw [hd]
      exact Or.inl (hexDigit_lower _ (Nat.div_lt_of_lt_mul (by omega))).2
    · rw [hd]
      exact Or.inl (hexDigit_lower _ (Nat.mod_lt _ (by norm_num))).2

theorem percentEncode_chars (s : Str) :
    ∀ d ∈ percentEncode s, isUnreserved d = true ∨ d = '%' := by
  induction s with
  | nil =>
    intro d hd
    cases hd
  | cons c cs ih =>
    intro d hd
    rw [percentEncode, List.mem_append] at hd
    rcases hd with hd | hd
    · exact percentEncodeChar_chars c d hd
    · exact ih d hd

theorem percentDecode_unreserved (c : Char) (rest : Str) (h : isUnreserved c = true) :
    percentDecode (c :: rest) =
      match percentDecode rest with
      | some decoded => some (c :: decoded)
      | none => none := by
  have hne : c ≠ '%' := by
    intro hc
    subst hc
    exact absurd h (by decide)
  rw [percentDecode.eq_def]
  dsimp only
  rw [if_neg hne]

theorem percentDecode_escape (high low : Char) (rest : Str) :
    percentDecode ('%' :: high :: low :: rest) =
      match hexDigitValue high, hexDigitValue low, percentDecode rest with
      | some h, some l, some decoded => some (Char.ofNat (16 * h + l) :: decoded)
      | _, _, _ => none := by
  rw [percentDecode.eq_def]
  dsimp only
  rw [if_pos rfl]

theorem char_ofNat_toNat (c : Char) : Char.ofNat c.toNat = c := by
  apply Char.ext
  have hv := c.valid
  simp only [Char.ofNat, Char.toNat] at *
  rw [dif_pos (by
    show Nat.isValidChar c.val.toNat
    exact hv)]
  rfl

theorem percentDecode_percentEncode (s : Str) (hbytes : ∀ c ∈ s, c.toNat < 256) :
    percentDecode (percentEncode s) = some s := by
  induction s with
  | nil => rfl
  | cons c cs ih =>
    have hc : c.toNat < 256 := hbytes c (List.mem_cons_self _ _)
    have ih2 := ih (fun d hd => hbytes d (List.mem_cons_of_mem _ hd))
    rw [percentEncode, percentEncodeChar_eq]
    by_cases h : isUnreserved c = true
    · rw [if_pos h, List.singleton_append, percentDecode_unreserved c _ h, ih2]
    · rw [if_neg h]
      show percentDecode ('%' :: hexDigit (c.toNat % 256 / 16) ::
        hexDigit (c.toNat % 256 % 16) :: percentEncode cs) = _
      rw [percentDecode_escape, hexDigit_value _ (Nat.div_lt_of_lt_mul (by omega)),
        hexDigit_value _ (Nat.mod_lt _ (by norm_num)), ih2]
      dsimp only
      have e : 16 * (c.toNat % 256 / 16) + c.toNat % 256 % 16 = c.toNat := by omega
      rw [e, char_ofNat_toNat]

theorem WebSessionImpl_new_displayName (userInfo : UserInfo) (sessionContext : SessionContext)
    (map map1 : SessionContextMap)
    (sessionId tabId basePath userAgent acceptLanguages rootPath permissions : Str)
    (remoteAddress : Option Str) (session : WebSessionImpl)
    (h : WebSessionImpl.new userInfo sessionContext map sessionId tabId basePath userAgent
      acceptLanguages rootPath permissions remoteAddress = .ok (session, map1)) :
    session.userDisplayName = percentEncode userInfo.displayName := by
  unfold WebSessionImpl.new at h
  dsimp only at h
  split at h
  · cases h
  · simp only [Except.ok.injEq, Prod.mk.injEq] at h
    rw [← h.1]

/-! ## The mail identifier: lemmas -/

theorem and_63 (x : Nat) : x &&& 63 = x % 64 := Nat.and_pow_two_sub_one_eq_mod x 6

theorem shiftRight_6 (x : Nat) : x >>> 6 = x / 64 := Nat.shiftRight_eq_div_pow x 6

theorem or_shiftLeft (x b k : Nat) (h : x < 2 ^ k) : x ||| b <<< k = x + b * 2 ^ k := by
  rw [Nat.shiftLeft_eq, Nat.lor_comm, Nat.mul_comm b, ← Nat.mul_add_lt_is_or h b,
    Nat.add_comm]

theorem drainBuffer_zero (fuel buffer bufBits : Nat) (chars : Str) (h : bufBits < 6) :
    drainBuffer fuel (buffer, bufBits, chars) = (buffer, bufBits, chars) := by
  cases fuel with
  | zero => rfl
  | succ f =>
    rw [drainBuffer, if_neg (by omega)]

theorem drainBuffer_one (fuel buffer bufBits : Nat) (chars : Str) (h : 6 ≤ bufBits) :
    drainBuffer (fuel + 1) (buffer, bufBits, chars) =
      drainBuffer fuel (buffer / 64, bufBits - 6, chars ++ [digitOf (buffer % 64)]) := by
  rw [drainBuffer, if_pos h, and_63, shiftRight_6]
  rfl

/-- One round of the loop over the bytes, in arithmetic. -/
theorem encodeBytes_cons (b : Nat) (bytes : List Nat) (buffer bufBits : Nat) (chars : Str)
    (hb : b < 256) (hbits : bufBits < 6) (hbuf : buffer < 2 ^ bufBits) :
    encodeBytes (b :: bytes) (buffer, bufBits, chars) =
      encodeBytes bytes
        (drainBuffer (bufBits + 8) (buffer + b * 2 ^ bufBits, bufBits + 8, chars)) := by
  have h1 : b <<< bufBits < 2 ^ 32 := by
    rw [Nat.shiftLeft_eq]
    have : 2 ^ bufBits ≤ 2 ^ 5 := Nat.pow_le_pow_right (by norm_num) (by omega)
    calc b * 2 ^ bufBits ≤ 255 * 2 ^ 5 := Nat.mul_le_mul (by omega) this
      _ < 2 ^ 32 := by norm_num
  have h2 : buffer + b * 2 ^ bufBits < 2 ^ 32 := by
    have : 2 ^ bufBits ≤ 2 ^ 5 := Nat.pow_le_pow_right (by norm_num) (by omega)
    calc buffer + b * 2 ^ bufBits < 2 ^ bufBits + b * 2 ^ bufBits := by omega
      _ = (b + 1) * 2 ^ bufBits := by ring
      _ ≤ 256 * 2 ^ 5 := Nat.mul_le_mul (by omega) this
      _ < 2 ^ 32 := by norm_num
  rw [encodeBytes]
  rw [Nat.mod_eq_of_lt h1, or_shiftLeft buffer b bufBits hbuf, Nat.mod_eq_of_lt h2,
    Nat.mod_eq_of_lt (by omega : bufBits + 8 < 2 ^ 32)]

theorem encodeBytes_group (b0 b1 b2 : Nat) (rest : List Nat) (chars : Str)
    (h0 : b0 < 256) (h1 : b1 < 256) (h2 : b2 < 256) :
    encodeBytes (b0 :: b1 :: b2 :: rest) (0, 0, chars) =
      encodeBytes rest (0, 0, chars ++ (groupDigits b0 b1 b2).map digitOf) := by
  have s1 : drainBuffer (0 + 8) (0 + b0 * 2 ^ 0, 0 + 8, chars) =
      (b0 / 64, 2, chars ++ [digitOf (b0 % 64)]) := by
    show drainBuffer (7 + 1) (0 + b0 * 2 ^ 0, 8, chars) = _
    rw [drainBuffer_one _ _ _ _ (by norm_num), drainBuffer_zero _ _ _ _ (by norm_num)]
    simp
  have s2 : drainBuffer (2 + 8) (b0 / 64 + b1 * 2 ^ 2, 2 + 8, chars ++ [digitOf (b0 % 64)]) =
      ((b0 / 64 + b1 * 4) / 64, 4,
        chars ++ [digitOf (b0 % 64)] ++ [digitOf ((b0 / 64 + b1 * 4) % 64)]) := by
    show drainBuffer (9 + 1) (b0 / 64 + b1 * 2 ^ 2, 10, _) = _
    rw [drainBuffer_one _ _ _ _ (by norm_num), drainBuffer_zero _ _ _ _ (by norm_num)]
    simp
  have s3 : drainBuffer (4 + 8) ((b0 / 64 + b1 * 4) / 64 + b2 * 2 ^ 4, 4 + 8,
        chars ++ [digitOf (b0 % 64)] ++ [digitOf ((b0 / 64 + b1 * 4) % 64)]) =
      (0, 0, chars ++ (groupDigits b0 b1 b2).map digitOf) := by
    show drainBuffer (10 + 1 + 1) ((b0 / 64 + b1 * 4) / 64 + b2 * 2 ^ 4, 12, _) = _
    rw [drainBuffer_one _ _ _ _ (by norm_num), drainBuffer_one _ _ _ _ (by norm_num),
      drainBuffer_zero _ _ _ _ (by norm_num)]
    have hz : ((b0 / 64 + b1 * 4) / 64 + b2 * 2 ^ 4) / 64 / 64 = 0 := by
      norm_num
      omega
    rw [hz]
    simp [groupDigits]
  rw [encodeBytes_cons b0 _ 0 0 chars h0 (by norm_num) (by norm_num), s1,
    encodeBytes_cons b1 _ (b0 / 64) 2 _ h1 (by norm_num) (by norm_num; omega), s2,
    encodeBytes_cons b2 _ _ 4 _ h2 (by norm_num) (by norm_num; omega), s3]

theorem encodeBytes_last (b : Nat) (chars : Str) (h : b < 256) :
    encodeBytes [b] (0, 0, chars) = (b / 64, 2, chars ++ [digitOf (b % 64)]) := by
  have s1 : drainBuffer (0 + 8) (0 + b * 2 ^ 0, 0 + 8, chars) =
      (b / 64, 2, chars ++ [digitOf (b % 64)]) := by
    show drainBuffer (7 + 1) (0 + b * 2 ^ 0, 8, chars) = _
    rw [drainBuffer_one _ _ _ _ (by norm_num), drainBuffer_zero _ _ _ _ (by norm_num)]
    simp
  rw [encodeBytes_cons b _ 0 0 chars h (by norm_num) (by norm_num), s1]
  rfl

theorem length_sixteen (bytes : List Nat) (hlen : bytes.length = 16) :
    ∃ b0 b1 b2 b3 b4 b5 b6 b7 b8 b9 b10 b11 b12 b13 b14 b15,
      bytes = [b0, b1, b2, b3, b4, b5, b6, b7, b8, b9, b10, b11, b12, b13, b14, b15] := by
  match bytes, hlen with
  | [b0, b1, b2, b3, b4, b5, b6, b7, b8, b9, b10, b11, b12, b13, b14, b15], _ =>
    exact ⟨b0, b1, b2, b3, b4, b5, b6, b7, b8, b9, b10, b11, b12, b13, b14, b15, rfl⟩

theorem genRandomChars_eq (bytes : List Nat) (hlen : bytes.length = 16)
    (hbytes : ∀ b ∈ bytes, b < 256) :
    genRandomChars bytes = (stringDigits bytes).map digitOf ++ [Char.ofNat 0] := by
  obtain ⟨b0, b1, b2, b3, b4, b5, b6, b7, b8, b9, b10, b11, b12, b13, b14, b15, rfl⟩ :=
    length_sixteen bytes hlen
  have hb : ∀ b, b ∈ [b0, b1, b2, b3, b4, b5, b6, b7, b8, b9, b10, b11, b12, b13, b14, b15] →
      b < 256 := hbytes
  simp only [List.mem_cons, List.mem_singleton, List.not_mem_nil, or_false, forall_eq_or_imp,
    forall_eq] at hb
  obtain ⟨h0, h1, h2, h3, h4, h5, h6, h7, h8, h9, h10, h11, h12, h13, h14, h15⟩ := hb
  unfold genRandomChars
  rw [encodeBytes_group b0 b1 b2 _ _ h0 h1 h2, encodeBytes_group b3 b4 b5 _ _ h3 h4 h5,
    encodeBytes_group b6 b7 b8 _ _ h6 h7 h8, encodeBytes_group b9 b10 b11 _ _ h9 h10 h11,
    encodeBytes_group b12 b13 b14 _ _ h12 h13 h14, encodeBytes_last b15 _ h15]
  dsimp only
  rw [and_63]
  simp [stringDigits, digitOf]

theorem indexOf_digitOf (i : Nat) (h : i < 64) : DIGITS.indexOf (digitOf i) = i := by
  interval_cases i <;> rfl

theorem digitOf_mem (i : Nat) (h : i < 64) : digitOf i ∈ DIGITS := by
  interval_cases i <;> decide

theorem map_digitOf_injective (l1 l2 : List Nat) (h1 : ∀ i ∈ l1, i < 64)
    (h2 : ∀ i ∈ l2, i < 64) (h : l1.map digitOf = l2.map digitOf) : l1 = l2 := by
  induction l1 generalizing l2 with
  | nil =>
    cases l2 with
    | nil => rfl
    | cons b l => cases h
  | cons a l ih =>
    cases l2 with
    | nil => cases h
    | cons b l2 =>
      simp only [List.map_cons, List.cons.injEq] at h
      have ha := indexOf_digitOf a (h1 a (List.mem_cons_self _ _))
      have hb := indexOf_digitOf b (h2 b (List.mem_cons_self _ _))
      rw [h.1, hb] at ha
      rw [ha, ih l2 (fun i hi => h1 i (List.mem_cons_of_mem _ hi))
        (fun i hi => h2 i (List.mem_cons_of_mem _ hi)) h.2]

theorem stringDigits_lt (bytes : List Nat) : ∀ i ∈ stringDigits bytes, i < 64 := by
  intro i hi
  simp only [stringDigits, groupDigits, List.mem_append, List.mem_cons, List.mem_singleton,
    List.not_mem_nil, or_false] at hi
  omega

theorem stringDigits_length (bytes : List Nat) : (stringDigits bytes).length = 22 := rfl

theorem groupDigits_injective (a0 a1 a2 b0 b1 b2 : Nat) (ha0 : a0 < 256) (ha1 : a1 < 256)
    (ha2 : a2 < 256) (hb0 : b0 < 256) (hb1 : b1 < 256) (hb2 : b2 < 256)
    (h : groupDigits a0 a1 a2 = groupDigits b0 b1 b2) : a0 = b0 ∧ a1 = b1 ∧ a2 = b2 := by
  simp only [groupDigits, List.cons.injEq, and_true] at h
  omega

theorem stringDigits_injective (bytes bytes2 : List Nat) (hlen : bytes.length = 16)
    (hbytes : ∀ b ∈ bytes, b < 256) (hlen2 : bytes2.length = 16)
    (hbytes2 : ∀ b ∈ bytes2, b < 256) (h : stringDigits bytes = stringDigits bytes2) :
    bytes = bytes2 := by
  obtain ⟨a0, a1, a2, a3, a4, a5, a6, a7, a8, a9, a10, a11, a12, a13, a14, a15, rfl⟩ :=
    length_sixteen bytes hlen
  obtain ⟨b0, b1, b2, b3, b4, b5, b6, b7, b8, b9, b10, b11, b12, b13, b14, b15, rfl⟩ :=
    length_sixteen bytes2 hlen2
  have ha : ∀ b, b ∈ [a0, a1, a2, a3, a4, a5, a6, a7, a8, a9, a10, a11, a12, a13, a14, a15] →
      b < 256 := hbytes
  have hb : ∀ b, b ∈ [b0, b1, b2, b3, b4, b5, b6, b7, b8, b9, b10, b11, b12, b13, b14, b15] →
      b < 256 := hbytes2
  simp only [List.mem_cons, List.mem_singleton, List.not_mem_nil, or_false, forall_eq_or_imp,
    forall_eq] at ha hb
  simp only [stringDigits, List.getD_cons_zero, List.getD_cons_succ] at h
  obtain ⟨h5, ht⟩ := List.append_inj' h rfl
  obtain ⟨h4, e5⟩ := List.append_inj' h5 rfl
  obtain ⟨h3, e4⟩ := List.append_inj' h4 rfl
  obtain ⟨h2, e3⟩ := List.append_inj' h3 rfl
  obtain ⟨e1, e2⟩ := List.append_inj' h2 rfl
  have k1 := groupDigits_injective a0 a1 a2 b0 b1 b2 ha.1 ha.2.1 ha.2.2.1 hb.1 hb.2.1 hb.2.2.1 e1
  have k2 := groupDigits_injective a3 a4 a5 b3 b4 b5 ha.2.2.2.1 ha.2.2.2.2.1 ha.2.2.2.2.2.1
    hb.2.2.2.1 hb.2.2.2.2.1 hb.2.2.2.2.2.1 e2
  have k3 := groupDigits_injective a6 a7 a8 b6 b7 b8 ha.2.2.2.2.2.2.1 ha.2.2.2.2.2.2.2.1
    ha.2.2.2.2.2.2.2.2.1 hb.2.2.2.2.2.2.1 hb.2.2.2.2.2.2.2.1 hb.2.2.2.2.2.2.2.2.1 e3
  have k4 := groupDigits_injective a9 a10 a11 b9 b10 b11 ha.2.2.2.2.2.2.2.2.2.1
    ha.2.2.2.2.2.2.2.2.2.2.1 ha.2.2.2.2.2.2.2.2.2.2.2.1 hb.2.2.2.2.2.2.2.2.2.1
    hb.2.2.2.2.2.2.2.2.2.2.1 hb.2.2.2.2.2.2.2.2.2.2.2.1 e4
  have k5 := groupDigits_injective a12 a13 a14 b12 b13 b14 ha.2.2.2.2.2.2.2.2.2.2.2.2.1
    ha.2.2.2.2.2.2.2.2.2.2.2.2.2.1 ha.2.2.2.2.2.2.2.2.2.2.2.2.2.2.1
    hb.2.2.2.2.2.2.2.2.2.2.2.2.1 hb.2.2.2.2.2.2.2.2.2.2.2.2.2.1
    hb.2.2.2.2.2.2.2.2.2.2.2.2.2.2.1 e5
  simp only [List.cons.injEq, and_true] at ht
  obtain ⟨g21, g22⟩ := ht
  have k6 : a15 = b15 := by
    have hx := ha.2.2.2.2.2.2.2.2.2.2.2.2.2.2.2
    have hy := hb.2.2.2.2.2.2.2.2.2.2.2.2.2.2.2
    omega
  obtain ⟨r0, r1, r2⟩ := k1
  obtain ⟨r3, r4, r5⟩ := k2
  obtain ⟨r6, r7, r8⟩ := k3
  obtain ⟨r9, r10, r11⟩ := k4
  obtain ⟨r12, r13, r14⟩ := k5
  subst r0 r1 r2 r3 r4 r5 r6 r7 r8 r9 r10 r11 r12 r13 r14 k6
  rfl

theorem genRandomString_eq (bytes : List Nat) (hlen : bytes.length = 16)
    (hbytes : ∀ b ∈ bytes, b < 256) :
    genRandomString bytes = (stringDigits bytes).map digitOf := by
  unfold genRandomString
  rw [genRandomChars_eq bytes hlen hbytes, List.dropLast_concat]

/-! ## The declared size: lemmas -/

/-- A call of `expectSize` once the header block is sent: it sets the expected size and
nothing else. -/
theorem expectSize_sent (t : RequestStreamImpl) (size : Nat) (h : t.httpRequest = none) :
    expectSize t size =
      ({ t with expectedSize := some ((t.bytesReceived + size) % 2 ^ 64) }, none) := by
  unfold expectSize
  rw [writeHeadersOnce_sent _ _ (by simpa using h)]

/-- A call of `write` in identity mode before `done`, with an expected size. -/
theorem write_identity (t : RequestStreamImpl) (data : Str) (e : Nat)
    (hreq : t.httpRequest = none) (hchunked : t.isChunked = false)
    (hdone : t.doneCalled = false) (hexp : t.expectedSize = some e)
    (hlen : t.bytesReceived + data.length < 2 ^ 64) :
    write t data =
      if t.bytesReceived + data.length ≤ e then
        ({ t with bytesReceived := t.bytesReceived + data.length,
                  written := t.written ++ [data] }, none)
      else
        ({ t with bytesReceived := t.bytesReceived + data.length },
          some .receivedMoreThanExpected) := by
  obtain ⟨dc, gr, ch, br, es, hr, wr⟩ := t
  simp only at hreq hchunked hdone hexp hlen
  subst hreq hchunked hdone hexp
  unfold write
  rw [if_neg (by simp), writeHeadersOnce_sent _ _ rfl]
  dsimp only
  rw [Nat.mod_eq_of_lt hlen]
  by_cases hle : br + data.length ≤ e
  · rw [if_pos (by simpa using hle), if_pos hle, if_neg (by simp)]
  · rw [if_neg (by simpa using hle), if_neg hle]

theorem flatten_length_writtenData_write (data : Str) (cs : List Call) :
    (writtenData (.write data :: cs)).flatten.length =
      data.length + (writtenData cs).flatten.length := by
  simp [writtenData]

/-- The invariant of identity mode: when `done` returns after calls that all declare the
total `total`, the bytes of the writes add up to it and each write was sent as it is. -/
theorem callsAny_identity (total : Nat) (htotal : total < 2 ^ 64) (cs : List Call) :
    ∀ t : RequestStreamImpl, t.httpRequest = none → t.isChunked = false →
      t.doneCalled = false → t.expectedSize = some total →
      DeclaresTotal total t.bytesReceived cs →
      t.bytesReceived + (writtenData cs).flatten.length < 2 ^ 64 →
      (done (callsAny t cs)).2 = none →
      t.bytesReceived + (writtenData cs).flatten.length = total ∧
        (done (callsAny t cs)).1.written = t.written ++ writtenData cs := by
  induction cs with
  | nil =>
    intro t hreq hchunked hdone hexp _ _ hok
    have hsize : t.bytesReceived = total := by
      by_contra hne
      have := (done_sizeCheck t total hexp).mpr hne
      rw [callsAny] at hok
      rw [hok] at this
      cases this
    refine ⟨by simpa [writtenData] using hsize, ?_⟩
    rw [callsAny]
    have hw := (call_after_headers t .done hreq).2.2
    simp only [call, sentAfterHeaders, hchunked] at hw
    rw [hw]
    simp [writtenData]
  | cons c cs ih =>
    intro t hreq hchunked hdone hexp hdecl hlen hok
    cases c with
    | done => exact absurd hdecl (fun h => h)
    | expectSize size =>
      obtain ⟨hsum, hrest⟩ := hdecl
      have hstep : (call t (.expectSize size)).1 = { t with expectedSize := some total } := by
        show (expectSize t size).1 = _
        rw [expectSize_sent t size hreq, hsum, Nat.mod_eq_of_lt htotal]
      rw [callsAny, hstep] at hok
      have := ih { t with expectedSize := some total } hreq hchunked hdone rfl hrest
        (by simpa [writtenData] using hlen) hok
      rw [callsAny, hstep]
      exact ⟨by simpa [writtenData] using this.1, by simpa [writtenData] using this.2⟩
    | write data =>
      rw [flatten_length_writtenData_write] at hlen ⊢
      have hw := write_identity t data total hreq hchunked hdone hexp (by omega)
      have hdecl2 : DeclaresTotal total (t.bytesReceived + data.length) cs := hdecl
      by_cases hle : t.bytesReceived + data.length ≤ total
      · rw [if_pos hle] at hw
        have hstep : (call t (.write data)).1 =
            { t with bytesReceived := t.bytesReceived + data.length,
                     written := t.written ++ [data] } := by
          show (write t data).1 = _
          rw [hw]
        rw [callsAny, hstep] at hok
        have hrec := ih
          { t with bytesReceived := t.bytesReceived + data.length,
                   written := t.written ++ [data] }
          hreq hchunked hdone hexp hdecl2
          (show t.bytesReceived + data.length + (writtenData cs).flatten.length < 2 ^ 64 by
            omega) hok
        rw [callsAny, hstep]
        obtain ⟨h1, h2⟩ := hrec
        have h1b : t.bytesReceived + data.length + (writtenData cs).flatten.length = total := h1
        refine ⟨by omega, ?_⟩
        rw [h2]
        simp [writtenData]
      · rw [if_neg hle] at hw
        have hstep : (call t (.write data)).1 =
            { t with bytesReceived := t.bytesReceived + data.length } := by
          show (write t data).1 = _
          rw [hw]
        rw [callsAny, hstep] at hok
        have hrec := ih { t with bytesReceived := t.bytesReceived + data.length }
          hreq hchunked hdone hexp hdecl2
          (show t.bytesReceived + data.length + (writtenData cs).flatten.length < 2 ^ 64 by
            omega) hok
        have h1b : t.bytesReceived + data.length + (writtenData cs).flatten.length = total :=
          hrec.1
        omega

theorem expectSize_init (base : Str) (size : Nat) (hsize : size < 2 ^ 64) :
    expectSize (RequestStreamImpl.init (base ++ "\r\n\r\n".toList)) size =
      ({ doneCalled := false, getResponseCalled := false, isChunked := false,
         bytesReceived := 0, expectedSize := some size, httpRequest := none,
         written := [withHeaderLine base ("Content-Length: ".toList ++ decimal size)] },
        none) := by
  unfold expectSize
  rw [(writeHeadersOnce_pending _ base rfl).1 size]
  rw [Prod.mk.injEq]
  refine ⟨?_, rfl⟩
  show RequestStreamImpl.mk false false false 0 (some ((0 + size) % 2 ^ 64)) none _ = _
  rw [Nat.zero_add, Nat.mod_eq_of_lt hsize]
  rfl

theorem done_init (base : Str) :
    done (RequestStreamImpl.init (base ++ "\r\n\r\n".toList)) =
      ({ doneCalled := true, getResponseCalled := false, isChunked := false,
         bytesReceived := 0, expectedSize := none, httpRequest := none,
         written := [withHeaderLine base ("Content-Length: ".toList ++ decimal 0)] },
        none) := by
  unfold done
  have h := (writeHeadersOnce_pending
    { RequestStreamImpl.init (base ++ "\r\n\r\n".toList) with doneCalled := true } base rfl).1 0
  simp only [RequestStreamImpl.init] at h ⊢
  simp only [h]
  rfl

/-! ## Streaming bodies, entity tags and upgrades: lemmas -/

theorem cookieAttribute_failure (c : Cookie) (part : Str) (e : Failure)
    (h : cookieAttribute c part = .error e) : e = .invalidHttpDate ∨ e = .invalidMaxAge := by
  unfold cookieAttribute at h
  dsimp only at h
  repeat' split at h
  all_goals first
    | (cases h; done)
    | (cases h; exact Or.inl rfl)
    | (cases h; exact Or.inr rfl)

theorem cookieAttributes_failure (parts : List Str) (c : Cookie) (e : Failure)
    (h : cookieAttributes c parts = .error e) : e = .invalidHttpDate ∨ e = .invalidMaxAge := by
  induction parts generalizing c with
  | nil => cases h
  | cons part rest ih =>
    simp only [cookieAttributes] at h
    cases hq : cookieAttribute c part with
    | error e1 =>
      rw [hq] at h
      cases h
      exact cookieAttribute_failure c part e hq
    | ok c1 =>
      rw [hq] at h
      exact ih c1 h

theorem parseSetCookie_failure (value : Str) (e : Failure)
    (h : parseSetCookie value = .error e) :
    e = .invalidCookieHeader ∨ e = .invalidHttpDate ∨ e = .invalidMaxAge := by
  unfold parseSetCookie at h
  split at h
  · cases h
  · split at h
    · cases h
      exact Or.inl rfl
    · exact Or.inr (cookieAttributes_failure _ _ e h)

theorem addHeader_failure (p : HttpParser) (raw : RawHeader) (e : Failure)
    (h : addHeader p raw = .error e) :
    e = .invalidCookieHeader ∨ e = .invalidHttpDate ∨ e = .invalidMaxAge := by
  unfold addHeader at h
  dsimp only at h
  split at h
  · cases hc : parseSetCookie raw.value with
    | error e1 =>
      rw [hc] at h
      cases h
      exact parseSetCookie_failure _ e hc
    | ok c =>
      rw [hc] at h
      cases h
  · cases h

theorem addHeaders_failure (raws : List RawHeader) (p : HttpParser) (e : Failure)
    (h : addHeaders p raws = .error e) :
    e = .invalidCookieHeader ∨ e = .invalidHttpDate ∨ e = .invalidMaxAge := by
  induction raws generalizing p with
  | nil => cases h
  | cons raw rest ih =>
    simp only [addHeaders] at h
    cases hq : addHeader p raw with
    | error e1 =>
      rw [hq] at h
      cases h
      exact addHeader_failure p raw e hq
    | ok p1 =>
      rw [hq] at h
      exact ih p1 h

/-- The exceptions that leave the callbacks of the parser. -/
theorem runAction_failure (p : HttpParser) (a : ParserAction) (e : Failure)
    (h : runAction p a = .error e) :
    e = .invalidCookieHeader ∨ e = .invalidHttpDate ∨ e = .invalidMaxAge ∨
      e = .statusBelow100 := by
  cases a with
  | on_headers_complete =>
    simp only [runAction] at h
    unfold onHeadersComplete at h
    cases hq : addHeaders p p.rawHeaders with
    | error e1 =>
      rw [hq] at h
      cases h
      rcases addHeaders_failure _ _ e hq with h1 | h1 | h1
      · exact Or.inl h1
      · exact Or.inr (Or.inl h1)
      · exact Or.inr (Or.inr (Or.inl h1))
    | ok p1 =>
      rw [hq] at h
      dsimp only at h
      split at h
      · cases h
      · cases h
        exact Or.inr (Or.inr (Or.inr rfl))
  | _ => cases h

theorem execute_failure (as : List ParserAction) (p p1 : HttpParser) (e : Failure)
    (h : http_parser_execute p as = (p1, some e)) :
    e = .invalidCookieHeader ∨ e = .invalidHttpDate ∨ e = .invalidMaxAge ∨
      e = .statusBelow100 := by
  induction as generalizing p with
  | nil => cases h
  | cons a rest ih =>
    simp only [http_parser_execute] at h
    cases hq : runAction p a with
    | error e1 =>
      rw [hq] at h
      cases h
      exact runAction_failure _ _ _ hq
    | ok p2 =>
      rw [hq] at h
      exact ih p2 h

/-- The exceptions with which `readResponse` can end. -/
theorem readResponse_failure_cases (stream : List Read) (p : HttpParser) (e : Failure)
    (h : readResponse p stream = some (.error e)) :
    e = .invalidCookieHeader ∨ e = .invalidHttpDate ∨ e = .invalidMaxAge ∨
      e = .statusBelow100 ∨ e = .parseFailed ∨ e = .nreadOutOfRange ∨
      e = .incompleteHeaders := by
  induction stream generalizing p with
  | nil => cases h
  | cons r rest ih =>
    rw [readResponse_cons] at h
    cases hs : readResponseStep p r with
    | failed e1 =>
      rw [hs] at h
      cases h
      rcases execute_cases p r.actions with ⟨p1, h1⟩ | ⟨p1, e1, h1⟩
      · rw [readResponseStep_eq p p1 r h1] at hs
        repeat' split at hs
        all_goals first
          | (cases hs; done)
          | (cases hs; exact Or.inr (Or.inr (Or.inr (Or.inr (Or.inl rfl)))))
          | (cases hs; exact Or.inr (Or.inr (Or.inr (Or.inr (Or.inr (Or.inl rfl))))))
          | (cases hs; exact Or.inr (Or.inr (Or.inr (Or.inr (Or.inr (Or.inr rfl))))))
      · rw [readResponseStep_failed p p1 r e1 h1] at hs
        cases hs
        rcases execute_failure _ _ _ _ h1 with h2 | h2 | h2 | h2
        · exact Or.inl h2
        · exact Or.inr (Or.inl h2)
        · exact Or.inr (Or.inr (Or.inl h2))
        · exact Or.inr (Or.inr (Or.inr (Or.inl h2)))
    | returned q remainder =>
      rw [hs] at h
      cases h
    | again q =>
      rw [hs] at h
      exact ih q h

theorem parseETagLoop_failure (x : Str) (escaped : Bool) (acc : Str) (e : Failure)
    (h : parseETagLoop x escaped acc = .error e) : e = .invalidETag := by
  induction x generalizing escaped acc with
  | nil => cases h
  | cons c cs ih =>
    simp only [parseETagLoop] at h
    split at h
    · exact ih _ _ h
    · split at h
      · cases h
        rfl
      · split at h
        · exact ih _ _ h
        · exact ih _ _ h

theorem parseETag_failure (input : Str) (e : Failure) (h : parseETag input = .error e) :
    e = .invalidETag := by
  rw [parseETag_eq] at h
  split at h
  · cases hl : parseETagLoop (((afterWeakPrefix (trim input)).drop 1).take
        ((afterWeakPrefix (trim input)).length - 2)) false [] with
    | error e1 =>
      rw [hl] at h
      cases h
      exact parseETagLoop_failure _ _ _ _ hl
    | ok r =>
      rw [hl] at h
      cases h
  · cases h
    rfl

/-- The one way in which the `CONTENT` case of `build` throws on the check of the buffered
body: the parser streams and its buffer is not empty. -/
theorem buildContent_streamingBody (p : HttpParser) (successCode : SuccessCode)
    (h : buildContent p successCode = .error .streamingBodyNotEmpty) :
    p.isStreaming = true ∧ p.body ≠ [] := by
  unfold buildContent at h
  dsimp only at h
  cases hetag : findHeader p "etag".toList with
  | none =>
    rw [hetag] at h
    dsimp only at h
    by_cases hs : p.isStreaming = true
    · rw [if_pos hs] at h
      by_cases hb : p.body.length = 0
      · rw [if_pos hb] at h
        cases h
      · exact ⟨hs, fun hc => hb (by rw [hc]; rfl)⟩
    · rw [if_neg hs] at h
      cases h
  | some etag =>
    rw [hetag] at h
    dsimp only at h
    cases ht : parseETag etag with
    | error e1 =>
      rw [ht] at h
      dsimp only at h
      have := parseETag_failure etag e1 ht
      subst this
      cases h
    | ok t =>
      rw [ht] at h
      dsimp only at h
      by_cases hs : p.isStreaming = true
      · rw [if_pos hs] at h
        by_cases hb : p.body.length = 0
        · rw [if_pos hb] at h
          cases h
        · exact ⟨hs, fun hc => hb (by rw [hc]; rfl)⟩
      · rw [if_neg hs] at h
        cases h

theorem build_streamingBody (codes : StatusMap) (p : HttpParser)
    (h : build codes p = .error .streamingBodyNotEmpty) :
    p.isStreaming = true ∧ p.body ≠ [] := by
  unfold build at h
  split at h
  · cases h
  · dsimp only at h
    split at h
    · rename_i e1 hstatus
      cases h
      split at hstatus
      · cases hstatus
      · split at hstatus
        · cases hstatus
        · split at hstatus
          · cases hstatus
          · cases hstatus
    · rename_i statusInfo hstatus
      split at h
      · rename_i successCode
        cases hc : buildContent p successCode with
        | error e1 =>
          rw [hc] at h
          cases h
          exact buildContent_streamingBody p successCode hc
        | ok c =>
          rw [hc] at h
          cases h
      · cases h
      · split at h
        · cases h
        · rename_i etag hetag
          cases ht : parseETag etag with
          | error e1 =>
            rw [ht] at h
            have := parseETag_failure etag e1 ht
            subst this
            cases h
          | ok t =>
            rw [ht] at h
            cases h
      · split at h
        · cases h
        · cases h
      · cases h
      · cases h

theorem execute_streaming_body (as : List ParserAction) (p : HttpParser)
    (hs : p.isStreaming = true) :
    (http_parser_execute p as).1.isStreaming = true ∧
      (http_parser_execute p as).1.body = p.body := by
  induction as generalizing p with
  | nil => exact ⟨hs, rfl⟩
  | cons a rest ih =>
    simp only [http_parser_execute]
    cases hq : runAction p a with
    | error e => exact ⟨hs, rfl⟩
    | ok p1 =>
      obtain ⟨a1, a2, -⟩ := runAction_streaming p p1 a hs hq
      obtain ⟨b1, b2⟩ := ih p1 a1
      exact ⟨b1, b2.trans a2⟩

theorem pumpStreamInternal_body (stream : List Read) (p : HttpParser)
    (hs : p.isStreaming = true) : (pumpStreamInternal p stream).1.body = p.body := by
  induction stream generalizing p with
  | nil => rfl
  | cons r rest ih =>
    obtain ⟨b1, b2⟩ := execute_streaming_body r.actions p hs
    rw [pumpStreamInternal]
    rcases hx : http_parser_execute p r.actions with ⟨p1, _ | e⟩
    · rw [hx] at b1 b2
      dsimp only at b1 b2 ⊢
      split
      · exact b2
      · split
        · exact b2
        · exact (ih p1 b1).trans b2
    · rw [hx] at b2
      exact b2

theorem forwardBufferedBody_upgrade (p : HttpParser) :
    (forwardBufferedBody p).upgrade = p.upgrade := by
  unfold forwardBufferedBody
  split <;> rfl

theorem sendRequest_of_readResponse (codes : StatusMap) (stream : List Read) (p : HttpParser)
    (remainder : Str) (rest : List Read)
    (h : readResponse HttpParser.init stream = some (.ok (p, remainder, rest))) :
    sendRequest codes stream =
      if remainder.length = 0 then
        some (build codes (if p.isStreaming then forwardBufferedBody p else p))
      else some (.error .remainderNotEmpty) := by
  unfold sendRequest
  rw [h]

theorem sendOptionsRequest_of_readResponse (stream : List Read) (p : HttpParser)
    (remainder : Str) (rest : List Read)
    (h : readResponse HttpParser.init stream = some (.ok (p, remainder, rest))) :
    sendOptionsRequest stream =
      if remainder.length = 0 then
        some (buildOptions (if p.isStreaming then forwardBufferedBody p else p))
      else some (.error .remainderNotEmpty) := by
  unfold sendOptionsRequest
  rw [h]

theorem sendRequest_streamingBody (codes : StatusMap) (stream : List Read) :
    sendRequest codes stream ≠ some (.error .streamingBodyNotEmpty) := by
  intro h
  cases hr : readResponse HttpParser.init stream with
  | none =>
    unfold sendRequest at h
    rw [hr] at h
    cases h
  | some result =>
    cases result with
    | error e =>
      unfold sendRequest at h
      rw [hr] at h
      simp only [Option.some.injEq, Except.error.injEq] at h
      subst h
      rcases readResponse_failure_cases stream _ _ hr with h1 | h1 | h1 | h1 | h1 | h1 | h1 <;>
        cases h1
    | ok triple =>
      obtain ⟨p, remainder, rest⟩ := triple
      rw [sendRequest_of_readResponse codes stream p remainder rest hr] at h
      split at h
      · simp only [Option.some.injEq] at h
        obtain ⟨h1, h2⟩ := build_streamingBody codes _ h
        by_cases hs : p.isStreaming = true
        · rw [if_pos hs] at h2
          exact h2 (forwardBufferedBody_fields p).2.1
        · rw [if_neg hs] at h1
          exact hs h1
      · cases h

theorem escapeQuoted_plain (value : Str) (hquote : '"' ∉ value) (hbackslash : '\\' ∉ value) :
    escapeQuoted value = value := by
  induction value with
  | nil => rfl
  | cons c cs ih =>
    rw [List.mem_cons, not_or] at hquote hbackslash
    unfold escapeQuoted
    rw [if_neg (fun h => h.elim (fun e => hquote.1 e.symm) (fun e => hbackslash.1 e.symm)),
      ih hquote.2 hbackslash.2]

theorem trim_quotedETag (weak : Bool) (value : Str) :
    trim (quotedETag weak value) = quotedETag weak value := by
  cases weak with
  | false => exact trimArray_quoted value
  | true =>
    unfold trim trimArray
    have e : quotedETag true value = ('W' :: '/' :: '"' :: value) ++ ['"'] := by
      simp [quotedETag]
    rw [e]
    have h1 : (('W' :: '/' :: '"' :: value) ++ ['"']).dropWhile isspace =
        ('W' :: '/' :: '"' :: value) ++ ['"'] := by
      simp [List.dropWhile_cons, isspace]
    rw [h1]
    exact dropTrailingSpace_append _ '"' (by decide)

/-! ## Claims -/

/-- C1: when the status code `s` of the response has no entry in the status table and the
upgrade flag is unset, `build` returns `clientError` with code `badRequest` and the buffered
body as `descriptionHtml` for `400 <= s <= 499`, `serverError` with the buffered body for
`500 <= s <= 599`, and for every other `s` fails with the unsupported-status error. -/
theorem build_unlisted_status (successCodes clientErrorCodes : List Enumerant) (p : HttpParser)
    (hupgrade : p.upgrade = false)
    (hunlisted : HTTP_STATUS_CODES successCodes clientErrorCodes p.status_code = none) :
    (400 ≤ p.status_code ∧ p.status_code ≤ 499 →
      build (HTTP_STATUS_CODES successCodes clientErrorCodes) p
        = .ok ⟨p.cookies.map buildCookie, .clientError BAD_REQUEST p.body⟩) ∧
    (500 ≤ p.status_code ∧ p.status_code ≤ 599 →
      build (HTTP_STATUS_CODES successCodes clientErrorCodes) p
        = .ok ⟨p.cookies.map buildCookie, .serverError p.body⟩) ∧
    (¬ (400 ≤ p.status_code ∧ p.status_code ≤ 599) →
      build (HTTP_STATUS_CODES successCodes clientErrorCodes) p = .error .unsupportedStatus) := by
  refine ⟨fun h => ?_, fun h => ?_, fun h => ?_⟩
  · have h4 : p.status_code / 100 = 4 := by omega
    simp [build, hupgrade, hunlisted, h4]
  · have h4 : ¬ p.status_code / 100 = 4 := by omega
    have h5 : p.status_code / 100 = 5 := by omega
    simp [build, hupgrade, hunlisted, h4, h5]
  · have h4 : ¬ p.status_code / 100 = 4 := by omega
    have h5 : ¬ p.status_code / 100 = 5 := by omega
    simp [build, hupgrade, hunlisted, h4, h5]

/-- C1, at concrete responses: with the example schema, the unlisted codes 203, 300 and 305
fail with the unsupported-status error, 418 gives `clientError` `badRequest` and 503 gives
`serverError`, each carrying the buffered body. -/
theorem build_unlisted_status_witness :
    build (HTTP_STATUS_CODES exampleSuccessCodes exampleClientErrorCodes)
        { HttpParser.init with status_code := 203 } = .error .unsupportedStatus ∧
    build (HTTP_STATUS_CODES exampleSuccessCodes exampleClientErrorCodes)
        { HttpParser.init with status_code := 300 } = .error .unsupportedStatus ∧
    build (HTTP_STATUS_CODES exampleSuccessCodes exampleClientErrorCodes)
        { HttpParser.init with status_code := 305 } = .error .unsupportedStatus ∧
    build (HTTP_STATUS_CODES exampleSuccessCodes exampleClientErrorCodes)
        { HttpParser.init with status_code := 418, body := "teapot".toList }
      = .ok ⟨[], .clientError BAD_REQUEST "teapot".toList⟩ ∧
    build (HTTP_STATUS_CODES exampleSuccessCodes exampleClientErrorCodes)
        { HttpParser.init with status_code := 503, body := "down".toList }
      = .ok ⟨[], .serverError "down".toList⟩ :=
  ⟨(build_unlisted_status exampleSuccessCodes exampleClientErrorCodes
      { HttpParser.init with status_code := 203 } rfl (by decide)).2.2 (by decide),
   (build_unlisted_status exampleSuccessCodes exampleClientErrorCodes
      { HttpParser.init with status_code := 300 } rfl (by decide)).2.2 (by decide),
   (build_unlisted_status exampleSuccessCodes exampleClientErrorCodes
      { HttpParser.init with status_code := 305 } rfl (by decide)).2.2 (by decide),
   (build_unlisted_status exampleSuccessCodes exampleClientErrorCodes
      { HttpParser.init with status_code := 418, body := "teapot".toList } rfl
      (by decide)).1 (by decide),
   (build_unlisted_status exampleSuccessCodes exampleClientErrorCodes
      { HttpParser.init with status_code := 503, body := "down".toList } rfl
      (by decide)).2.1 (by decide)⟩

/-- C2: for any schema lists, the table of `makeStatusCodes` maps 204 and 205 to `noContent`
(reset false, true), 301, 302, 303, 307 and 308 to `redirect` with their flags, and 304 and
412 to `preconditionFailed`, whatever the schema declares for these numbers; every other
number declared by a success enumerant and by no client-error enumerant maps to `content`
with an enumerant that declares it, and every other number declared by a client-error
enumerant maps to `clientError` with an enumerant that declares it. -/
theorem makeStatusCodes_table (successCodes clientErrorCodes : List Enumerant) :
    makeStatusCodes successCodes clientErrorCodes 204 = some (.noContent false) ∧
    makeStatusCodes successCodes clientErrorCodes 205 = some (.noContent true) ∧
    makeStatusCodes successCodes clientErrorCodes 301 = some (.redirect true true) ∧
    makeStatusCodes successCodes clientErrorCodes 302 = some (.redirect false true) ∧
    makeStatusCodes successCodes clientErrorCodes 303 = some (.redirect false true) ∧
    makeStatusCodes successCodes clientErrorCodes 307 = some (.redirect false false) ∧
    makeStatusCodes successCodes clientErrorCodes 308 = some (.redirect true false) ∧
    makeStatusCodes successCodes clientErrorCodes 304 = some .preconditionFailed ∧
    makeStatusCodes successCodes clientErrorCodes 412 = some .preconditionFailed ∧
    (∀ k, k ∉ fixedStatusCodes → (∃ e ∈ successCodes, e.httpStatus = k) →
      (∀ e ∈ clientErrorCodes, e.httpStatus ≠ k) →
      ∃ e ∈ successCodes, e.httpStatus = k ∧
        makeStatusCodes successCodes clientErrorCodes k = some (.content e.ordinal)) ∧
    (∀ k, k ∉ fixedStatusCodes → (∃ e ∈ clientErrorCodes, e.httpStatus = k) →
      ∃ e ∈ clientErrorCodes, e.httpStatus = k ∧
        makeStatusCodes successCodes clientErrorCodes k = some (.clientError e.ordinal)) := by
  iterate 9
    refine ⟨by simp [makeStatusCodes, StatusMap.set, noContentInfo, redirectInfo,
      preconditionFailedInfo], ?_⟩
  refine ⟨?_, ?_⟩
  · intro k hk hs hc
    rw [makeStatusCodes_of_not_fixed _ _ k hk, foldl_set_of_not_mem _ _ _ k hc]
    exact foldl_set_of_mem _ _ _ k hs
  · intro k hk hc
    rw [makeStatusCodes_of_not_fixed _ _ k hk]
    exact foldl_set_of_mem _ _ _ k hc

/-- C3, as amended: for a response whose status maps to `content`, that was not switched to
streaming, whose upgrade flag is unset and whose folded ETag header, if there is one, is
well-formed, `build` returns the content variant with the success code of the table, with
`mimeType`, `encoding` and `language` the folded content-type, content-encoding and
content-language values (unset when the header is absent), and with body bytes the
concatenation, in arrival order, of the body chunks delivered after the headers. -/
theorem build_content (successCodes clientErrorCodes : List Enumerant) (p0 p : HttpParser)
    (code : SuccessCode) (chunks : List Str)
    (hfresh : ∀ k, p0.headers k = none) (hbody : p0.body = [])
    (hstream : p0.isStreaming = false) (hupgrade : p0.upgrade = false)
    (hheaders : onHeadersComplete p0 = .ok p)
    (hstatus : HTTP_STATUS_CODES successCodes clientErrorCodes p0.status_code
      = some (.content code))
    (hetag : ∀ e, foldedValue p0.rawHeaders "etag".toList = some e → ∃ t, parseETag e = .ok t) :
    ∃ c, build (HTTP_STATUS_CODES successCodes clientErrorCodes) (chunks.foldl onBody p)
        = .ok ⟨p.cookies.map buildCookie, .content c⟩ ∧
      c.statusCode = code ∧
      c.mimeType = foldedValue p0.rawHeaders "content-type".toList ∧
      c.encoding = foldedValue p0.rawHeaders "content-encoding".toList ∧
      c.language = foldedValue p0.rawHeaders "content-language".toList ∧
      c.body = .bytes chunks.flatten := by
  obtain ⟨h1, h2, h3, h4, _⟩ := onHeadersComplete_fields p0 p hheaders
  have hF : ∀ n : Str, n ≠ [] → toLower n ≠ "set-cookie".toList →
      findHeader p (toLower n) = foldedValue p0.rawHeaders n := fun n hn hsc =>
    onHeadersComplete_findHeader p0 p n hfresh hn hsc hheaders
  have hmime := hF "content-type".toList (by decide) (by decide)
  have henc := hF "content-encoding".toList (by decide) (by decide)
  have hlang := hF "content-language".toList (by decide) (by decide)
  have het := hF "etag".toList (by decide) (by decide)
  have e1 : toLower "content-type".toList = "content-type".toList := by decide
  have e2 : toLower "content-encoding".toList = "content-encoding".toList := by decide
  have e3 : toLower "content-language".toList = "content-language".toList := by decide
  have e4 : toLower "etag".toList = "etag".toList := by decide
  rw [e1] at hmime; rw [e2] at henc; rw [e3] at hlang; rw [e4] at het
  rw [foldl_onBody_buffered chunks p (h3.trans hstream)]
  obtain ⟨c, hb, hc1, hc2, hc3, hc4, hc5⟩ :=
    content_variant_of_state (HTTP_STATUS_CODES successCodes clientErrorCodes)
      { p with body := p.body ++ chunks.flatten } code (h2.trans hupgrade)
      (by rw [← hstatus, ← h1]) (h3.trans hstream)
      (fun e he => hetag e (by rw [← het]; exact he))
  refine ⟨c, hb, hc1, ?_, ?_, ?_, ?_⟩
  · rw [hc2, ← hmime]; rfl
  · rw [hc3, ← henc]; rfl
  · rw [hc4, ← hlang]; rfl
  · rw [hc5]; simp [h4.trans hbody]

/-- C3, at the response `200 OK`, `Content-Type: text/plain`, `Content-Length: 5`, body
`hello`: the content variant with the first success enumerant, `mimeType` `text/plain`, no
encoding or language, and body `hello`. -/
theorem build_content_witness :
    ∃ c, build (HTTP_STATUS_CODES exampleSuccessCodes exampleClientErrorCodes)
        (["hel".toList, "lo".toList].foldl onBody (headersDone exampleHelloParser))
        = .ok ⟨[], .content c⟩ ∧
      c.statusCode = 0 ∧ c.mimeType = some "text/plain".toList ∧ c.encoding = none ∧
      c.language = none ∧ c.body = .bytes "hello".toList :=
  build_content exampleSuccessCodes exampleClientErrorCodes exampleHelloParser
    (headersDone exampleHelloParser) 0 ["hel".toList, "lo".toList]
    (fun _ => rfl) rfl rfl rfl rfl (by decide)
    (fun e he => absurd he (by
      have h : foldedValue exampleHelloParser.rawHeaders "etag".toList = none := by decide
      rw [h]; exact fun h => by cases h))

/-- C3 as stated fails: a 200 response that maps to `content` and is not streaming, but
carries the malformed header `ETag: abc`, makes `build` fail instead of returning the
content variant; so does a 200 response on which the upgrade flag is set. -/
theorem build_content_counterexample :
    (HTTP_STATUS_CODES exampleSuccessCodes exampleClientErrorCodes
        exampleBadETagParser.status_code = some (.content 0) ∧
      onHeadersComplete exampleBadETagParser = .ok (headersDone exampleBadETagParser) ∧
      (headersDone exampleBadETagParser).isStreaming = false ∧
      build (HTTP_STATUS_CODES exampleSuccessCodes exampleClientErrorCodes)
        (headersDone exampleBadETagParser) = .error .invalidETag) ∧
    (onHeadersComplete { exampleHelloParser with upgrade := true }
        = .ok (headersDone { exampleHelloParser with upgrade := true }) ∧
      (headersDone { exampleHelloParser with upgrade := true }).isStreaming = false ∧
      build (HTTP_STATUS_CODES exampleSuccessCodes exampleClientErrorCodes)
        (headersDone { exampleHelloParser with upgrade := true })
        = .error .upgradeNotRequested) :=
  ⟨⟨by decide, rfl, rfl, by decide⟩, rfl, rfl, by decide⟩

/-- C4, as amended: for a response with status 301, 302, 303, 307 or 308 whose upgrade flag
is unset, `build` fails if and only if no raw header is named Location (ASCII case
ignored); when there is one, `build` returns the redirect variant whose location is the
folded Location value and whose `isPermanent` and `switchToGet` flags are those of the
status table (permanent for 301 and 308, switch to GET for 301, 302 and 303). -/
theorem build_redirect (successCodes clientErrorCodes : List Enumerant) (p0 p : HttpParser)
    (hfresh : ∀ k, p0.headers k = none) (hupgrade : p0.upgrade = false)
    (hheaders : onHeadersComplete p0 = .ok p)
    (hstatus : p0.status_code ∈ [301, 302, 303, 307, 308]) :
    HTTP_STATUS_CODES successCodes clientErrorCodes p0.status_code
      = some (.redirect (p0.status_code == 301 || p0.status_code == 308)
          (p0.status_code == 301 || p0.status_code == 302 || p0.status_code == 303)) ∧
    ((∃ e, build (HTTP_STATUS_CODES successCodes clientErrorCodes) p = .error e) ↔
      ∀ h ∈ p0.rawHeaders, toLower h.name ≠ "location".toList) ∧
    (∀ location, foldedValue p0.rawHeaders "location".toList = some location →
      build (HTTP_STATUS_CODES successCodes clientErrorCodes) p
        = .ok ⟨p.cookies.map buildCookie,
            .redirect (p0.status_code == 301 || p0.status_code == 308)
              (p0.status_code == 301 || p0.status_code == 302 || p0.status_code == 303)
              location⟩) := by
  obtain ⟨h1, h2, _, _, _⟩ := onHeadersComplete_fields p0 p hheaders
  have htab := makeStatusCodes_redirect successCodes clientErrorCodes p0.status_code hstatus
  have hloc : findHeader p "location".toList = foldedValue p0.rawHeaders "location".toList :=
    onHeadersComplete_findHeader p0 p "location".toList hfresh (by decide) (by decide) hheaders
  have hb := redirect_variant_of_state (HTTP_STATUS_CODES successCodes clientErrorCodes) p _ _
    (h2.trans hupgrade) (by rw [h1]; exact htab)
  rw [hloc] at hb
  refine ⟨htab, ?_, ?_⟩
  · have hiff := foldedValue_eq_none_iff p0.rawHeaders "location".toList
    have hlow : toLower "location".toList = "location".toList := by decide
    rw [hlow] at hiff
    rw [← hiff, hb]
    cases foldedValue p0.rawHeaders "location".toList with
    | none => simp
    | some l => simp
  · intro location hl
    rw [hb, hl]

/-- C4, at the response `HTTP/1.1 301 Moved`, `Location: /x`: `build` returns the redirect
variant with `isPermanent` true, `switchToGet` true and location `/x`. -/
theorem build_redirect_witness :
    build (HTTP_STATUS_CODES exampleSuccessCodes exampleClientErrorCodes)
        (headersDone exampleRedirectParser) = .ok ⟨[], .redirect true true "/x".toList⟩ :=
  (build_redirect exampleSuccessCodes exampleClientErrorCodes exampleRedirectParser
    (headersDone exampleRedirectParser) (fun _ => rfl) rfl rfl (by decide)).2.2
    "/x".toList (by decide)

/-- C4 as stated fails: the response `301 Moved` with the header `Location: /x` has a
Location header, yet `build` fails on it when the parser has set the upgrade flag. -/
theorem build_redirect_counterexample :
    ({ exampleRedirectParser with upgrade := true } : HttpParser).status_code = 301 ∧
    (∃ h ∈ ({ exampleRedirectParser with upgrade := true } : HttpParser).rawHeaders,
      toLower h.name = "location".toList) ∧
    onHeadersComplete { exampleRedirectParser with upgrade := true }
      = .ok (headersDone { exampleRedirectParser with upgrade := true }) ∧
    build (HTTP_STATUS_CODES exampleSuccessCodes exampleClientErrorCodes)
      (headersDone { exampleRedirectParser with upgrade := true })
      = .error .upgradeNotRequested :=
  ⟨rfl, ⟨⟨"Location".toList, "/x".toList⟩, by decide, by decide⟩, rfl, by decide⟩

/-- C5: after `onHeadersComplete` on a parser whose header map is still empty,
`findHeader` at the lower-cased form of a non-empty header name `n` other than set-cookie
returns the values of all raw headers named `n` (ASCII case ignored), joined with ", " in
arrival order, and returns nothing exactly when no raw header has that name; and
`onHeadersComplete` does succeed when every Set-Cookie header parses and the status code is
at least 100. -/
theorem findHeader_folded (p : HttpParser) (n : Str)
    (hfresh : ∀ k, p.headers k = none) (hn : n ≠ [])
    (hsc : toLower n ≠ "set-cookie".toList) :
    (∀ p1, onHeadersComplete p = .ok p1 →
      findHeader p1 (toLower n) = foldedValue p.rawHeaders n ∧
      (findHeader p1 (toLower n) = none ↔ ∀ h ∈ p.rawHeaders, toLower h.name ≠ toLower n)) ∧
    ((∀ r ∈ p.rawHeaders, toLower r.name = "set-cookie".toList →
        ∃ c, parseSetCookie r.value = .ok c) → 100 ≤ p.status_code →
      ∃ p1, onHeadersComplete p = .ok p1) := by
  refine ⟨fun p1 h => ?_, onHeadersComplete_ok p⟩
  have hf := onHeadersComplete_findHeader p p1 n hfresh hn hsc h
  exact ⟨hf, by rw [hf]; exact foldedValue_eq_none_iff _ _⟩

/-- C5, at a concrete response: the two `Vary` headers fold to `a, b` under the name `vary`,
and header processing succeeds. -/
theorem findHeader_folded_witness :
    (∃ p1, onHeadersComplete exampleVaryParser = .ok p1) ∧
    (∀ p1, onHeadersComplete exampleVaryParser = .ok p1 →
      findHeader p1 "vary".toList = some "a, b".toList) := by
  have h := findHeader_folded exampleVaryParser "VARY".toList (fun _ => rfl) (by decide)
    (by decide)
  refine ⟨h.2 ?_ (by decide), fun p1 hp => ?_⟩
  · intro r hr hname
    have hr2 : r = ⟨"Set-Cookie".toList, "x=y".toList⟩ := by
      have hl : exampleVaryParser.rawHeaders =
          [⟨"Vary".toList, "a".toList⟩, ⟨"Set-Cookie".toList, "x=y".toList⟩,
           ⟨"vary".toList, "b".toList⟩] := by decide
      rw [hl] at hr
      simp only [List.mem_cons, List.mem_singleton, List.not_mem_nil, or_false] at hr
      rcases hr with rfl | rfl | rfl
      · exact absurd hname (by decide)
      · rfl
      · exact absurd hname (by decide)
    subst hr2
    exact ⟨_, rfl⟩
  · have h1 := (h.1 p1 hp).1
    have e1 : toLower "VARY".toList = "vary".toList := by decide
    have e2 : foldedValue exampleVaryParser.rawHeaders "VARY".toList = some "a, b".toList := by
      decide
    rw [e1, e2] at h1
    exact h1

/-- C6: the cookie parsed from a Set-Cookie value has as name the trimmed text before the
first `=` of the first `;`-separated segment and as value the trimmed remainder of that
segment, later `=` included; when the first segment has no `=` parsing fails, and when it
has one and every later segment is accepted, parsing succeeds. -/
theorem parseSetCookie_name_value (value : Str) :
    ('=' ∉ value.takeWhile (fun c => c != ';') →
      parseSetCookie value = .error .invalidCookieHeader) ∧
    (∀ c, parseSetCookie value = .ok c →
      c.name = trim ((value.takeWhile (fun c => c != ';')).takeWhile (fun c => c != '=')) ∧
      c.value =
        trim (((value.takeWhile (fun c => c != ';')).dropWhile (fun c => c != '=')).drop 1)) ∧
    ('=' ∈ value.takeWhile (fun c => c != ';') →
      (∀ part ∈ (split value ';').tail, ∀ c0, ∃ c1, cookieAttribute c0 part = .ok c1) →
      ∃ c, parseSetCookie value = .ok c) := by
  obtain ⟨rest, hsplit⟩ := split_head ';' value
  refine ⟨fun hno => ?_, fun c hc => ?_, fun hyes hattrs => ?_⟩
  · simp [parseSetCookie, hsplit, splitFirst_eq, hno]
  · unfold parseSetCookie at hc
    rw [hsplit] at hc
    simp only [splitFirst_eq] at hc
    split at hc
    · simp at hc
    · rename_i name part hsome
      split at hsome
      · simp only [Option.some.injEq, Prod.mk.injEq] at hsome
        obtain ⟨hn, hp⟩ := hsome
        obtain ⟨a1, a2⟩ := cookieAttributes_name_value _ _ _ hc
        simp only at a1 a2
        rw [a1, a2, ← hn, ← hp]
        exact ⟨rfl, rfl⟩
      · simp at hsome
  · exact parseSetCookie_ok value hyes hattrs

/-- C6, at the header value `a=b=c`: the name is `a` and the value is `b=c`; and the value
`abc`, without `=`, fails. -/
theorem parseSetCookie_name_value_witness :
    (∃ c, parseSetCookie "a=b=c".toList = .ok c ∧
      c.name = "a".toList ∧ c.value = "b=c".toList) ∧
    parseSetCookie "abc".toList = .error .invalidCookieHeader := by
  have h := parseSetCookie_name_value "a=b=c".toList
  obtain ⟨c, hc⟩ := h.2.2 (by decide) (fun part hp => by
    have hnil : (split "a=b=c".toList ';').tail = [] := by decide
    rw [hnil] at hp
    cases hp)
  have hnv := h.2.1 c hc
  exact ⟨⟨c, hc, hnv.1, hnv.2⟩, (parseSetCookie_name_value "abc".toList).1 (by decide)⟩

/-- C7: a segment after the first is read by its trimmed, lower-cased attribute name.
`path=v` sets the cookie path to the trimmed `v`; a bare `httponly` sets `httpOnly`; a
`name=value` attribute other than expires, max-age and path, and a bare attribute other than
httponly (so `secure` and `domain=...`), leave the cookie unchanged.  A parsed cookie none
of whose attribute segments is a path has no path, none a bare httponly has `httpOnly`
false, and none an expires or max-age has expiry `none`. -/
theorem cookieAttribute_interpretation (cookie : Cookie) (part value : Str) :
    (∀ name v, splitFirst part '=' = some (name, v) → toLower (trim name) = "path".toList →
      cookieAttribute cookie part = .ok { cookie with path := trim v }) ∧
    (splitFirst part '=' = none → toLower (trim part) = "httponly".toList →
      cookieAttribute cookie part = .ok { cookie with httpOnly := true }) ∧
    (∀ name v, splitFirst part '=' = some (name, v) →
      toLower (trim name) ∉ ["expires".toList, "max-age".toList, "path".toList] →
      cookieAttribute cookie part = .ok cookie) ∧
    (splitFirst part '=' = none → toLower (trim part) ≠ "httponly".toList →
      cookieAttribute cookie part = .ok cookie) ∧
    (∀ c, parseSetCookie value = .ok c →
      ((∀ p ∈ (split value ';').tail, attributeName p ≠ some "path".toList) →
        c.path = [] ∧ (buildCookie c).path = none) ∧
      ((∀ p ∈ (split value ';').tail,
          ¬ (splitFirst p '=' = none ∧ toLower (trim p) = "httponly".toList)) →
        c.httpOnly = false ∧ (buildCookie c).httpOnly = false) ∧
      ((∀ p ∈ (split value ';').tail, attributeName p ≠ some "expires".toList ∧
          attributeName p ≠ some "max-age".toList) →
        c.expirationType = .NONE ∧ (buildCookie c).expires = .none)) := by
  refine ⟨fun name v hs hn => ?_, fun hs hn => ?_, fun name v hs hn => ?_, fun hs hn => ?_,
    fun c hc => ?_⟩
  · have h1 : ¬ "path".toList = "expires".toList := by decide
    have h2 : ¬ "path".toList = "max-age".toList := by decide
    simp only [cookieAttribute, hs, hn, h1, h2, if_false, if_true]
  · simp only [cookieAttribute, hs, hn, if_true]
  · simp only [List.mem_cons, List.mem_singleton, List.not_mem_nil, or_false, not_or] at hn
    simp only [cookieAttribute, hs, hn.1, hn.2.1, hn.2.2, if_false]
  · simp only [cookieAttribute, hs, hn, if_false]
  · obtain ⟨c0, hp0, hh0, he0, _, hattrs⟩ := parseSetCookie_attributes value c hc
    refine ⟨fun hall => ?_, fun hall => ?_, fun hall => ?_⟩
    · have hp : c.path = [] := by
        rw [cookieAttributes_preserve (fun c => c.path) _
          (fun p hp a b hab => cookieAttribute_path a b p (hall p hp) hab) c0 c hattrs]
        exact hp0
      exact ⟨hp, by simp [buildCookie, hp]⟩
    · have hh : c.httpOnly = false := by
        rw [cookieAttributes_preserve (fun c => c.httpOnly) _
          (fun p hp a b hab => cookieAttribute_httpOnly a b p (hall p hp) hab) c0 c hattrs]
        exact hh0
      exact ⟨hh, by simp [buildCookie, hh]⟩
    · have he : c.expirationType = .NONE := by
        rw [cookieAttributes_preserve (fun c => c.expirationType) _
          (fun p hp a b hab => (cookieAttribute_expiration a b p (hall p hp) hab).1) c0 c hattrs]
        exact he0
      exact ⟨he, by simp [buildCookie, he]⟩

/-- C7, at the header value `a=b; Path=/; HttpOnly; Secure; Domain=example.com`: the cookie
has name `a`, value `b`, path `/`, `httpOnly` true and no expiry; the segment ` Path=/` sets
the path and ` Secure` changes nothing. -/
theorem cookieAttribute_interpretation_witness :
    parseSetCookie "a=b; Path=/; HttpOnly; Secure; Domain=example.com".toList
      = .ok ⟨"a".toList, "b".toList, "/".toList, 0, .NONE, true⟩ ∧
    buildCookie ⟨"a".toList, "b".toList, "/".toList, 0, .NONE, true⟩
      = ⟨"a".toList, "b".toList, some "/".toList, .none, true⟩ ∧
    cookieAttribute Cookie.init " Path=/".toList = .ok { Cookie.init with path := "/".toList } ∧
    cookieAttribute Cookie.init " Secure".toList = .ok Cookie.init :=
  ⟨by decide, by decide,
   (cookieAttribute_interpretation Cookie.init " Path=/".toList []).1
     " Path".toList "/".toList (by decide) (by decide),
   (cookieAttribute_interpretation Cookie.init " Secure".toList []).2.2.2.1
     (by decide) (by decide)⟩

/-- C8, as amended.  (1) When a Set-Cookie header has an expires attribute whose trimmed
value is a date `d` written in one of the five accepted forms, and no expires or max-age
attribute follows it, the parsed cookie has expiry tag absolute and expiry value the number
of seconds from 1970-01-01T00:00:00Z to `d` read as UTC; such a header does parse when its
first segment has an `=` and its other attribute segments are accepted.  (2) An expires
value that, read as a C string, none of the five formats matches makes the attribute
fail.  (3) So does a value for which the first format that matches leaves trailing
characters. -/
theorem expires_absolute :
    (∀ (value : Str) (pre post : List Str) (part name v : Str) (d : HttpDate),
      (split value ';').tail = pre ++ part :: post →
      splitFirst part '=' = some (name, v) →
      toLower (trim name) = "expires".toList →
      IsHttpDate (trim v) d →
      (∀ q ∈ post, attributeName q ≠ some "expires".toList ∧
        attributeName q ≠ some "max-age".toList) →
      (∀ c, parseSetCookie value = .ok c →
        c.expirationType = .ABSOLUTE ∧ c.expires = secondsSinceEpoch d ∧
        (buildCookie c).expires = .absolute (secondsSinceEpoch d)) ∧
      ('=' ∈ value.takeWhile (fun c => c != ';') →
        (∀ q ∈ pre ++ post, ∀ c0, ∃ c1, cookieAttribute c0 q = .ok c1) →
        ∃ c, parseSetCookie value = .ok c)) ∧
    (∀ (cookie : Cookie) (part name v : Str),
      splitFirst part '=' = some (name, v) →
      toLower (trim name) = "expires".toList →
      (∀ fmt ∈ httpDateFormats, ∀ t, (strptime (cStr (trim v)) fmt t).2 = none) →
      cookieAttribute cookie part = .error .invalidHttpDate) ∧
    (∀ (cookie : Cookie) (part name v rest : Str) (k : Nat),
      splitFirst part '=' = some (name, v) →
      toLower (trim name) = "expires".toList →
      k < 5 →
      (∀ j < k, ∀ t, (strptime (cStr (trim v)) (httpDateFormats.getD j []) t).2 = none) →
      (∀ t, (strptime (cStr (trim v)) (httpDateFormats.getD k []) t).2 = some rest) →
      rest ≠ [] →
      cookieAttribute cookie part = .error .invalidHttpDate) := by
  refine ⟨?_, ?_, ?_⟩
  · intro value pre post part name v d hsplit hpart hname hdate hlast
    constructor
    · intro c hc
      obtain ⟨c0, _, _, _, _, hattrs⟩ := parseSetCookie_attributes value c hc
      rw [hsplit, cookieAttributes_append] at hattrs
      cases hpre : cookieAttributes c0 pre with
      | error e => simp [hpre] at hattrs
      | ok c1 =>
        simp only [hpre, cookieAttributes,
          cookieAttribute_expires_date c1 part name v d hpart hname hdate] at hattrs
        have ht := cookieAttributes_preserve (fun c => c.expirationType) post
          (fun q hq a b hab => (cookieAttribute_expiration a b q (hlast q hq) hab).1) _ c hattrs
        have he := cookieAttributes_preserve (fun c => c.expires) post
          (fun q hq a b hab => (cookieAttribute_expiration a b q (hlast q hq) hab).2) _ c hattrs
        simp only at ht he
        exact ⟨ht, he, by simp [buildCookie, ht, he]⟩
    · intro hyes hothers
      refine parseSetCookie_ok value hyes (fun q hq c0 => ?_)
      rw [hsplit] at hq
      rcases List.mem_append.mp hq with h1 | h1
      · exact hothers q (List.mem_append_left _ h1) c0
      · rcases List.mem_cons.mp h1 with rfl | h2
        · exact ⟨_, cookieAttribute_expires_date c0 q name v d hpart hname hdate⟩
        · exact hothers q (List.mem_append_right _ h2) c0
  · intro cookie part name v hpart hname hnone
    refine cookieAttribute_expires_error cookie part name v hpart hname ?_
    rw [parseHttpDate_none _ hnone]
    exact fun h => by cases h
  · intro cookie part name v rest k hpart hname hk hbefore hmatch hrest
    refine cookieAttribute_expires_error cookie part name v hpart hname ?_
    rw [parseHttpDate_first_match _ rest k hk hbefore hmatch]
    exact fun h => hrest (by simpa using h)

/-- C8, at the header value `a=b; Path=/; HttpOnly; Expires=Wed, 15 Nov 1995 06:25:24 GMT`:
the cookie parses with expiry tag absolute and value 816416724; the expires value
`tomorrow` matches no format and fails, and so does the same date followed by `x`. -/
theorem expires_absolute_witness :
    (∃ c, parseSetCookie
        "a=b; Path=/; HttpOnly; Expires=Wed, 15 Nov 1995 06:25:24 GMT".toList = .ok c ∧
      c.expirationType = .ABSOLUTE ∧ c.expires = 816416724 ∧
      (buildCookie c).expires = .absolute 816416724) ∧
    cookieAttribute Cookie.init " Expires=tomorrow".toList = .error .invalidHttpDate ∧
    cookieAttribute Cookie.init " Expires=Wed, 15 Nov 1995 06:25:24 GMTx".toList
      = .error .invalidHttpDate := by
  have hdate : IsHttpDate (trim "Wed, 15 Nov 1995 06:25:24 GMT".toList) exampleDate :=
    ⟨by unfold HttpDate.Valid; decide, Or.inl (by decide)⟩
  have h := expires_absolute.1
    "a=b; Path=/; HttpOnly; Expires=Wed, 15 Nov 1995 06:25:24 GMT".toList
    [" Path=/".toList, " HttpOnly".toList] []
    " Expires=Wed, 15 Nov 1995 06:25:24 GMT".toList " Expires".toList
    "Wed, 15 Nov 1995 06:25:24 GMT".toList exampleDate (by decide) (by decide) (by decide)
    hdate (fun q hq => by cases hq)
  have hsec : secondsSinceEpoch exampleDate = 816416724 := by
    rw [← timegm_toTm exampleDate hdate.1]
    decide
  refine ⟨?_, ?_, ?_⟩
  · obtain ⟨c, hc⟩ := h.2 (by decide) (fun q hq c0 => by
      simp only [List.append_nil, List.mem_cons, List.mem_singleton, List.not_mem_nil,
        or_false] at hq
      rcases hq with rfl | rfl
      · exact ⟨{ c0 with path := "/".toList }, by simp only [cookieAttribute]; rfl⟩
      · exact ⟨{ c0 with httpOnly := true }, by simp only [cookieAttribute]; rfl⟩)
    have hv := h.1 c hc
    rw [hsec] at hv
    exact ⟨c, hc, hv.1, hv.2.1, hv.2.2⟩
  · exact expires_absolute.2.1 Cookie.init " Expires=tomorrow".toList " Expires".toList
      "tomorrow".toList (by decide) (by decide) (fun fmt hf t => by
        simp only [httpDateFormats, List.mem_cons, List.mem_singleton, List.not_mem_nil,
          or_false] at hf
        rcases hf with rfl | rfl | rfl | rfl | rfl <;> rfl)
  · exact expires_absolute.2.2 Cookie.init " Expires=Wed, 15 Nov 1995 06:25:24 GMTx".toList
      " Expires".toList "Wed, 15 Nov 1995 06:25:24 GMTx".toList "x".toList 0 (by decide)
      (by decide) (by decide) (fun j hj => absurd hj (Nat.not_lt_zero j)) (fun t => rfl)
      (by decide)

/-- C8 as stated fails: in `a=b; Expires=Wed, 15 Nov 1995 06:25:24 GMT; Max-Age=5` the
expires value is a well-formed RFC 1123 date, yet the parsed cookie has expiry tag
relative, from the later max-age attribute; and an expires value with characters after the
date is accepted when a NUL byte comes first, because the C functions stop reading
there. -/
theorem expires_absolute_counterexample :
    IsHttpDate (trim "Wed, 15 Nov 1995 06:25:24 GMT".toList) exampleDate ∧
    splitFirst " Expires=Wed, 15 Nov 1995 06:25:24 GMT".toList '='
      = some (" Expires".toList, "Wed, 15 Nov 1995 06:25:24 GMT".toList) ∧
    " Expires=Wed, 15 Nov 1995 06:25:24 GMT".toList ∈
      (split "a=b; Expires=Wed, 15 Nov 1995 06:25:24 GMT; Max-Age=5".toList ';').tail ∧
    parseSetCookie "a=b; Expires=Wed, 15 Nov 1995 06:25:24 GMT; Max-Age=5".toList
      = .ok ⟨"a".toList, "b".toList, [], 5, .RELATIVE, false⟩ ∧
    parseSetCookie ("a=b; Expires=Wed, 15 Nov 1995 06:25:24 GMT".toList ++ nulThenX)
      = .ok ⟨"a".toList, "b".toList, [], 816416724, .ABSOLUTE, false⟩ :=
  ⟨⟨by unfold HttpDate.Valid; decide, Or.inl (by decide)⟩, by decide, by decide, by decide,
    by decide⟩

/-- C9, as amended: when a Set-Cookie header has a max-age attribute whose trimmed value is
a non-empty string of decimal digits denoting `N < 2^63`, and no expires or max-age
attribute follows it, the parsed cookie has expiry tag relative and expiry value exactly
`N`; the header does parse when its first segment has an `=` and its other attribute
segments are accepted. -/
theorem maxAge_relative (value : Str) (pre post : List Str) (part name v : Str)
    (hsplit : (split value ';').tail = pre ++ part :: post)
    (hpart : splitFirst part '=' = some (name, v))
    (hname : toLower (trim name) = "max-age".toList)
    (hdigits : IsDigits (trim v)) (hN : decimalValue (trim v) < 2 ^ 63)
    (hlast : ∀ q ∈ post, attributeName q ≠ some "expires".toList ∧
      attributeName q ≠ some "max-age".toList) :
    (∀ c, parseSetCookie value = .ok c →
      c.expirationType = .RELATIVE ∧ c.expires = (decimalValue (trim v) : Int) ∧
      (buildCookie c).expires = .relative (decimalValue (trim v))) ∧
    ('=' ∈ value.takeWhile (fun c => c != ';') →
      (∀ q ∈ pre ++ post, ∀ c0, ∃ c1, cookieAttribute c0 q = .ok c1) →
      ∃ c, parseSetCookie value = .ok c) := by
  constructor
  · intro c hc
    obtain ⟨c0, _, _, _, _, hattrs⟩ := parseSetCookie_attributes value c hc
    rw [hsplit, cookieAttributes_append] at hattrs
    cases hpre : cookieAttributes c0 pre with
    | error e => simp [hpre] at hattrs
    | ok c1 =>
      simp only [hpre, cookieAttributes,
        cookieAttribute_maxAge_digits c1 part name v hpart hname hdigits hN] at hattrs
      have ht := cookieAttributes_preserve (fun c => c.expirationType) post
        (fun q hq a b hab => (cookieAttribute_expiration a b q (hlast q hq) hab).1) _ c hattrs
      have he := cookieAttributes_preserve (fun c => c.expires) post
        (fun q hq a b hab => (cookieAttribute_expiration a b q (hlast q hq) hab).2) _ c hattrs
      simp only at ht he
      exact ⟨ht, he, by simp [buildCookie, ht, he]⟩
  · intro hyes hothers
    refine parseSetCookie_ok value hyes (fun q hq c0 => ?_)
    rw [hsplit] at hq
    rcases List.mem_append.mp hq with h1 | h1
    · exact hothers q (List.mem_append_left _ h1) c0
    · rcases List.mem_cons.mp h1 with rfl | h2
      · exact ⟨_, cookieAttribute_maxAge_digits c0 q name v hpart hname hdigits hN⟩
      · exact hothers q (List.mem_append_right _ h2) c0

/-- C9, at the header value `a=b; Path=/; Max-Age=3600; HttpOnly`: the cookie parses and its
expiry is relative, 3600. -/
theorem maxAge_relative_witness :
    ∃ c, parseSetCookie "a=b; Path=/; Max-Age=3600; HttpOnly".toList = .ok c ∧
      c.expirationType = .RELATIVE ∧ c.expires = 3600 ∧
      (buildCookie c).expires = .relative 3600 := by
  have h := maxAge_relative "a=b; Path=/; Max-Age=3600; HttpOnly".toList
    [" Path=/".toList] [" HttpOnly".toList] " Max-Age=3600".toList " Max-Age".toList
    "3600".toList (by decide) (by decide) (by decide)
    ⟨by decide, by decide⟩ (by decide) (by decide)
  obtain ⟨c, hc⟩ := h.2 (by decide) (fun q hq c0 => by
    simp only [List.singleton_append, List.mem_cons, List.mem_singleton, List.not_mem_nil,
      or_false] at hq
    rcases hq with rfl | rfl
    · exact ⟨{ c0 with path := "/".toList }, by
        simp only [cookieAttribute]; rfl⟩
    · exact ⟨{ c0 with httpOnly := true }, by
        simp only [cookieAttribute]; rfl⟩)
  have hv := h.1 c hc
  have e : decimalValue (trim "3600".toList) = 3600 := by decide
  rw [e] at hv
  exact ⟨c, hc, hv.1, hv.2.1, hv.2.2⟩

/-- C9 as stated fails: in `a=b; Max-Age=5; Expires=Wed, 15 Nov 1995 06:25:24 GMT` the
max-age value is the digit string `5`, yet the parsed cookie has expiry tag absolute, with
the date of the later expires attribute. -/
theorem maxAge_relative_counterexample :
    " Max-Age=5".toList ∈
      (split "a=b; Max-Age=5; Expires=Wed, 15 Nov 1995 06:25:24 GMT".toList ';').tail ∧
    splitFirst " Max-Age=5".toList '=' = some (" Max-Age".toList, "5".toList) ∧
    parseSetCookie "a=b; Max-Age=5; Expires=Wed, 15 Nov 1995 06:25:24 GMT".toList
      = .ok ⟨"a".toList, "b".toList, [], 816416724, .ABSOLUTE, false⟩ :=
  ⟨by decide, by decide, by decide⟩

/-- C10, as amended: a Set-Cookie header with a max-age attribute whose trimmed value, read
as a C string, is not a non-empty string of decimal digits after an optional sign (so an
empty or non-numeric value, or digits followed by other characters) makes `addHeader`
fail, and with it `onHeadersComplete` of every response that carries the header. -/
theorem maxAge_invalid (raw : RawHeader) (part name v : Str)
    (hraw : toLower raw.name = "set-cookie".toList)
    (hmem : part ∈ (split raw.value ';').tail)
    (hpart : splitFirst part '=' = some (name, v))
    (hname : toLower (trim name) = "max-age".toList)
    (hbad : ¬ IsSignedDigits (cStr (trim v))) :
    (∀ c, cookieAttribute c part = .error .invalidMaxAge) ∧
    (∀ p, ∃ e, addHeader p raw = .error e) ∧
    (∀ p, raw ∈ p.rawHeaders → ∃ e, onHeadersComplete p = .error e) := by
  have h1 : ∀ c, cookieAttribute c part = .error .invalidMaxAge := fun c =>
    (cookieAttribute_maxAge c part name v hpart hname).2 hbad
  have h2 : ∀ p, ∃ e, addHeader p raw = .error e := by
    intro p
    obtain ⟨e, he⟩ := parseSetCookie_error_of_attribute raw.value part hmem
      (fun c => ⟨_, h1 c⟩)
    exact ⟨e, by simp only [addHeader, hraw, if_true, he]⟩
  refine ⟨h1, h2, fun p hp => ?_⟩
  obtain ⟨e, he⟩ := addHeaders_error_of_mem p.rawHeaders raw hp h2 p
  exact ⟨e, by simp only [onHeadersComplete, he]⟩

/-- C10, at the header `Set-Cookie: a=b; Max-Age=12x`: digits followed by another character
make header processing fail. -/
theorem maxAge_invalid_witness :
    (∃ e, addHeader HttpParser.init ⟨"Set-Cookie".toList, "a=b; Max-Age=12x".toList⟩
      = .error e) ∧
    cookieAttribute Cookie.init " Max-Age=12x".toList = .error .invalidMaxAge := by
  have h := maxAge_invalid ⟨"Set-Cookie".toList, "a=b; Max-Age=12x".toList⟩
    " Max-Age=12x".toList " Max-Age".toList "12x".toList (by decide) (by decide) (by decide)
    (by decide)
    (fun hs => absurd ((strtoull_accepts_iff _ (noLeadingSpace_trim _)).mpr hs) (by decide))
  exact ⟨h.2.1 HttpParser.init, h.1 Cookie.init⟩

/-- C10 as stated fails: the signed max-age values `-1` and `+5` do not make header
processing fail; `strtoull` accepts the sign, and the cookies carry the relative expiry -1
and 5.  Digits followed by other characters are accepted too when a NUL byte comes first,
because `strtoull` stops reading there. -/
theorem maxAge_invalid_counterexample :
    parseSetCookie "a=b; Max-Age=-1".toList
      = .ok ⟨"a".toList, "b".toList, [], -1, .RELATIVE, false⟩ ∧
    parseSetCookie "a=b; Max-Age=+5".toList
      = .ok ⟨"a".toList, "b".toList, [], 5, .RELATIVE, false⟩ ∧
    parseSetCookie ("a=b; Max-Age=5".toList ++ nulThenX)
      = .ok ⟨"a".toList, "b".toList, [], 5, .RELATIVE, false⟩ ∧
    onHeadersComplete exampleSignedMaxAgeParser
      = .ok (headersDone exampleSignedMaxAgeParser) ∧
    (headersDone exampleSignedMaxAgeParser).cookies
      = [⟨"a".toList, "b".toList, [], -1, .RELATIVE, false⟩] :=
  ⟨by decide, by decide, by decide, rfl, by decide⟩

/-- C11: after the header processing of a fresh parser, the parsed cookies are the results of
`parseSetCookie` on the values of the raw headers named `Set-Cookie` (in any letter case),
one cookie for each such header, in arrival order; the folded header map has no entry
`set-cookie`; and a response that `build` returns carries one cookie for each of them, in
the same order. -/
theorem cookies_per_header (p p1 : HttpParser) (hfresh : ∀ k, p.headers k = none)
    (hnone : p.cookies = []) (h : onHeadersComplete p = .ok p1) :
    p1.cookies.map Except.ok =
        (setCookieHeaders p.rawHeaders).map (fun r => parseSetCookie r.value) ∧
      p1.cookies.length = (setCookieHeaders p.rawHeaders).length ∧
      findHeader p1 "set-cookie".toList = none ∧
      ∀ (codes : StatusMap) (r : Response), build codes p1 = .ok r →
        r.setCookies = p1.cookies.map buildCookie ∧
          r.setCookies.length = (setCookieHeaders p.rawHeaders).length := by
  obtain ⟨a1, a2⟩ := onHeadersComplete_cookies p p1 h
  rw [hnone, List.map_nil, List.nil_append] at a1
  have hlen : p1.cookies.length = (setCookieHeaders p.rawHeaders).length := by
    have := congrArg List.length a1
    simpa using this
  refine ⟨a1, hlen, ?_, ?_⟩
  · unfold findHeader
    rw [a2 (hfresh _)]
  · intro codes r hr
    have := build_setCookies codes p1 r hr
    refine ⟨this, ?_⟩
    rw [this, List.length_map, hlen]

/-- C11, at a concrete response: two `Set-Cookie` headers, the first with commas in its
value, around a `Vary` header give the two cookies `a` and `b` in this order, and no folded
`set-cookie` header. -/
theorem cookies_per_header_witness :
    (headersDone exampleCookiesParser).cookies.length = 2 ∧
      (headersDone exampleCookiesParser).cookies.map (fun c => c.name)
        = ["a".toList, "b".toList] ∧
      findHeader (headersDone exampleCookiesParser) "set-cookie".toList = none := by
  have h : onHeadersComplete exampleCookiesParser = .ok (headersDone exampleCookiesParser) := rfl
  obtain ⟨-, h2, h3, -⟩ := cookies_per_header exampleCookiesParser
    (headersDone exampleCookiesParser) (fun _ => rfl) rfl h
  exact ⟨h2.trans (by decide), by decide, h3⟩

/-- C12: when the ETag header value, with the white space around it removed, is `x` between
double quotes, after `W/` or not, and every `"` and backslash in `x` is escaped by a
backslash before it, `parseETag` succeeds, `weak` tells whether `W/` is there, and the value
is `x` without the escaping backslashes; for `x` an escaped text `s` the value is `s`. -/
theorem parseETag_wellFormed (input x y : Str) (weak : Bool)
    (htrim : trim input = quotedETag weak x) (hx : readQuoted x = .text y) :
    parseETag input = .ok ⟨y, weak⟩ ∧ (∀ s : Str, x = escapeQuoted s → y = s) := by
  constructor
  · rw [parseETag_quoted input x weak htrim, hx]
  · intro s hs
    rw [hs, readQuoted_escapeQuoted] at hx
    simp only [QuotedText.text.injEq] at hx
    exact hx.symm

/-- C12, at concrete headers: `W/"a\"b"` with white space around it gives the weak tag
`a"b`, and `"xyz"` gives the strong tag `xyz`. -/
theorem parseETag_wellFormed_witness :
    parseETag "  W/\"a\\\"b\"\t".toList = .ok ⟨"a\"b".toList, true⟩ ∧
      parseETag "\"xyz\"".toList = .ok ⟨"xyz".toList, false⟩ :=
  ⟨(parseETag_wellFormed "  W/\"a\\\"b\"\t".toList "a\\\"b".toList "a\"b".toList true
      (by decide) (by decide)).1,
   (parseETag_wellFormed "\"xyz\"".toList "xyz".toList "xyz".toList false
      (by decide) (by decide)).1⟩

/-- C13, at a header the code accepts: for the value `"abc\"`, whose final quote is escaped,
`parseETag` returns the tag `abc`, and so it does for every quoted text that ends with an
escaping backslash.  The other malformed values fail: a text after the optional `W/` that
is shorter than two characters, does not start or does not end with `"`, or has an
unescaped `"` between the quotes. -/
theorem parseETag_unterminated :
    parseETag "\"abc\\\"".toList = .ok ⟨"abc".toList, false⟩ ∧
    (∀ (input x y : Str) (weak : Bool), trim input = quotedETag weak x →
      readQuoted x = .dangling y → parseETag input = .ok ⟨y, weak⟩) ∧
    (∀ input : Str,
      ((afterWeakPrefix (trim input)).length < 2 ∨
        (afterWeakPrefix (trim input)).head? ≠ some '"' ∨
        (afterWeakPrefix (trim input)).getLast? ≠ some '"') →
      parseETag input = .error .invalidETag) ∧
    (∀ (input x : Str) (weak : Bool), trim input = quotedETag weak x →
      readQuoted x = .bareQuote → parseETag input = .error .invalidETag) := by
  refine ⟨by decide, fun input x y weak ht hx => ?_, parseETag_malformed,
    fun input x weak ht hx => ?_⟩
  · rw [parseETag_quoted input x weak ht, hx]
  · rw [parseETag_quoted input x weak ht, hx]

/-- C14: for a file name `s` without `;`, the header `attachment; filename="e"`, with `e`
the text `s` where a backslash precedes every `"` and backslash, gives the download file
name `s`; the header `attachment; filename=s` with `s` not in quotes gives `s` without the
white space around it; a header whose text before the first `;` is not `attachment`, after
trimming, gives no download file name; and a content variant that `build` fills carries
the disposition of its folded `Content-Disposition` header. -/
theorem download_filename (s : Str) (hs : ';' ∉ s) :
    parseDisposition ("attachment; filename=".toList ++ '"' :: escapeQuoted s ++ ['"'])
        = .download s ∧
      (¬ IsQuoted (trim s) →
        parseDisposition ("attachment; filename=".toList ++ s) = .download (trim s)) ∧
      (∀ d : Str, trim (d.takeWhile (fun c => c != ';')) ≠ "attachment".toList →
        parseDisposition d = .normal) ∧
      (∀ (p : HttpParser) (code : SuccessCode) (c : Content), buildContent p code = .ok c →
        c.disposition =
          match findHeader p "content-disposition".toList with
          | none => .normal
          | some d => parseDisposition d) := by
  refine ⟨?_, fun hq => ?_, parseDisposition_normal, buildContent_disposition⟩
  · have hv : ';' ∉ '"' :: escapeQuoted s ++ ['"'] := by
      have := not_mem_escapeQuoted s ';' (by decide) hs
      simp [this]
    have e : "attachment; filename=".toList ++ '"' :: escapeQuoted s ++ ['"'] =
        "attachment; filename=".toList ++ ('"' :: escapeQuoted s ++ ['"']) := by simp
    rw [e, parseDisposition_attachment _ hv, trimArray_quoted, if_pos]
    · simp [unescapeFilename_escapeQuoted]
    · refine ⟨by simp, by simp, ?_⟩
      rw [List.getLast?_append]
      rfl
  · have hq2 : ¬ (2 ≤ (trimArray s).length ∧ (trimArray s).head? = some '"' ∧
        (trimArray s).getLast? = some '"') := hq
    rw [parseDisposition_attachment _ hs, if_neg hq2]
    rfl

/-- C14, at concrete headers: `filename="a\"b.txt"` gives `a"b.txt`, the unquoted
` report.pdf ` gives `report.pdf`, and `inline` gives no download. -/
theorem download_filename_witness :
    parseDisposition "attachment; filename=\"a\\\"b.txt\"".toList = .download "a\"b.txt".toList ∧
      parseDisposition "attachment; filename= report.pdf ".toList
        = .download "report.pdf".toList ∧
      parseDisposition "inline; filename=\"x\"".toList = .normal := by
  have h1 := download_filename "a\"b.txt".toList (by decide)
  have h2 := download_filename " report.pdf ".toList (by decide)
  exact ⟨h1.1, h2.2.1 (by decide), h1.2.2.1 _ (by decide)⟩

/-- C15: `readResponse` switches the response to streaming exactly at a read that the parser
consumed entirely, with no upgrade signalled, that was not empty, that left the message
incomplete and the headers complete with a status code in 200..299, and then returns; before
that read it never streams.  For a status outside 200..299 it does not stream: it reads
again exactly while the message is incomplete and the read was not the end of the file, and
the body holds all chunks delivered so far. -/
theorem readResponse_streaming (p p0 : HttpParser) (pre : List Read)
    (hs : p.isStreaming = false) (hpre : afterReads p pre = some p0) :
    p0.isStreaming = false ∧
    p0.body = p.body ++ (readsBodyChunks pre).flatten ∧
    ∀ (r : Read) (stream : List Read),
      (readResponse p (pre ++ r :: stream) =
        match readResponseStep p0 r with
        | .failed e => some (.error e)
        | .returned q remainder => some (.ok (q, remainder, stream))
        | .again q => readResponse q stream) ∧
      ∀ p1 : HttpParser, http_parser_execute p0 r.actions = (p1, none) →
        ((∃ q remainder, readResponseStep p0 r = .returned q remainder ∧ q.isStreaming = true) ↔
          StreamingRead p1 r) ∧
        (StreamingRead p1 r →
          readResponseStep p0 r = .returned { p1 with isStreaming := true } []) ∧
        (¬ (200 ≤ p1.status_code ∧ p1.status_code ≤ 299) → r.nread = r.data.length →
          p1.upgrade = false →
          p1.isStreaming = false ∧
          p1.body = p.body ++ (readsBodyChunks (pre ++ [r])).flatten ∧
          (readResponseStep p0 r = .again p1 ↔ (p1.messageComplete = false ∧ r.data ≠ [])) ∧
          (p1.messageComplete = true ∨ r.data = [] → p1.headersComplete = true →
            readResponseStep p0 r = .returned p1 [])) := by
  obtain ⟨a1, -, a3⟩ := afterReads_buffered pre p p0 hs hpre
  refine ⟨a1, a3, fun r stream => ⟨?_, fun p1 hx => ⟨?_, ?_, ?_⟩⟩⟩
  · rw [readResponse_of_afterReads pre p p0 _ hpre, readResponse_cons]
  · exact readResponseStep_streaming_iff p0 p1 r a1 hx
  · exact readResponseStep_of_streamingRead p0 p1 r hx
  · intro hcode hn hu
    obtain ⟨b1, -, b3⟩ := execute_buffered _ p0 p1 a1 hx
    have hstep := readResponseStep_eq p0 p1 r hx
    rw [if_neg (fun hc => hc.1 hn), if_neg (by simp [hu])] at hstep
    have hlen : r.data.length = 0 ↔ r.data = [] := List.length_eq_zero
    refine ⟨b1, ?_, ?_, ?_⟩
    · rw [b3, a3, readsBodyChunks_append]
      simp [readsBodyChunks]
    · constructor
      · intro hag
        obtain ⟨-, -, -, h4, h5, -⟩ := readResponseStep_again p0 p1 r hag
        exact ⟨h4, h5⟩
      · rintro ⟨h4, h5⟩
        rw [hstep, if_neg (by simp [h4, hlen, h5]), if_neg (fun hc => hcode (by omega))]
    · intro hend hh
      have hend2 : p1.messageComplete = true ∨ r.data.length = 0 := by
        rcases hend with h | h
        · exact Or.inl h
        · exact Or.inr (hlen.mpr h)
      rw [hstep, if_pos hend2, if_pos hh]

/-- C15, at a concrete response: after a first read with the status line `200` and a
header, the read that ends the headers and brings the bytes `hel` makes `readResponse`
return a streaming parser that buffers `hel`; the third read is left on the connection. -/
theorem readResponse_streaming_witness :
    ∃ q, readResponse HttpParser.init [exampleHeadRead, exampleBodyRead, exampleTailRead]
        = some (.ok (q, [], [exampleTailRead])) ∧
      q.isStreaming = true ∧ q.body = "hel".toList := by
  have h := readResponse_streaming HttpParser.init exampleHeadParser [exampleHeadRead] rfl rfl
  have h1 := (h.2.2 exampleBodyRead [exampleTailRead]).1
  have h2 := ((h.2.2 exampleBodyRead [exampleTailRead]).2 exampleBodyParser rfl).2.1
    ⟨rfl, rfl, by decide, rfl, rfl, by decide, by decide⟩
  rw [h2] at h1
  exact ⟨_, h1, rfl, by decide⟩

/-- C16: after reads that each asked for another one, a read whose actions ran through
makes `readResponse` fail when the parser did not consume all its bytes and signalled no
upgrade, and when it is the end of the file with the headers incomplete and no upgrade
signalled; with an upgrade signalled it returns the bytes of this read after the consumed
prefix.  When `readResponse` fails, `sendRequest` fails with the same error and builds
nothing. -/
theorem readResponse_failure (p p0 p1 : HttpParser) (pre : List Read) (r : Read)
    (stream : List Read) (hpre : afterReads p pre = some p0)
    (hx : http_parser_execute p0 r.actions = (p1, none)) :
    (r.nread ≠ r.data.length → p1.upgrade = false →
      readResponse p (pre ++ r :: stream) = some (.error .parseFailed)) ∧
    (r.data = [] → p1.headersComplete = false → p1.upgrade = false →
      readResponse p (pre ++ r :: stream) =
        some (.error (if r.nread = 0 then .incompleteHeaders else .parseFailed))) ∧
    (p1.upgrade = true → r.nread ≤ r.data.length →
      readResponse p (pre ++ r :: stream) = some (.ok (p1, r.data.drop r.nread, stream))) ∧
    (∀ (codes : StatusMap) (s : List Read) (e : Failure),
      readResponse HttpParser.init s = some (.error e) → sendRequest codes s = some (.error e)) := by
  have hrun : readResponse p (pre ++ r :: stream) =
      match readResponseStep p0 r with
      | .failed e => some (.error e)
      | .returned q remainder => some (.ok (q, remainder, stream))
      | .again q => readResponse q stream := by
    rw [readResponse_of_afterReads pre p p0 _ hpre, readResponse_cons]
  have hstep := readResponseStep_eq p0 p1 r hx
  refine ⟨fun hn hu => ?_, fun hd hh hu => ?_, fun hu hn => ?_, fun codes s e he => ?_⟩
  · rw [hrun, hstep, if_pos ⟨hn, hu⟩]
  · rw [hrun, hstep]
    by_cases hn : r.nread = 0
    · have hn2 : ¬ (r.nread ≠ r.data.length ∧ p1.upgrade = false) := by simp [hn, hd]
      rw [if_neg hn2, if_neg (by simp [hu]), if_pos (Or.inr (by simp [hd])),
        if_neg (by simp [hh]), if_pos hn]
    · have hn2 : r.nread ≠ r.data.length ∧ p1.upgrade = false := ⟨by simpa [hd] using hn, hu⟩
      rw [if_pos hn2, if_neg hn]
  · rw [hrun, hstep, if_neg (by simp [hu]), if_pos hu, if_pos hn]
  · unfold sendRequest
    rw [he]

/-- C16, at concrete reads: bytes that are not HTTP and the end of the file after an
incomplete header block make `readResponse` fail, and a `101` response followed by `abc` in
the same read returns `abc`. -/
theorem readResponse_failure_witness :
    readResponse HttpParser.init [exampleGarbageRead] = some (.error .parseFailed) ∧
    readResponse HttpParser.init [exampleHeadRead, fullRead "" []]
      = some (.error .incompleteHeaders) ∧
    readResponse HttpParser.init [exampleUpgradeRead]
      = some (.ok (exampleUpgradeParser, "abc".toList, [])) :=
  ⟨(readResponse_failure HttpParser.init HttpParser.init HttpParser.init [] exampleGarbageRead []
      rfl rfl).1 (by decide) rfl,
   (readResponse_failure HttpParser.init exampleHeadParser exampleHeadParser [exampleHeadRead]
      (fullRead "" []) [] rfl rfl).2.1 rfl rfl rfl,
   (readResponse_failure HttpParser.init HttpParser.init exampleUpgradeParser []
      exampleUpgradeRead [] rfl rfl).2.2.1 rfl (by decide)⟩

/-- C17: for a streaming parser, when the reads `pre` parse without error and leave the
message incomplete and the read `last` parses without error and completes the message or is
the end of the file, `pumpStream` ends after `last` having sent to the sink the buffered
body (when there is one), then one write per body chunk of `pre` and `last` in order, then
`done`, and nothing after it; the buffer is empty afterwards.  For a parser that is not
streaming `pumpStream` sends nothing. -/
theorem pumpStream_sends (p p0 p1 : HttpParser) (pre : List Read) (last : Read)
    (rest : List Read) (hs : p.isStreaming = true)
    (hpre : afterPumpReads (forwardBufferedBody p) pre = some p0)
    (hx : http_parser_execute p0 last.actions = (p1, none))
    (hn : last.nread = last.data.length)
    (hend : p1.messageComplete = true ∨ last.data = []) :
    (pumpStream p (pre ++ last :: rest)).2 = .finished ∧
    (pumpStream p (pre ++ last :: rest)).1.sent =
      p.sent ++
        ((if p.body = [] then [] else [p.body]) ++ readsBodyChunks (pre ++ [last])).map
          SinkCall.write ++ [.done] ∧
    (pumpStream p (pre ++ last :: rest)).1.body = [] ∧
    ∀ (q : HttpParser) (stream : List Read), q.isStreaming = false →
      (pumpStream q stream).1.sent = q.sent ∧ (pumpStream q stream).2 = .notStarted := by
  obtain ⟨f1, f2, f3⟩ := forwardBufferedBody_fields p
  obtain ⟨a1, a2, a3⟩ := afterPumpReads_streaming pre _ p0 (f1.trans hs) hpre
  obtain ⟨b1, b2, b3⟩ := execute_streaming _ p0 p1 a1 hx
  have hrun : pumpStream p (pre ++ last :: rest) =
      ({ p1 with sent := p1.sent ++ [.done] }, .finished) := by
    unfold pumpStream
    rw [if_pos hs, pumpStreamInternal_of_afterPumpReads pre _ p0 _ hpre,
      pumpStreamInternal_last p0 p1 last rest hx hn hend]
  refine ⟨by rw [hrun], ?_, ?_, ?_⟩
  · rw [hrun]
    show p1.sent ++ [SinkCall.done] = _
    rw [b3, a3, f3, readsBodyChunks_append]
    by_cases hb : p.body = [] <;> simp [hb, readsBodyChunks]
  · rw [hrun]
    show p1.body = []
    rw [b2, a2, f2]
  · intro q stream hq
    unfold pumpStream
    simp [hq]

/-- C17, at the concrete response: the streaming parser that buffers `hel`, followed by a
read with the chunk `lo` and the end of the file, sends `hel`, `lo` and `done`. -/
theorem pumpStream_sends_witness :
    (pumpStream exampleStreamingParser [exampleTailRead, exampleEofRead]).1.sent =
      [.write "hel".toList, .write "lo".toList, .done] := by
  have h := (pumpStream_sends exampleStreamingParser
    (http_parser_execute (forwardBufferedBody exampleStreamingParser) exampleTailRead.actions).1
    (onMessageComplete
      (http_parser_execute (forwardBufferedBody exampleStreamingParser)
        exampleTailRead.actions).1)
    [exampleTailRead] exampleEofRead [] rfl rfl rfl rfl (Or.inl rfl)).2.1
  exact h.trans (by decide)

/-- C18: for a request stream whose header block is pending and ends with an empty line,
on which neither `done` nor `expectSize` was called, the first call sends the header block
with one line put before the empty line: `Content-Length: n` in decimal for `expectSize(n)`
and `Content-Length: 0` for `done`, both leaving identity mode, and
`Transfer-Encoding: chunked` for `write`, leaving chunked mode.  Once the header block is
sent, a call keeps the mode and appends only body bytes to what was sent. -/
theorem writeHeadersOnce_first (s : RequestStreamImpl) (base : Str)
    (hreq : s.httpRequest = some (base ++ "\r\n\r\n".toList)) (hdone : s.doneCalled = false)
    (hexp : s.expectedSize = none) (hchunked : s.isChunked = true) :
    (∀ n : Nat, n < 2 ^ 64 →
      (expectSize s n).2 = none ∧
      (expectSize s n).1.written =
        s.written ++ [withHeaderLine base ("Content-Length: ".toList ++ decimal n)] ∧
      IsDecimalNumeral (decimal n) n ∧
      (expectSize s n).1.isChunked = false ∧ (expectSize s n).1.httpRequest = none) ∧
    ((done s).2 = none ∧
      (done s).1.written = s.written ++ [withHeaderLine base "Content-Length: 0".toList] ∧
      (done s).1.isChunked = false ∧ (done s).1.httpRequest = none) ∧
    (∀ data : Str,
      (write s data).2 = none ∧
      (write s data).1.written =
        s.written ++ [withHeaderLine base "Transfer-Encoding: chunked".toList] ++
          [hex data.length ++ "\r\n".toList, data, "\r\n".toList] ∧
      (write s data).1.isChunked = true ∧ (write s data).1.httpRequest = none) ∧
    (∀ (t : RequestStreamImpl) (c : Call), t.httpRequest = none →
      (call t c).1.httpRequest = none ∧ (call t c).1.isChunked = t.isChunked ∧
        (call t c).1.written = t.written ++ sentAfterHeaders t c) := by
  refine ⟨fun n hn => ?_, ?_, fun data => ?_, call_after_headers⟩
  · have h1 := (writeHeadersOnce_pending { s with
      expectedSize := some ((s.bytesReceived + n) % 2 ^ 64) } base hreq).1 n
    unfold expectSize
    dsimp only
    rw [h1]
    exact ⟨rfl, rfl, decimal_isDecimalNumeral n hn, rfl, rfl⟩
  · have h1 := (writeHeadersOnce_pending { s with doneCalled := true } base hreq).1 0
    unfold done
    dsimp only
    rw [h1, hexp]
    dsimp only
    rw [if_pos rfl, if_neg (by simp [hdone])]
    exact ⟨rfl, rfl, rfl, rfl⟩
  · have h1 := (writeHeadersOnce_pending s base hreq).2
    unfold write
    rw [if_neg (by simp [hdone]), h1]
    dsimp only
    rw [hexp]
    dsimp only
    rw [if_pos rfl, if_pos hchunked]
    exact ⟨rfl, rfl, hchunked, rfl⟩

/-- C18, at the example request: the first call `expectSize(10)`, `done` or `write` sends
the header block with `Content-Length: 10`, `Content-Length: 0` or
`Transfer-Encoding: chunked` before the empty line. -/
theorem writeHeadersOnce_first_witness :
    (expectSize (RequestStreamImpl.init exampleRequest) 10).1.written =
      ["POST /upload HTTP/1.1\r\nHost: sandbox\r\nContent-Length: 10\r\n\r\n".toList] ∧
    (done (RequestStreamImpl.init exampleRequest)).1.written =
      ["POST /upload HTTP/1.1\r\nHost: sandbox\r\nContent-Length: 0\r\n\r\n".toList] ∧
    (write (RequestStreamImpl.init exampleRequest) "abc".toList).1.written =
      ["POST /upload HTTP/1.1\r\nHost: sandbox\r\nTransfer-Encoding: chunked\r\n\r\n".toList,
       "3\r\n".toList, "abc".toList, "\r\n".toList] := by
  have h := writeHeadersOnce_first (RequestStreamImpl.init exampleRequest) exampleRequestBase
    rfl rfl rfl rfl
  exact ⟨(h.1 10 (by norm_num)).2.1.trans (by decide), h.2.1.2.1.trans (by decide),
    (h.2.2.1 "abc".toList).2.1.trans (by decide)⟩

/-- C19: a write that returns without an exception appends, after the header block when it
was still pending, the hexadecimal length of the data without leading zeros followed by
CR LF, the data, and CR LF in chunked mode, and the data alone in identity mode; a `done`
that returns without an exception appends `0` CR LF CR LF in chunked mode and nothing in
identity mode. -/
theorem write_sends (s : RequestStreamImpl) (data : Str) (hlen : data.length < 2 ^ 64)
    (hok : (write s data).2 = none) :
    (write s data).1.written =
      (writeHeadersOnce s none).1.written ++
        (if (writeHeadersOnce s none).1.isChunked = true then
          [hex data.length ++ "\r\n".toList, data, "\r\n".toList]
        else [data]) ∧
    IsHexNumeral (hex data.length) data.length ∧
    (s.httpRequest = none →
      (write s data).1.written =
        s.written ++
          (if s.isChunked = true then [hex data.length ++ "\r\n".toList, data, "\r\n".toList]
          else [data])) ∧
    (∀ t : RequestStreamImpl, (done t).2 = none →
      (done t).1.written =
        (writeHeadersOnce { t with doneCalled := true } (some 0)).1.written ++
          (if (writeHeadersOnce { t with doneCalled := true } (some 0)).1.isChunked = true
            then ["0\r\n\r\n".toList] else []) ∧
      (t.httpRequest = none →
        (done t).1.written =
          t.written ++ (if t.isChunked = true then ["0\r\n\r\n".toList] else []))) := by
  have hw : (write s data).1.written =
      (writeHeadersOnce s none).1.written ++
        (if (writeHeadersOnce s none).1.isChunked = true then
          [hex data.length ++ "\r\n".toList, data, "\r\n".toList]
        else [data]) := by
    unfold write at hok ⊢
    by_cases hd : s.doneCalled = true
    · rw [if_pos hd] at hok
      cases hok
    · rw [if_neg hd] at hok ⊢
      rcases hx : writeHeadersOnce s none with ⟨s1, _ | e⟩
      · rw [hx] at hok
        dsimp only at hok ⊢
        split at hok
        · rename_i hwithin
          rw [if_pos hwithin]
          split <;> rfl
        · cases hok
      · rw [hx] at hok
        cases hok
  have hdn : ∀ t : RequestStreamImpl, (done t).2 = none →
      (done t).1.written =
        (writeHeadersOnce { t with doneCalled := true } (some 0)).1.written ++
          (if (writeHeadersOnce { t with doneCalled := true } (some 0)).1.isChunked = true
            then ["0\r\n\r\n".toList] else []) := by
    intro t ht
    unfold done at ht ⊢
    dsimp only at ht ⊢
    split at ht
    · rename_i hall
      rw [if_pos hall]
      by_cases hd : t.doneCalled = true
      · rw [if_pos hd] at ht
        cases ht
      · rw [if_neg hd] at ht ⊢
        rcases hx : writeHeadersOnce { t with doneCalled := true } (some 0) with ⟨s1, _ | e⟩
        · dsimp only
          split <;> simp
        · rw [hx] at ht
          cases ht
    · cases ht
  refine ⟨hw, hex_isHexNumeral _ hlen, fun hreq => ?_, fun t ht => ⟨hdn t ht, fun hreq => ?_⟩⟩
  · rw [hw, writeHeadersOnce_sent s none hreq]
  · rw [hdn t ht, writeHeadersOnce_sent _ _ (by simpa using hreq)]

/-- C19, at concrete writes: in chunked mode a write of 26 bytes sends `1a`, CR LF, the
bytes, CR LF and `done` sends `0` CR LF CR LF; in identity mode the write sends the bytes. -/
theorem write_sends_witness :
    (write { RequestStreamImpl.init [] with httpRequest := none }
        "abcdefghijklmnopqrstuvwxyz".toList).1.written =
      ["1a\r\n".toList, "abcdefghijklmnopqrstuvwxyz".toList, "\r\n".toList] ∧
    (write { RequestStreamImpl.init [] with httpRequest := none, isChunked := false }
        "abc".toList).1.written = ["abc".toList] ∧
    (done { RequestStreamImpl.init [] with httpRequest := none }).1.written =
      ["0\r\n\r\n".toList] := by
  have h1 := write_sends { RequestStreamImpl.init [] with httpRequest := none }
    "abcdefghijklmnopqrstuvwxyz".toList (by norm_num) rfl
  have h2 := write_sends { RequestStreamImpl.init [] with httpRequest := none, isChunked := false }
    "abc".toList (by norm_num) rfl
  exact ⟨(h1.2.2.1 rfl).trans (by decide), (h2.2.2.1 rfl).trans (by decide),
    ((h1.2.2.2 { RequestStreamImpl.init [] with httpRequest := none } rfl).2 rfl).trans
      (by decide)⟩

/-- C20, at an upload that the code mishandles: after the header block, the calls
`write(ab)`, `write()` with no bytes, `write(cd)`, `done` send
`2 CRLF ab CRLF 0 CRLF CRLF 2 CRLF cd CRLF 0 CRLF CRLF`, which decodes as a chunked body to
`ab` followed by stray bytes, not to the written data `abcd`: in chunked mode a write of no
bytes sends the bytes that end the body.  Without the empty write the bytes decode to
`abcd`. -/
theorem upload_empty_write :
    (calls (RequestStreamImpl.init exampleRequest) exampleUpload).map
        (fun t => (t.written.drop 1).flatten)
      = some "2\r\nab\r\n0\r\n\r\n2\r\ncd\r\n0\r\n\r\n".toList ∧
    decodeChunked "2\r\nab\r\n0\r\n\r\n2\r\ncd\r\n0\r\n\r\n".toList
      = some ("ab".toList, "2\r\ncd\r\n0\r\n\r\n".toList) ∧
    (writtenData exampleUpload).flatten = "abcd".toList ∧
    (∀ s : RequestStreamImpl, s.httpRequest = none → s.isChunked = true →
      (write s []).2 = none →
      ((write s []).1.written.drop s.written.length).flatten = "0\r\n\r\n".toList) ∧
    ((calls (RequestStreamImpl.init exampleRequest)
        [.write "ab".toList, .write "cd".toList, .done]).map
        (fun t => decodeChunked (t.written.drop 1).flatten)
      = some (some ("abcd".toList, []))) := by
  refine ⟨by decide, by decide, by decide, fun s hreq hch hok => ?_, by decide⟩
  have h := (call_after_headers s (.write []) hreq).2.2
  simp only [call, sentAfterHeaders, hok, if_true, hch] at h
  rw [h]
  simp [hex]

/-- C21: `expectSize(size)` declares the total `bytesReceived + size`, and the declaration
stays until the next `expectSize`.  In a state whose declared total is `e`, a write that
brings the number of bytes received above `e` throws, and `done` throws on the size check
exactly when the number of bytes received differs from `e`, be it smaller or larger.  (The
64-bit counters do not overflow.) -/
theorem expectedSize_checks (t : RequestStreamImpl) (e : Nat) (ht : t.expectedSize = some e) :
    (∀ data : Str, t.bytesReceived + data.length < 2 ^ 64 →
      e < t.bytesReceived + data.length → (write t data).2 ≠ none) ∧
    ((done t).2 = some .doneBeforeExpectedSize ↔ t.bytesReceived ≠ e) ∧
    (t.bytesReceived ≠ e → (done t).2 ≠ none) ∧
    (∀ (s : RequestStreamImpl) (size : Nat), s.bytesReceived + size < 2 ^ 64 →
      (expectSize s size).1.expectedSize = some (s.bytesReceived + size) ∧
        (expectSize s size).1.bytesReceived = s.bytesReceived) ∧
    (∀ (s : RequestStreamImpl) (data : Str),
      (write s data).1.expectedSize = s.expectedSize) := by
  refine ⟨fun data hlen hover => write_exceeds t e data ht hlen hover, done_sizeCheck t e ht,
    fun hne => ?_, fun s size hsize => ?_, fun s data => (write_fields s data).2.2⟩
  · rw [(done_sizeCheck t e ht).mpr hne]
    simp
  · obtain ⟨-, -, h3, h4⟩ := expectSize_fields s size
    rw [Nat.mod_eq_of_lt hsize] at h4
    exact ⟨h4, h3⟩

/-- C21, at the example request: after `expectSize(5)` and a write of three bytes, a write
of three more bytes throws, `done` throws, and after a write of two more bytes `done`
passes. -/
theorem expectedSize_checks_witness :
    (write exampleExpecting "def".toList).2 = some .receivedMoreThanExpected ∧
    (done exampleExpecting).2 = some .doneBeforeExpectedSize ∧
    (done (write exampleExpecting "de".toList).1).2 = none := by
  have h := expectedSize_checks exampleExpecting 5 rfl
  refine ⟨by decide, h.2.1.mpr (by decide), by decide⟩

/-- C22: after a `done` that returned without an exception, whatever calls follow, a write
throws and a `done` throws, and each leaves the state, the bytes sent included, as it was.
A `getResponse` on a stream on which `getResponse` was called before throws and leaves the
state as it was; the first `getResponse` sets the flag and no other call clears it. -/
theorem calls_after_done (s : RequestStreamImpl) (cs : List Call) (hdone : (done s).2 = none) :
    (∀ data : Str,
      write (callsAny (done s).1 cs) data = (callsAny (done s).1 cs, some .writeAfterDone)) ∧
    ((done (callsAny (done s).1 cs)).2 ≠ none ∧
      (done (callsAny (done s).1 cs)).1 = callsAny (done s).1 cs) ∧
    (∀ (codes : StatusMap) (u : RequestStreamImpl) (stream : List Read),
      (u.getResponseCalled = false →
        (getResponse codes u stream).1.getResponseCalled = true ∧
          (getResponse codes u stream).1.written = u.written) ∧
      (u.getResponseCalled = true →
        getResponse codes u stream = (u, some (.error .getResponseCalledTwice)))) ∧
    (∀ (u : RequestStreamImpl) (ds : List Call),
      (callsAny u ds).getResponseCalled = u.getResponseCalled) := by
  have hd : (callsAny (done s).1 cs).doneCalled = true :=
    callsAny_doneCalled cs _ ((done_fields s).2.1 hdone).1
  refine ⟨fun data => write_after_done _ data hd, ⟨((done_fields _).1 hd).2,
    ((done_fields _).1 hd).1⟩, fun codes u stream => ⟨fun hu => ?_, fun hu => ?_⟩,
    fun u ds => callsAny_getResponseCalled ds u⟩
  · unfold getResponse
    simp [hu]
  · unfold getResponse
    rw [if_pos hu]

/-- C22, at the example request: after `write`, `done` and `expectSize`, a write and a
`done` throw and send nothing more. -/
theorem calls_after_done_witness :
    (write (callsAny (done (write (RequestStreamImpl.init exampleRequest) "ab".toList).1).1
        [.expectSize 0]) "cd".toList).2 = some .writeAfterDone ∧
    (done (callsAny (done (write (RequestStreamImpl.init exampleRequest) "ab".toList).1).1
        [.expectSize 0])).2 ≠ none := by
  have h := calls_after_done (write (RequestStreamImpl.init exampleRequest) "ab".toList).1
    [.expectSize 0] (by decide)
  exact ⟨by rw [h.1 "cd".toList], h.2.1.1⟩

/-- C23, at calls the code accepts: after `done` on the example request, `expectSize(5)`
returns without an exception and sets the expected size, which was unset, to 5; so it is for
every `done` that returned without an exception.  A write after such a `done` throws, and
so does a second `done`. -/
theorem expectSize_after_done :
    (done (RequestStreamImpl.init exampleRequest)).2 = none ∧
    (done (RequestStreamImpl.init exampleRequest)).1.expectedSize = none ∧
    (expectSize (done (RequestStreamImpl.init exampleRequest)).1 5).2 = none ∧
    (expectSize (done (RequestStreamImpl.init exampleRequest)).1 5).1.expectedSize = some 5 ∧
    (∀ (s : RequestStreamImpl) (size : Nat), (done s).2 = none →
      (expectSize (done s).1 size).2 = none ∧
      (expectSize (done s).1 size).1.expectedSize
        = some (((done s).1.bytesReceived + size) % 2 ^ 64)) ∧
    (∀ (s : RequestStreamImpl) (data : Str), (done s).2 = none →
      (write (done s).1 data).2 = some .writeAfterDone ∧ (done (done s).1).2 ≠ none) := by
  refine ⟨by decide, by decide, by decide, by decide, fun s size hs => ?_, fun s data hs => ?_⟩
  · obtain ⟨-, hreq, -, -⟩ := (done_fields s).2.1 hs
    refine ⟨?_, (expectSize_fields _ size).2.2.2⟩
    unfold expectSize
    rw [writeHeadersOnce_sent _ _ (by simpa using hreq)]
  · have hd := ((done_fields s).2.1 hs).1
    exact ⟨by rw [write_after_done _ data hd], ((done_fields _).1 hd).2⟩

/-- C24: when the helpers of `util.h` do not throw, `makeHeaders` returns the lines of the
header block joined with CR LF.  The first line is the method, a space, the root path, the
path, a space and `HTTP/1.1`, followed by CR LF; the lines `Connection: close` and
`Accept-Encoding: gzip` are among them; the accept list gives the one line `Accept: */*`
when it is empty and the line `Accept: ` with its rendered elements otherwise; the text ends
with CR LF CR LF, and `writeHeadersOnce` does not throw on it. -/
theorem makeHeaders_text (env : Environment) (s : WebSessionImpl) (method path : Str)
    (context : Context) (e1 e2 e3 : Str) (base : List Str) (hbase : baseLines env s = .ok base) :
    ∃ lines rest : List Str,
      makeHeaderLines env s method path context e1 e2 e3 = .ok lines ∧
      makeHeaders env s method path context e1 e2 e3 = .ok (strArray lines "\r\n".toList) ∧
      lines = (method ++ " ".toList ++ s.rootPath ++ path ++ " HTTP/1.1".toList) ::
        "Connection: close".toList :: rest ∧
      strArray lines "\r\n".toList =
        (method ++ " ".toList ++ s.rootPath ++ path ++ " HTTP/1.1".toList) ++ "\r\n".toList ++
          strArray ("Connection: close".toList :: rest) "\r\n".toList ∧
      "Accept-Encoding: gzip".toList ∈ rest ∧
      (context.accept = [] → "Accept: */*".toList ∈ rest) ∧
      (context.accept ≠ [] →
        ("Accept: ".toList ++ strArray (context.accept.map renderAccepted) ", ".toList) ∈ rest) ∧
      linesNamed "Accept" lines =
        linesNamed "Accept" (requestLines s method path e1 e2 e3) ++
          [if context.accept = [] then "Accept: */*".toList
           else "Accept: ".toList ++ strArray (context.accept.map renderAccepted) ", ".toList] ++
          linesNamed "Accept" (additionalLines context) ∧
      endsWith (strArray lines "\r\n".toList) "\r\n\r\n".toList = true ∧
      ∀ contentLength : Option Nat,
        (writeHeadersOnce (RequestStreamImpl.init (strArray lines "\r\n".toList))
          contentLength).2 = none := by
  obtain ⟨lines, middle, h1, h2, h3, -, h5, h6⟩ :=
    makeHeaders_ok env s method path context e1 e2 e3 base hbase
  obtain ⟨rest0, r1, r2, -⟩ := requestLines_eq s method path e1 e2 e3
  have hacc : ∀ line ∈ acceptLines context, line ∈ rest0 ++ middle ++ [[], []] := by
    intro line hline
    simp [h6 line hline]
  refine ⟨lines, rest0 ++ middle ++ [[], []], h1, h2, ?_, ?_, ?_, ?_, ?_, ?_, h5,
    fun cl => writeHeadersOnce_blankLine _ cl h5⟩
  · rw [h3, r1]
    simp
  · rw [h3, r1]
    simp only [List.cons_append]
    rw [strArray_cons _ _ _ (by simp)]
  · exact List.mem_append_left _ (List.mem_append_left _ r2)
  · intro hempty
    apply hacc
    rw [acceptLines_eq, if_pos hempty]
    exact List.mem_singleton.mpr rfl
  · intro hne
    apply hacc
    rw [acceptLines_eq, if_neg hne]
    exact List.mem_singleton.mpr rfl
  · unfold makeHeaderLines at h1
    rw [addCommonHeaders_linesNamed env s _ context lines "Accept" h1 (by decide),
      linesNamed_of_names _ _ _ (userLines_names env s) (by decide),
      linesNamed_of_names _ _ _ (preconditionLines_names context.eTagPrecondition) (by decide),
      linesNamed_accept, acceptLines_eq]
    simp

/-- C24, at a concrete request: a `GET` for the example session with an empty context gives
the example header lines joined with CR LF, which end with CR LF CR LF. -/
theorem makeHeaders_text_witness :
    makeHeaders exampleEnvironment exampleSession "GET".toList "index.html".toList
        exampleContext [] [] [] = .ok (strArray exampleHeaderLines "\r\n".toList) ∧
    endsWith (strArray exampleHeaderLines "\r\n".toList) "\r\n\r\n".toList = true := by
  obtain ⟨lines, rest, h1, h2, -, -, -, -, -, -, h9, -⟩ :=
    makeHeaders_text exampleEnvironment exampleSession
      "GET".toList "index.html".toList exampleContext [] [] [] ["Host: sandbox".toList] rfl
  have hl : Except.ok lines = (.ok exampleHeaderLines : Except Failure (List Str)) := by
    rw [← h1]
    rfl
  simp only [Except.ok.injEq] at hl
  rw [hl] at h2 h9
  exact ⟨h2, h9⟩

/-- C24 does not hold as stated: with the accept list `*/*` of quality 1, which is not
empty, the header block of the example session contains the line `Accept: */*`. -/
theorem makeHeaders_text_counterexample :
    exampleAcceptAll.accept ≠ [] ∧
    makeHeaders exampleEnvironment exampleSession "GET".toList "index.html".toList
        exampleAcceptAll [] [] [] = .ok (strArray exampleHeaderLines "\r\n".toList) ∧
    makeHeaderLines exampleEnvironment exampleSession "GET".toList "index.html".toList
        exampleAcceptAll [] [] [] = .ok exampleHeaderLines ∧
    "Accept: */*".toList ∈ exampleHeaderLines := by
  refine ⟨by decide, rfl, rfl, by decide⟩

/-- C25: among the lines that `addCommonHeaders` returns, those named
`X-Sandstorm-User-Id`, `X-Sandstorm-Preferred-Handle`, `X-Sandstorm-User-Picture` and
`X-Sandstorm-User-Pronouns` are the ones of that name given to it or among the additional
headers of the context and, between them, one line of the session: the user id when there is
one; the handle when there is a user id and the handle is not empty; the picture URL when
there is a user id and the URL is not empty; the schema name of the pronouns when there is a
user id and their ordinal is above 0 and below the number of enumerants.  A session without
a user id adds none of the four. -/
theorem user_headers (env : Environment) (s : WebSessionImpl) (lines : List Str)
    (context : Context) (result : List Str)
    (h : addCommonHeaders env s lines context = .ok result) :
    linesNamed "X-Sandstorm-User-Id" result =
      linesNamed "X-Sandstorm-User-Id" lines ++
        (match s.userId with
         | some u => ["X-Sandstorm-User-Id: ".toList ++ u]
         | none => []) ++
        linesNamed "X-Sandstorm-User-Id" (additionalLines context) ∧
    linesNamed "X-Sandstorm-Preferred-Handle" result =
      linesNamed "X-Sandstorm-Preferred-Handle" lines ++
        (if s.userId ≠ none ∧ s.userHandle ≠ [] then
          ["X-Sandstorm-Preferred-Handle: ".toList ++ s.userHandle] else []) ++
        linesNamed "X-Sandstorm-Preferred-Handle" (additionalLines context) ∧
    linesNamed "X-Sandstorm-User-Picture" result =
      linesNamed "X-Sandstorm-User-Picture" lines ++
        (if s.userId ≠ none ∧ s.userPicture ≠ [] then
          ["X-Sandstorm-User-Picture: ".toList ++ s.userPicture] else []) ++
        linesNamed "X-Sandstorm-User-Picture" (additionalLines context) ∧
    linesNamed "X-Sandstorm-User-Pronouns" result =
      linesNamed "X-Sandstorm-User-Pronouns" lines ++
        (if s.userId ≠ none ∧ 0 < s.userPronouns ∧ s.userPronouns < env.pronounNames.length then
          ["X-Sandstorm-User-Pronouns: ".toList ++ env.pronounNames.getD s.userPronouns []]
         else []) ++
        linesNamed "X-Sandstorm-User-Pronouns" (additionalLines context) := by
  obtain ⟨u1, u2, u3, u4⟩ := userLines_named env s
  refine ⟨?_, ?_, ?_, ?_⟩
  · rw [addCommonHeaders_linesNamed env s lines context result _ h (by decide), u1,
      linesNamed_of_names _ _ _ (acceptLines_names context) (by decide),
      linesNamed_of_names _ _ _ (preconditionLines_names context.eTagPrecondition) (by decide)]
    simp
  · rw [addCommonHeaders_linesNamed env s lines context result _ h (by decide), u2,
      linesNamed_of_names _ _ _ (acceptLines_names context) (by decide),
      linesNamed_of_names _ _ _ (preconditionLines_names context.eTagPrecondition) (by decide)]
    simp
  · rw [addCommonHeaders_linesNamed env s lines context result _ h (by decide), u3,
      linesNamed_of_names _ _ _ (acceptLines_names context) (by decide),
      linesNamed_of_names _ _ _ (preconditionLines_names context.eTagPrecondition) (by decide)]
    simp
  · rw [addCommonHeaders_linesNamed env s lines context result _ h (by decide), u4,
      linesNamed_of_names _ _ _ (acceptLines_names context) (by decide),
      linesNamed_of_names _ _ _ (preconditionLines_names context.eTagPrecondition) (by decide)]
    simp

/-- C25, at a concrete session with a user id, the handle `alice`, a picture and the
pronouns of ordinal 2: the header lines carry the four headers, once each. -/
theorem user_headers_witness :
    linesNamed "X-Sandstorm-User-Id" exampleFullLines =
      ["X-Sandstorm-User-Id: 00112233445566778899aabbccddeeff".toList] ∧
    linesNamed "X-Sandstorm-Preferred-Handle" exampleFullLines =
      ["X-Sandstorm-Preferred-Handle: alice".toList] ∧
    linesNamed "X-Sandstorm-User-Picture" exampleFullLines =
      ["X-Sandstorm-User-Picture: https://x/a.png".toList] ∧
    linesNamed "X-Sandstorm-User-Pronouns" exampleFullLines =
      ["X-Sandstorm-User-Pronouns: she".toList] := by
  have h := user_headers exampleEnvironment exampleFullSession [] exampleContext
    exampleFullLines rfl
  exact ⟨h.1.trans (by decide), h.2.1.trans (by decide), h.2.2.1.trans (by decide),
    h.2.2.2.trans (by decide)⟩

/-- C25 does not hold as stated: the session of a user with a user id, an empty handle, an
empty picture URL and the pronouns of ordinal 0 gets the line `X-Sandstorm-User-Id` and
none of the three other lines. -/
theorem user_headers_counterexample :
    exampleUserSession.userId ≠ none ∧
    addCommonHeaders exampleEnvironment exampleUserSession [] exampleContext
      = .ok exampleUserLines ∧
    linesNamed "X-Sandstorm-Preferred-Handle" exampleUserLines = [] ∧
    linesNamed "X-Sandstorm-User-Picture" exampleUserLines = [] ∧
    linesNamed "X-Sandstorm-User-Pronouns" exampleUserLines = [] := by
  refine ⟨by decide, rfl, by decide, by decide, by decide⟩

/-- C26: `formatPermissions` gives the names of the granted permissions joined with commas,
the granted ones being, in configuration order, those whose index is within both lists and
whose user bit is set; a session that `newSession` makes holds this text; and the one line
named `X-Sandstorm-Permissions` that `addCommonHeaders` adds for the session carries it. -/
theorem formatPermissions_granted (configPermissions : List Str) (userPermissions : List Bool) :
    formatPermissions configPermissions userPermissions =
      strArray (grantedPermissions configPermissions userPermissions) ",".toList ∧
    (∀ name : Str, name ∈ grantedPermissions configPermissions userPermissions ↔
      ∃ i, i < configPermissions.length ∧ i < userPermissions.length ∧
        userPermissions.getD i false = true ∧ configPermissions.getD i [] = name) ∧
    grantedPermissions configPermissions userPermissions =
      ((List.range configPermissions.length).filter
        (fun i => decide (i < userPermissions.length) && userPermissions.getD i false)).map
        (fun i => configPermissions.getD i []) ∧
    (∀ (config : BridgeConfig) (counter : Nat) (map : SessionContextMap)
      (params : NewSessionParams) (counter1 : Nat) (map1 : SessionContextMap)
      (s : WebSessionImpl),
      newSession config counter map params = (counter1, map1, .ok (.web s)) →
      s.permissions = formatPermissions config.permissions params.userInfo.permissions) ∧
    (∀ (env : Environment) (s : WebSessionImpl) (lines : List Str) (context : Context)
      (result : List Str), addCommonHeaders env s lines context = .ok result →
      linesNamed "X-Sandstorm-Permissions" result =
        linesNamed "X-Sandstorm-Permissions" lines ++
          ["X-Sandstorm-Permissions: ".toList ++ s.permissions] ++
          linesNamed "X-Sandstorm-Permissions" (additionalLines context)) := by
  refine ⟨formatPermissions_eq _ _, mem_grantedPermissions _ _, rfl, ?_,
    addCommonHeaders_permissions⟩
  intro config counter map params counter1 map1 s h
  exact (newSession_web config counter map params counter1 map1 s h).2.2.1

/-- C26, at a concrete pair of lists: of the configured permissions `read`, `write` and
`admin`, a user with the bits true, false, true and a fourth bit is granted `read` and
`admin`, and the session that `newSession` makes for the user holds `read,admin`. -/
theorem formatPermissions_granted_witness :
    formatPermissions ["read".toList, "write".toList, "admin".toList] [true, false, true, true]
      = "read,admin".toList ∧
    ∃ (counter1 : Nat) (map1 : SessionContextMap) (s : WebSessionImpl),
      newSession ⟨"/api".toList, ["read".toList, "write".toList, "admin".toList]⟩ 0
          (fun _ => none) examplePermissionParams = (counter1, map1, .ok (.web s)) ∧
      s.permissions = "read,admin".toList := by
  have h := formatPermissions_granted ["read".toList, "write".toList, "admin".toList]
    [true, false, true, true]
  have hs : ∃ (counter1 : Nat) (map1 : SessionContextMap) (s : WebSessionImpl),
      newSession ⟨"/api".toList, ["read".toList, "write".toList, "admin".toList]⟩ 0
          (fun _ => none) examplePermissionParams = (counter1, map1, .ok (.web s)) :=
    ⟨_, _, _, rfl⟩
  obtain ⟨counter1, map1, s, hs⟩ := hs
  exact ⟨h.1.trans (by decide), counter1, map1, s, hs,
    (h.2.2.2.1 _ _ _ _ _ _ s hs).trans (by decide)⟩

/-- C27: the last lines that `addCommonHeaders` returns are those of the ETag precondition,
before the two empty lines, and the lines before them do not depend on the precondition.
The precondition gives no line for `none`, the line `If-Match: *` for `exists`, the line
`If-None-Match: *` for `doesntExist`, and for `matchesOneOf` and `matchesNoneOf` one line
`If-Match: ` or `If-None-Match: ` followed by the ETags in order with ", " between them,
each as its value in double quotes, after `W/` exactly when it is weak.  The lines of these
two names in the result are those given to `addCommonHeaders`, those of the additional
headers and the one of the precondition. -/
theorem precondition_headers (env : Environment) (s : WebSessionImpl) (lines : List Str)
    (context : Context) (result : List Str)
    (h : addCommonHeaders env s lines context = .ok result) :
    (∃ before : List Str,
      result = before ++ preconditionLines context.eTagPrecondition ++ [[], []] ∧
      ∀ p : ETagPrecondition,
        addCommonHeaders env s lines { context with eTagPrecondition := p } =
          .ok (before ++ preconditionLines p ++ [[], []])) ∧
    preconditionLines .NONE = [] ∧
    preconditionLines .EXISTS = ["If-Match: *".toList] ∧
    preconditionLines .DOESNT_EXIST = ["If-None-Match: *".toList] ∧
    (∀ eTags : List ETag, preconditionLines (.MATCHES_ONE_OF eTags) =
      ["If-Match: ".toList ++ commaJoined (eTags.map (fun e => quotedETag e.weak e.value))]) ∧
    (∀ eTags : List ETag, preconditionLines (.MATCHES_NONE_OF eTags) =
      ["If-None-Match: ".toList ++
        commaJoined (eTags.map (fun e => quotedETag e.weak e.value))]) ∧
    linesNamed "If-Match" result =
      linesNamed "If-Match" lines ++ linesNamed "If-Match" (additionalLines context) ++
        (match context.eTagPrecondition with
         | .EXISTS => ["If-Match: *".toList]
         | .MATCHES_ONE_OF eTags =>
           ["If-Match: ".toList ++ commaJoined (eTags.map (fun e => quotedETag e.weak e.value))]
         | _ => []) ∧
    linesNamed "If-None-Match" result =
      linesNamed "If-None-Match" lines ++ linesNamed "If-None-Match" (additionalLines context) ++
        (match context.eTagPrecondition with
         | .DOESNT_EXIST => ["If-None-Match: *".toList]
         | .MATCHES_NONE_OF eTags =>
           ["If-None-Match: ".toList ++
             commaJoined (eTags.map (fun e => quotedETag e.weak e.value))]
         | _ => []) := by
  obtain ⟨base, hbase⟩ := addCommonHeaders_base env s lines context result h
  have hone : ∀ eTags : List ETag, preconditionLines (.MATCHES_ONE_OF eTags) =
      ["If-Match: ".toList ++ commaJoined (eTags.map (fun e => quotedETag e.weak e.value))] := by
    intro eTags
    rw [preconditionLines, strArray_renderETag]
  have hnone : ∀ eTags : List ETag, preconditionLines (.MATCHES_NONE_OF eTags) =
      ["If-None-Match: ".toList ++
        commaJoined (eTags.map (fun e => quotedETag e.weak e.value))] := by
    intro eTags
    rw [preconditionLines, strArray_renderETag]
  refine ⟨⟨lines ++ tabLines s ++ userLines env s ++
      ["X-Sandstorm-Permissions: ".toList ++ s.permissions] ++ base ++ sessionLines s ++
      cookieLines context ++ acceptLines context ++ additionalLines context, ?_, ?_⟩,
    rfl, rfl, rfl, hone, hnone, ?_, ?_⟩
  · rw [addCommonHeaders_ok env s lines context base hbase] at h
    simp only [Except.ok.injEq] at h
    exact h.symm
  · intro p
    rw [addCommonHeaders_ok env s lines _ base hbase]
    rfl
  · rw [addCommonHeaders_linesNamed env s lines context result _ h (by decide),
      linesNamed_of_names _ _ _ (userLines_names env s) (by decide),
      linesNamed_of_names _ _ _ (acceptLines_names context) (by decide)]
    cases hp : context.eTagPrecondition with
    | NONE => simp [preconditionLines, linesNamed]
    | EXISTS => simp [preconditionLines, linesNamed, headerName]
    | DOESNT_EXIST => simp [preconditionLines, linesNamed, headerName]
    | MATCHES_ONE_OF eTags =>
      rw [hone, linesNamed_singleton, headerName_ifMatch]
      simp
    | MATCHES_NONE_OF eTags =>
      rw [hnone, linesNamed_singleton, headerName_ifNoneMatch]
      simp
  · rw [addCommonHeaders_linesNamed env s lines context result _ h (by decide),
      linesNamed_of_names _ _ _ (userLines_names env s) (by decide),
      linesNamed_of_names _ _ _ (acceptLines_names context) (by decide)]
    cases hp : context.eTagPrecondition with
    | NONE => simp [preconditionLines, linesNamed]
    | EXISTS => simp [preconditionLines, linesNamed, headerName]
    | DOESNT_EXIST => simp [preconditionLines, linesNamed, headerName]
    | MATCHES_ONE_OF eTags =>
      rw [hone, linesNamed_singleton, headerName_ifMatch]
      simp
    | MATCHES_NONE_OF eTags =>
      rw [hnone, linesNamed_singleton, headerName_ifNoneMatch]
      simp

/-- C27, at a concrete context: the precondition `matchesOneOf` with the strong ETag `v1`
and the weak ETag `v2` gives the one line `If-Match: "v1", W/"v2"` and no `If-None-Match`
line. -/
theorem precondition_headers_witness :
    (∀ result : List Str,
      addCommonHeaders exampleEnvironment exampleSession [] examplePrecondition = .ok result →
      linesNamed "If-Match" result = ["If-Match: \"v1\", W/\"v2\"".toList] ∧
        linesNamed "If-None-Match" result = []) ∧
    ∃ result, addCommonHeaders exampleEnvironment exampleSession [] examplePrecondition
      = .ok result := by
  refine ⟨fun result hr => ?_, ⟨_, rfl⟩⟩
  have h := precondition_headers exampleEnvironment exampleSession [] examplePrecondition
    result hr
  exact ⟨h.2.2.2.2.2.2.1.trans (by decide), h.2.2.2.2.2.2.2.trans (by decide)⟩

/-- C27 does not hold as stated: a context whose precondition is `none` and whose
additional headers hold `If-Match: *` gives a header block with the line `If-Match: *`. -/
theorem precondition_headers_counterexample :
    exampleAdditionalIfMatch.eTagPrecondition = .NONE ∧
    ∃ result, addCommonHeaders exampleEnvironment exampleSession [] exampleAdditionalIfMatch
        = .ok result ∧
      "If-Match: *".toList ∈ result ∧
      linesNamed "If-Match" result = ["If-Match: *".toList] := by
  refine ⟨rfl, _, rfl, by decide, by decide⟩

/-- C28: when the helpers of `util.h` do not throw, each of `post`, `put`, `patch`, `mkcol`
and `report` hands to `sendRequest` the header block of its method, which ends with
CR LF CR LF, followed by the bytes of the content and nothing else.  Apart from the lines
that the additional headers of the context give, the block has one line `Content-Type`
with the MIME type of the content, one line `Content-Length` with the length of the content
in decimal, and one line `Content-Encoding` with the encoding when the content has one and
none when it has not. -/
theorem content_requests (env : Environment) (s : WebSessionImpl) (path : Str)
    (context : Context) (content : RequestContent) (base : List Str)
    (hbase : baseLines env s = .ok base) :
    ∀ entry ∈ contentMethods, ∃ lines : List Str,
      makeHeaderLines env s entry.1.toList path context
        ("Content-Type: ".toList ++ content.mimeType)
        ("Content-Length: ".toList ++ decimal content.content.length)
        (encodingHeader content) = .ok lines ∧
      entry.2 env s path context content =
        .ok (strArray lines "\r\n".toList ++ content.content) ∧
      endsWith (strArray lines "\r\n".toList) "\r\n\r\n".toList = true ∧
      linesNamed "Content-Type" lines =
        ["Content-Type: ".toList ++ content.mimeType] ++
          linesNamed "Content-Type" (additionalLines context) ∧
      linesNamed "Content-Length" lines =
        ["Content-Length: ".toList ++ decimal content.content.length] ++
          linesNamed "Content-Length" (additionalLines context) ∧
      (content.content.length < 2 ^ 64 →
        IsDecimalNumeral (decimal content.content.length) content.content.length) ∧
      linesNamed "Content-Encoding" lines =
        (match content.encoding with
         | some encoding => ["Content-Encoding: ".toList ++ encoding]
         | none => []) ++
          linesNamed "Content-Encoding" (additionalLines context) := by
  intro entry hentry
  simp only [contentMethods, List.mem_cons, List.mem_singleton, List.not_mem_nil, or_false]
    at hentry
  rcases hentry with rfl | rfl | rfl | rfl | rfl
  · obtain ⟨lines, h1, h2, h3, h4, h5, h6⟩ := contentRequest_ok env s 'P' "OST".toList path context
      content base hbase (by decide) (by decide)
    exact ⟨lines, h1, h2, h3, h4, h5, decimal_isDecimalNumeral _, h6⟩
  · obtain ⟨lines, h1, h2, h3, h4, h5, h6⟩ := contentRequest_ok env s 'P' "UT".toList path context
      content base hbase (by decide) (by decide)
    exact ⟨lines, h1, h2, h3, h4, h5, decimal_isDecimalNumeral _, h6⟩
  · obtain ⟨lines, h1, h2, h3, h4, h5, h6⟩ := contentRequest_ok env s 'P' "ATCH".toList path context
      content base hbase (by decide) (by decide)
    exact ⟨lines, h1, h2, h3, h4, h5, decimal_isDecimalNumeral _, h6⟩
  · obtain ⟨lines, h1, h2, h3, h4, h5, h6⟩ := contentRequest_ok env s 'M' "KCOL".toList path context
      content base hbase (by decide) (by decide)
    exact ⟨lines, h1, h2, h3, h4, h5, decimal_isDecimalNumeral _, h6⟩
  · obtain ⟨lines, h1, h2, h3, h4, h5, h6⟩ := contentRequest_ok env s 'R' "EPORT".toList path context
      content base hbase (by decide) (by decide)
    exact ⟨lines, h1, h2, h3, h4, h5, decimal_isDecimalNumeral _, h6⟩

/-- C28, at a concrete request: `post` of the two bytes `hi` with the encoding `gzip` for
the example session sends the example lines joined with CR LF and then `hi`; the lines
hold `Content-Type: text/plain`, `Content-Length: 2` and `Content-Encoding: gzip`. -/
theorem content_requests_witness :
    post exampleEnvironment exampleSession "upload".toList exampleContext
        exampleEncodedContent = .ok (strArray examplePostLines "\r\n".toList ++ "hi".toList) ∧
    linesNamed "Content-Type" examplePostLines = ["Content-Type: text/plain".toList] ∧
    linesNamed "Content-Length" examplePostLines = ["Content-Length: 2".toList] ∧
    linesNamed "Content-Encoding" examplePostLines = ["Content-Encoding: gzip".toList] := by
  obtain ⟨lines, h1, h2, -, h4, h5, -, h7⟩ :=
    content_requests exampleEnvironment exampleSession "upload".toList exampleContext
      exampleEncodedContent ["Host: sandbox".toList] rfl ("POST", post)
      (List.mem_cons_self _ _)
  have hl : Except.ok lines = (.ok examplePostLines : Except Failure (List Str)) := by
    rw [← h1]
    rfl
  simp only [Except.ok.injEq] at hl
  rw [hl] at h2 h4 h5 h7
  exact ⟨h2, h4.trans (by decide), h5.trans (by decide), h7.trans (by decide)⟩

/-- C28 does not hold as stated: `post` of a content without an encoding, in a context
whose additional headers hold `Content-Encoding: br`, sends a header block with the line
`Content-Encoding: br`. -/
theorem content_requests_counterexample :
    examplePlainContent.encoding = none ∧
    post exampleEnvironment exampleSession "upload".toList exampleAdditionalEncoding
        examplePlainContent =
      .ok (strArray exampleAdditionalPostLines "\r\n".toList ++ "hi".toList) ∧
    makeHeaderLines exampleEnvironment exampleSession "POST".toList "upload".toList
        exampleAdditionalEncoding ("Content-Type: ".toList ++ examplePlainContent.mimeType)
        ("Content-Length: ".toList ++ decimal examplePlainContent.content.length)
        (encodingHeader examplePlainContent) = .ok exampleAdditionalPostLines ∧
    "Content-Encoding: br".toList ∈ exampleAdditionalPostLines := by
  refine ⟨rfl, rfl, rfl, by decide⟩

/-- C29: for a destination of ASCII bytes, `makeDestinationHeader` fails exactly when the
destination contains a byte up to 0x20, that is a control character or a space, or a comma;
its only failure is the one of its assertion; and for every other such destination it
returns `Destination: ` followed by the base path of the session and the destination. -/
theorem makeDestinationHeader_ascii (s : WebSessionImpl) (destination : Str)
    (hascii : ∀ c ∈ destination, c.toNat < 128) :
    ((∃ e, makeDestinationHeader s destination = .error e) ↔
      ∃ c ∈ destination, c.toNat ≤ 0x20 ∨ c = ',') ∧
    (∀ e, makeDestinationHeader s destination = .error e → e = .invalidDestination) ∧
    ((¬ ∃ c ∈ destination, c.toNat ≤ 0x20 ∨ c = ',') →
      makeDestinationHeader s destination =
        .ok ("Destination: ".toList ++ s.basePath ++ destination)) := by
  obtain ⟨h1, h2⟩ := makeDestinationHeader_eq s destination
  have hiff : (∃ c ∈ destination, charValue c ≤ 32 ∨ c = ',') ↔
      ∃ c ∈ destination, c.toNat ≤ 0x20 ∨ c = ',' := by
    constructor
    · rintro ⟨c, hc, hbad⟩
      refine ⟨c, hc, ?_⟩
      rw [charValue_ascii c (hascii c hc)] at hbad
      rcases hbad with hb | hb
      · exact Or.inl (by omega)
      · exact Or.inr hb
    · rintro ⟨c, hc, hbad⟩
      refine ⟨c, hc, ?_⟩
      rw [charValue_ascii c (hascii c hc)]
      rcases hbad with hb | hb
      · exact Or.inl (by omega)
      · exact Or.inr hb
  have herr : ∀ e, makeDestinationHeader s destination = .error e → e = .invalidDestination := by
    intro e he
    unfold makeDestinationHeader at he
    split at he
    · cases he
    · cases he
      rfl
  refine ⟨⟨?_, ?_⟩, herr, ?_⟩
  · rintro ⟨e, he⟩
    have := herr e he
    subst this
    exact hiff.mp (h1.mp he)
  · intro h
    exact ⟨_, h1.mpr (hiff.mpr h)⟩
  · intro h
    exact h2 (fun hc => h (hiff.mp hc))

/-- C29, at concrete destinations: for the example session, whose base path is empty, the
destination `/docs/b.txt` gives the line `Destination: /docs/b.txt`, and the destination
`a,b` fails. -/
theorem makeDestinationHeader_ascii_witness :
    makeDestinationHeader exampleSession "/docs/b.txt".toList =
      .ok "Destination: /docs/b.txt".toList ∧
    ∃ e, makeDestinationHeader exampleSession "a,b".toList = .error e := by
  have h1 := makeDestinationHeader_ascii exampleSession "/docs/b.txt".toList (by decide)
  have h2 := makeDestinationHeader_ascii exampleSession "a,b".toList (by decide)
  exact ⟨(h1.2.2 (by decide)).trans (by decide), h2.1.mpr (by decide)⟩

/-- C29 does not hold as stated: the destination `a b` has no byte below 0x20 and no comma,
and `makeDestinationHeader` fails on it. -/
theorem makeDestinationHeader_ascii_counterexample :
    (∀ c ∈ "a b".toList, ¬ c.toNat < 0x20 ∧ c ≠ ',') ∧
    makeDestinationHeader exampleSession "a b".toList = .error .invalidDestination ∧
    copy exampleEnvironment exampleSession "a.txt".toList exampleContext "a b".toList
      false false = .error .invalidDestination := by
  refine ⟨by decide, by decide, by decide⟩

/-- C30: at every point `k` of a sequence of requests for sessions and drops of sessions in
which fewer than 2^32 requests make `newSession` build a web or API session, the keys of
the session-context map are exactly the identifiers of the web and API sessions built and
not yet dropped, which are pairwise distinct; the map holds for each of them the context
of the session, which is the one supplied with a request for a web or API session;
`getSessionContext` returns that context for the identifier of a live session and fails
for every other identifier. -/
theorem sessionContextMap_live (config : BridgeConfig) (events : List HostAction) (k : Nat)
    (hcount : sessionRequests config events < 2 ^ 32) :
    (∀ id, (∃ c, (bridgeAfter config events k).sessionContextMap id = some c) ↔
      ∃ s ∈ (bridgeAfter config events k).sessions, s.sessionId = id) ∧
    (bridgeAfter config events k).sessions.Pairwise (fun s t => s.sessionId ≠ t.sessionId) ∧
    (∀ s ∈ (bridgeAfter config events k).sessions,
      (bridgeAfter config events k).sessionContextMap s.sessionId = some s.sessionContext ∧
      getSessionContext (bridgeAfter config events k).sessionContextMap s.sessionId =
        .ok s.sessionContext ∧
      ∃ params, HostAction.newSession params ∈ events.take k ∧
        (params.sessionType = .webSession ∨ params.sessionType = .apiSession) ∧
        s.sessionContext = params.context) ∧
    (∀ id, (∀ s ∈ (bridgeAfter config events k).sessions, s.sessionId ≠ id) →
      getSessionContext (bridgeAfter config events k).sessionContextMap id =
        .error .sessionIdNotFound) := by
  have hinv := bridgeAfter_invariant config events k hcount
  refine ⟨?_, hinv.distinct, ?_, ?_⟩
  · intro id
    constructor
    · rintro ⟨c, hc⟩
      exact hinv.keys id c hc
    · rintro ⟨s, hs, hid⟩
      exact ⟨s.sessionContext, by rw [← hid]; exact hinv.live s hs⟩
  · intro s hs
    refine ⟨hinv.live s hs, ?_, hinv.supplied s hs⟩
    unfold getSessionContext
    rw [hinv.live s hs]
  · intro id hid
    unfold getSessionContext
    cases hm : (bridgeAfter config events k).sessionContextMap id with
    | none => rfl
    | some c =>
      obtain ⟨s, hs, hsid⟩ := hinv.keys id c hm
      exact absurd hsid (hid s hs)

/-- C30, at a concrete sequence: after a web session with the context 7, an API session
with the context 8 and the drop of the first, the one live session has the identifier `1`,
`getSessionContext` returns 8 for `1` and fails for `0`; before the drop it returns 7 for
`0`. -/
theorem sessionContextMap_live_witness :
    ((bridgeAfter exampleConfig exampleEvents 3).sessions.map (fun s => s.sessionId)
      = ["1".toList]) ∧
    getSessionContext (bridgeAfter exampleConfig exampleEvents 3).sessionContextMap "1".toList
      = .ok 8 ∧
    getSessionContext (bridgeAfter exampleConfig exampleEvents 3).sessionContextMap "0".toList
      = .error .sessionIdNotFound ∧
    getSessionContext (bridgeAfter exampleConfig exampleEvents 2).sessionContextMap "0".toList
      = .ok 7 := by
  have h3 := sessionContextMap_live exampleConfig exampleEvents 3 (by decide)
  have h2 := sessionContextMap_live exampleConfig exampleEvents 2 (by decide)
  refine ⟨by decide, ?_, ?_, ?_⟩
  · exact ((h3.2.2.1 _ (List.mem_singleton.mpr rfl)).2.1).trans (by decide)
  · exact h3.2.2.2 "0".toList (by decide)
  · exact ((h2.2.2.1 _ (List.mem_cons_self _ _)).2.1).trans (by decide)

/-- C31: `newSession` returns a session exactly when the requested type is the web session
type and the identity id of the user, if any, has 32 bytes, or the e-mail session type, or
the API session type with a configured API path that is not empty and such an identity id.
A request of any other type, or for an API session without a configured API path, is
rejected with "Unsupported session type." and leaves the counter of session identifiers and
the session-context map as they were.  A web or API request with an identity id of another
size is rejected by the constructor, which leaves the map as it was, after the counter has
advanced. -/
theorem newSession_accepts (config : BridgeConfig) (counter : Nat) (map : SessionContextMap)
    (params : NewSessionParams) :
    ((∃ session, (newSession config counter map params).2.2 = .ok session) ↔
      ((params.sessionType = .webSession ∧ IdentityIdFits params.userInfo) ∨
        params.sessionType = .hackEmailSession ∨
        (params.sessionType = .apiSession ∧ 0 < config.apiPath.length ∧
          IdentityIdFits params.userInfo))) ∧
    (¬ (params.sessionType = .webSession ∨ params.sessionType = .hackEmailSession ∨
        (params.sessionType = .apiSession ∧ 0 < config.apiPath.length)) →
      newSession config counter map params =
        (counter, map, .error .unsupportedSessionType)) ∧
    ((params.sessionType = .webSession ∨
        (params.sessionType = .apiSession ∧ 0 < config.apiPath.length)) →
      ¬ IdentityIdFits params.userInfo →
      newSession config counter map params =
        ((counter + 1) % 2 ^ 32, map, .error .identityIdSize)) := by
  obtain ⟨c1, c2, c3⟩ := newSession_cases config counter map params
  refine ⟨⟨?_, ?_⟩, c3, fun htype hid => (c1 htype).2 hid⟩
  · rintro ⟨session, hs⟩
    by_cases htype : params.sessionType = .webSession ∨
        (params.sessionType = .apiSession ∧ 0 < config.apiPath.length)
    · by_cases hid : IdentityIdFits params.userInfo
      · rcases htype with h | h
        · exact Or.inl ⟨h, hid⟩
        · exact Or.inr (Or.inr ⟨h.1, h.2, hid⟩)
      · rw [(c1 htype).2 hid] at hs
        cases hs
    · by_cases hmail : params.sessionType = .hackEmailSession
      · exact Or.inr (Or.inl hmail)
      · have hno : ¬ (params.sessionType = .webSession ∨
            params.sessionType = .hackEmailSession ∨
            (params.sessionType = .apiSession ∧ 0 < config.apiPath.length)) := by
          rintro (h | h | h)
          · exact htype (Or.inl h)
          · exact hmail h
          · exact htype (Or.inr h)
        rw [c3 hno] at hs
        cases hs
  · rintro (⟨hweb, hid⟩ | hmail | ⟨hapi, hpath, hid⟩)
    · obtain ⟨s, hs⟩ := (c1 (Or.inl hweb)).1 hid
      exact ⟨.web s, by rw [hs]⟩
    · exact ⟨.email, by rw [c2 hmail]⟩
    · obtain ⟨s, hs⟩ := (c1 (Or.inr ⟨hapi, hpath⟩)).1 hid
      exact ⟨.web s, by rw [hs]⟩

/-- C31, at concrete requests: with the example configuration a request of another type is
rejected and leaves the counter at 5, and the example request for a web session is
accepted. -/
theorem newSession_accepts_witness :
    (newSession exampleConfig 5 (fun _ => none) exampleOtherType).1 = 5 ∧
    (newSession exampleConfig 5 (fun _ => none) exampleOtherType).2.2
      = .error .unsupportedSessionType ∧
    ∃ session, (newSession exampleConfig 5 (fun _ => none) examplePermissionParams).2.2
      = .ok session := by
  have h1 := newSession_accepts exampleConfig 5 (fun _ => none) exampleOtherType
  have h2 := newSession_accepts exampleConfig 5 (fun _ => none) examplePermissionParams
  have e := h1.2.1 (by decide)
  exact ⟨by rw [e], by rw [e], h2.1.mpr (Or.inl ⟨rfl, by decide⟩)⟩

/-- C31 does not hold as stated: a request for a web session by a user whose identity id has
three bytes is rejected, with "Identity ID not a SHA-256?", and the counter of session
identifiers has advanced from 5 to 6. -/
theorem newSession_accepts_counterexample :
    exampleShortIdentity.sessionType = .webSession ∧
    (newSession exampleConfig 5 (fun _ => none) exampleShortIdentity).2.2
      = .error .identityIdSize ∧
    (newSession exampleConfig 5 (fun _ => none) exampleShortIdentity).1 = 6 := by
  refine ⟨rfl, by decide, by decide⟩

/-- C32: `buildForWebSocket` returns exactly when the status code is 101, and fails with
"Sandboxed app does not support WebSocket." otherwise.  With the status 101 the protocol
list is the value of the header `sec-websocket-protocol` split at the commas, each piece
trimmed, in order, and it is empty without that header.  After `onHeadersComplete` on a
fresh parser the header is the folded value of the raw headers named
`Sec-WebSocket-Protocol` in any letter case. -/
theorem buildForWebSocket_protocols (p : HttpParser) :
    ((∃ protocol, buildForWebSocket p = .ok protocol) ↔ p.status_code = 101) ∧
    (p.status_code ≠ 101 → buildForWebSocket p = .error .webSocketNotSupported) ∧
    (p.status_code = 101 → ∀ value : Str,
      findHeader p "sec-websocket-protocol".toList = some value →
      buildForWebSocket p = .ok ((split value ',').map trim)) ∧
    (p.status_code = 101 → findHeader p "sec-websocket-protocol".toList = none →
      buildForWebSocket p = .ok []) ∧
    (∀ q : HttpParser, (∀ k, q.headers k = none) → onHeadersComplete q = .ok p →
      findHeader p "sec-websocket-protocol".toList =
        foldedValue q.rawHeaders "Sec-WebSocket-Protocol".toList) := by
  refine ⟨⟨?_, ?_⟩, ?_, ?_, ?_, ?_⟩
  · rintro ⟨protocol, h⟩
    by_contra hne
    unfold buildForWebSocket at h
    rw [if_neg hne] at h
    cases h
  · intro h
    unfold buildForWebSocket
    rw [if_pos h]
    cases findHeader p "sec-websocket-protocol".toList with
    | none => exact ⟨_, rfl⟩
    | some v => exact ⟨_, rfl⟩
  · intro hne
    unfold buildForWebSocket
    rw [if_neg hne]
  · intro h value hv
    unfold buildForWebSocket
    rw [if_pos h, hv]
  · intro h hv
    unfold buildForWebSocket
    rw [if_pos h, hv]
  · intro q hfresh hq
    exact onHeadersComplete_findHeader q p "Sec-WebSocket-Protocol".toList hfresh (by decide)
      (by decide) hq

/-- C32, at a concrete parser: with the status 101 and the header value `chat , superchat`
the protocol list is `chat`, `superchat`; with the status 200 the method fails. -/
theorem buildForWebSocket_protocols_witness :
    buildForWebSocket exampleWebSocketParser = .ok ["chat".toList, "superchat".toList] ∧
    buildForWebSocket (exampleDavParser false) = .error .webSocketNotSupported := by
  have h1 := buildForWebSocket_protocols exampleWebSocketParser
  have h2 := buildForWebSocket_protocols (exampleDavParser false)
  refine ⟨?_, h2.2.1 (by decide)⟩
  rw [h1.2.2.1 rfl "chat , superchat".toList rfl]
  decide

/-- C33: for a response whose upgrade flag is unset, `buildOptions` with a `dav` header sets
`davClass1`, `davClass2` and `davClass3` exactly when one of the pieces of the value between
commas is, once trimmed, `1`, `2` and `3`; `davExtensions` holds the other trimmed pieces in
their order; without a `dav` header the three flags are false and there is no extension.
After `onHeadersComplete` on a fresh parser the header is the folded value of the raw
headers named `DAV` in any letter case. -/
theorem buildOptions_dav (p : HttpParser) (hupgrade : p.upgrade = false) :
    (∀ value : Str, findHeader p "dav".toList = some value →
      ∃ o : Options, buildOptions p = .ok o ∧
        (o.davClass1 = true ↔ "1".toList ∈ (split value ',').map trim) ∧
        (o.davClass2 = true ↔ "2".toList ∈ (split value ',').map trim) ∧
        (o.davClass3 = true ↔ "3".toList ∈ (split value ',').map trim) ∧
        o.davExtensions = ((split value ',').map trim).filter
          (fun t => decide (t ≠ "1".toList) && decide (t ≠ "2".toList) &&
            decide (t ≠ "3".toList))) ∧
    (findHeader p "dav".toList = none → buildOptions p = .ok ⟨false, false, false, []⟩) ∧
    (∀ q : HttpParser, (∀ k, q.headers k = none) → onHeadersComplete q = .ok p →
      findHeader p "dav".toList = foldedValue q.rawHeaders "DAV".toList) := by
  refine ⟨?_, ?_, ?_⟩
  · intro value hv
    obtain ⟨a1, a2, a3, a4, a5⟩ := foldl_davLevel (split value ',') ⟨false, false, false, []⟩ []
    have b1 : ∀ name : Str, (false = true ∨ name ∈ (split value ',').map trim) ↔
        name ∈ (split value ',').map trim :=
      fun name => ⟨fun h => h.elim (fun hc => by cases hc) id, fun h => Or.inr h⟩
    rw [b1] at a1 a2 a3
    rw [List.nil_append] at a5
    unfold buildOptions
    rw [hupgrade, hv]
    dsimp only
    by_cases hext : 0 < ((split value ',').foldl davLevel (⟨false, false, false, []⟩, [])).2.length
    · rw [if_neg (by simp), if_pos hext]
      exact ⟨_, rfl, a1, a2, a3, a5⟩
    · rw [if_neg (by simp), if_neg hext]
      refine ⟨_, rfl, a1, a2, a3, ?_⟩
      have hnil : ((split value ',').foldl davLevel (⟨false, false, false, []⟩, [])).2 = [] :=
        List.length_eq_zero.mp (Nat.eq_zero_of_not_pos hext)
      rw [a4]
      rw [a5] at hnil
      exact hnil.symm
  · intro hv
    unfold buildOptions
    rw [hupgrade, hv]
    rfl
  · intro q hfresh hq
    exact onHeadersComplete_findHeader q p "DAV".toList hfresh (by decide) (by decide) hq

/-- C33, at a concrete parser: the header value `1, 3 ,calendar-access,1` sets the classes 1
and 3, not the class 2, and gives the extension `calendar-access`. -/
theorem buildOptions_dav_witness :
    buildOptions (exampleDavParser false) = .ok ⟨true, false, true, ["calendar-access".toList]⟩ := by
  obtain ⟨o, h1, h2, h3, h4, h5⟩ :=
    (buildOptions_dav (exampleDavParser false) rfl).1 "1, 3 ,calendar-access,1".toList rfl
  rw [h1]
  have e1 : o.davClass1 = true := h2.mpr (by decide)
  have e2 : o.davClass2 = false := by
    cases hc : o.davClass2 with
    | false => rfl
    | true => exact absurd (h3.mp hc) (by decide)
  have e3 : o.davClass3 = true := h4.mpr (by decide)
  have e4 : o.davExtensions = ["calendar-access".toList] := h5.trans (by decide)
  obtain ⟨c1, c2, c3, ext⟩ := o
  simp only at e1 e2 e3 e4
  rw [e1, e2, e3, e4]

/-- C33 does not hold as stated: for a response with the header `DAV: 1, 3
,calendar-access,1` on which the parser has set the upgrade flag, `buildOptions` fails and
sets no flag. -/
theorem buildOptions_dav_counterexample :
    findHeader (exampleDavParser true) "dav".toList = some "1, 3 ,calendar-access,1".toList ∧
    "1".toList ∈ (split "1, 3 ,calendar-access,1".toList ',').map trim ∧
    buildOptions (exampleDavParser true) = .error .upgradeNotRequested := by
  refine ⟨rfl, by decide, rfl⟩

/-- C34: for the pump that `openWebSocket` leaves for the remainder `remainder`, after any
sequence of events (calls of `sendBytes` by the host, runs of continuations, ends of writes
with or without an exception, reads from the child): the writes made on the server stream
are the first messages of the `sendBytes` calls, in call order; at most one promise is in
the state of a write that is not complete, it is the one of the last write made, and the
promises before it are fulfilled; the `sendBytes` requests made on the client stream are
the remainder, if it is not empty, and then the bytes of each read, in the order of the
reads; and while a promise waits or is being written the event loop has an event to
process. -/
theorem webSocket_order (remainder : Str) (events : List PumpEvent) (w : WebSocketPump)
    (h : (WebSocketPump.start remainder).steps events = some w) :
    w.serverWrites = (hostMessages events).take w.serverWrites.length ∧
    (∀ i j qi qj, w.promises.get? i = some qi → w.promises.get? j = some qj →
      qi.state = .writing → qj.state = .writing → i = j) ∧
    (∀ i q, w.promises.get? i = some q → q.state = .writing →
      w.serverWrites.length = i + 1 ∧
      ∀ j r, j < i → w.promises.get? j = some r → r.state = .fulfilled) ∧
    w.clientCalls = (if remainder = [] then [] else [remainder]) ++ childReads events ∧
    w.clientCalls.flatten = remainder ++ (childReads events).flatten ∧
    ((∃ i q, w.promises.get? i = some q ∧ (q.state = .waiting ∨ q.state = .writing)) →
      ∃ e w1, hostMessage e = [] ∧ childRead e = [] ∧ w.step e = some w1) ∧
    (∀ (stream : List Read) (protocol : List Str) (pump : WebSocketPump),
      openWebSocket stream = some (.ok (protocol, pump)) →
      ∃ p tail rest, readResponse HttpParser.init stream = some (.ok (p, tail, rest)) ∧
        buildForWebSocket p = .ok protocol ∧ pump = WebSocketPump.start tail) := by
  obtain ⟨hinv, hcalls⟩ := PumpInvariant.steps events [] _ w (PumpInvariant.start remainder) h
  rw [List.nil_append] at hinv
  rw [WebSocketPump.start_clientCalls] at hcalls
  refine ⟨hinv.writes, ?_, ?_, hcalls, ?_, hinv.progress _ w, openWebSocket_pump⟩
  · intro i j qi qj hi hj hsi hsj
    have h1 := (hinv.index _ w i qi hi).2 hsi
    have h2 := (hinv.index _ w j qj hj).2 hsj
    omega
  · intro i q hq hs
    have h1 := (hinv.index _ w i q hq).2 hs
    refine ⟨h1.symm, ?_⟩
    intro j r hj hr
    exact hinv.before j r (by omega) hr
  · rw [hcalls, List.flatten_append]
    by_cases hr : remainder = []
    · rw [if_pos hr, hr]
      rfl
    · rw [if_neg hr]
      simp

/-- C34, at a concrete session: after the example upgrade response, whose remainder is
`abc`, and the example events the child was sent `x` and then `y`, and the host `abc` and
then `hi`; the continuation of the second `sendBytes` cannot run while the first write is
not complete. -/
theorem webSocket_order_witness :
    (∃ w, (WebSocketPump.start "abc".toList).steps examplePumpEvents = some w ∧
      w.serverWrites = ["x".toList, "y".toList] ∧
      w.clientCalls = ["abc".toList, "hi".toList]) ∧
    (WebSocketPump.start "abc".toList).steps
      [.sendBytes "x".toList, .run 0, .sendBytes "y".toList, .run 1] = none ∧
    (∃ protocol, openWebSocket [exampleUpgradeRead]
      = some (.ok (protocol, WebSocketPump.start "abc".toList))) := by
  have hw : ∃ w, (WebSocketPump.start "abc".toList).steps examplePumpEvents = some w :=
    ⟨_, rfl⟩
  obtain ⟨w, hw⟩ := hw
  have h := webSocket_order "abc".toList examplePumpEvents w hw
  have hlen : w.serverWrites.length = 2 := by
    have e : some w = (WebSocketPump.start "abc".toList).steps examplePumpEvents := hw.symm
    have e2 : (some w).map (fun v => v.serverWrites.length) = some 2 := by
      rw [e]
      decide
    exact Option.some.inj e2
  refine ⟨⟨w, hw, ?_, ?_⟩, by decide, ⟨_, rfl⟩⟩
  · have h1 := h.1
    rw [hlen] at h1
    exact h1.trans (by decide)
  · exact h.2.2.2.1.trans (by decide)

/-- C35: for every string of bytes, `percentEncode` copies the ASCII letters, the digits and
`-`, `_`, `.`, `~`, and replaces every other byte by `%` and the two lower-case hexadecimal
digits of its value.  The result has only those characters and `%`, so neither CR, LF, a
space nor a colon; percent-decoding gives the string back; and the line
`X-Sandstorm-Username` of a session, which carries the encoded display name, has neither CR
nor LF. -/
theorem percentEncode_safe (s : Str) (hbytes : ∀ c ∈ s, c.toNat < 256) :
    percentEncode s = s.flatMap (fun c =>
      if isUnreserved c = true then [c]
      else ['%', "0123456789abcdef".toList.getD (c.toNat / 16) '0',
        "0123456789abcdef".toList.getD (c.toNat % 16) '0']) ∧
    (∀ d ∈ percentEncode s, isUnreserved d = true ∨ d = '%') ∧
    (∀ d ∈ percentEncode s, d ≠ '\r' ∧ d ≠ '\n' ∧ d ≠ ' ' ∧ d ≠ ':') ∧
    percentDecode (percentEncode s) = some s ∧
    (∀ (userInfo : UserInfo) (sessionContext : SessionContext) (map map1 : SessionContextMap)
      (sessionId tabId basePath userAgent acceptLanguages rootPath permissions : Str)
      (remoteAddress : Option Str) (session : WebSessionImpl),
      userInfo.displayName = s →
      WebSessionImpl.new userInfo sessionContext map sessionId tabId basePath userAgent
        acceptLanguages rootPath permissions remoteAddress = .ok (session, map1) →
      ("X-Sandstorm-Username: ".toList ++ percentEncode s) ∈ tabLines session ∧
      ∀ d ∈ "X-Sandstorm-Username: ".toList ++ percentEncode s, d ≠ '\r' ∧ d ≠ '\n') := by
  have hsafe : ∀ d ∈ percentEncode s, d ≠ '\r' ∧ d ≠ '\n' ∧ d ≠ ' ' ∧ d ≠ ':' :=
    fun d hd => isUnreserved_safe d (percentEncode_chars s d hd)
  refine ⟨?_, percentEncode_chars s, hsafe, percentDecode_percentEncode s hbytes, ?_⟩
  · rw [percentEncode_flatMap]
    apply List.flatMap_congr
    intro c hc
    have hlt : c.toNat < 256 := hbytes c hc
    rw [percentEncodeChar_eq, Nat.mod_eq_of_lt hlt,
      (hexDigit_lower (c.toNat / 16) (Nat.div_lt_of_lt_mul (by omega))).1,
      (hexDigit_lower (c.toNat % 16) (Nat.mod_lt _ (by norm_num))).1]
  · intro userInfo sessionContext map map1 sessionId tabId basePath userAgent acceptLanguages
      rootPath permissions remoteAddress session hname hnew
    have hd := WebSessionImpl_new_displayName userInfo sessionContext map map1 sessionId tabId
      basePath userAgent acceptLanguages rootPath permissions remoteAddress session hnew
    rw [hname] at hd
    constructor
    · unfold tabLines
      rw [hd]
      exact List.mem_append_right _ (List.mem_cons_of_mem _ (List.mem_singleton.mpr rfl))
    · intro d hmem
      rw [List.mem_append] at hmem
      rcases hmem with hmem | hmem
      · constructor <;>
        · intro hc
          subst hc
          exact absurd hmem (by decide)
      · exact ⟨(hsafe d hmem).1, (hsafe d hmem).2.1⟩

/-- C35, at a concrete name: `Al ice` followed by CR LF and a colon is encoded as
`Al%20ice%0d%0a%3a`, which decodes to the name. -/
theorem percentEncode_safe_witness :
    percentEncode "Al ice\r\n:".toList = "Al%20ice%0d%0a%3a".toList ∧
    percentDecode "Al%20ice%0d%0a%3a".toList = some "Al ice\r\n:".toList := by
  have h := percentEncode_safe "Al ice\r\n:".toList (by decide)
  have e : percentEncode "Al ice\r\n:".toList = "Al%20ice%0d%0a%3a".toList := h.1.trans (by decide)
  refine ⟨e, ?_⟩
  rw [← e]
  exact h.2.2.2.1

/-- C36: as a function of the 16 bytes that it reads, `genRandomString` adds 23 characters
to its builder of 23 slots and returns the first 22 of them, each one of the 64 distinct
characters of `DIGITS`, which are digits, ASCII letters, `_` and `.`.  Two different
sequences of 16 bytes give different strings, hence different boundaries and different file
names. -/
theorem genRandomString_injective (bytes : List Nat) (hlen : bytes.length = 16)
    (hbytes : ∀ b ∈ bytes, b < 256) :
    (genRandomChars bytes).length = 23 ∧
    (genRandomString bytes).length = 22 ∧
    genRandomChars bytes = genRandomString bytes ++ [Char.ofNat 0] ∧
    (∀ c ∈ genRandomString bytes, c ∈ DIGITS) ∧
    DIGITS.length = 64 ∧ DIGITS.Nodup ∧
    (∀ c ∈ DIGITS, ('0' ≤ c ∧ c ≤ '9') ∨ ('A' ≤ c ∧ c ≤ 'Z') ∨ ('a' ≤ c ∧ c ≤ 'z') ∨
      c = '_' ∨ c = '.') ∧
    (∀ bytes2 : List Nat, bytes2.length = 16 → (∀ b ∈ bytes2, b < 256) →
      (genRandomString bytes = genRandomString bytes2 ∨
        mailContentType (genRandomString bytes) = mailContentType (genRandomString bytes2) ∨
        mailFilename (genRandomString bytes) = mailFilename (genRandomString bytes2)) →
      bytes = bytes2) := by
  have hs := genRandomString_eq bytes hlen hbytes
  have hc := genRandomChars_eq bytes hlen hbytes
  refine ⟨?_, ?_, ?_, ?_, rfl, by decide, by decide, ?_⟩
  · rw [hc, List.length_append, List.length_map, stringDigits_length]
    rfl
  · rw [hs, List.length_map, stringDigits_length]
  · rw [hc, hs]
  · intro c hmem
    rw [hs, List.mem_map] at hmem
    obtain ⟨i, hi, rfl⟩ := hmem
    exact digitOf_mem i (stringDigits_lt bytes i hi)
  · intro bytes2 hlen2 hbytes2 heq
    have heq2 : genRandomString bytes = genRandomString bytes2 := by
      rcases heq with h | h | h
      · exact h
      · exact List.append_cancel_left h
      · exact List.append_cancel_left h
    rw [hs, genRandomString_eq bytes2 hlen2 hbytes2] at heq2
    exact stringDigits_injective bytes bytes2 hlen hbytes hlen2 hbytes2
      (map_digitOf_injective _ _ (stringDigits_lt bytes) (stringDigits_lt bytes2) heq2)

/-- C36, at concrete bytes: the bytes 0, 1, .., 14, 255 give a string of 22 characters, and
the string differs from the one of sixteen zero bytes. -/
theorem genRandomString_injective_witness :
    genRandomString exampleRandomBytes = "04W03GG16S029em2CqW3.3".toList ∧
    genRandomString exampleRandomBytes ≠ genRandomString (List.replicate 16 0) := by
  have h := genRandomString_injective exampleRandomBytes rfl (by decide)
  refine ⟨by decide, fun hc => ?_⟩
  exact absurd (h.2.2.2.2.2.2.2 (List.replicate 16 0) rfl (by decide) (Or.inl hc)) (by decide)

/-- C37: a streaming request whose first call is `expectSize(size)` sends the header block
with the line `Content-Length` of value `size` in decimal.  When the calls that follow are
calls of `write` and `expectSize` and each `expectSize` among them declares the same total,
the bytes received before it and its size adding up to `size`, and `done` then returns
without an exception, the bytes passed to `write` add up to `size` and the writes on the
connection are the header block and then the data of each `write`, in order.  (The 64-bit
counter does not overflow.)  The other way to a `Content-Length` line is a first call of
`done`, which sends the value 0 when no byte was passed to `write`. -/
theorem identity_contentLength (base : Str) (size : Nat) (cs : List Call)
    (hsize : size < 2 ^ 64) (hdecl : DeclaresTotal size 0 cs)
    (hlen : (writtenData cs).flatten.length < 2 ^ 64)
    (hok : (done (callsAny
      (expectSize (RequestStreamImpl.init (base ++ "\r\n\r\n".toList)) size).1 cs)).2 = none) :
    (expectSize (RequestStreamImpl.init (base ++ "\r\n\r\n".toList)) size).1.written =
      [withHeaderLine base ("Content-Length: ".toList ++ decimal size)] ∧
    (expectSize (RequestStreamImpl.init (base ++ "\r\n\r\n".toList)) size).1.isChunked = false ∧
    IsDecimalNumeral (decimal size) size ∧
    (writtenData cs).flatten.length = size ∧
    (done (callsAny
      (expectSize (RequestStreamImpl.init (base ++ "\r\n\r\n".toList)) size).1 cs)).1.written =
      withHeaderLine base ("Content-Length: ".toList ++ decimal size) :: writtenData cs ∧
    done (RequestStreamImpl.init (base ++ "\r\n\r\n".toList)) =
      ({ doneCalled := true, getResponseCalled := false, isChunked := false,
         bytesReceived := 0, expectedSize := none, httpRequest := none,
         written := [withHeaderLine base "Content-Length: 0".toList] }, none) := by
  have h0 := expectSize_init base size hsize
  rw [h0] at hok ⊢
  obtain ⟨h1, h2⟩ := callsAny_identity size hsize cs _ rfl rfl rfl rfl hdecl
    (by simpa using hlen) hok
  refine ⟨rfl, rfl, decimal_isDecimalNumeral size hsize, by simpa using h1, ?_, done_init base⟩
  rw [h2]
  rfl

/-- C37, at a concrete request: `expectSize(5)`, a write of three bytes, `expectSize(2)`, a
write of two bytes and `done` send the header block with `Content-Length: 5` and then
`abc` and `de`. -/
theorem identity_contentLength_witness :
    (done (callsAny (RequestStreamImpl.init exampleRequest) exampleDeclared)).2 = none ∧
    (done (callsAny (RequestStreamImpl.init exampleRequest) exampleDeclared)).1.written =
      [withHeaderLine exampleRequestBase "Content-Length: 5".toList, "abc".toList,
        "de".toList] := by
  have hok : (done (callsAny (expectSize (RequestStreamImpl.init
      (exampleRequestBase ++ "\r\n\r\n".toList)) 5).1 exampleDeclared.tail)).2 = none := by
    decide
  have h := identity_contentLength exampleRequestBase 5 exampleDeclared.tail (by norm_num)
    (by decide) (by decide) hok
  exact ⟨hok, h.2.2.2.2.1.trans (by decide)⟩

/-- C37 does not hold as stated: after `expectSize(5)`, which sends `Content-Length: 5`, a
second `expectSize(3)` and a write of three bytes, `done` returns without an exception, and
three bytes were passed to `write`. -/
theorem identity_contentLength_counterexample :
    (done (callsAny (RequestStreamImpl.init exampleRequest) exampleResized)).2 = none ∧
    (done (callsAny (RequestStreamImpl.init exampleRequest) exampleResized)).1.isChunked
      = false ∧
    (done (callsAny (RequestStreamImpl.init exampleRequest) exampleResized)).1.written =
      [withHeaderLine exampleRequestBase "Content-Length: 5".toList, "abc".toList] ∧
    (writtenData exampleResized).flatten.length = 3 := by
  refine ⟨by decide, by decide, by decide, by decide⟩

/-- C38: in the continuation of `readResponse` in `sendRequest`, which `getResponse` of the
streaming request shares, `build` runs on the parser that `pumpStream` leaves: for a
streaming response `pumpStream` has sent the buffered body, if any, to the sink and emptied
the buffer.  Body chunks that a streaming parser receives go to the sink and leave the
buffer as it is, so the buffer is still empty after the reads that the task of `pumpStream`
makes.  Hence neither `sendRequest` nor `getResponse` ever fails on the check
`body.size() == 0` of the streaming branch of `build`. -/
theorem streaming_body_forwarded (codes : StatusMap) (stream : List Read) :
    (∀ (p : HttpParser) (rest : List Read),
      readResponse HttpParser.init stream = some (.ok (p, [], rest)) →
      sendRequest codes stream =
        some (build codes (if p.isStreaming then forwardBufferedBody p else p)) ∧
      (p.isStreaming = true →
        (forwardBufferedBody p).isStreaming = true ∧ (forwardBufferedBody p).body = [] ∧
        (forwardBufferedBody p).sent =
          p.sent ++ (if p.body = [] then [] else [SinkCall.write p.body]))) ∧
    sendRequest codes stream ≠ some (.error .streamingBodyNotEmpty) ∧
    (∀ s : RequestStreamImpl,
      (getResponse codes s stream).2 ≠ some (.error .streamingBodyNotEmpty)) ∧
    (∀ p : HttpParser, p.isStreaming = true →
      build codes (forwardBufferedBody p) ≠ .error .streamingBodyNotEmpty) ∧
    (∀ (p : HttpParser) (data : Str), p.isStreaming = true →
      (onBody p data).body = p.body ∧ (onBody p data).sent = p.sent ++ [SinkCall.write data]) ∧
    (∀ (p : HttpParser) (later : List Read), p.isStreaming = true →
      (pumpStream p later).1.body = []) := by
  refine ⟨?_, sendRequest_streamingBody codes stream, ?_, ?_, ?_, ?_⟩
  · intro p rest hr
    refine ⟨?_, fun hs => ?_⟩
    · rw [sendRequest_of_readResponse codes stream p [] rest hr]
      rfl
    · obtain ⟨f1, f2, f3⟩ := forwardBufferedBody_fields p
      exact ⟨f1.trans hs, f2, f3⟩
  · intro s h
    unfold getResponse at h
    split at h
    · cases h
    · exact sendRequest_streamingBody codes stream h
  · intro p _ h
    exact (build_streamingBody codes _ h).2 (forwardBufferedBody_fields p).2.1
  · intro p data hs
    unfold onBody
    rw [if_pos hs]
    exact ⟨rfl, rfl⟩
  · intro p later hs
    unfold pumpStream
    rw [if_pos hs, pumpStreamInternal_body later _ ((forwardBufferedBody_fields p).1.trans hs)]
    exact (forwardBufferedBody_fields p).2.1

/-- C38, at the example response: `readResponse` returns a streaming parser whose buffer
holds `hel`; `pumpStream` sends these bytes to the sink, and `build` returns a response. -/
theorem streaming_body_forwarded_witness :
    (∃ p rest, readResponse HttpParser.init [exampleHeadRead, exampleBodyRead, exampleTailRead]
        = some (.ok (p, [], rest)) ∧ p.isStreaming = true ∧ p.body = "hel".toList ∧
      (forwardBufferedBody p).body = [] ∧
      (forwardBufferedBody p).sent = [SinkCall.write "hel".toList]) ∧
    ∀ codes : StatusMap,
      sendRequest codes [exampleHeadRead, exampleBodyRead, exampleTailRead]
        ≠ some (.error .streamingBodyNotEmpty) := by
  have hr : ∃ p rest,
      readResponse HttpParser.init [exampleHeadRead, exampleBodyRead, exampleTailRead]
        = some (.ok (p, [], rest)) := ⟨_, _, rfl⟩
  obtain ⟨p, rest, hp⟩ := hr
  have hp2 := hp
  have e : (some (Except.ok (p, [], rest)) :
      Option (Except Failure (HttpParser × Str × List Read))) =
      some (.ok ({ exampleBodyParser with isStreaming := true }, [], [exampleTailRead])) := by
    rw [← hp]
    rfl
  simp only [Option.some.injEq, Except.ok.injEq, Prod.mk.injEq] at e
  obtain ⟨e1, -, e2⟩ := e
  refine ⟨⟨p, rest, hp2, ?_⟩, fun codes =>
    (streaming_body_forwarded codes [exampleHeadRead, exampleBodyRead, exampleTailRead]).2.1⟩
  subst e1
  exact ⟨rfl, rfl, rfl, rfl⟩

/-- C39: an ETag whose value has neither a double quote nor a backslash is rendered by the
request builder, in the lines `If-Match` and `If-None-Match`, as the value between double
quotes, after `W/` when it is weak, and `parseETag` reads this text back as the same value
and the same weak flag. -/
theorem renderETag_parseETag (value : Str) (weak : Bool) (hquote : '"' ∉ value)
    (hbackslash : '\\' ∉ value) :
    renderETag ⟨value, weak⟩ = quotedETag weak value ∧
    parseETag (renderETag ⟨value, weak⟩) = .ok ⟨value, weak⟩ ∧
    preconditionLines (.MATCHES_ONE_OF [⟨value, weak⟩]) =
      ["If-Match: ".toList ++ renderETag ⟨value, weak⟩] ∧
    preconditionLines (.MATCHES_NONE_OF [⟨value, weak⟩]) =
      ["If-None-Match: ".toList ++ renderETag ⟨value, weak⟩] := by
  have hr : renderETag ⟨value, weak⟩ = quotedETag weak value := renderETag_eq ⟨value, weak⟩
  refine ⟨hr, ?_, rfl, rfl⟩
  rw [hr, parseETag_quoted (quotedETag weak value) value weak (trim_quotedETag weak value)]
  have hq : readQuoted value = .text value := by
    have := readQuoted_escapeQuoted value
    rw [escapeQuoted_plain value hquote hbackslash] at this
    exact this
  rw [hq]

/-- C39, at concrete ETags: the weak ETag `v 1` is rendered as `W/"v 1"` and read back, and
so is the strong ETag with the empty value. -/
theorem renderETag_parseETag_witness :
    renderETag ⟨"v 1".toList, true⟩ = "W/\"v 1\"".toList ∧
    parseETag "W/\"v 1\"".toList = .ok ⟨"v 1".toList, true⟩ ∧
    parseETag (renderETag ⟨[], false⟩) = .ok ⟨[], false⟩ := by
  have h1 := renderETag_parseETag "v 1".toList true (by decide) (by decide)
  have h2 := renderETag_parseETag [] false (by decide) (by decide)
  have e : renderETag ⟨"v 1".toList, true⟩ = "W/\"v 1\"".toList := h1.1.trans (by decide)
  refine ⟨e, ?_, h2.2.1⟩
  rw [← e]
  exact h1.2.1

/-- C40: when the parser has set the upgrade flag, `build` and `buildOptions` fail with
"Sandboxed app attempted to upgrade protocol when client did not request this.", whatever
the status code and the headers are.  A response read by `readResponse` with the flag set
makes `sendRequest`, `getResponse` of a streaming request and `sendOptionsRequest`, the
continuations behind every verb but `openWebSocket`, end with an exception: none of them
returns a response or an options result. -/
theorem upgrade_rejected (codes : StatusMap) (p : HttpParser) (hupgrade : p.upgrade = true) :
    build codes p = .error .upgradeNotRequested ∧
    buildOptions p = .error .upgradeNotRequested ∧
    (∀ (stream : List Read) (remainder : Str) (rest : List Read),
      readResponse HttpParser.init stream = some (.ok (p, remainder, rest)) →
      (∃ e, sendRequest codes stream = some (.error e)) ∧
      (∀ s : RequestStreamImpl, ∃ e, (getResponse codes s stream).2 = some (.error e)) ∧
      (∃ e, sendOptionsRequest stream = some (.error e))) := by
  have hb : ∀ q : HttpParser, q.upgrade = true → build codes q = .error .upgradeNotRequested := by
    intro q hq
    unfold build
    rw [if_pos hq]
  have ho : ∀ q : HttpParser, q.upgrade = true → buildOptions q = .error .upgradeNotRequested := by
    intro q hq
    unfold buildOptions
    rw [if_pos hq]
  have hq : (if p.isStreaming then forwardBufferedBody p else p).upgrade = true := by
    split
    · exact (forwardBufferedBody_upgrade p).trans hupgrade
    · exact hupgrade
  refine ⟨hb p hupgrade, ho p hupgrade, ?_⟩
  intro stream remainder rest hr
  have hsend : ∃ e, sendRequest codes stream = some (.error e) := by
    rw [sendRequest_of_readResponse codes stream p remainder rest hr]
    split
    · exact ⟨_, by rw [hb _ hq]⟩
    · exact ⟨_, rfl⟩
  refine ⟨hsend, ?_, ?_⟩
  · intro s
    unfold getResponse
    split
    · exact ⟨_, rfl⟩
    · exact hsend
  · rw [sendOptionsRequest_of_readResponse stream p remainder rest hr]
    split
    · exact ⟨_, by rw [ho _ hq]⟩
    · exact ⟨_, rfl⟩

/-- C40, at a concrete response: a `101` response with the upgrade flag set, read in one
piece, makes `build` and `buildOptions` fail and `sendRequest` and `sendOptionsRequest` end
with the exception of the upgrade check. -/
theorem upgrade_rejected_witness :
    build (fun _ => none) exampleSwitchParser = .error .upgradeNotRequested ∧
    buildOptions exampleSwitchParser = .error .upgradeNotRequested ∧
    sendRequest (fun _ => none) [exampleSwitchRead] = some (.error .upgradeNotRequested) ∧
    sendOptionsRequest [exampleSwitchRead] = some (.error .upgradeNotRequested) := by
  have h := upgrade_rejected (fun _ => none) exampleSwitchParser rfl
  exact ⟨h.1, h.2.1, rfl, rfl⟩


end Sandstorm
